import Mathlib

/-! GEEPAFS (`dvfs.c`): a shallow embedding of the Assure policy.

The C program tunes the core clock of NVIDIA GPUs.  This development embeds the
parts of `dvfs.c` that the Assure policy is made of: the machine profiles, the
generator of the supported clock list, ordinary least squares, the fold-line
fit, model selection, the frequency arbiter, and the per-tick control loop.

Conventions of the embedding:

* C `double` values are exact rationals (`ℚ`); a statement about them is a
  statement in exact arithmetic.  Model selection is also given in binary64
  (`F64`, `modelSelectF`), for the two places where a rounding decides a test
  or a recomputed quotient.  C `int` / `unsigned int` values are `Int` /
  `Nat`; the 32-bit wrap is written out where a value is stored into an `int`
  array from an `unsigned int`, and the 64-bit wrap where `long unsigned int`
  durations are added.
* C arrays are index functions `Nat → α`; the supported clock list is the
  sequence of values that `getAvailableFreqs` stores at indices `0, 1, 2, ...`.
* The compile-time macro `MACHINE` is the parameter `Machine`.
-/

namespace Geepafs

/-! ## Machine profiles (`main`, lines 245-271) -/

/-- The three values of the `MACHINE` macro. -/
inductive Machine where
  | v100_maxq
  | v100_300w
  | a100_insp
  deriving DecidableEq, Repr

/-- The "adjustable arguments" that `main` sets from `MACHINE`. -/
structure Params where
  minSetFreq : Int
  freqAvgEff : Int
  maxFreq : Int
  setMemFreq : Int
  numAvailableFreqs : Nat
  numProbFreq : Nat
  probFreqs : Nat → Int

/-- The assignments of lines 245-271.  Entries of `probFreqs` that the source
does not assign (the buffer has room for 20) read as 0 here. -/
def params : Machine → Params
  | .v100_maxq =>
    ⟨855, 855, 1440, 810, 175, 4,
      fun j => match j with
        | 0 => 855
        | 1 => 1050
        | 2 => 1245
        | 3 => 1440
        | _ => 0⟩
  | .v100_300w =>
    ⟨952, 952, 1530, 877, 187, 4,
      fun j => match j with
        | 0 => 952
        | 1 => 1147
        | 2 => 1335
        | 3 => 1530
        | _ => 0⟩
  | .a100_insp =>
    ⟨1110, 1110, 1410, 1593, 81, 4,
      fun j => match j with
        | 0 => 1110
        | 1 => 1215
        | 2 => 1320
        | 3 => 1410
        | _ => 0⟩

/-- The local constants of `main` (lines 288-296) that the Assure policy reads. -/
structure Config where
  useFreqCap : Bool
  useRegression : Bool
  loopDelay : Nat
  probDelay : ℚ
  numProbRep : Nat
  regErrThres : ℚ
  movingAvg_windowSize : Nat

/-- The values the source gives these constants. -/
def defaultConfig : Config := ⟨true, true, 200, 15, 2, 100, 16⟩

/-! ## `max` and `min` on doubles (lines 64-78) -/

/-- The source's `max`. -/
def dmax (a b : ℚ) : ℚ := if a ≥ b then a else b

/-- The source's `min`. -/
def dmin (a b : ℚ) : ℚ := if a ≥ b then b else a

/-! ## `getAvailableFreqs` (lines 163-231) -/

/-- The `while (freq <= limit)` loop of the two V100 branches.  `written` is
`availableFreqs[0 .. idx)`, so `idx = written.length`; a store
`availableFreqs[idx] = freq; idx += 1` appends.  `none` when the fuel runs out
before the loop condition fails. -/
def loop78 (limit : Int) : Nat → Int → Bool → List Int → Option (List Int)
  | 0, _, _, _ => none
  | fuel + 1, freq, seven, written =>
    if freq ≤ limit then
      let freq1 := if seven then freq + 7 else freq + 8
      let seven1 := if seven then false else true
      if freq1 ≤ limit then loop78 limit fuel freq1 seven1 (written ++ [freq1])
      else loop78 limit fuel freq1 seven1 written
    else some written

/-- The `while (freq <= 1410)` loop of the A100 branch. -/
def loop15 (limit : Int) : Nat → Int → List Int → Option (List Int)
  | 0, _, _ => none
  | fuel + 1, freq, written =>
    if freq ≤ limit then
      let freq1 := freq + 15
      if freq1 ≤ limit then loop15 limit fuel freq1 (written ++ [freq1])
      else loop15 limit fuel freq1 written
    else some written

/-- The values `getAvailableFreqs` stores at indices `0, 1, 2, ...` of
`availableFreqs`, for a given fuel. -/
def getAvailableFreqsFuel (fuel : Nat) : Machine → Option (List Int)
  | .v100_maxq => loop78 1440 fuel 135 true [135]
  | .v100_300w => loop78 1530 fuel 135 true [135]
  | .a100_insp => loop15 1410 fuel 210 [210]

/-- The stored values, with fuel for 2000 iterations (every loop ends within 200). -/
def getAvailableFreqs (m : Machine) : Option (List Int) :=
  getAvailableFreqsFuel 2000 m

/-- The array `availableFreqs` of `main` after the call of line 407: index `i`
holds the `i`-th stored value (an index never stored reads as 0). -/
def availableFreqs (m : Machine) (i : Nat) : Int :=
  ((getAvailableFreqs m).getD []).getD i 0

/-- Closed form of the supported clock list: index `i` of the V100 lists is
`135 + 15 * (i / 2) + 7 * (i % 2)`, of the A100 list `210 + 15 * i`. -/
def freqFormula : Machine → Nat → Int
  | .v100_maxq, i => 135 + 15 * (i / 2 : Nat) + 7 * (i % 2 : Nat)
  | .v100_300w, i => 135 + 15 * (i / 2 : Nat) + 7 * (i % 2 : Nat)
  | .a100_insp, i => 210 + 15 * (i : Nat)

/-! ## `linearRegression` (lines 80-100) -/

/-- The five running sums of the loop of lines 84-93. -/
structure LRSums where
  sumx : ℚ
  sumxsq : ℚ
  sumy : ℚ
  sumxy : ℚ
  sumysq : ℚ

/-- The state of the sums after the iterations `k = 0 .. num-1`. -/
def lrSums (X Y : Nat → ℚ) : Nat → LRSums
  | 0 => ⟨0, 0, 0, 0, 0⟩
  | k + 1 =>
    let s := lrSums X Y k
    ⟨s.sumx + X k, s.sumxsq + X k * X k, s.sumy + Y k, s.sumxy + X k * Y k,
      s.sumysq + Y k * Y k⟩

/-- The three outputs `*slope`, `*intercept`, `*regErr`. -/
structure Line where
  slope : ℚ
  intercept : ℚ
  regErr : ℚ

/-- The source's `linearRegression(num, X, Y, &slope, &intercept, &regErr)` in
exact arithmetic (`linearRegressionF` is the same code in binary64). -/
def linearRegression (num : Nat) (X Y : Nat → ℚ) : Line :=
  let s := lrSums X Y num
  let div := (num : ℚ) * s.sumxsq - s.sumx * s.sumx
  let a := ((num : ℚ) * s.sumxy - s.sumx * s.sumy) / div
  let b := (s.sumy * s.sumxsq - s.sumx * s.sumxy) / div
  ⟨a, b, s.sumysq + a * a * s.sumxsq + (num : ℚ) * b * b - 2 * a * s.sumxy - 2 * b * s.sumy
      + 2 * a * b * s.sumx⟩

/-! ## `foldlineRegression` (lines 102-161) -/

/-- The four running sums of one segment (lines 108-121). -/
structure SegSums where
  sum_x : ℚ
  sum_y : ℚ
  sum_xsq : ℚ
  sum_xy : ℚ

/-- The sums of a segment after the iterations `0 .. num-1`. -/
def segSums (X Y : Nat → ℚ) : Nat → SegSums
  | 0 => ⟨0, 0, 0, 0⟩
  | i + 1 =>
    let s := segSums X Y i
    ⟨s.sum_x + X i, s.sum_y + Y i, s.sum_xsq + X i * X i, s.sum_xy + X i * Y i⟩

/-- The loops of lines 147-154: `err += (a*X[i] + b - Y[i])^2` for `i = 0 .. num-1`,
starting from `err`. -/
def errLoop (a b : ℚ) (X Y : Nat → ℚ) (err : ℚ) : Nat → ℚ
  | 0 => err
  | i + 1 => errLoop a b X Y err i + (a * X i + b - Y i) * (a * X i + b - Y i)

/-- The five outputs of `foldlineRegression`. -/
structure FoldFit where
  slope1 : ℚ
  intercept1 : ℚ
  slope2 : ℚ
  intercept2 : ℚ
  regErr : ℚ

/-- The determinant `H` of line 136, from the twelve coefficients. -/
def foldDet (xc : Int) (num1 : Nat) (X1 Y1 : Nat → ℚ) (num2 : Nat) (X2 Y2 : Nat → ℚ) : ℚ :=
  let n : ℚ := ((num1 + num2 : Nat) : ℚ)
  let s1 := segSums X1 Y1 num1
  let s2 := segSums X2 Y2 num2
  let c11 := s1.sum_xsq + ((num2 * xc * xc : Int) : ℚ)
  let c12 := (xc : ℚ) * s2.sum_x - ((num2 * xc * xc : Int) : ℚ)
  let c13 := s1.sum_x + ((xc * num2 : Int) : ℚ)
  let c21 := (xc : ℚ) * s2.sum_x - ((num2 * xc * xc : Int) : ℚ)
  let c22 := s2.sum_xsq - ((2 * xc : Int) : ℚ) * s2.sum_x + ((num2 * xc * xc : Int) : ℚ)
  let c23 := s2.sum_x - ((num2 * xc : Int) : ℚ)
  let c31 := s1.sum_x + ((num2 * xc : Int) : ℚ)
  let c32 := s2.sum_x - ((num2 * xc : Int) : ℚ)
  let c33 := n
  c11 * c22 * c33 + c12 * c23 * c31 + c21 * c32 * c13 - c13 * c22 * c31 - c12 * c21 * c33
    - c11 * c23 * c32

/-- The source's `foldlineRegression(xc, num1, X1, Y1, num2, X2, Y2, ...)` in
exact arithmetic, where the two fitted lines meet at `xc`;
`foldlineRegressionF` is the same code in binary64, where the four parameters
are rounded and the knee recomputed from them can differ from `xc`. -/
def foldlineRegression (xc : Int) (num1 : Nat) (X1 Y1 : Nat → ℚ) (num2 : Nat)
    (X2 Y2 : Nat → ℚ) : FoldFit :=
  let n : ℚ := ((num1 + num2 : Nat) : ℚ)
  let s1 := segSums X1 Y1 num1
  let s2 := segSums X2 Y2 num2
  let c11 := s1.sum_xsq + ((num2 * xc * xc : Int) : ℚ)
  let c12 := (xc : ℚ) * s2.sum_x - ((num2 * xc * xc : Int) : ℚ)
  let c13 := s1.sum_x + ((xc * num2 : Int) : ℚ)
  let c14 := - s1.sum_xy - s2.sum_y * (xc : ℚ)
  let c21 := (xc : ℚ) * s2.sum_x - ((num2 * xc * xc : Int) : ℚ)
  let c22 := s2.sum_xsq - ((2 * xc : Int) : ℚ) * s2.sum_x + ((num2 * xc * xc : Int) : ℚ)
  let c23 := s2.sum_x - ((num2 * xc : Int) : ℚ)
  let c24 := - s2.sum_xy + (xc : ℚ) * s2.sum_y
  let c31 := s1.sum_x + ((num2 * xc : Int) : ℚ)
  let c32 := s2.sum_x - ((num2 * xc : Int) : ℚ)
  let c33 := n
  let c34 := - s1.sum_y - s2.sum_y
  let H := c11 * c22 * c33 + c12 * c23 * c31 + c21 * c32 * c13 - c13 * c22 * c31
    - c12 * c21 * c33 - c11 * c23 * c32
  if H = 0 then
    ⟨-1, -2, -3, -4, 12345678⟩
  else
    let a1 := -(c14 * c22 * c33 + c12 * c23 * c34 + c13 * c24 * c32 - c13 * c22 * c34
      - c12 * c24 * c33 - c23 * c32 * c14) / H
    let a2 := -(c11 * c24 * c33 + c21 * c34 * c13 + c14 * c23 * c31 - c13 * c31 * c24
      - c11 * c23 * c34 - c33 * c14 * c21) / H
    let b1 := -(c11 * c22 * c34 + c21 * c32 * c14 + c12 * c24 * c31 - c22 * c14 * c31
      - c12 * c21 * c34 - c11 * c32 * c24) / H
    let b2 := (xc : ℚ) * (a1 - a2) + b1
    ⟨a1, b1, a2, b2, errLoop a2 b2 X2 Y2 (errLoop a1 b1 X1 Y1 0 num1) num2⟩

/-! ## Burst completion: the model fit (`main`, lines 741-1065) -/

/-- `numProbRec = numProbFreq * numProbRep` (line 318). -/
def numProbRec (cfg : Config) (prm : Params) : Nat := prm.numProbFreq * cfg.numProbRep

/-- The probe index of slot `j` (lines 754-765 and 810-814): with
`reminder = j % (2*numProbFreq)`, it is `reminder` when `reminder < numProbFreq`
and `2*numProbFreq-1-reminder` otherwise. -/
def ifreqOf (numProbFreq j : Nat) : Nat :=
  let reminder := j % (2 * numProbFreq)
  if reminder < numProbFreq then reminder else 2 * numProbFreq - 1 - reminder

/-- The abscissa `x[j]` of lines 759 and 765. -/
def xOf (prm : Params) (j : Nat) : ℚ := (prm.probFreqs (ifreqOf prm.numProbFreq j) : ℚ)

/-- The running `sumy` of line 756 after the slots `0 .. n-1`. -/
def sumyLoop (y : Nat → ℚ) : Nat → ℚ
  | 0 => 0
  | j + 1 => sumyLoop y j + y j

/-- The per-probe averages of lines 747-768 (`avg_gmemUtils` from the recorded
memory utilisations, `avg_gPowers` from the recorded powers): all entries are
zeroed, then slot `j` adds `v[j] / numProbRep` to the entry of its probe index. -/
def avgLoop (numProbFreq numProbRep : Nat) (v : Nat → ℚ) : Nat → (Nat → ℚ)
  | 0 => fun _ => 0
  | j + 1 =>
    let a := avgLoop numProbFreq numProbRep v j
    Function.update a (ifreqOf numProbFreq j) (a (ifreqOf numProbFreq j) + v j / (numProbRep : ℚ))

/-- The scratch buffers `x1, y1, x2, y2` of `main`, shared by all devices and
all bursts. -/
structure Scratch where
  x1 : Nat → ℚ
  y1 : Nat → ℚ
  x2 : Nat → ℚ
  y2 : Nat → ℚ

/-- The state of the partition loop of lines 807-827. -/
structure PartState where
  idx1 : Nat
  idx2 : Nat
  buf : Scratch

/-- The partition loop after the slots `0 .. n-1`, from the state `s0`. -/
def partitionLoop (prm : Params) (turn : Nat) (gmem : Nat → ℚ) (s0 : PartState) : Nat → PartState
  | 0 => s0
  | j + 1 =>
    let s := partitionLoop prm turn gmem s0 j
    let ifreq := ifreqOf prm.numProbFreq j
    if ifreq < turn then
      ⟨s.idx1 + 1, s.idx2,
        ⟨Function.update s.buf.x1 s.idx1 (prm.probFreqs ifreq : ℚ),
          Function.update s.buf.y1 s.idx1 (gmem j), s.buf.x2, s.buf.y2⟩⟩
    else
      ⟨s.idx1, s.idx2 + 1,
        ⟨s.buf.x1, s.buf.y1, Function.update s.buf.x2 s.idx2 (prm.probFreqs ifreq : ℚ),
          Function.update s.buf.y2 s.idx2 (gmem j)⟩⟩

/-- The variables model selection carries: the best model so far and the
scratch buffers.  The four `_Opt` fold-line parameters are read by the source
only when `turn_Opt` is not 0, that is after they have been assigned. -/
structure Sel where
  turn_Opt : Nat
  regErrMin : ℚ
  slope1_Opt : ℚ
  intercept1_Opt : ℚ
  slope2_Opt : ℚ
  intercept2_Opt : ℚ
  buf : Scratch

/-- The fold-line candidate of one `turn` (lines 807-844): partition, the two
segment fits, the crossing test, and the constrained refit when the crossing
is outside `[probFreqs[turn-1], probFreqs[turn]]`.  Returns the candidate and
the scratch buffers as the partition leaves them.  The crossing quotient is
the exact one; `foldCandidateF` is the same code in binary64, where the
rounded quotient can fail a test that the exact quotient passes at an end of
the interval. -/
def foldCandidate (cfg : Config) (prm : Params) (gmem : Nat → ℚ) (turn : Nat) (buf : Scratch) :
    FoldFit × Scratch :=
  let ps := partitionLoop prm turn gmem ⟨0, 0, buf⟩ (numProbRec cfg prm)
  let l1 := linearRegression (turn * cfg.numProbRep) ps.buf.x1 ps.buf.y1
  let l2 := linearRegression ((prm.numProbFreq - turn) * cfg.numProbRep) ps.buf.x2 ps.buf.y2
  let freq_cross : ℚ :=
    if l2.slope ≠ l1.slope then (l1.intercept - l2.intercept) / (l2.slope - l1.slope) else -1
  if freq_cross ≥ (prm.probFreqs (turn - 1) : ℚ) ∧ freq_cross ≤ (prm.probFreqs turn : ℚ) then
    (⟨l1.slope, l1.intercept, l2.slope, l2.intercept, l1.regErr + l2.regErr⟩, ps.buf)
  else
    (foldlineRegression (prm.probFreqs (turn - 1)) (turn * cfg.numProbRep) ps.buf.x1 ps.buf.y1
      ((prm.numProbFreq - turn) * cfg.numProbRep) ps.buf.x2 ps.buf.y2, ps.buf)

/-- One iteration of the `turn` loop (lines 803-871). -/
def turnStep (cfg : Config) (prm : Params) (gmem : Nat → ℚ) (turn : Nat) (sel : Sel) : Sel :=
  let c := foldCandidate cfg prm gmem turn sel.buf
  if c.1.slope1 ≤ c.1.slope2 then
    { sel with buf := c.2 }
  else if c.1.regErr < sel.regErrMin then
    ⟨turn, c.1.regErr, c.1.slope1, c.1.intercept1, c.1.slope2, c.1.intercept2, c.2⟩
  else
    { sel with buf := c.2 }

/-- The `turn` loop after its first `n` iterations `turn = 2 .. n+1`. -/
def turnLoop (cfg : Config) (prm : Params) (gmem : Nat → ℚ) (sel0 : Sel) : Nat → Sel
  | 0 => sel0
  | n + 1 => turnStep cfg prm gmem (n + 2) (turnLoop cfg prm gmem sel0 n)

/-- Model selection (lines 795-871): the single-line fit, then every
`turn` from 2 to `numProbFreq - 2` (the source runs the loop with
`numProbFreq = 4`, where this is the one turn 2).  The `_Opt` fold-line
parameters start at 0 here; the source leaves them unassigned. -/
def modelSelect (cfg : Config) (prm : Params) (gmem : Nat → ℚ) (buf : Scratch) : Line × Sel :=
  let l := linearRegression (numProbRec cfg prm) (xOf prm) gmem
  (l, turnLoop cfg prm gmem ⟨0, l.regErr, 0, 0, 0, 0, buf⟩ (prm.numProbFreq - 3))

/-- The array `modelPerf` of lines 889-943. -/
def modelPerf (prm : Params) (l : Line) (sel : Sel) (j : Nat) : ℚ :=
  if sel.turn_Opt = 0 then
    if l.slope > 0 then l.slope * (prm.probFreqs j : ℚ) + l.intercept
    else l.slope * (prm.probFreqs 0 : ℚ) + l.intercept
  else if sel.slope1_Opt > 0 ∧ sel.slope2_Opt > 0 then
    if j ≥ sel.turn_Opt then sel.slope2_Opt * (prm.probFreqs j : ℚ) + sel.intercept2_Opt
    else sel.slope1_Opt * (prm.probFreqs j : ℚ) + sel.intercept1_Opt
  else if sel.slope2_Opt ≤ 0 ∧ sel.slope1_Opt > 0 then
    if j < sel.turn_Opt then sel.slope1_Opt * (prm.probFreqs j : ℚ) + sel.intercept1_Opt
    else (sel.slope2_Opt * sel.intercept1_Opt - sel.slope1_Opt * sel.intercept2_Opt)
      / (sel.slope2_Opt - sel.slope1_Opt)
  else sel.slope1_Opt * (prm.probFreqs 0 : ℚ) + sel.intercept1_Opt

/-- The search of lines 963-972 for the most power-efficient probe frequency,
after the iterations `j = 1 .. n`: the pair `(mostEffici, mostEfficiFreq)`. -/
def effLoop (prm : Params) (powerEffici : Nat → ℚ) : Nat → ℚ × Int
  | 0 => (powerEffici 0, prm.probFreqs 0)
  | n + 1 =>
    let r := effLoop prm powerEffici n
    if powerEffici (n + 1) > r.1 then (powerEffici (n + 1), prm.probFreqs (n + 1)) else r

/-- The performance bound `freq_perfBound` of lines 977-1026. -/
def freqPerfBound (prm : Params) (perfThres : ℚ) (l : Line) (sel : Sel) : ℚ :=
  if sel.turn_Opt = 0 then
    if l.slope > 0 then
      (perfThres * (l.slope * (prm.maxFreq : ℚ) + l.intercept) - l.intercept) / l.slope
    else (prm.probFreqs 0 : ℚ)
  else if sel.slope1_Opt > 0 then
    if sel.slope2_Opt > 0 then
      let criticalPerf := perfThres * (sel.slope2_Opt * (prm.maxFreq : ℚ) + sel.intercept2_Opt)
      let freq_perfBound := (criticalPerf - sel.intercept2_Opt) / sel.slope2_Opt
      let freq_cross := (sel.intercept1_Opt - sel.intercept2_Opt) / (sel.slope2_Opt - sel.slope1_Opt)
      if freq_perfBound ≤ freq_cross then (criticalPerf - sel.intercept1_Opt) / sel.slope1_Opt
      else freq_perfBound
    else
      let freq_cross := (sel.intercept1_Opt - sel.intercept2_Opt) / (sel.slope2_Opt - sel.slope1_Opt)
      let criticalPerf := perfThres * (sel.slope1_Opt * freq_cross + sel.intercept1_Opt)
      (criticalPerf - sel.intercept1_Opt) / sel.slope1_Opt
  else (prm.probFreqs 0 : ℚ)

/-- The lowest probe frequency whose average memory utilisation reaches 0.99 of
the maximum (lines 1044-1062, the path without regression): `maxLoop` is the
running `max_gmem`, `firstReach` the search with `break`. -/
def maxLoop (avg : Nat → ℚ) : Nat → ℚ
  | 0 => avg 0
  | n + 1 => if avg (n + 1) > maxLoop avg n then avg (n + 1) else maxLoop avg n

/-- The loop of lines 1055-1062 over `j = start .. start + n - 1`; `dflt` is the
value `max_gmem_freq` keeps when no entry reaches the threshold. -/
def firstReach (prm : Params) (avg : Nat → ℚ) (thr : ℚ) (dflt : Int) : Nat → Nat → Int
  | 0, _ => dflt
  | n + 1, j => if avg j ≥ thr then prm.probFreqs j else firstReach prm avg thr dflt n (j + 1)

/-- What the model fit hands to the arbiter: `freqBound`, `freqEff`, and the
scratch buffers. -/
structure FitOut where
  freqBound : ℚ
  freqEff : ℚ
  buf : Scratch

/-- The model fit of one device at burst completion (lines 746-1065), from the
recorded `gmemUtils[i]` and `gPowers[i]`, in exact arithmetic.  The power
efficiency of line 966 divides by the average power of a probe frequency: the
quotient is the source's where that average is positive; at an average power
of 0 the source computes a quotient by zero, which this definition does not
describe. -/
def fitDevice (cfg : Config) (prm : Params) (perfThres : ℚ) (gmem gpow : Nat → ℚ)
    (buf : Scratch) : FitOut :=
  let sumy := sumyLoop gmem (numProbRec cfg prm)
  let avg_gmemUtils := avgLoop prm.numProbFreq cfg.numProbRep gmem (numProbRec cfg prm)
  let avg_gPowers := avgLoop prm.numProbFreq cfg.numProbRep gpow (numProbRec cfg prm)
  if cfg.useRegression then
    if sumy > 0 then
      let ms := modelSelect cfg prm gmem buf
      if ms.2.regErrMin > (numProbRec cfg prm : ℚ) * cfg.regErrThres then
        ⟨(prm.maxFreq : ℚ), (prm.freqAvgEff : ℚ), ms.2.buf⟩
      else
        let powerEffici := fun j => modelPerf prm ms.1 ms.2 j / avg_gPowers j
        let mostEfficiFreq := (effLoop prm powerEffici (prm.numProbFreq - 1)).2
        ⟨freqPerfBound prm perfThres ms.1 ms.2, (mostEfficiFreq : ℚ), ms.2.buf⟩
    else
      ⟨(prm.maxFreq : ℚ), (prm.freqAvgEff : ℚ), buf⟩
  else
    let max_gmem := maxLoop avg_gmemUtils (prm.numProbFreq - 1)
    let max_gmem_freq := firstReach prm avg_gmemUtils (max_gmem * (99 / 100)) (prm.probFreqs 0)
      prm.numProbFreq 0
    ⟨(max_gmem_freq : ℚ), (prm.freqAvgEff : ℚ), buf⟩

/-! ## Burst completion: the arbiter (`main`, lines 1067-1096) -/

/-- `freqPerf` (lines 1067-1076). -/
def freqPerfOf (cfg : Config) (freqBound freqCap : ℚ) : ℚ :=
  if cfg.useFreqCap then dmin freqBound freqCap else freqBound

/-- `freqOpt` as line 1077 assigns it, before the clamp. -/
def freqOptRaw (cfg : Config) (freqBound freqCap freqEff : ℚ) : ℚ :=
  dmax (freqPerfOf cfg freqBound freqCap) freqEff

/-- `freqOpt` after the clamp of lines 1084-1085. -/
def freqOptClamped (cfg : Config) (prm : Params) (freqBound freqCap freqEff : ℚ) : ℚ :=
  dmin (dmax (freqOptRaw cfg freqBound freqCap freqEff) (prm.minSetFreq : ℚ)) (prm.maxFreq : ℚ)

/-- The descending search of lines 1086-1096 with `iAvail + 1` iterations left
(`iAvail` is the next index tried); `cur` is the value `optimizedFreqs[i]` has
before the loop and keeps when no entry is below `freqOpt`. -/
def snapLoop (F : Nat → Int) (numAvailableFreqs : Nat) (freqOpt : ℚ) (cur : Int) : Nat → Int
  | 0 => cur
  | iAvail + 1 =>
    if ((F iAvail : Int) : ℚ) < freqOpt then
      if iAvail + 1 < numAvailableFreqs then F (iAvail + 1) else F iAvail
    else snapLoop F numAvailableFreqs freqOpt cur iAvail

/-- The arbiter: the new `optimizedFreqs[i]` from `freqBound`, `freqCap[i]`,
`freqEff` and the previous `optimizedFreqs[i]`. -/
def arbiter (cfg : Config) (prm : Params) (F : Nat → Int) (freqBound freqCap freqEff : ℚ)
    (cur : Int) : Int :=
  snapLoop F prm.numAvailableFreqs (freqOptClamped cfg prm freqBound freqCap freqEff) cur
    prm.numAvailableFreqs

/-! ## The control loop under the Assure policy (`main`, lines 476-1165) -/

/-- One reading of the device: `util.gpu`, `util.memory`, the SM clock `freq`
and `power` (all `unsigned int`). -/
structure Telemetry where
  gpu : Nat
  memory : Nat
  freq : Nat
  power : Nat

/-- The value an `int` holds after an `unsigned int` is stored into it. -/
def wrapInt (n : Nat) : Int :=
  if n % 2 ^ 32 < 2 ^ 31 then ((n % 2 ^ 32 : Nat) : Int) else ((n % 2 ^ 32 : Nat) : Int) - 2 ^ 32

/-- The per-device variables of `main` that the Assure policy uses
(`gutil_moving_std[i]`, a square root that nothing reads, is left out). -/
structure DeviceState where
  optimizedFreq : Int
  gpuUtils : Nat → Int
  gpuUtils_sq : Nat → Int
  gmemUtils : Nat → ℚ
  gPowers : Nat → ℚ
  gutil_moving_avg : ℚ
  gutil_moving_sqsum : ℚ
  freqCap : ℚ

/-- The scheduler variables of `main` and the devices. -/
structure State where
  devices : Nat → DeviceState
  probPhase : Int
  lastprobPhase : Int
  accumuTime : Nat
  idx_oldest : Nat
  buf : Scratch

/-- What a tick decides for one device: `setFreq` and `applyFreqSet`. -/
structure Command where
  setFreq : Int
  applyFreqSet : Bool

/-- The per-tick cap `thisCap` of line 610.  Both quotients are the source's
where their divisors are not zero: for a reading with `freq > 0` and
`gpu ≤ 100` under a floor `perfThres ≤ 1` they are positive
(`thisCapOf_defined`).  At `freq = 0`, `gpu = 100` the source computes `0/0`,
which this definition does not describe. -/
def thisCapOf (prm : Params) (perfThres : ℚ) (t : Telemetry) : ℚ :=
  (t.freq : ℚ) / ((1 - perfThres) * ((t.freq : ℚ) / (prm.maxFreq : ℚ)
    + 100 / dmax 1 (t.gpu : ℚ) - 1) + (t.freq : ℚ) / (prm.maxFreq : ℚ))

/-- The moving-window update of lines 578-586 for one device. -/
def ringUpdate (cfg : Config) (idx_oldest : Nat) (d : DeviceState) (t : Telemetry) : DeviceState :=
  { d with
    gutil_moving_avg := d.gutil_moving_avg
      - ((d.gpuUtils idx_oldest : Int) : ℚ) / (cfg.movingAvg_windowSize : ℚ)
      + (t.gpu : ℚ) / (cfg.movingAvg_windowSize : ℚ)
    gutil_moving_sqsum := d.gutil_moving_sqsum - ((d.gpuUtils_sq idx_oldest : Int) : ℚ)
      + (t.gpu : ℚ) * (t.gpu : ℚ)
    gpuUtils := Function.update d.gpuUtils idx_oldest (wrapInt t.gpu)
    gpuUtils_sq := Function.update d.gpuUtils_sq idx_oldest (wrapInt (t.gpu * t.gpu)) }

/-- The recording of lines 596-623 for one device: when `lastprobPhase > 0`, the
reading goes into slot `numProbRec - lastprobPhase` and the cap is updated. -/
def recordSample (cfg : Config) (prm : Params) (perfThres : ℚ) (lastprobPhase : Int)
    (d : DeviceState) (t : Telemetry) : DeviceState :=
  if lastprobPhase > 0 then
    let slot := ((numProbRec cfg prm : Int) - lastprobPhase).toNat
    let d1 : DeviceState :=
      { d with
        gmemUtils := Function.update d.gmemUtils slot (t.memory : ℚ)
        gPowers := Function.update d.gPowers slot ((t.power : ℚ) / 1000) }
    if cfg.useFreqCap then
      let thisCap := thisCapOf prm perfThres t
      if lastprobPhase = (numProbRec cfg prm : Int) then { d1 with freqCap := thisCap }
      else if thisCap > d1.freqCap then { d1 with freqCap := thisCap }
      else d1
    else d1
  else d

/-- The probe frequency of pattern position `iprob` (lines 629-633, 639-643). -/
def probeFreq (prm : Params) (iprob : Nat) : Int :=
  let reminder := iprob % (2 * prm.numProbFreq)
  if reminder < prm.numProbFreq then prm.probFreqs reminder
  else prm.probFreqs (2 * prm.numProbFreq - 1 - reminder)

/-- The choice of `setFreq` and `applyFreqSet` of lines 625-655 (the constant
`skipSetFreq` is false). -/
def command (cfg : Config) (prm : Params) (probPhase : Int) (optimizedFreq : Int) : Command :=
  let setFreq : Int :=
    if probPhase > 0 then probeFreq prm ((numProbRec cfg prm : Int) - probPhase).toNat
    else if probPhase = 0 then probeFreq prm (numProbRec cfg prm - 1)
    else optimizedFreq
  ⟨setFreq, if probPhase ≥ -1 then true else false⟩

/-- The Assure block of one device in one tick (lines 574-656): the new device
state. -/
def assureDevice (cfg : Config) (prm : Params) (perfThres : ℚ) (s : State) (d : DeviceState)
    (t : Telemetry) : DeviceState :=
  recordSample cfg prm perfThres s.lastprobPhase (ringUpdate cfg s.idx_oldest d t) t

/-- The advance of `idx_oldest` (lines 590-593). -/
def advanceIdx (cfg : Config) (idx_oldest : Nat) : Nat :=
  if (idx_oldest : Int) < (cfg.movingAvg_windowSize : Int) - 1 then idx_oldest + 1 else 0

/-- Burst completion of one device (lines 741-1097): fit, then arbiter. -/
def completeDevice (cfg : Config) (prm : Params) (F : Nat → Int) (perfThres : ℚ)
    (d : DeviceState) (buf : Scratch) : DeviceState × Scratch :=
  let fit := fitDevice cfg prm perfThres d.gmemUtils d.gPowers buf
  ({ d with optimizedFreq := arbiter cfg prm F fit.freqBound d.freqCap fit.freqEff d.optimizedFreq },
    fit.buf)

/-- The loop of line 741 over the devices `0 .. n-1`. -/
def completeAll (cfg : Config) (prm : Params) (F : Nat → Int) (perfThres : ℚ) :
    Nat → (Nat → DeviceState) × Scratch → (Nat → DeviceState) × Scratch
  | 0, st => st
  | n + 1, st =>
    let st1 := completeAll cfg prm F perfThres n st
    let r := completeDevice cfg prm F perfThres (st1.1 n) st1.2
    (Function.update st1.1 n r.1, r.2)

/-- The sum `sum_gutil` of lines 1129-1133 over the devices `0 .. n-1`. -/
def sumGutil (devices : Nat → DeviceState) : Nat → ℚ
  | 0 => 0
  | n + 1 => sumGutil devices n + (devices n).gutil_moving_avg

/-- The input of one tick: the readings of every device and `duration`, the
value the `long unsigned int` of line 1111 holds (after a step back of the
clock it is the wrapped difference, a value close to `2^64`). -/
structure TickInput where
  tel : Nat → Telemetry
  duration : Nat

/-- `addTime` of lines 1113-1119. -/
def addTimeOf (cfg : Config) (duration : Nat) : Nat :=
  if duration < cfg.loopDelay * 1000 then cfg.loopDelay * 1000 else duration

/-- The scheduler update of lines 1124-1162.  `accumuTime` is a
`long unsigned int`: the sum of line 1159 is taken modulo `2^64`. -/
def gateUpdate (cfg : Config) (prm : Params) (device_count : Nat) (addTime : Nat) (s : State) :
    State :=
  let s1 := { s with lastprobPhase := s.probPhase }
  if (s1.accumuTime : ℚ) ≥ cfg.probDelay * 1000000 then
    if sumGutil s1.devices device_count ≥ 1 then
      { s1 with probPhase := (numProbRec cfg prm : Int), accumuTime := 0 }
    else
      { s1 with probPhase := -2, accumuTime := 0 }
  else
    let acc := if s1.probPhase > -1 then 0 else (s1.accumuTime + addTime) % 2 ^ 64
    { s1 with accumuTime := acc, probPhase := if s1.probPhase > -99 then s1.probPhase - 1
                                               else s1.probPhase }

/-- The commands of a tick: device `i` gets the choice of lines 625-655 from the
scheduler state at the start of the tick. -/
def commands (cfg : Config) (prm : Params) (s : State) (i : Nat) : Command :=
  command cfg prm s.probPhase (s.devices i).optimizedFreq

/-- The loop of line 487 over the devices under the Assure policy: every device
below `device_count` runs its Assure block on the scheduler state of the start
of the tick, and the last device advances `idx_oldest` (so the cursor moves once
per tick when there is a device). -/
def sampleAll (cfg : Config) (prm : Params) (perfThres : ℚ) (device_count : Nat) (s : State)
    (inp : TickInput) : State :=
  { s with
    devices := fun i =>
      if i < device_count then assureDevice cfg prm perfThres s (s.devices i) (inp.tel i)
      else s.devices i
    idx_oldest := if 0 < device_count then advanceIdx cfg s.idx_oldest else s.idx_oldest }

/-- Burst completion (lines 712-1106): when `probPhase == 0`, every device is
fitted and arbitrated in turn. -/
def completeStage (cfg : Config) (prm : Params) (F : Nat → Int) (perfThres : ℚ)
    (device_count : Nat) (s : State) : State :=
  if s.probPhase = 0 then
    { s with
      devices := (completeAll cfg prm F perfThres device_count (s.devices, s.buf)).1
      buf := (completeAll cfg prm F perfThres device_count (s.devices, s.buf)).2 }
  else s

/-- One iteration of the main loop under the Assure policy with `device_count`
devices (every driver call succeeding).  `modeIsMod` is `strcmp(argv[1], "mod") == 0`,
which guards burst completion and the scheduler update (lines 710 and 1121). -/
def tick (cfg : Config) (prm : Params) (F : Nat → Int) (modeIsMod : Bool) (perfThres : ℚ)
    (device_count : Nat) (s : State) (inp : TickInput) : State :=
  if modeIsMod then
    gateUpdate cfg prm device_count (addTimeOf cfg inp.duration)
      (completeStage cfg prm F perfThres device_count
        (sampleAll cfg prm perfThres device_count s inp))
  else sampleAll cfg prm perfThres device_count s inp

/-- The state of `main` on entry to the loop (lines 314-405): every device at
`maxFreq` with zeroed windows and records.  `freqCap` is not initialised by the
source, so its initial content `cap0` is arbitrary. -/
def initState (cfg : Config) (prm : Params) (cap0 : Nat → ℚ) : State :=
  { devices := fun i =>
      ⟨prm.maxFreq, fun _ => 0, fun _ => 0, fun _ => 0, fun _ => 0, 0, 0, cap0 i⟩
    probPhase := (numProbRec cfg prm : Int)
    lastprobPhase := 0
    accumuTime := 0
    idx_oldest := 0
    buf := ⟨fun _ => 0, fun _ => 0, fun _ => 0, fun _ => 0⟩ }

/-- The state after the first `n` ticks of a run whose `t`-th tick has the
input `inp t`, from the state `s0`. -/
def run (cfg : Config) (prm : Params) (F : Nat → Int) (modeIsMod : Bool) (perfThres : ℚ)
    (device_count : Nat) (s0 : State) (inp : Nat → TickInput) : Nat → State
  | 0 => s0
  | n + 1 =>
    tick cfg prm F modeIsMod perfThres device_count
      (run cfg prm F modeIsMod perfThres device_count s0 inp n) (inp n)

/-! ## Predicates used in the statements -/

/-- A stored operating frequency is admissible on profile `m`: it is an entry
of the supported list and lies between `minSetFreq` and `maxFreq`. -/
def Admissible (m : Machine) (x : Int) : Prop :=
  (∃ k, k < (params m).numAvailableFreqs ∧ availableFreqs m k = x)
    ∧ (params m).minSetFreq ≤ x ∧ x ≤ (params m).maxFreq

/-- The denominator `div` of `linearRegression`. -/
def lrDiv (num : Nat) (X Y : Nat → ℚ) : ℚ :=
  (num : ℚ) * (lrSums X Y num).sumxsq - (lrSums X Y num).sumx * (lrSums X Y num).sumx

/-- Two device states of two runs that differ only in the performance floor:
the windows, the records and the moving sums agree, and the cap and the
operating frequency of the first are at most those of the second; the recorded
memory utilisations are non-negative. -/
def DevRel (d1 d2 : DeviceState) : Prop :=
  d1.gpuUtils = d2.gpuUtils ∧ d1.gpuUtils_sq = d2.gpuUtils_sq ∧ d1.gmemUtils = d2.gmemUtils
    ∧ d1.gPowers = d2.gPowers ∧ d1.gutil_moving_avg = d2.gutil_moving_avg
    ∧ d1.gutil_moving_sqsum = d2.gutil_moving_sqsum ∧ d1.freqCap ≤ d2.freqCap
    ∧ d1.optimizedFreq ≤ d2.optimizedFreq ∧ ∀ j, 0 ≤ d1.gmemUtils j

/-- Two states of two runs that differ only in the performance floor: the
scheduler variables and the scratch buffers agree and the devices are related. -/
def StateRel (s1 s2 : State) : Prop :=
  s1.probPhase = s2.probPhase ∧ s1.lastprobPhase = s2.lastprobPhase
    ∧ s1.accumuTime = s2.accumuTime ∧ s1.idx_oldest = s2.idx_oldest ∧ s1.buf = s2.buf
    ∧ ∀ i, DevRel (s1.devices i) (s2.devices i)

/-- Two device states in two executions of one burst after `r` recordings: the
first `r` slots of the records agree (with non-negative memory utilisations),
and once a slot is recorded the cap of the first is at most the cap of the second. -/
def BurstRel (r : Nat) (d1 d2 : DeviceState) : Prop :=
  (∀ j, j < r → d1.gmemUtils j = d2.gmemUtils j ∧ 0 ≤ d1.gmemUtils j
      ∧ d1.gPowers j = d2.gPowers j)
    ∧ (0 < r → d1.freqCap ≤ d2.freqCap)

/-! ## Further definitions for the model fit, the cap and the start-up checks -/

/-- The flag `skipmodel` of lines 874-884: set when the least regression error
exceeds `numProbRec * regErrThres`. -/
def skipmodel (cfg : Config) (prm : Params) (gmem : Nat → ℚ) (buf : Scratch) : Bool :=
  if (modelSelect cfg prm gmem buf).2.regErrMin > (numProbRec cfg prm : ℚ) * cfg.regErrThres
  then true else false

/-- The fold-line candidate the `turn` loop computes in its iteration `turn`
(`2 ≤ turn`), when the loop starts from `sel0`: `foldCandidate` on the scratch
buffers as the iterations `2 .. turn-1` leave them. -/
def turnCandidate (cfg : Config) (prm : Params) (gmem : Nat → ℚ) (sel0 : Sel) (turn : Nat) :
    FoldFit :=
  (foldCandidate cfg prm gmem turn (turnLoop cfg prm gmem sel0 (turn - 2)).buf).1

/-- The greatest of the per-tick caps of the readings `tel 0 .. tel n`. -/
def capMax (prm : Params) (perfThres : ℚ) (tel : Nat → Telemetry) : Nat → ℚ
  | 0 => thisCapOf prm perfThres (tel 0)
  | n + 1 => max (capMax prm perfThres tel n) (thisCapOf prm perfThres (tel (n + 1)))

/-- The C library's `strstr` from offset `pos`: the offset of the first
occurrence of `needle` in the rest of the haystack, `none` for `NULL`. -/
def strstrAt (needle : List Char) : List Char → Nat → Option Nat
  | [], pos => if needle = [] then some pos else none
  | c :: rest, pos =>
    if needle.isPrefixOf (c :: rest) then some pos else strstrAt needle rest (pos + 1)

/-- The C library's `strstr(haystack, needle)`. -/
def strstr (haystack needle : String) : Option Nat := strstrAt needle.data haystack.data 0

/-- How the start of `main` ends (lines 328-343): a `return 1` before
`nvmlInit_v2`, or the call of `nvmlInit_v2`. -/
inductive Startup where
  | exitBeforeInit (code : Nat)
  | initCalled
  deriving DecidableEq, Repr

/-- The argument checks of lines 328-337 on `argv` (`argc = argv.length`), with
`argAbbre = "mod"`.  The source reaches them after lines 275-285 have read
`argv[1]`, `argv[2]` and `argv[3]`: the definition describes the start of
`main` for an `argv` of at least four entries, where those reads are
defined. -/
def startupCheck (argv : List String) : Startup :=
  if argv.length < 2 then Startup.exitBeforeInit 1
  else if strstr "mod" (argv.getD 1 "") = none then Startup.exitBeforeInit 1
  else Startup.initCalled

/-- The values of `nvmlReturn_t` that the source tells apart. -/
inductive NvmlReturn where
  | success
  | errorNoPermission
  | errorNotSupported
  | errorOther
  deriving DecidableEq, Repr

/-- What the loop does after a set-clocks call. -/
inductive LoopStep where
  | continues
  | gotoError
  deriving DecidableEq, Repr

/-- The classification of lines 683-698 of the result of the set-clocks call:
the first two branches only print, the third prints and jumps to `Error`. -/
def setFreqResultStep (result : NvmlReturn) : LoopStep :=
  if NvmlReturn.errorNoPermission = result then LoopStep.continues
  else if NvmlReturn.errorNotSupported = result then LoopStep.continues
  else if NvmlReturn.success ≠ result then LoopStep.gotoError
  else LoopStep.continues

/-- The classification of lines 442-454 of the result of the start-up call
`nvmlDeviceResetGpuLockedClocks`: here the permission branch jumps to `Error`. -/
def resetLockedResultStep (result : NvmlReturn) : LoopStep :=
  if NvmlReturn.errorNoPermission = result then LoopStep.gotoError
  else if NvmlReturn.errorNotSupported = result then LoopStep.continues
  else if NvmlReturn.success ≠ result then LoopStep.gotoError
  else LoopStep.continues

/-! ## Further definitions: actuation, termination and the error sink -/

/-- The actuation of lines 661-680 for one device with the source's constants
(`onlySetAppFreq` true, `onlySetFreqForOne` false): when `applyFreqSet` holds,
the call `nvmlDeviceSetApplicationsClocks(device, setMemFreq, setFreq)` with
these two arguments; otherwise no call. -/
def setClocksCall (prm : Params) (c : Command) : Option (Int × Int) :=
  if c.applyFreqSet then some (prm.setMemFreq, c.setFreq) else none

/-- The calls of the driver library that `main` makes around its clean-up
(`i` is the device index; the set-clocks call carries its two clocks). -/
inductive Call where
  | getHandle (i : Nat)
  | getUtilizationRates (i : Nat)
  | getClockInfo (i : Nat)
  | getPowerUsage (i : Nat)
  | setApplicationsClocks (i : Nat) (memClock smClock : Int)
  | resetGpuLockedClocks (i : Nat)
  | resetApplicationsClocks (i : Nat)
  | nvmlShutdown
  deriving DecidableEq, Repr

/-- The label `Error` (lines 1238-1242): the calls made there and the exit
code of the process. -/
def errorSink : List Call × Nat := ([Call.nvmlShutdown], 1)

/-- A jump `goto Error` taken after the calls `before`: the calls of the whole
execution and its exit code. -/
def fatalExit (before : List Call) : List Call × Nat := (before ++ errorSink.1, errorSink.2)

/-- The classification of the result of `nvmlDeviceResetApplicationsClocks`
(lines 456-470 and 1188-1203), which the termination path also applies to
`nvmlDeviceResetGpuLockedClocks` (lines 1178-1186): permission denial and
"not supported" only print. -/
def resetAppResultStep (result : NvmlReturn) : LoopStep :=
  if NvmlReturn.errorNoPermission = result then LoopStep.continues
  else if NvmlReturn.errorNotSupported = result then LoopStep.continues
  else if NvmlReturn.success ≠ result then LoopStep.gotoError
  else LoopStep.continues

/-- The body of a reset loop for device `i` (lines 433-470 with
`lockedStep = resetLockedResultStep`, lines 1169-1203 with
`lockedStep = resetAppResultStep`), given the results `rh, rl, ra` of its three
calls: the calls made and whether the body jumps to `Error`. -/
def resetDeviceCalls (lockedStep : NvmlReturn → LoopStep) (i : Nat) (rh rl ra : NvmlReturn) :
    List Call × LoopStep :=
  if NvmlReturn.success ≠ rh then ([Call.getHandle i], LoopStep.gotoError)
  else if lockedStep rl = LoopStep.gotoError then
    ([Call.getHandle i, Call.resetGpuLockedClocks i], LoopStep.gotoError)
  else
    ([Call.getHandle i, Call.resetGpuLockedClocks i, Call.resetApplicationsClocks i],
      resetAppResultStep ra)

/-- A reset loop over the devices `0 .. n-1`; device `i` gets the results
`res i`.  A jump to `Error` ends the loop. -/
def resetLoop (lockedStep : NvmlReturn → LoopStep)
    (res : Nat → NvmlReturn × NvmlReturn × NvmlReturn) : Nat → List Call × LoopStep
  | 0 => ([], LoopStep.continues)
  | n + 1 =>
    match resetLoop lockedStep res n with
    | (calls, LoopStep.gotoError) => (calls, LoopStep.gotoError)
    | (calls, LoopStep.continues) =>
      ((calls ++ (resetDeviceCalls lockedStep n (res n).1 (res n).2.1 (res n).2.2).1),
        (resetDeviceCalls lockedStep n (res n).1 (res n).2.1 (res n).2.2).2)

/-- The end of `main` after the loop is left by `keepRunning = 0` (lines
1166-1236): the reset loop, then `nvmlShutdown` and `return 0`; a fatal result
in the reset loop jumps to `Error`. -/
def terminate (device_count : Nat) (res : Nat → NvmlReturn × NvmlReturn × NvmlReturn) :
    List Call × Nat :=
  match resetLoop resetAppResultStep res device_count with
  | (calls, LoopStep.gotoError) => fatalExit calls
  | (calls, LoopStep.continues) => (calls ++ [Call.nvmlShutdown], 0)

/-- The driver calls of one device in one tick of the loop (lines 489-699) with
the command `c`, given the results of the four reads and of the set-clocks
call: the calls made and whether the tick jumps to `Error`. -/
def deviceTickCalls (prm : Params) (i : Nat) (c : Command) (rh ru rc rp rs : NvmlReturn) :
    List Call × LoopStep :=
  if NvmlReturn.success ≠ rh then ([Call.getHandle i], LoopStep.gotoError)
  else if NvmlReturn.success ≠ ru then
    ([Call.getHandle i, Call.getUtilizationRates i], LoopStep.gotoError)
  else if NvmlReturn.success ≠ rc then
    ([Call.getHandle i, Call.getUtilizationRates i, Call.getClockInfo i], LoopStep.gotoError)
  else if NvmlReturn.success ≠ rp then
    ([Call.getHandle i, Call.getUtilizationRates i, Call.getClockInfo i, Call.getPowerUsage i],
      LoopStep.gotoError)
  else
    match setClocksCall prm c with
    | none =>
      ([Call.getHandle i, Call.getUtilizationRates i, Call.getClockInfo i, Call.getPowerUsage i],
        LoopStep.continues)
    | some (memClock, smClock) =>
      ([Call.getHandle i, Call.getUtilizationRates i, Call.getClockInfo i, Call.getPowerUsage i,
          Call.setApplicationsClocks i memClock smClock], setFreqResultStep rs)

/-- Stated from the spec: the performance a fold-line model `(a1, b1, a2, b2)`
predicts at the frequency `x`: `a1*x + b1` for `x` at or below the knee
`f_cross = (b1 - b2) / (a2 - a1)`, and `a2*x + b2` above it. -/
def specFoldPrediction (a1 b1 a2 b2 x : ℚ) : ℚ :=
  if x ≤ (b1 - b2) / (a2 - a1) then a1 * x + b1 else a2 * x + b2

/-! ## The value of the selected model and the moving deviation -/

/-- Stated from the spec: the value of the selected model `M*` at the frequency
`x`: the single line `slope*x + intercept` when no fold line was selected
(`turn_Opt = 0`), the fold-line prediction otherwise. -/
def specModelValue (l : Line) (sel : Sel) (x : ℚ) : ℚ :=
  if sel.turn_Opt = 0 then l.slope * x + l.intercept
  else specFoldPrediction sel.slope1_Opt sel.intercept1_Opt sel.slope2_Opt sel.intercept2_Opt x

/-- The local `variance` of line 580, from the moving sums as lines 578-579
leave them. -/
def varianceOf (cfg : Config) (d : DeviceState) : ℚ :=
  d.gutil_moving_sqsum / (cfg.movingAvg_windowSize : ℚ) - d.gutil_moving_avg * d.gutil_moving_avg

/-- The value lines 581-584 store in `gutil_moving_std[i]`, in exact
arithmetic: the C library's `sqrt`, which is not part of the source, is taken
as the real square root (so this one definition is not executable). -/
noncomputable def movingStd (variance : ℚ) : ℝ :=
  if variance > 0 then Real.sqrt (variance : ℝ) else 0

/-! ## The UtilizScale policy (`main`, lines 539-572) -/

/-- The C cast `(int)` of a double: truncation toward zero. -/
def truncInt (x : ℚ) : Int := if 0 ≤ x then Int.floor x else Int.ceil x

/-- The descending search of lines 553-563 with `iAvail + 1` iterations left,
on the `int` target that line 551 stores in `optimizedFreqs[i]`; the target is
kept when no entry is below it. -/
def utilizSnapLoop (F : Nat → Int) (numAvailableFreqs : Nat) (target : Int) : Nat → Int
  | 0 => target
  | iAvail + 1 =>
    if F iAvail < target then
      if iAvail + 1 < numAvailableFreqs then F (iAvail + 1) else F iAvail
    else utilizSnapLoop F numAvailableFreqs target iAvail

/-- The value of `cycle` at the start of tick `n`: line 316 initialises it to 0
and no statement of the source assigns it. -/
def cycleAt (_n : Nat) : Int := 0

/-- The UtilizScale block of one device in one tick (lines 540-572), from
`cycle`, `util.gpu` and `optimizedFreqs[i]`: the command and the new
`optimizedFreqs[i]`. -/
def utilizScaleDevice (prm : Params) (F : Nat → Int) (cycle : Int) (gpu : Nat)
    (optimizedFreq : Int) : Command × Int :=
  if cycle = 1 then (⟨prm.maxFreq, true⟩, optimizedFreq)
  else if cycle = 2 then
    let target := truncInt (dmax (prm.minSetFreq : ℚ) ((gpu : ℚ) / 100 * (prm.maxFreq : ℚ)))
    let opt := utilizSnapLoop F prm.numAvailableFreqs target prm.numAvailableFreqs
    (⟨opt, true⟩, opt)
  else (⟨optimizedFreq, false⟩, optimizedFreq)

/-- The content of `optimizedFreqs[i]` after the first `n` ticks under the
UtilizScale policy, from `maxFreq` (line 363); `gpu t` is the utilisation read
in tick `t`. -/
def utilizScaleRun (prm : Params) (F : Nat → Int) (gpu : Nat → Nat) : Nat → Int
  | 0 => prm.maxFreq
  | n + 1 => (utilizScaleDevice prm F (cycleAt n) (gpu n) (utilizScaleRun prm F gpu n)).2

/-! ## Binary64 arithmetic

The definitions above take `double` as the rationals: they describe the
program in exact arithmetic.  Where a rounding decides a test of the program,
the same code is evaluated below in binary64. -/

/-- A finite `double`, as the integer pair `(m, e)` of value `m * 2^e`. -/
structure F64 where
  m : Int
  e : Int

/-- The number of binary digits of `n`, by at most `fuel` halvings. -/
def bitLen : Nat → Nat → Nat
  | 0, _ => 0
  | fuel + 1, n => if n = 0 then 0 else bitLen fuel (n / 2) + 1

/-- Rounding of the exact value `m * 2^e` to a 53-bit significand, to nearest
with ties to even (the exponent range is not bounded: no overflow and no
subnormal result occurs in the evaluations below). -/
def f64Round (m e : Int) : F64 :=
  let a := m.natAbs
  let n := bitLen 4096 a
  if n ≤ 53 then ⟨m, e⟩
  else
    let sh := n - 53
    let q := a / 2 ^ sh
    let r := a % 2 ^ sh
    let half := 2 ^ (sh - 1)
    let q1 := if r > half ∨ (r = half ∧ q % 2 = 1) then q + 1 else q
    ⟨if m < 0 then -(q1 : Int) else (q1 : Int), e + (sh : Int)⟩

/-- The conversion `(double)n` of an `int` (exact). -/
def f64OfInt (n : Int) : F64 := ⟨n, 0⟩

/-- The C operators `+`, unary `-`, binary `-`, `*` on doubles: the exact
result, rounded. -/
def f64Add (a b : F64) : F64 :=
  let e := min a.e b.e
  f64Round (a.m * 2 ^ (a.e - e).toNat + b.m * 2 ^ (b.e - e).toNat) e

def f64Neg (a : F64) : F64 := ⟨-a.m, a.e⟩

def f64Sub (a b : F64) : F64 := f64Add a (f64Neg b)

def f64Mul (a b : F64) : F64 := f64Round (a.m * b.m) (a.e + b.e)

/-- The C operator `/` on doubles for a non-zero divisor: the quotient is
taken with at least 55 binary digits and a sticky last digit, then rounded.
(For a zero divisor, which the evaluations below do not meet, the value is 0.) -/
def f64Div (a b : F64) : F64 :=
  if b.m = 0 then ⟨0, 0⟩
  else
    let k := 55 + bitLen 4096 b.m.natAbs - bitLen 4096 a.m.natAbs
    let num := a.m.natAbs * 2 ^ k
    let q := num / b.m.natAbs
    let r := num % b.m.natAbs
    let ext : Nat := 2 * q + (if r = 0 then 0 else 1)
    f64Round (if (a.m < 0) = (b.m < 0) then (ext : Int) else -(ext : Int))
      (a.e - b.e - (k : Int) - 1)

/-- The comparisons `<=`, `<`, `==` on doubles. -/
def f64Le (a b : F64) : Bool :=
  let e := min a.e b.e
  decide (a.m * 2 ^ (a.e - e).toNat ≤ b.m * 2 ^ (b.e - e).toNat)

def f64Lt (a b : F64) : Bool :=
  let e := min a.e b.e
  decide (a.m * 2 ^ (a.e - e).toNat < b.m * 2 ^ (b.e - e).toNat)

def f64Eq (a b : F64) : Bool :=
  let e := min a.e b.e
  decide (a.m * 2 ^ (a.e - e).toNat = b.m * 2 ^ (b.e - e).toNat)

/-- The rational value of a double. -/
def f64ToRat (a : F64) : ℚ := (a.m : ℚ) * (2 : ℚ) ^ a.e

/-! ## Model selection in binary64 (`linearRegression`, `foldlineRegression`,
`main` lines 795-871) -/

/-- The five running sums of `linearRegression` in binary64. -/
structure LRSumsF where
  sumx : F64
  sumxsq : F64
  sumy : F64
  sumxy : F64
  sumysq : F64

def lrSumsF (X Y : Nat → F64) : Nat → LRSumsF
  | 0 => ⟨f64OfInt 0, f64OfInt 0, f64OfInt 0, f64OfInt 0, f64OfInt 0⟩
  | k + 1 =>
    let s := lrSumsF X Y k
    ⟨f64Add s.sumx (X k), f64Add s.sumxsq (f64Mul (X k) (X k)), f64Add s.sumy (Y k),
      f64Add s.sumxy (f64Mul (X k) (Y k)), f64Add s.sumysq (f64Mul (Y k) (Y k))⟩

/-- The three outputs of `linearRegression` in binary64, with the divisor
`div` of line 95 the first two were computed with. -/
structure LineF where
  slope : F64
  intercept : F64
  regErr : F64
  div : F64

/-- The source's `linearRegression` with every operation rounded, in the order
of lines 95-99. -/
def linearRegressionF (num : Nat) (X Y : Nat → F64) : LineF :=
  let s := lrSumsF X Y num
  let n := f64OfInt (num : Int)
  let div := f64Sub (f64Mul n s.sumxsq) (f64Mul s.sumx s.sumx)
  let a := f64Div (f64Sub (f64Mul n s.sumxy) (f64Mul s.sumx s.sumy)) div
  let b := f64Div (f64Sub (f64Mul s.sumy s.sumxsq) (f64Mul s.sumx s.sumxy)) div
  let two := f64OfInt 2
  ⟨a, b,
    f64Add
      (f64Sub
        (f64Sub
          (f64Add (f64Add s.sumysq (f64Mul (f64Mul a a) s.sumxsq)) (f64Mul (f64Mul n b) b))
          (f64Mul (f64Mul two a) s.sumxy))
        (f64Mul (f64Mul two b) s.sumy))
      (f64Mul (f64Mul (f64Mul two a) b) s.sumx),
    div⟩

/-- The four running sums of one segment of `foldlineRegression` in binary64. -/
structure SegSumsF where
  sum_x : F64
  sum_y : F64
  sum_xsq : F64
  sum_xy : F64

def segSumsF (X Y : Nat → F64) : Nat → SegSumsF
  | 0 => ⟨f64OfInt 0, f64OfInt 0, f64OfInt 0, f64OfInt 0⟩
  | i + 1 =>
    let s := segSumsF X Y i
    ⟨f64Add s.sum_x (X i), f64Add s.sum_y (Y i), f64Add s.sum_xsq (f64Mul (X i) (X i)),
      f64Add s.sum_xy (f64Mul (X i) (Y i))⟩

/-- The loops of lines 147-154 in binary64. -/
def errLoopF (a b : F64) (X Y : Nat → F64) (err : F64) : Nat → F64
  | 0 => err
  | i + 1 =>
    f64Add (errLoopF a b X Y err i)
      (f64Mul (f64Sub (f64Add (f64Mul a (X i)) b) (Y i)) (f64Sub (f64Add (f64Mul a (X i)) b) (Y i)))

/-- The five outputs of `foldlineRegression` in binary64. -/
structure FoldFitF where
  slope1 : F64
  intercept1 : F64
  slope2 : F64
  intercept2 : F64
  regErr : F64

/-- The sum of six products `p1 + p2 + p3 - p4 - p5 - p6` as lines 136-144
write it, each product `x*y*z` taken as `(x*y)*z`. -/
def det6 (p1 p2 p3 p4 p5 p6 : F64 × F64 × F64) : F64 :=
  let pr := fun (p : F64 × F64 × F64) => f64Mul (f64Mul p.1 p.2.1) p.2.2
  f64Sub (f64Sub (f64Sub (f64Add (f64Add (pr p1) (pr p2)) (pr p3)) (pr p4)) (pr p5)) (pr p6)

/-- The source's `foldlineRegression` with every operation rounded (the
products of the `int` arguments `num2`, `xc` are integer products). -/
def foldlineRegressionF (xc : Int) (num1 : Nat) (X1 Y1 : Nat → F64) (num2 : Nat)
    (X2 Y2 : Nat → F64) : FoldFitF :=
  let n := f64OfInt ((num1 + num2 : Nat) : Int)
  let s1 := segSumsF X1 Y1 num1
  let s2 := segSumsF X2 Y2 num2
  let xcd := f64OfInt xc
  let c11 := f64Add s1.sum_xsq (f64OfInt (num2 * xc * xc))
  let c12 := f64Sub (f64Mul xcd s2.sum_x) (f64OfInt (num2 * xc * xc))
  let c13 := f64Add s1.sum_x (f64OfInt (xc * num2))
  let c14 := f64Sub (f64Neg s1.sum_xy) (f64Mul s2.sum_y xcd)
  let c21 := f64Sub (f64Mul xcd s2.sum_x) (f64OfInt (num2 * xc * xc))
  let c22 := f64Add (f64Sub s2.sum_xsq (f64Mul (f64OfInt (2 * xc)) s2.sum_x))
    (f64OfInt (num2 * xc * xc))
  let c23 := f64Sub s2.sum_x (f64OfInt (num2 * xc))
  let c24 := f64Add (f64Neg s2.sum_xy) (f64Mul xcd s2.sum_y)
  let c31 := f64Add s1.sum_x (f64OfInt (num2 * xc))
  let c32 := f64Sub s2.sum_x (f64OfInt (num2 * xc))
  let c33 := n
  let c34 := f64Sub (f64Neg s1.sum_y) s2.sum_y
  let H := det6 (c11, c22, c33) (c12, c23, c31) (c21, c32, c13) (c13, c22, c31) (c12, c21, c33)
    (c11, c23, c32)
  if f64Eq H (f64OfInt 0) then
    ⟨f64OfInt (-1), f64OfInt (-2), f64OfInt (-3), f64OfInt (-4), f64OfInt 12345678⟩
  else
    let a1 := f64Div (f64Neg (det6 (c14, c22, c33) (c12, c23, c34) (c13, c24, c32)
      (c13, c22, c34) (c12, c24, c33) (c23, c32, c14))) H
    let a2 := f64Div (f64Neg (det6 (c11, c24, c33) (c21, c34, c13) (c14, c23, c31)
      (c13, c31, c24) (c11, c23, c34) (c33, c14, c21))) H
    let b1 := f64Div (f64Neg (det6 (c11, c22, c34) (c21, c32, c14) (c12, c24, c31)
      (c22, c14, c31) (c12, c21, c34) (c11, c32, c24))) H
    let b2 := f64Add (f64Mul xcd (f64Sub a1 a2)) b1
    ⟨a1, b1, a2, b2, errLoopF a2 b2 X2 Y2 (errLoopF a1 b1 X1 Y1 (f64OfInt 0) num1) num2⟩

/-- The partition loop of lines 807-827 on binary64 records: the two segments
as lists of points, in the order the loop stores them. -/
def partitionF (prm : Params) (turn : Nat) (gmem : Nat → F64) :
    Nat → List (F64 × F64) × List (F64 × F64)
  | 0 => ([], [])
  | j + 1 =>
    let s := partitionF prm turn gmem j
    let ifreq := ifreqOf prm.numProbFreq j
    if ifreq < turn then (s.1 ++ [(f64OfInt (prm.probFreqs ifreq), gmem j)], s.2)
    else (s.1, s.2 ++ [(f64OfInt (prm.probFreqs ifreq), gmem j)])

/-- The quotient `freq_cross` of lines 830-833 in binary64. -/
def freqCrossF (l1 l2 : LineF) : F64 :=
  if f64Eq l2.slope l1.slope then f64OfInt (-1)
  else f64Div (f64Sub l1.intercept l2.intercept) (f64Sub l2.slope l1.slope)

/-- The crossing test of line 834 in binary64. -/
def crossingOkF (prm : Params) (turn : Nat) (fc : F64) : Bool :=
  f64Le (f64OfInt (prm.probFreqs (turn - 1))) fc && f64Le fc (f64OfInt (prm.probFreqs turn))

/-- The two segment fits of one `turn` (lines 807-829) in binary64. -/
def segFitsF (cfg : Config) (prm : Params) (gmem : Nat → F64) (turn : Nat) : LineF × LineF :=
  let ps := partitionF prm turn gmem (numProbRec cfg prm)
  (linearRegressionF (turn * cfg.numProbRep)
      (fun i => (ps.1.getD i (f64OfInt 0, f64OfInt 0)).1)
      (fun i => (ps.1.getD i (f64OfInt 0, f64OfInt 0)).2),
    linearRegressionF ((prm.numProbFreq - turn) * cfg.numProbRep)
      (fun i => (ps.2.getD i (f64OfInt 0, f64OfInt 0)).1)
      (fun i => (ps.2.getD i (f64OfInt 0, f64OfInt 0)).2))

/-- The constrained refit of one `turn` (line 841) in binary64. -/
def refitF (cfg : Config) (prm : Params) (gmem : Nat → F64) (turn : Nat) : FoldFitF :=
  let ps := partitionF prm turn gmem (numProbRec cfg prm)
  foldlineRegressionF (prm.probFreqs (turn - 1)) (turn * cfg.numProbRep)
    (fun i => (ps.1.getD i (f64OfInt 0, f64OfInt 0)).1)
    (fun i => (ps.1.getD i (f64OfInt 0, f64OfInt 0)).2)
    ((prm.numProbFreq - turn) * cfg.numProbRep)
    (fun i => (ps.2.getD i (f64OfInt 0, f64OfInt 0)).1)
    (fun i => (ps.2.getD i (f64OfInt 0, f64OfInt 0)).2)

/-- The fold-line candidate of one `turn` (lines 807-844) in binary64: the two
segment fits when their crossing passes the test of line 834, the constrained
refit otherwise. -/
def foldCandidateF (cfg : Config) (prm : Params) (gmem : Nat → F64) (turn : Nat) : FoldFitF :=
  let l := segFitsF cfg prm gmem turn
  if crossingOkF prm turn (freqCrossF l.1 l.2) then
    ⟨l.1.slope, l.1.intercept, l.2.slope, l.2.intercept, f64Add l.1.regErr l.2.regErr⟩
  else refitF cfg prm gmem turn

/-- The variables model selection carries, in binary64. -/
structure SelF where
  turn_Opt : Nat
  regErrMin : F64
  slope1_Opt : F64
  intercept1_Opt : F64
  slope2_Opt : F64
  intercept2_Opt : F64

/-- One iteration of the `turn` loop (lines 803-871) in binary64. -/
def turnStepF (cfg : Config) (prm : Params) (gmem : Nat → F64) (turn : Nat) (sel : SelF) : SelF :=
  let c := foldCandidateF cfg prm gmem turn
  if f64Le c.slope1 c.slope2 then sel
  else if f64Lt c.regErr sel.regErrMin then
    ⟨turn, c.regErr, c.slope1, c.intercept1, c.slope2, c.intercept2⟩
  else sel

def turnLoopF (cfg : Config) (prm : Params) (gmem : Nat → F64) (sel0 : SelF) : Nat → SelF
  | 0 => sel0
  | n + 1 => turnStepF cfg prm gmem (n + 2) (turnLoopF cfg prm gmem sel0 n)

/-- Model selection (lines 795-871) in binary64. -/
def modelSelectF (cfg : Config) (prm : Params) (gmem : Nat → F64) : LineF × SelF :=
  let l := linearRegressionF (numProbRec cfg prm)
    (fun j => f64OfInt (prm.probFreqs (ifreqOf prm.numProbFreq j))) gmem
  (l, turnLoopF cfg prm gmem
    ⟨0, l.regErr, f64OfInt 0, f64OfInt 0, f64OfInt 0, f64OfInt 0⟩ (prm.numProbFreq - 3))

/-- The knee `freq_cross` as lines 997 and 1008 recompute it from the selected
parameters, in binary64. -/
def kneeF (sel : SelF) : F64 :=
  f64Div (f64Sub sel.intercept1_Opt sel.intercept2_Opt) (f64Sub sel.slope2_Opt sel.slope1_Opt)

/-- A burst in which each probe frequency `probFreqs[p]` read the integer
memory utilisation `v p` in both of its slots. -/
def burstF (prm : Params) (v : Nat → Int) (j : Nat) : F64 :=
  f64OfInt (v (ifreqOf prm.numProbFreq j))

end Geepafs

namespace Geepafs

/-! ## The supported clock list -/

set_option maxRecDepth 100000 in
theorem getAvailableFreqs_eq (m : Machine) :
    getAvailableFreqs m
      = some ((List.range (params m).numAvailableFreqs).map (freqFormula m)) := by
  cases m <;> decide

theorem availableFreqs_eq (m : Machine) (i : Nat) (h : i < (params m).numAvailableFreqs) :
    availableFreqs m i = freqFormula m i := by
  unfold availableFreqs
  rw [getAvailableFreqs_eq]
  simp [List.getD_eq_getElem?_getD, List.getElem?_map, List.getElem?_range h]

theorem freqFormula_strictMono (m : Machine) (i j : Nat) (h : i < j) :
    freqFormula m i < freqFormula m j := by
  cases m <;> simp only [freqFormula] <;> omega

theorem freqFormula_zero_lt (m : Machine) : freqFormula m 0 < (params m).minSetFreq := by
  cases m <;> simp [freqFormula, params]

theorem freqFormula_last (m : Machine) :
    freqFormula m ((params m).numAvailableFreqs - 1) = (params m).maxFreq := by
  cases m <;> simp [freqFormula, params]

theorem numAvailableFreqs_pos (m : Machine) : 0 < (params m).numAvailableFreqs := by
  cases m <;> simp [params]

theorem minSetFreq_le_maxFreq (m : Machine) : (params m).minSetFreq ≤ (params m).maxFreq := by
  cases m <;> simp [params]

theorem dmax_eq (a b : ℚ) : dmax a b = max a b := by
  unfold dmax
  split_ifs with h
  · exact (max_eq_left h).symm
  · exact (max_eq_right (le_of_lt (not_le.mp h))).symm

theorem dmin_eq (a b : ℚ) : dmin a b = min a b := by
  unfold dmin
  split_ifs with h
  · exact (min_eq_right h).symm
  · exact (min_eq_left (le_of_lt (not_le.mp h))).symm

/-! ## The snap search -/

/-- The descending search for a target above the first entry and at most the
last: started at any `i` above which every entry reaches the target, it returns
an entry that reaches the target and whose predecessor does not. -/
theorem snapLoop_spec (F : Nat → Int) (n : Nat) (c : ℚ) (cur : Int)
    (h0 : ((F 0 : Int) : ℚ) < c) (hlast : c ≤ ((F (n - 1) : Int) : ℚ)) (i : Nat) (hi : i ≤ n)
    (hup : ∀ j, i ≤ j → j < n → c ≤ ((F j : Int) : ℚ)) :
    ∃ k, 0 < k ∧ k < n ∧ snapLoop F n c cur i = F k ∧ ((F (k - 1) : Int) : ℚ) < c
      ∧ c ≤ ((F k : Int) : ℚ) := by
  induction i with
  | zero =>
    exfalso
    have hn : 0 < n := by
      by_contra hn
      have : n = 0 := by omega
      subst this
      simp at hlast
      exact absurd h0 (not_lt.mpr hlast)
    exact absurd h0 (not_lt.mpr (hup 0 (le_refl 0) hn))
  | succ i ih =>
    unfold snapLoop
    by_cases hlt : ((F i : Int) : ℚ) < c
    · have hne : i + 1 < n := by
        by_contra hcon
        have : i = n - 1 := by omega
        rw [this] at hlt
        exact absurd hlt (not_lt.mpr hlast)
      refine ⟨i + 1, Nat.succ_pos i, hne, ?_, ?_, hup (i + 1) (le_refl _) hne⟩
      · simp [hlt, hne]
      · simpa using hlt
    · simp only [hlt, if_false]
      apply ih (by omega)
      intro j hj hjn
      rcases Nat.eq_or_lt_of_le hj with h | h
      · subst h
        exact not_lt.mp hlt
      · exact hup j h hjn

theorem availableFreqs_mono (m : Machine) (i j : Nat) (hij : i ≤ j)
    (hj : j < (params m).numAvailableFreqs) : availableFreqs m i ≤ availableFreqs m j := by
  rw [availableFreqs_eq m i (by omega), availableFreqs_eq m j hj]
  rcases Nat.eq_or_lt_of_le hij with h | h
  · subst h
    exact le_refl _
  · exact le_of_lt (freqFormula_strictMono m i j h)

theorem availableFreqs_zero_lt (m : Machine) : availableFreqs m 0 < (params m).minSetFreq := by
  rw [availableFreqs_eq m 0 (numAvailableFreqs_pos m)]
  exact freqFormula_zero_lt m

theorem availableFreqs_last (m : Machine) :
    availableFreqs m ((params m).numAvailableFreqs - 1) = (params m).maxFreq := by
  rw [availableFreqs_eq m _ (by have := numAvailableFreqs_pos m; omega)]
  exact freqFormula_last m

/-- On a shipped profile, the search for a target in `[minSetFreq, maxFreq]`
assigns the entry `F[k]` with `F[k-1] < target ≤ F[k]`. -/
theorem snap_profile (m : Machine) (c : ℚ) (cur : Int)
    (hlo : ((params m).minSetFreq : ℚ) ≤ c) (hhi : c ≤ ((params m).maxFreq : ℚ)) :
    ∃ k, 0 < k ∧ k < (params m).numAvailableFreqs
      ∧ snapLoop (availableFreqs m) (params m).numAvailableFreqs c cur
          (params m).numAvailableFreqs = availableFreqs m k
      ∧ ((availableFreqs m (k - 1) : Int) : ℚ) < c ∧ c ≤ ((availableFreqs m k : Int) : ℚ) := by
  apply snapLoop_spec
  · have h := availableFreqs_zero_lt m
    have h2 : ((availableFreqs m 0 : Int) : ℚ) < ((params m).minSetFreq : ℚ) := by exact_mod_cast h
    linarith
  · rw [availableFreqs_last]
    exact hhi
  · exact le_refl _
  · intro j h1 h2
    omega

/-- The clamped target lies in `[minSetFreq, maxFreq]` on a shipped profile. -/
theorem freqOptClamped_range (m : Machine) (cfg : Config) (fb cap fe : ℚ) :
    ((params m).minSetFreq : ℚ) ≤ freqOptClamped cfg (params m) fb cap fe
      ∧ freqOptClamped cfg (params m) fb cap fe ≤ ((params m).maxFreq : ℚ) := by
  unfold freqOptClamped
  rw [dmin_eq, dmax_eq]
  have h : ((params m).minSetFreq : ℚ) ≤ ((params m).maxFreq : ℚ) := by
    exact_mod_cast minSetFreq_le_maxFreq m
  exact ⟨le_min (le_max_right _ _) h, min_le_right _ _⟩

/-- The arbiter on a shipped profile returns a supported frequency between
`minSetFreq` and `maxFreq` which is the least entry reaching the clamped target. -/
theorem arbiter_profile (m : Machine) (cfg : Config) (fb cap fe : ℚ) (cur : Int) :
    ∃ k, 0 < k ∧ k < (params m).numAvailableFreqs
      ∧ arbiter cfg (params m) (availableFreqs m) fb cap fe cur = availableFreqs m k
      ∧ ((availableFreqs m (k - 1) : Int) : ℚ) < freqOptClamped cfg (params m) fb cap fe
      ∧ freqOptClamped cfg (params m) fb cap fe ≤ ((availableFreqs m k : Int) : ℚ) := by
  unfold arbiter
  exact snap_profile m _ cur (freqOptClamped_range m cfg fb cap fe).1
    (freqOptClamped_range m cfg fb cap fe).2

theorem arbiter_range (m : Machine) (cfg : Config) (fb cap fe : ℚ) (cur : Int) :
    (params m).minSetFreq ≤ arbiter cfg (params m) (availableFreqs m) fb cap fe cur
      ∧ arbiter cfg (params m) (availableFreqs m) fb cap fe cur ≤ (params m).maxFreq := by
  obtain ⟨k, hk0, hkn, hr, _, hge⟩ := arbiter_profile m cfg fb cap fe cur
  rw [hr]
  constructor
  · have h1 := (freqOptClamped_range m cfg fb cap fe).1
    have h2 : ((params m).minSetFreq : ℚ) ≤ ((availableFreqs m k : Int) : ℚ) := le_trans h1 hge
    exact_mod_cast h2
  · rw [← availableFreqs_last m]
    exact availableFreqs_mono m k _ (by omega) (by omega)

theorem probFreqs_range (m : Machine) (j : Nat) (hj : j < 4) :
    (params m).minSetFreq ≤ (params m).probFreqs j
      ∧ (params m).probFreqs j ≤ (params m).maxFreq := by
  have : j = 0 ∨ j = 1 ∨ j = 2 ∨ j = 3 := by omega
  rcases this with h | h | h | h <;> subst h <;> cases m <;> simp [params]

theorem effLoop_mem (prm : Params) (pe : Nat → ℚ) (n : Nat) :
    ∃ j, j ≤ n ∧ (effLoop prm pe n).2 = prm.probFreqs j := by
  induction n with
  | zero => exact ⟨0, le_refl 0, rfl⟩
  | succ n ih =>
    unfold effLoop
    by_cases h : pe (n + 1) > (effLoop prm pe n).1
    · exact ⟨n + 1, le_refl _, by simp [h]⟩
    · obtain ⟨j, hj, he⟩ := ih
      exact ⟨j, by omega, by simp [h, he]⟩

/-- The efficiency choice of the fit is the profile fallback or a probe
frequency, with or without regression. -/
theorem fitDevice_freqEff (cfg : Config) (prm : Params) (p : ℚ) (gmem gpow : Nat → ℚ)
    (buf : Scratch) :
    (fitDevice cfg prm p gmem gpow buf).freqEff = (prm.freqAvgEff : ℚ)
      ∨ ∃ j, j ≤ prm.numProbFreq - 1
          ∧ (fitDevice cfg prm p gmem gpow buf).freqEff = (prm.probFreqs j : ℚ) := by
  unfold fitDevice
  simp only []
  split_ifs
  · exact Or.inl rfl
  · right
    obtain ⟨j, hj, he⟩ := effLoop_mem prm
      (fun j => modelPerf prm (modelSelect cfg prm gmem buf).1 (modelSelect cfg prm gmem buf).2 j
        / avgLoop prm.numProbFreq cfg.numProbRep gpow (numProbRec cfg prm) j)
      (prm.numProbFreq - 1)
    exact ⟨j, hj, by rw [he]⟩
  · exact Or.inl rfl
  · exact Or.inl rfl

theorem fitDevice_freqEff_range (m : Machine) (cfg : Config) (p : ℚ) (gmem gpow : Nat → ℚ)
    (buf : Scratch) :
    ((params m).minSetFreq : ℚ) ≤ (fitDevice cfg (params m) p gmem gpow buf).freqEff
      ∧ (fitDevice cfg (params m) p gmem gpow buf).freqEff ≤ ((params m).maxFreq : ℚ) := by
  rcases fitDevice_freqEff cfg (params m) p gmem gpow buf with h | ⟨j, hj, h⟩
  · rw [h]
    cases m <;> norm_num [params]
  · rw [h]
    have hj4 : j < 4 := by
      have : (params m).numProbFreq = 4 := by cases m <;> rfl
      omega
    have := probFreqs_range m j hj4
    exact ⟨by exact_mod_cast this.1, by exact_mod_cast this.2⟩

theorem availableFreqs_le_max (m : Machine) (j : Nat) (hj : j < (params m).numAvailableFreqs) :
    availableFreqs m j ≤ (params m).maxFreq := by
  rw [← availableFreqs_last m]
  exact availableFreqs_mono m j _ (by omega) (by omega)

/-! ## The arbiter -/

/-- C1 (snap-up correctness).  On each shipped profile and for every burst
completion of the Assure policy (with the cap in use, as in the source), the
frequency stored in `optimizedFreqs[i]` is an entry of the supported list; when
some entry reaches the unclamped target `max(min(freqBound, freqCap), freqEff)`
it is the least such entry, and when none does it is the greatest entry below
the target. -/
theorem C1_snap_up_correct (m : Machine) (cfg : Config) (perfThres : ℚ) (d : DeviceState)
    (buf : Scratch) (hcap : cfg.useFreqCap = true) :
    let fit := fitDevice cfg (params m) perfThres d.gmemUtils d.gPowers buf
    let target := max (min fit.freqBound d.freqCap) fit.freqEff
    let r := (completeDevice cfg (params m) (availableFreqs m) perfThres d buf).1.optimizedFreq
    (∃ k, k < (params m).numAvailableFreqs ∧ availableFreqs m k = r)
      ∧ ((∃ k, k < (params m).numAvailableFreqs ∧ target ≤ ((availableFreqs m k : Int) : ℚ)) →
          target ≤ ((r : Int) : ℚ)
            ∧ ∀ k, k < (params m).numAvailableFreqs → target ≤ ((availableFreqs m k : Int) : ℚ) →
                r ≤ availableFreqs m k)
      ∧ ((¬ ∃ k, k < (params m).numAvailableFreqs ∧ target ≤ ((availableFreqs m k : Int) : ℚ)) →
          ((r : Int) : ℚ) < target
            ∧ ∀ k, k < (params m).numAvailableFreqs → ((availableFreqs m k : Int) : ℚ) < target →
                availableFreqs m k ≤ r) := by
  intro fit target r
  have hfe := fitDevice_freqEff_range m cfg perfThres d.gmemUtils d.gPowers buf
  have ht : ((params m).minSetFreq : ℚ) ≤ target := le_trans hfe.1 (le_max_right _ _)
  have hr : r = arbiter cfg (params m) (availableFreqs m) fit.freqBound d.freqCap fit.freqEff
      d.optimizedFreq := rfl
  have hc : freqOptClamped cfg (params m) fit.freqBound d.freqCap fit.freqEff
      = min target ((params m).maxFreq : ℚ) := by
    unfold freqOptClamped freqOptRaw freqPerfOf
    rw [if_pos hcap, dmin_eq, dmax_eq, dmax_eq, dmin_eq]
    rw [max_eq_left ht]
  obtain ⟨k, hk0, hkn, hk, hlt, hge⟩ :=
    arbiter_profile m cfg fit.freqBound d.freqCap fit.freqEff d.optimizedFreq
  have hrng := arbiter_range m cfg fit.freqBound d.freqCap fit.freqEff d.optimizedFreq
  rw [← hr] at hk hrng
  rw [hc] at hlt hge
  refine ⟨⟨k, hkn, hk.symm⟩, ?_, ?_⟩
  · rintro ⟨j, hjn, hj⟩
    have hjmax : ((availableFreqs m j : Int) : ℚ) ≤ ((params m).maxFreq : ℚ) := by
      exact_mod_cast availableFreqs_le_max m j hjn
    have htmax : target ≤ ((params m).maxFreq : ℚ) := le_trans hj hjmax
    rw [min_eq_left htmax] at hlt hge
    refine ⟨by rw [hk]; exact hge, ?_⟩
    intro i hin hi
    rw [hk]
    by_cases hik : k ≤ i
    · exact availableFreqs_mono m k i hik hin
    · exfalso
      have h1 : availableFreqs m i ≤ availableFreqs m (k - 1) :=
        availableFreqs_mono m i (k - 1) (by omega) (by omega)
      have h2 : ((availableFreqs m i : Int) : ℚ) ≤ ((availableFreqs m (k - 1) : Int) : ℚ) := by
        exact_mod_cast h1
      linarith
  · intro hnone
    have htmax : ((params m).maxFreq : ℚ) < target := by
      by_contra hcon
      apply hnone
      refine ⟨(params m).numAvailableFreqs - 1, by have := numAvailableFreqs_pos m; omega, ?_⟩
      rw [availableFreqs_last]
      exact not_lt.mp hcon
    have hrmax : ((r : Int) : ℚ) ≤ ((params m).maxFreq : ℚ) := by exact_mod_cast hrng.2
    rw [min_eq_right (le_of_lt htmax)] at hge
    rw [← hk] at hge
    have hreq : r = (params m).maxFreq := by
      have : ((r : Int) : ℚ) = ((params m).maxFreq : ℚ) := le_antisymm hrmax hge
      exact_mod_cast this
    refine ⟨lt_of_le_of_lt hrmax htmax, ?_⟩
    intro i hin _
    rw [hreq]
    exact availableFreqs_le_max m i hin

/-- C1 at a concrete input: profile `v100-300w`, the source's constants, a
device with all-zero records and cap 0. -/
theorem C1_snap_up_correct_witness :
    defaultConfig.useFreqCap = true
      ∧ (∃ k, k < (params Machine.v100_300w).numAvailableFreqs
          ∧ availableFreqs Machine.v100_300w k
            = (completeDevice defaultConfig (params Machine.v100_300w)
                (availableFreqs Machine.v100_300w) (9 / 10)
                ⟨1530, fun _ => 0, fun _ => 0, fun _ => 0, fun _ => 0, 0, 0, 0⟩
                ⟨fun _ => 0, fun _ => 0, fun _ => 0, fun _ => 0⟩).1.optimizedFreq) :=
  ⟨rfl, (C1_snap_up_correct Machine.v100_300w defaultConfig (9 / 10)
    ⟨1530, fun _ => 0, fun _ => 0, fun _ => 0, fun _ => 0, 0, 0, 0⟩
    ⟨fun _ => 0, fun _ => 0, fun _ => 0, fun _ => 0⟩ rfl).1⟩

/-- C4 (composition of the target).  At burst completion of any device the
arbiter is called with the fit's `freqBound` and `freqEff` and the device's
`freqCap`, and for all such values the search receives
`min(max(max(f_after_cap, freqEff), minSetFreq), maxFreq)`, where `f_after_cap`
is `min(freqBound, freqCap)` with the cap in use and `freqBound` without it;
this target is at least `freqEff` whenever `freqEff ≤ maxFreq`. -/
theorem C4_target_composition (cfg : Config) (prm : Params) (F : Nat → Int) (perfThres : ℚ)
    (d : DeviceState) (buf : Scratch) :
    (completeDevice cfg prm F perfThres d buf).1.optimizedFreq
        = arbiter cfg prm F (fitDevice cfg prm perfThres d.gmemUtils d.gPowers buf).freqBound
            d.freqCap (fitDevice cfg prm perfThres d.gmemUtils d.gPowers buf).freqEff
            d.optimizedFreq
      ∧ ∀ (freqBound freqCap freqEff : ℚ) (cur : Int),
          arbiter cfg prm F freqBound freqCap freqEff cur
              = snapLoop F prm.numAvailableFreqs
                  (min (max (max (if cfg.useFreqCap = true then min freqBound freqCap
                      else freqBound) freqEff) (prm.minSetFreq : ℚ)) (prm.maxFreq : ℚ))
                  cur prm.numAvailableFreqs
            ∧ (freqEff ≤ (prm.maxFreq : ℚ) →
                freqEff ≤ min (max (max (if cfg.useFreqCap = true then min freqBound freqCap
                  else freqBound) freqEff) (prm.minSetFreq : ℚ)) (prm.maxFreq : ℚ)) := by
  refine ⟨rfl, ?_⟩
  intro fb cap fe cur
  constructor
  · unfold arbiter freqOptClamped freqOptRaw freqPerfOf
    rw [dmin_eq, dmax_eq, dmax_eq]
    by_cases h : cfg.useFreqCap = true
    · rw [if_pos h, if_pos h, dmin_eq]
    · rw [if_neg h, if_neg h]
  · intro h
    exact le_min (le_trans (le_max_right _ _) (le_max_left _ _)) h

/-! ## Invariants of the control loop -/

theorem arbiter_admissible (m : Machine) (cfg : Config) (fb cap fe : ℚ) (cur : Int) :
    Admissible m (arbiter cfg (params m) (availableFreqs m) fb cap fe cur) := by
  obtain ⟨k, _, hkn, hk, _, _⟩ := arbiter_profile m cfg fb cap fe cur
  exact ⟨⟨k, hkn, hk.symm⟩, arbiter_range m cfg fb cap fe cur⟩

theorem maxFreq_admissible (m : Machine) : Admissible m (params m).maxFreq :=
  ⟨⟨(params m).numAvailableFreqs - 1, by have := numAvailableFreqs_pos m; omega,
      availableFreqs_last m⟩, minSetFreq_le_maxFreq m, le_refl _⟩

theorem ringUpdate_optimizedFreq (cfg : Config) (idx : Nat) (d : DeviceState) (t : Telemetry) :
    (ringUpdate cfg idx d t).optimizedFreq = d.optimizedFreq := rfl

theorem recordSample_optimizedFreq (cfg : Config) (prm : Params) (p : ℚ) (l : Int)
    (d : DeviceState) (t : Telemetry) :
    (recordSample cfg prm p l d t).optimizedFreq = d.optimizedFreq := by
  unfold recordSample
  simp only []
  split_ifs <;> rfl

theorem assureDevice_optimizedFreq (cfg : Config) (prm : Params) (p : ℚ) (s : State)
    (d : DeviceState) (t : Telemetry) :
    (assureDevice cfg prm p s d t).optimizedFreq = d.optimizedFreq := by
  unfold assureDevice
  rw [recordSample_optimizedFreq, ringUpdate_optimizedFreq]

theorem completeAll_admissible (m : Machine) (cfg : Config) (p : ℚ) (n : Nat)
    (st : (Nat → DeviceState) × Scratch) (h : ∀ i, Admissible m (st.1 i).optimizedFreq) (i : Nat) :
    Admissible m
      ((completeAll cfg (params m) (availableFreqs m) p n st).1 i).optimizedFreq := by
  induction n generalizing i with
  | zero => exact h i
  | succ n ih =>
    unfold completeAll
    simp only []
    by_cases hi : i = n
    · subst hi
      rw [Function.update_same]
      exact arbiter_admissible m cfg _ _ _ _
    · rw [Function.update_noteq hi]
      exact ih i

theorem gateUpdate_devices (cfg : Config) (prm : Params) (dc a : Nat) (s : State) :
    (gateUpdate cfg prm dc a s).devices = s.devices := by
  unfold gateUpdate
  simp only []
  split_ifs <;> rfl

theorem sampleAll_admissible (m : Machine) (cfg : Config) (p : ℚ) (dc : Nat) (s : State)
    (inp : TickInput) (h : ∀ i, Admissible m (s.devices i).optimizedFreq) (i : Nat) :
    Admissible m ((sampleAll cfg (params m) p dc s inp).devices i).optimizedFreq := by
  unfold sampleAll
  simp only []
  split_ifs
  · rw [assureDevice_optimizedFreq]
    exact h i
  · exact h i

theorem completeStage_admissible (m : Machine) (cfg : Config) (p : ℚ) (dc : Nat) (s : State)
    (h : ∀ i, Admissible m (s.devices i).optimizedFreq) (i : Nat) :
    Admissible m
      ((completeStage cfg (params m) (availableFreqs m) p dc s).devices i).optimizedFreq := by
  unfold completeStage
  split_ifs
  · exact completeAll_admissible m cfg p dc _ h i
  · exact h i

theorem tick_admissible (m : Machine) (cfg : Config) (mode : Bool) (p : ℚ) (dc : Nat) (s : State)
    (inp : TickInput) (h : ∀ i, Admissible m (s.devices i).optimizedFreq) (i : Nat) :
    Admissible m
      ((tick cfg (params m) (availableFreqs m) mode p dc s inp).devices i).optimizedFreq := by
  unfold tick
  cases mode
  · exact sampleAll_admissible m cfg p dc s inp h i
  · simp only [if_true]
    rw [gateUpdate_devices]
    exact completeStage_admissible m cfg p dc _ (sampleAll_admissible m cfg p dc s inp h) i

theorem run_admissible (m : Machine) (cfg : Config) (mode : Bool) (p : ℚ) (dc : Nat)
    (cap0 : Nat → ℚ) (inp : Nat → TickInput) (n i : Nat) :
    Admissible m
      ((run cfg (params m) (availableFreqs m) mode p dc (initState cfg (params m) cap0) inp
        n).devices i).optimizedFreq := by
  induction n generalizing i with
  | zero => exact maxFreq_admissible m
  | succ n ih => exact tick_admissible m cfg mode p dc _ _ ih i

/-- C2 (floor and ceiling).  On each shipped profile the arbiter returns a
frequency between `minSetFreq` and `maxFreq` for every `freqBound`, `freqCap`,
`freqEff` and every previous value, and in every state a run reaches from the
initial state (any number of ticks, any readings and durations, any number of
devices) every device's operating frequency lies between `minSetFreq` and
`maxFreq`. -/
theorem C2_floor_ceiling (m : Machine) (cfg : Config) :
    (∀ (freqBound freqCap freqEff : ℚ) (cur : Int),
        (params m).minSetFreq
            ≤ arbiter cfg (params m) (availableFreqs m) freqBound freqCap freqEff cur
          ∧ arbiter cfg (params m) (availableFreqs m) freqBound freqCap freqEff cur
            ≤ (params m).maxFreq)
      ∧ ∀ (modeIsMod : Bool) (perfThres : ℚ) (device_count : Nat) (cap0 : Nat → ℚ)
          (inp : Nat → TickInput) (n i : Nat),
          (params m).minSetFreq
              ≤ ((run cfg (params m) (availableFreqs m) modeIsMod perfThres device_count
                  (initState cfg (params m) cap0) inp n).devices i).optimizedFreq
            ∧ ((run cfg (params m) (availableFreqs m) modeIsMod perfThres device_count
                  (initState cfg (params m) cap0) inp n).devices i).optimizedFreq
              ≤ (params m).maxFreq :=
  ⟨fun fb cap fe cur => arbiter_range m cfg fb cap fe cur,
    fun mode p dc cap0 inp n i => (run_admissible m cfg mode p dc cap0 inp n i).2⟩

/-! ## The commanded frequency -/

set_option maxRecDepth 100000 in
theorem probFreqs_in_formula (m : Machine) :
    ∀ j, j < 4 → ∃ k, k < (params m).numAvailableFreqs
      ∧ freqFormula m k = (params m).probFreqs j := by
  cases m <;> decide

theorem probFreqs_admissible (m : Machine) (j : Nat) (hj : j < 4) :
    Admissible m ((params m).probFreqs j) := by
  obtain ⟨k, hk, he⟩ := probFreqs_in_formula m j hj
  exact ⟨⟨k, hk, by rw [availableFreqs_eq m k hk, he]⟩, probFreqs_range m j hj⟩

theorem numProbFreq_eq (m : Machine) : (params m).numProbFreq = 4 := by
  cases m <;> rfl

theorem probeFreq_admissible (m : Machine) (iprob : Nat) :
    Admissible m (probeFreq (params m) iprob) := by
  unfold probeFreq
  simp only [numProbFreq_eq]
  split_ifs with h
  · exact probFreqs_admissible m _ h
  · exact probFreqs_admissible m _ (by omega)

theorem command_admissible (m : Machine) (cfg : Config) (probPhase : Int) (x : Int)
    (hx : Admissible m x) : Admissible m (command cfg (params m) probPhase x).setFreq := by
  unfold command
  simp only []
  split_ifs
  · exact probeFreq_admissible m _
  · exact probeFreq_admissible m _
  · exact hx

/-- C3 (applied frequencies).  Under the Assure policy, on each shipped profile,
the frequency `setFreq` chosen for any device on any tick of any run (any
readings and durations, any number of devices, in a burst or outside it) is an
entry of the supported list and lies between `minSetFreq` and `maxFreq`. -/
theorem C3_commanded_supported (m : Machine) (cfg : Config) (modeIsMod : Bool) (perfThres : ℚ)
    (device_count : Nat) (cap0 : Nat → ℚ) (inp : Nat → TickInput) (n i : Nat) :
    (∃ k, k < (params m).numAvailableFreqs
        ∧ availableFreqs m k
          = (commands cfg (params m)
              (run cfg (params m) (availableFreqs m) modeIsMod perfThres device_count
                (initState cfg (params m) cap0) inp n) i).setFreq)
      ∧ (params m).minSetFreq
          ≤ (commands cfg (params m)
              (run cfg (params m) (availableFreqs m) modeIsMod perfThres device_count
                (initState cfg (params m) cap0) inp n) i).setFreq
      ∧ (commands cfg (params m)
              (run cfg (params m) (availableFreqs m) modeIsMod perfThres device_count
                (initState cfg (params m) cap0) inp n) i).setFreq
          ≤ (params m).maxFreq := by
  unfold commands
  exact command_admissible m cfg _ _ (run_admissible m cfg modeIsMod perfThres device_count cap0
    inp n i)

/-! ## The scheduler -/

theorem sampleAll_probPhase (cfg : Config) (prm : Params) (p : ℚ) (dc : Nat) (s : State)
    (inp : TickInput) : (sampleAll cfg prm p dc s inp).probPhase = s.probPhase := rfl

theorem sampleAll_accumuTime (cfg : Config) (prm : Params) (p : ℚ) (dc : Nat) (s : State)
    (inp : TickInput) : (sampleAll cfg prm p dc s inp).accumuTime = s.accumuTime := rfl

theorem completeStage_probPhase (cfg : Config) (prm : Params) (F : Nat → Int) (p : ℚ) (dc : Nat)
    (s : State) : (completeStage cfg prm F p dc s).probPhase = s.probPhase := by
  unfold completeStage
  split_ifs <;> rfl

theorem completeStage_accumuTime (cfg : Config) (prm : Params) (F : Nat → Int) (p : ℚ) (dc : Nat)
    (s : State) : (completeStage cfg prm F p dc s).accumuTime = s.accumuTime := by
  unfold completeStage
  split_ifs <;> rfl

/-- With a positive probe interval, a scheduler update from a state with
`accumuTime = 0` and `probPhase > -1` decrements `probPhase` and keeps
`accumuTime` at 0. -/
theorem gateUpdate_in_burst (cfg : Config) (prm : Params) (dc a : Nat) (s : State)
    (hd : 0 < cfg.probDelay) (hacc : s.accumuTime = 0) (hp : s.probPhase > -1) :
    (gateUpdate cfg prm dc a s).probPhase = s.probPhase - 1
      ∧ (gateUpdate cfg prm dc a s).accumuTime = 0 := by
  unfold gateUpdate
  have hno : ¬ ((s.accumuTime : ℚ) ≥ cfg.probDelay * 1000000) := by
    rw [hacc]
    push_neg
    have : (0 : ℚ) < cfg.probDelay * 1000000 := by positivity
    simpa using this
  have h99 : s.probPhase > -99 := by omega
  simp [hno, hp, h99]

theorem tick_in_burst (cfg : Config) (prm : Params) (F : Nat → Int) (p : ℚ) (dc : Nat)
    (s : State) (inp : TickInput) (hd : 0 < cfg.probDelay) (hacc : s.accumuTime = 0)
    (hp : s.probPhase > -1) :
    (tick cfg prm F true p dc s inp).probPhase = s.probPhase - 1
      ∧ (tick cfg prm F true p dc s inp).accumuTime = 0 := by
  unfold tick
  simp only [if_true]
  have h := gateUpdate_in_burst cfg prm dc (addTimeOf cfg inp.duration)
    (completeStage cfg prm F p dc (sampleAll cfg prm p dc s inp)) hd
    (by rw [completeStage_accumuTime, sampleAll_accumuTime, hacc])
    (by rw [completeStage_probPhase, sampleAll_probPhase]; exact hp)
  rw [completeStage_probPhase, sampleAll_probPhase] at h
  exact h

/-- From a burst start (`accumuTime = 0`, `probPhase ≥ 0`) the scheduler counts
down one per tick as long as the counter has not passed `-1`. -/
theorem run_in_burst (cfg : Config) (prm : Params) (F : Nat → Int) (p : ℚ) (dc : Nat)
    (s : State) (inp : Nat → TickInput) (hd : 0 < cfg.probDelay) (hacc : s.accumuTime = 0)
    (t : Nat) (ht : (t : Int) ≤ s.probPhase + 1) :
    (run cfg prm F true p dc s inp t).probPhase = s.probPhase - t
      ∧ (run cfg prm F true p dc s inp t).accumuTime = 0 := by
  induction t with
  | zero => exact ⟨by simp [run], hacc⟩
  | succ t ih =>
    have ih1 := ih (by push_cast at ht; omega)
    have h := tick_in_burst cfg prm F p dc (run cfg prm F true p dc s inp t) (inp t) hd ih1.2
      (by rw [ih1.1]; push_cast at ht; omega)
    unfold run
    refine ⟨?_, h.2⟩
    rw [h.1, ih1.1]
    push_cast
    ring

theorem command_in_burst (cfg : Config) (prm : Params) (probPhase x : Int) (t : Nat)
    (ht : t < numProbRec cfg prm) (hp : probPhase = (numProbRec cfg prm : Int) - t) :
    (command cfg prm probPhase x).setFreq
      = if t % (2 * prm.numProbFreq) < prm.numProbFreq then prm.probFreqs (t % (2 * prm.numProbFreq))
        else prm.probFreqs (2 * prm.numProbFreq - 1 - t % (2 * prm.numProbFreq)) := by
  have hpos : probPhase > 0 := by omega
  have hidx : ((numProbRec cfg prm : Int) - probPhase).toNat = t := by omega
  unfold command
  simp only [hpos, if_true, hidx]
  rfl

theorem numProbRec_default (m : Machine) : numProbRec defaultConfig (params m) = 8 := by
  cases m <;> rfl

/-- The eight commands of a burst on a shipped profile with the source's
constants, from any state at a burst start. -/
theorem burst_commands (m : Machine) (F : Nat → Int) (p : ℚ) (dc : Nat) (s : State)
    (inp : Nat → TickInput) (i : Nat) (hp : s.probPhase = 8) (hacc : s.accumuTime = 0) :
    (List.range 8).map (fun t =>
        (commands defaultConfig (params m) (run defaultConfig (params m) F true p dc s inp t)
          i).setFreq)
      = [(params m).probFreqs 0, (params m).probFreqs 1, (params m).probFreqs 2,
          (params m).probFreqs 3, (params m).probFreqs 3, (params m).probFreqs 2,
          (params m).probFreqs 1, (params m).probFreqs 0] := by
  have hd : 0 < defaultConfig.probDelay := by norm_num [defaultConfig]
  have key : ∀ t, t < 8 →
      (commands defaultConfig (params m) (run defaultConfig (params m) F true p dc s inp t)
        i).setFreq
        = if t % (2 * (params m).numProbFreq) < (params m).numProbFreq
            then (params m).probFreqs (t % (2 * (params m).numProbFreq))
          else (params m).probFreqs
            (2 * (params m).numProbFreq - 1 - t % (2 * (params m).numProbFreq)) := by
    intro t ht
    have h := run_in_burst defaultConfig (params m) F p dc s inp hd hacc t (by rw [hp]; omega)
    unfold commands
    apply command_in_burst
    · rw [numProbRec_default]
      exact ht
    · rw [h.1, hp, numProbRec_default]
      norm_num
  simp only [List.range_succ, List.range_zero, List.map_append, List.map_cons, List.map_nil,
    List.nil_append, List.cons_append]
  rw [key 0 (by norm_num), key 1 (by norm_num), key 2 (by norm_num), key 3 (by norm_num),
    key 4 (by norm_num), key 5 (by norm_num), key 6 (by norm_num), key 7 (by norm_num)]
  simp [numProbFreq_eq]

/-- C6 (probe pattern).  In a burst the commanded frequency depends on the probe
list and the burst tick only: in any state with `probPhase = numProbRec - t`,
`t < numProbRec`, every device is commanded `probFreqs[t mod 2k]` when
`t mod 2k < k` and `probFreqs[2k-1-(t mod 2k)]` otherwise.  With `k = 4` and two
repetitions (each shipped profile, the source's constants) the eight commands
of the ticks that follow a burst start are `P[0], P[1], P[2], P[3], P[3],
P[2], P[1], P[0]`; the initial state is such a burst start. -/
theorem C6_probe_pattern :
    (∀ (cfg : Config) (prm : Params) (s : State) (i t : Nat),
        t < numProbRec cfg prm → s.probPhase = (numProbRec cfg prm : Int) - t →
        (commands cfg prm s i).setFreq
          = if t % (2 * prm.numProbFreq) < prm.numProbFreq
              then prm.probFreqs (t % (2 * prm.numProbFreq))
            else prm.probFreqs (2 * prm.numProbFreq - 1 - t % (2 * prm.numProbFreq)))
      ∧ (∀ (m : Machine) (F : Nat → Int) (perfThres : ℚ) (device_count : Nat) (s : State)
          (inp : Nat → TickInput) (i : Nat),
          s.probPhase = 8 → s.accumuTime = 0 →
          (List.range 8).map (fun t =>
              (commands defaultConfig (params m)
                (run defaultConfig (params m) F true perfThres device_count s inp t) i).setFreq)
            = [(params m).probFreqs 0, (params m).probFreqs 1, (params m).probFreqs 2,
                (params m).probFreqs 3, (params m).probFreqs 3, (params m).probFreqs 2,
                (params m).probFreqs 1, (params m).probFreqs 0])
      ∧ ∀ (m : Machine) (perfThres : ℚ) (device_count : Nat) (cap0 : Nat → ℚ)
          (inp : Nat → TickInput) (i : Nat),
          (List.range 8).map (fun t =>
              (commands defaultConfig (params m)
                (run defaultConfig (params m) (availableFreqs m) true perfThres device_count
                  (initState defaultConfig (params m) cap0) inp t) i).setFreq)
            = [(params m).probFreqs 0, (params m).probFreqs 1, (params m).probFreqs 2,
                (params m).probFreqs 3, (params m).probFreqs 3, (params m).probFreqs 2,
                (params m).probFreqs 1, (params m).probFreqs 0] := by
  refine ⟨?_, ?_, ?_⟩
  · intro cfg prm s i t ht hp
    exact command_in_burst cfg prm _ _ t ht hp
  · intro m F p dc s inp i hp hacc
    exact burst_commands m F p dc s inp i hp hacc
  · intro m p dc cap0 inp i
    apply burst_commands
    · show ((numProbRec defaultConfig (params m) : Nat) : Int) = 8
      rw [numProbRec_default]
      rfl
    · rfl

theorem sumGutil_zero (devices : Nat → DeviceState) (n : Nat)
    (h : ∀ i, i < n → (devices i).gutil_moving_avg = 0) : sumGutil devices n = 0 := by
  induction n with
  | zero => rfl
  | succ n ih =>
    unfold sumGutil
    rw [ih (fun i hi => h i (by omega)), h n (by omega)]
    norm_num

theorem gateUpdate_fire (cfg : Config) (prm : Params) (dc a : Nat) (s : State)
    (hfire : (s.accumuTime : ℚ) ≥ cfg.probDelay * 1000000) :
    (gateUpdate cfg prm dc a s).probPhase
        = (if sumGutil s.devices dc ≥ 1 then (numProbRec cfg prm : Int) else -2)
      ∧ (gateUpdate cfg prm dc a s).accumuTime = 0 := by
  unfold gateUpdate
  simp only [hfire, if_true]
  split_ifs <;> exact ⟨rfl, rfl⟩

/-! ## The moving window -/

theorem wrapInt_small (n : Nat) (h : n < 2 ^ 31) : wrapInt n = (n : Int) := by
  unfold wrapInt
  have h1 : n % 2 ^ 32 = n := Nat.mod_eq_of_lt (by omega)
  rw [h1, if_pos h]

theorem recordSample_ring (cfg : Config) (prm : Params) (p : ℚ) (l : Int) (d : DeviceState)
    (t : Telemetry) :
    (recordSample cfg prm p l d t).gpuUtils = d.gpuUtils
      ∧ (recordSample cfg prm p l d t).gutil_moving_avg = d.gutil_moving_avg := by
  unfold recordSample
  simp only []
  split_ifs <;> exact ⟨rfl, rfl⟩

theorem completeAll_ring (cfg : Config) (prm : Params) (F : Nat → Int) (p : ℚ) (n : Nat)
    (st : (Nat → DeviceState) × Scratch) (i : Nat) :
    ((completeAll cfg prm F p n st).1 i).gpuUtils = (st.1 i).gpuUtils
      ∧ ((completeAll cfg prm F p n st).1 i).gutil_moving_avg = (st.1 i).gutil_moving_avg := by
  induction n with
  | zero => exact ⟨rfl, rfl⟩
  | succ n ih =>
    unfold completeAll
    simp only []
    by_cases hi : i = n
    · subst hi
      rw [Function.update_same]
      exact ih
    · rw [Function.update_noteq hi]
      exact ih

theorem completeStage_ring (cfg : Config) (prm : Params) (F : Nat → Int) (p : ℚ) (dc : Nat)
    (s : State) (i : Nat) :
    ((completeStage cfg prm F p dc s).devices i).gpuUtils = (s.devices i).gpuUtils
      ∧ ((completeStage cfg prm F p dc s).devices i).gutil_moving_avg
          = (s.devices i).gutil_moving_avg
      ∧ (completeStage cfg prm F p dc s).idx_oldest = s.idx_oldest := by
  unfold completeStage
  split_ifs
  · exact ⟨(completeAll_ring cfg prm F p dc _ i).1, (completeAll_ring cfg prm F p dc _ i).2, rfl⟩
  · exact ⟨rfl, rfl, rfl⟩

theorem gateUpdate_idx_oldest (cfg : Config) (prm : Params) (dc a : Nat) (s : State) :
    (gateUpdate cfg prm dc a s).idx_oldest = s.idx_oldest := by
  unfold gateUpdate
  simp only []
  split_ifs <;> rfl

/-- What one tick does to the moving window of a device `i < device_count`. -/
theorem tick_ring (cfg : Config) (prm : Params) (F : Nat → Int) (mode : Bool) (p : ℚ) (dc : Nat)
    (s : State) (inp : TickInput) (i : Nat) (hi : i < dc) :
    ((tick cfg prm F mode p dc s inp).devices i).gpuUtils
        = Function.update (s.devices i).gpuUtils s.idx_oldest (wrapInt (inp.tel i).gpu)
      ∧ ((tick cfg prm F mode p dc s inp).devices i).gutil_moving_avg
        = (s.devices i).gutil_moving_avg
            - (((s.devices i).gpuUtils s.idx_oldest : Int) : ℚ) / (cfg.movingAvg_windowSize : ℚ)
            + ((inp.tel i).gpu : ℚ) / (cfg.movingAvg_windowSize : ℚ)
      ∧ (tick cfg prm F mode p dc s inp).idx_oldest = advanceIdx cfg s.idx_oldest := by
  have hs : ((sampleAll cfg prm p dc s inp).devices i).gpuUtils
        = Function.update (s.devices i).gpuUtils s.idx_oldest (wrapInt (inp.tel i).gpu)
      ∧ ((sampleAll cfg prm p dc s inp).devices i).gutil_moving_avg
        = (s.devices i).gutil_moving_avg
            - (((s.devices i).gpuUtils s.idx_oldest : Int) : ℚ) / (cfg.movingAvg_windowSize : ℚ)
            + ((inp.tel i).gpu : ℚ) / (cfg.movingAvg_windowSize : ℚ)
      ∧ (sampleAll cfg prm p dc s inp).idx_oldest = advanceIdx cfg s.idx_oldest := by
    unfold sampleAll
    simp only [hi, if_true]
    unfold assureDevice
    refine ⟨?_, ?_, ?_⟩
    · rw [(recordSample_ring cfg prm p _ _ _).1]
      rfl
    · rw [(recordSample_ring cfg prm p _ _ _).2]
      rfl
    · rw [if_pos (by omega)]
  unfold tick
  cases mode
  · exact hs
  · simp only [if_true]
    rw [gateUpdate_devices, gateUpdate_idx_oldest]
    have hc := completeStage_ring cfg prm F p dc (sampleAll cfg prm p dc s inp) i
    rw [hc.1, hc.2.1, hc.2.2]
    exact hs

theorem advanceIdx_mod (cfg : Config) (n : Nat) (hW : 0 < cfg.movingAvg_windowSize) :
    advanceIdx cfg (n % cfg.movingAvg_windowSize) = (n + 1) % cfg.movingAvg_windowSize := by
  have hlt := Nat.mod_lt n hW
  have hr : (n + 1) % cfg.movingAvg_windowSize
      = (n % cfg.movingAvg_windowSize + 1) % cfg.movingAvg_windowSize := by
    rw [Nat.add_mod n 1, Nat.add_mod (n % cfg.movingAvg_windowSize) 1, Nat.mod_mod]
  rw [hr]
  unfold advanceIdx
  split_ifs with h
  · exact (Nat.mod_eq_of_lt (by omega)).symm
  · have h2 : n % cfg.movingAvg_windowSize + 1 = cfg.movingAvg_windowSize := by omega
    rw [h2, Nat.mod_self]

theorem sum_window_update (g : Nat → Int) (k : Nat) (v : Int) (W : Nat) (hk : k < W) :
    ∑ j in Finset.range W, ((Function.update g k v j : Int) : ℚ)
      = ∑ j in Finset.range W, ((g j : Int) : ℚ) - ((g k : Int) : ℚ) + ((v : Int) : ℚ) := by
  induction W with
  | zero => omega
  | succ W ih =>
    rw [Finset.sum_range_succ, Finset.sum_range_succ]
    by_cases h : k = W
    · subst h
      rw [Function.update_same]
      have : ∑ j in Finset.range k, ((Function.update g k v j : Int) : ℚ)
          = ∑ j in Finset.range k, ((g j : Int) : ℚ) := by
        apply Finset.sum_congr rfl
        intro j hj
        rw [Function.update_noteq (by have := Finset.mem_range.mp hj; omega)]
      rw [this]
      ring
    · rw [ih (by omega), Function.update_noteq (Ne.symm h)]
      ring

theorem mod_ne_of_close (t n W : Nat) (h1 : t < n) (h2 : n < t + W) : t % W ≠ n % W := by
  intro h
  have hd : W ∣ n - t := (Nat.modEq_iff_dvd' (le_of_lt h1)).mp h
  have := Nat.le_of_dvd (by omega) hd
  omega

/-- The invariant of the moving window of device `i` after `n` ticks of a run
from the initial state, for samples below `2^31`. -/
theorem ring_invariant (cfg : Config) (prm : Params) (F : Nat → Int) (mode : Bool) (p : ℚ)
    (dc : Nat) (cap0 : Nat → ℚ) (inp : Nat → TickInput) (i : Nat) (hi : i < dc)
    (hW : 0 < cfg.movingAvg_windowSize) (n : Nat)
    (hu : ∀ t, t < n → ((inp t).tel i).gpu < 2 ^ 31) :
    (run cfg prm F mode p dc (initState cfg prm cap0) inp n).idx_oldest
        = n % cfg.movingAvg_windowSize
      ∧ (∀ t, t < n → n ≤ t + cfg.movingAvg_windowSize →
          ((run cfg prm F mode p dc (initState cfg prm cap0) inp n).devices i).gpuUtils
            (t % cfg.movingAvg_windowSize) = (((inp t).tel i).gpu : Int))
      ∧ (∀ j, n ≤ j →
          ((run cfg prm F mode p dc (initState cfg prm cap0) inp n).devices i).gpuUtils j = 0)
      ∧ ((run cfg prm F mode p dc (initState cfg prm cap0) inp n).devices i).gutil_moving_avg
          = (∑ t in Finset.range n, (((inp t).tel i).gpu : ℚ)
              - ∑ t in Finset.range (n - cfg.movingAvg_windowSize), (((inp t).tel i).gpu : ℚ))
            / (cfg.movingAvg_windowSize : ℚ)
      ∧ ((run cfg prm F mode p dc (initState cfg prm cap0) inp n).devices i).gutil_moving_avg
          = (∑ j in Finset.range cfg.movingAvg_windowSize,
              ((((run cfg prm F mode p dc (initState cfg prm cap0) inp n).devices i).gpuUtils j
                : Int) : ℚ)) / (cfg.movingAvg_windowSize : ℚ) := by
  induction n with
  | zero =>
    refine ⟨by simp [run, initState], ?_, ?_, ?_, ?_⟩
    · intro t ht
      omega
    · intro j _
      rfl
    · simp [run, initState]
    · simp [run, initState]
  | succ n ih =>
    obtain ⟨ha, hb, hc, hd, he⟩ := ih (fun t ht => hu t (by omega))
    have hWq : (cfg.movingAvg_windowSize : ℚ) ≠ 0 := by
      have : (0 : ℚ) < (cfg.movingAvg_windowSize : ℚ) := by exact_mod_cast hW
      exact ne_of_gt this
    have hlt := Nat.mod_lt n hW
    have htick := tick_ring cfg prm F mode p dc
      (run cfg prm F mode p dc (initState cfg prm cap0) inp n) (inp n) i hi
    rw [ha, wrapInt_small _ (hu n (by omega))] at htick
    obtain ⟨hg, havg, hidx⟩ := htick
    have hrun : run cfg prm F mode p dc (initState cfg prm cap0) inp (n + 1)
        = tick cfg prm F mode p dc (run cfg prm F mode p dc (initState cfg prm cap0) inp n)
            (inp n) := rfl
    rw [hrun]
    have hold : (((run cfg prm F mode p dc (initState cfg prm cap0) inp n).devices i).gpuUtils
        (n % cfg.movingAvg_windowSize) : Int)
          = if cfg.movingAvg_windowSize ≤ n
              then (((inp (n - cfg.movingAvg_windowSize)).tel i).gpu : Int) else 0 := by
      split_ifs with hc1
      · have hm : (n - cfg.movingAvg_windowSize) % cfg.movingAvg_windowSize
            = n % cfg.movingAvg_windowSize := by
          conv_rhs => rw [← Nat.sub_add_cancel hc1]
          rw [Nat.add_mod_right]
        rw [← hm]
        exact hb _ (by omega) (by omega)
      · exact hc _ (by rw [Nat.mod_eq_of_lt (by omega)])
    refine ⟨?_, ?_, ?_, ?_, ?_⟩
    · rw [hidx, advanceIdx_mod cfg n hW]
    · intro t ht hle
      rw [hg]
      by_cases htn : t = n
      · subst htn
        rw [Function.update_same]
      · rw [Function.update_noteq (mod_ne_of_close t n _ (by omega) (by omega))]
        exact hb t (by omega) (by omega)
    · intro j hj
      rw [hg, Function.update_noteq]
      · exact hc j (by omega)
      · have := Nat.mod_le n cfg.movingAvg_windowSize
        omega
    · rw [havg, hold, hd, Finset.sum_range_succ]
      by_cases hc1 : cfg.movingAvg_windowSize ≤ n
      · have hs : n + 1 - cfg.movingAvg_windowSize = (n - cfg.movingAvg_windowSize) + 1 := by
          omega
        rw [if_pos hc1, hs, Finset.sum_range_succ]
        push_cast
        field_simp
        ring
      · have hs : n + 1 - cfg.movingAvg_windowSize = 0 := by omega
        have hs0 : n - cfg.movingAvg_windowSize = 0 := by omega
        rw [if_neg hc1, hs, hs0]
        simp
        field_simp
    · rw [havg, hg, sum_window_update _ _ _ _ hlt, he]
      push_cast
      field_simp

/-- C8 (ring-window mean).  In a run from the initial (all-zero) window, for
every device `i < device_count`, every window size `W ≥ 1` and every number `n`
of ticks whose samples fit an `int`: the shared cursor `idx_oldest` is
`n mod W` (one advance per tick), and `gutil_moving_avg[i]` equals the sum of
the last `min(n, W)` samples of the device divided by `W`, which is the
arithmetic mean of the `W` entries of the window `gpuUtils[i]`. -/
theorem C8_ring_mean (cfg : Config) (prm : Params) (F : Nat → Int) (modeIsMod : Bool)
    (perfThres : ℚ) (device_count : Nat) (cap0 : Nat → ℚ) (inp : Nat → TickInput) (i n : Nat)
    (hi : i < device_count) (hW : 0 < cfg.movingAvg_windowSize)
    (hu : ∀ t, t < n → ((inp t).tel i).gpu < 2 ^ 31) :
    (run cfg prm F modeIsMod perfThres device_count (initState cfg prm cap0) inp n).idx_oldest
        = n % cfg.movingAvg_windowSize
      ∧ ((run cfg prm F modeIsMod perfThres device_count (initState cfg prm cap0) inp
            n).devices i).gutil_moving_avg
          = (∑ t in Finset.Ico (n - min n cfg.movingAvg_windowSize) n,
              (((inp t).tel i).gpu : ℚ)) / (cfg.movingAvg_windowSize : ℚ)
      ∧ ((run cfg prm F modeIsMod perfThres device_count (initState cfg prm cap0) inp
            n).devices i).gutil_moving_avg
          = (∑ j in Finset.range cfg.movingAvg_windowSize,
              ((((run cfg prm F modeIsMod perfThres device_count (initState cfg prm cap0) inp
                n).devices i).gpuUtils j : Int) : ℚ)) / (cfg.movingAvg_windowSize : ℚ) := by
  obtain ⟨ha, _, _, hd, he⟩ :=
    ring_invariant cfg prm F modeIsMod perfThres device_count cap0 inp i hi hW n hu
  refine ⟨ha, ?_, he⟩
  rw [hd]
  have hsub : n - min n cfg.movingAvg_windowSize = n - cfg.movingAvg_windowSize := by
    rcases le_total n cfg.movingAvg_windowSize with h | h
    · rw [min_eq_left h]
      omega
    · rw [min_eq_right h]
  rw [hsub, Finset.sum_Ico_eq_sub _ (Nat.sub_le n cfg.movingAvg_windowSize)]

/-- C8 at a concrete input: profile `v100-300w`, the source's constants, one
device reading 50 % on each of 20 ticks. -/
theorem C8_ring_mean_witness :
    (0 < 1) ∧ (0 < defaultConfig.movingAvg_windowSize)
      ∧ (∀ t, t < 20 → (((fun _ => ⟨fun _ => ⟨50, 7, 1530, 150000⟩, 200000⟩ : Nat → TickInput)
          t).tel 0).gpu < 2 ^ 31)
      ∧ (run defaultConfig (params Machine.v100_300w) (availableFreqs Machine.v100_300w) true
          (9 / 10) 1 (initState defaultConfig (params Machine.v100_300w) (fun _ => 0))
          (fun _ => ⟨fun _ => ⟨50, 7, 1530, 150000⟩, 200000⟩) 20).idx_oldest
        = 20 % defaultConfig.movingAvg_windowSize :=
  ⟨by norm_num, by norm_num [defaultConfig], fun _ _ => by norm_num,
    (C8_ring_mean defaultConfig (params Machine.v100_300w) (availableFreqs Machine.v100_300w)
      true (9 / 10) 1 (fun _ => 0) (fun _ => ⟨fun _ => ⟨50, 7, 1530, 150000⟩, 200000⟩) 0 20
      (by norm_num) (by norm_num [defaultConfig]) (fun _ _ => by norm_num)).1⟩

/-! ## Ordinary least squares -/

theorem sum_sq_affine (X Y : Nat → ℚ) (k c : ℚ) (n : Nat) :
    ∑ i in Finset.range n, (k * X i + c) ^ 2
      = k * k * (lrSums X Y n).sumxsq + 2 * k * c * (lrSums X Y n).sumx + (n : ℚ) * c * c := by
  induction n with
  | zero => simp [lrSums]
  | succ n ih =>
    rw [Finset.sum_range_succ, ih]
    simp only [lrSums]
    push_cast
    ring

theorem sum_sq_residual (X Y : Nat → ℚ) (a b : ℚ) (n : Nat) :
    ∑ i in Finset.range n, (a * X i + b - Y i) ^ 2
      = (lrSums X Y n).sumysq + a * a * (lrSums X Y n).sumxsq + (n : ℚ) * b * b
        - 2 * a * (lrSums X Y n).sumxy - 2 * b * (lrSums X Y n).sumy
        + 2 * a * b * (lrSums X Y n).sumx := by
  induction n with
  | zero => simp [lrSums]
  | succ n ih =>
    rw [Finset.sum_range_succ, ih]
    simp only [lrSums]
    push_cast
    ring

/-- The denominator is positive as soon as two abscissae differ. -/
theorem lrDiv_pos (num : Nat) (X Y : Nat → ℚ)
    (hX : ∃ i j, i < num ∧ j < num ∧ X i ≠ X j) : 0 < lrDiv num X Y := by
  obtain ⟨i, j, hi, hj, hne⟩ := hX
  have hn : (0 : ℚ) < (num : ℚ) := by
    have : 0 < num := by omega
    exact_mod_cast this
  have hid : (num : ℚ) * lrDiv num X Y
      = ∑ t in Finset.range num, ((num : ℚ) * X t + -(lrSums X Y num).sumx) ^ 2 := by
    rw [sum_sq_affine X Y]
    unfold lrDiv
    ring
  have hnonneg : 0 ≤ (num : ℚ) * lrDiv num X Y := by
    rw [hid]
    exact Finset.sum_nonneg (fun t _ => sq_nonneg _)
  have hge : 0 ≤ lrDiv num X Y := by
    by_contra hneg
    have : (num : ℚ) * lrDiv num X Y < 0 := mul_neg_of_pos_of_neg hn (not_le.mp hneg)
    linarith
  rcases lt_or_eq_of_le hge with h | h
  · exact h
  · exfalso
    have hz : ∑ t in Finset.range num, ((num : ℚ) * X t + -(lrSums X Y num).sumx) ^ 2 = 0 := by
      rw [← hid, ← h]
      ring
    have hall := (Finset.sum_eq_zero_iff_of_nonneg (fun t _ => sq_nonneg _)).mp hz
    have h1 := hall i (Finset.mem_range.mpr hi)
    have h2 := hall j (Finset.mem_range.mpr hj)
    have e1 : (num : ℚ) * X i + -(lrSums X Y num).sumx = 0 := by
      exact pow_eq_zero_iff (two_ne_zero) |>.mp h1
    have e2 : (num : ℚ) * X j + -(lrSums X Y num).sumx = 0 := by
      exact pow_eq_zero_iff (two_ne_zero) |>.mp h2
    have e3 : (num : ℚ) * (X i - X j) = 0 := by linarith
    rcases mul_eq_zero.mp e3 with h3 | h3
    · exact absurd h3 (ne_of_gt hn)
    · exact hne (by linarith)

theorem lrSums_affine (X Y : Nat → ℚ) (a b : ℚ) (n : Nat)
    (hY : ∀ i, i < n → Y i = a * X i + b) :
    (lrSums X Y n).sumy = a * (lrSums X Y n).sumx + (n : ℚ) * b
      ∧ (lrSums X Y n).sumxy = a * (lrSums X Y n).sumxsq + b * (lrSums X Y n).sumx
      ∧ (lrSums X Y n).sumysq = a * a * (lrSums X Y n).sumxsq
          + 2 * a * b * (lrSums X Y n).sumx + (n : ℚ) * b * b := by
  induction n with
  | zero => simp [lrSums]
  | succ n ih =>
    obtain ⟨h1, h2, h3⟩ := ih (fun i hi => hY i (by omega))
    simp only [lrSums]
    rw [h1, h2, h3, hY n (by omega)]
    push_cast
    refine ⟨by ring, by ring, by ring⟩

/-- C9 (OLS round trip).  For `num ≥ 2` points whose abscissae are not all
equal and whose ordinates lie on the line `Y = a*X + b`, `linearRegression`
returns slope `a`, intercept `b` and error 0 (exact arithmetic). -/
theorem C9_ols_round_trip (num : Nat) (X Y : Nat → ℚ) (a b : ℚ) (_hnum : 2 ≤ num)
    (hX : ∃ i j, i < num ∧ j < num ∧ X i ≠ X j) (hY : ∀ i, i < num → Y i = a * X i + b) :
    (linearRegression num X Y).slope = a ∧ (linearRegression num X Y).intercept = b
      ∧ (linearRegression num X Y).regErr = 0 := by
  have hd := lrDiv_pos num X Y hX
  have hd0 : lrDiv num X Y ≠ 0 := ne_of_gt hd
  obtain ⟨h1, h2, h3⟩ := lrSums_affine X Y a b num hY
  have hs : (linearRegression num X Y).slope = a := by
    show ((num : ℚ) * (lrSums X Y num).sumxy - (lrSums X Y num).sumx * (lrSums X Y num).sumy)
      / lrDiv num X Y = a
    rw [div_eq_iff hd0, h1, h2]
    unfold lrDiv
    ring
  have hi : (linearRegression num X Y).intercept = b := by
    show ((lrSums X Y num).sumy * (lrSums X Y num).sumxsq
      - (lrSums X Y num).sumx * (lrSums X Y num).sumxy) / lrDiv num X Y = b
    rw [div_eq_iff hd0, h1, h2]
    unfold lrDiv
    ring
  refine ⟨hs, hi, ?_⟩
  have he : (linearRegression num X Y).regErr
      = (lrSums X Y num).sumysq
        + (linearRegression num X Y).slope * (linearRegression num X Y).slope
          * (lrSums X Y num).sumxsq
        + (num : ℚ) * (linearRegression num X Y).intercept * (linearRegression num X Y).intercept
        - 2 * (linearRegression num X Y).slope * (lrSums X Y num).sumxy
        - 2 * (linearRegression num X Y).intercept * (lrSums X Y num).sumy
        + 2 * (linearRegression num X Y).slope * (linearRegression num X Y).intercept
          * (lrSums X Y num).sumx := rfl
  rw [he, hs, hi, h1, h2, h3]
  ring

/-- C9 at a concrete input: the three points `(0,1), (1,3), (2,5)` of the line
`Y = 2*X + 1`. -/
theorem C9_ols_round_trip_witness :
    (2 ≤ 3) ∧ (∃ i j, i < 3 ∧ j < 3 ∧ (fun k : Nat => (k : ℚ)) i ≠ (fun k : Nat => (k : ℚ)) j)
      ∧ (∀ i, i < 3 → (fun k : Nat => 2 * (k : ℚ) + 1) i = 2 * (fun k : Nat => (k : ℚ)) i + 1)
      ∧ ((linearRegression 3 (fun k => (k : ℚ)) (fun k => 2 * (k : ℚ) + 1)).slope = 2
        ∧ (linearRegression 3 (fun k => (k : ℚ)) (fun k => 2 * (k : ℚ) + 1)).intercept = 1
        ∧ (linearRegression 3 (fun k => (k : ℚ)) (fun k => 2 * (k : ℚ) + 1)).regErr = 0) :=
  ⟨by norm_num, ⟨0, 1, by norm_num, by norm_num, by norm_num⟩, fun _ _ => rfl,
    C9_ols_round_trip 3 (fun k => (k : ℚ)) (fun k => 2 * (k : ℚ) + 1) 2 1 (by norm_num)
      ⟨0, 1, by norm_num, by norm_num, by norm_num⟩ (fun _ _ => rfl)⟩

/-- The normal equations of the fit, for a non-zero denominator. -/
theorem linearRegression_normal (num : Nat) (X Y : Nat → ℚ) (hd : lrDiv num X Y ≠ 0) :
    (linearRegression num X Y).slope * (lrSums X Y num).sumxsq
        + (linearRegression num X Y).intercept * (lrSums X Y num).sumx = (lrSums X Y num).sumxy
      ∧ (linearRegression num X Y).slope * (lrSums X Y num).sumx
        + (num : ℚ) * (linearRegression num X Y).intercept = (lrSums X Y num).sumy := by
  have hs : (linearRegression num X Y).slope
      = ((num : ℚ) * (lrSums X Y num).sumxy - (lrSums X Y num).sumx * (lrSums X Y num).sumy)
        / lrDiv num X Y := rfl
  have hi : (linearRegression num X Y).intercept
      = ((lrSums X Y num).sumy * (lrSums X Y num).sumxsq
        - (lrSums X Y num).sumx * (lrSums X Y num).sumxy) / lrDiv num X Y := rfl
  rw [hs, hi]
  constructor
  · field_simp
    unfold lrDiv
    ring
  · field_simp
    unfold lrDiv
    ring

theorem linearRegression_regErr (num : Nat) (X Y : Nat → ℚ) :
    (linearRegression num X Y).regErr
      = ∑ i in Finset.range num,
          ((linearRegression num X Y).slope * X i + (linearRegression num X Y).intercept - Y i) ^ 2
      := by
  rw [sum_sq_residual]
  rfl

/-- C10 (classical OLS).  For abscissae that are not all equal and any
ordinates, the `regErr` that `linearRegression` returns is the residual sum of
squares of the returned line, and no line `(a, b)` has a smaller residual sum
of squares. -/
theorem C10_ols_least_squares (num : Nat) (X Y : Nat → ℚ)
    (hX : ∃ i j, i < num ∧ j < num ∧ X i ≠ X j) :
    (linearRegression num X Y).regErr
        = ∑ i in Finset.range num,
            ((linearRegression num X Y).slope * X i + (linearRegression num X Y).intercept
              - Y i) ^ 2
      ∧ ∀ a b : ℚ,
          (linearRegression num X Y).regErr ≤ ∑ i in Finset.range num, (a * X i + b - Y i) ^ 2 := by
  refine ⟨linearRegression_regErr num X Y, ?_⟩
  intro a b
  obtain ⟨n1, n2⟩ := linearRegression_normal num X Y (ne_of_gt (lrDiv_pos num X Y hX))
  have hq : 0 ≤ ∑ i in Finset.range num,
      ((a - (linearRegression num X Y).slope) * X i
        + (b - (linearRegression num X Y).intercept)) ^ 2 :=
    Finset.sum_nonneg (fun t _ => sq_nonneg _)
  rw [sum_sq_affine X Y] at hq
  rw [linearRegression_regErr, sum_sq_residual, sum_sq_residual]
  generalize (linearRegression num X Y).slope = a0 at n1 n2 hq ⊢
  generalize (linearRegression num X Y).intercept = b0 at n1 n2 hq ⊢
  have key : ((lrSums X Y num).sumysq + a * a * (lrSums X Y num).sumxsq + (num : ℚ) * b * b
        - 2 * a * (lrSums X Y num).sumxy - 2 * b * (lrSums X Y num).sumy
        + 2 * a * b * (lrSums X Y num).sumx)
      - ((lrSums X Y num).sumysq + a0 * a0 * (lrSums X Y num).sumxsq + (num : ℚ) * b0 * b0
        - 2 * a0 * (lrSums X Y num).sumxy - 2 * b0 * (lrSums X Y num).sumy
        + 2 * a0 * b0 * (lrSums X Y num).sumx)
      = (a - a0) * (a - a0) * (lrSums X Y num).sumxsq
        + 2 * (a - a0) * (b - b0) * (lrSums X Y num).sumx + (num : ℚ) * (b - b0) * (b - b0) := by
    linear_combination (2 * (a - a0)) * n1 + (2 * (b - b0)) * n2
  linarith

/-- C10 at a concrete input: the three points `(0,0), (1,1), (2,0)`. -/
theorem C10_ols_least_squares_witness :
    (∃ i j, i < 3 ∧ j < 3 ∧ (fun k : Nat => (k : ℚ)) i ≠ (fun k : Nat => (k : ℚ)) j)
      ∧ ∀ a b : ℚ,
          (linearRegression 3 (fun k => (k : ℚ)) (fun k => if k = 1 then 1 else 0)).regErr
            ≤ ∑ i in Finset.range 3,
                (a * (fun k : Nat => (k : ℚ)) i + b - (fun k : Nat => if k = 1 then (1 : ℚ) else 0) i)
                  ^ 2 :=
  ⟨⟨0, 1, by norm_num, by norm_num, by norm_num⟩,
    (C10_ols_least_squares 3 (fun k => (k : ℚ)) (fun k => if k = 1 then 1 else 0)
      ⟨0, 1, by norm_num, by norm_num, by norm_num⟩).2⟩

/-! ## Monotonicity in the performance floor -/

theorem lrSums_sumy_nonneg (X Y : Nat → ℚ) (n : Nat) (h : ∀ i, i < n → 0 ≤ Y i) :
    0 ≤ (lrSums X Y n).sumy := by
  induction n with
  | zero => simp [lrSums]
  | succ n ih =>
    have h1 := ih (fun i hi => h i (by omega))
    have h2 := h n (by omega)
    simp only [lrSums]
    linarith

theorem lrSums_sumx_le (X Y : Nat → ℚ) (n : Nat) (c : ℚ) (h : ∀ i, i < n → X i ≤ c) :
    (lrSums X Y n).sumx ≤ (n : ℚ) * c := by
  induction n with
  | zero => simp [lrSums]
  | succ n ih =>
    have h1 := ih (fun i hi => h i (by omega))
    have h2 := h n (by omega)
    simp only [lrSums]
    push_cast
    linarith

theorem lrSums_sumx_ge (X Y : Nat → ℚ) (n : Nat) (c : ℚ) (h : ∀ i, i < n → c ≤ X i) :
    (n : ℚ) * c ≤ (lrSums X Y n).sumx := by
  induction n with
  | zero => simp [lrSums]
  | succ n ih =>
    have h1 := ih (fun i hi => h i (by omega))
    have h2 := h n (by omega)
    simp only [lrSums]
    push_cast
    linarith

/-- A fitted line with positive slope is non-negative at any abscissa to the
right of all the points, when the ordinates are non-negative. -/
theorem ols_value_nonneg (num : Nat) (X Y : Nat → ℚ) (c : ℚ)
    (hX : ∃ i j, i < num ∧ j < num ∧ X i ≠ X j) (hY : ∀ i, i < num → 0 ≤ Y i)
    (hc : ∀ i, i < num → X i ≤ c) (hs : 0 < (linearRegression num X Y).slope) :
    0 ≤ (linearRegression num X Y).slope * c + (linearRegression num X Y).intercept := by
  obtain ⟨_, n2⟩ := linearRegression_normal num X Y (ne_of_gt (lrDiv_pos num X Y hX))
  have hn : (0 : ℚ) < (num : ℚ) := by
    obtain ⟨i, _, hi, _, _⟩ := hX
    have : 0 < num := by omega
    exact_mod_cast this
  have h1 := lrSums_sumy_nonneg X Y num hY
  have h2 := lrSums_sumx_le X Y num c hc
  have h3 : 0 ≤ (num : ℚ)
      * ((linearRegression num X Y).slope * c + (linearRegression num X Y).intercept) := by
    have h4 : 0 ≤ (linearRegression num X Y).slope * ((num : ℚ) * c - (lrSums X Y num).sumx) :=
      mul_nonneg (le_of_lt hs) (by linarith)
    nlinarith [h4, n2, h1]
  by_contra hneg
  have : (num : ℚ)
      * ((linearRegression num X Y).slope * c + (linearRegression num X Y).intercept) < 0 :=
    mul_neg_of_pos_of_neg hn (not_le.mp hneg)
  linarith

theorem segSums_eq (X Y : Nat → ℚ) (n : Nat) :
    (segSums X Y n).sum_x = (lrSums X Y n).sumx ∧ (segSums X Y n).sum_y = (lrSums X Y n).sumy := by
  induction n with
  | zero => simp [segSums, lrSums]
  | succ n ih =>
    simp only [segSums, lrSums]
    rw [ih.1, ih.2]
    exact ⟨rfl, rfl⟩

/-- With a zero determinant `foldlineRegression` returns its sentinel. -/
theorem foldline_sentinel (xc : Int) (num1 : Nat) (X1 Y1 : Nat → ℚ) (num2 : Nat)
    (X2 Y2 : Nat → ℚ) (hH : foldDet xc num1 X1 Y1 num2 X2 Y2 = 0) :
    foldlineRegression xc num1 X1 Y1 num2 X2 Y2 = ⟨-1, -2, -3, -4, 12345678⟩ := by
  unfold foldDet at hH
  unfold foldlineRegression
  simp only [] at hH ⊢
  rw [if_pos hH]

/-- With a non-zero determinant the constrained fit is continuous at `xc` and
its residuals sum to zero (the third normal equation). -/
theorem foldline_normal (xc : Int) (num1 : Nat) (X1 Y1 : Nat → ℚ) (num2 : Nat)
    (X2 Y2 : Nat → ℚ) (hH : foldDet xc num1 X1 Y1 num2 X2 Y2 ≠ 0) :
    (foldlineRegression xc num1 X1 Y1 num2 X2 Y2).intercept2
        = (xc : ℚ) * ((foldlineRegression xc num1 X1 Y1 num2 X2 Y2).slope1
            - (foldlineRegression xc num1 X1 Y1 num2 X2 Y2).slope2)
          + (foldlineRegression xc num1 X1 Y1 num2 X2 Y2).intercept1
      ∧ (foldlineRegression xc num1 X1 Y1 num2 X2 Y2).slope1 * (segSums X1 Y1 num1).sum_x
          + (num1 : ℚ) * (foldlineRegression xc num1 X1 Y1 num2 X2 Y2).intercept1
          + (foldlineRegression xc num1 X1 Y1 num2 X2 Y2).slope2 * (segSums X2 Y2 num2).sum_x
          + (num2 : ℚ) * (foldlineRegression xc num1 X1 Y1 num2 X2 Y2).intercept2
        = (segSums X1 Y1 num1).sum_y + (segSums X2 Y2 num2).sum_y := by
  unfold foldDet at hH
  unfold foldlineRegression
  simp only [] at hH ⊢
  rw [if_neg hH]
  refine ⟨rfl, ?_⟩
  simp only []
  generalize (segSums X1 Y1 num1).sum_x = s1x at hH ⊢
  generalize (segSums X1 Y1 num1).sum_y = s1y at hH ⊢
  generalize (segSums X1 Y1 num1).sum_xsq = s1xx at hH ⊢
  generalize (segSums X1 Y1 num1).sum_xy = s1xy at hH ⊢
  generalize (segSums X2 Y2 num2).sum_x = s2x at hH ⊢
  generalize (segSums X2 Y2 num2).sum_y = s2y at hH ⊢
  generalize (segSums X2 Y2 num2).sum_xsq = s2xx at hH ⊢
  generalize (segSums X2 Y2 num2).sum_xy = s2xy at hH ⊢
  push_cast at hH ⊢
  field_simp
  ring

/-- The performance bound is monotone in the performance floor once the
selected model is non-negative where the bound evaluates it. -/
theorem freqPerfBound_mono (prm : Params) (l : Line) (sel : Sel) (p1 p2 : ℚ) (hp : p1 ≤ p2)
    (h0 : sel.turn_Opt = 0 → 0 < l.slope → 0 ≤ l.slope * (prm.maxFreq : ℚ) + l.intercept)
    (h1 : sel.turn_Opt ≠ 0 → sel.slope2_Opt < sel.slope1_Opt)
    (h2 : sel.turn_Opt ≠ 0 → 0 < sel.slope1_Opt → 0 < sel.slope2_Opt →
      0 ≤ sel.slope2_Opt * (prm.maxFreq : ℚ) + sel.intercept2_Opt)
    (h3 : sel.turn_Opt ≠ 0 → 0 < sel.slope1_Opt → sel.slope2_Opt ≤ 0 →
      0 ≤ sel.slope1_Opt
          * ((sel.intercept1_Opt - sel.intercept2_Opt) / (sel.slope2_Opt - sel.slope1_Opt))
        + sel.intercept1_Opt) :
    freqPerfBound prm p1 l sel ≤ freqPerfBound prm p2 l sel := by
  unfold freqPerfBound
  by_cases ht : sel.turn_Opt = 0
  · simp only [ht, if_true]
    by_cases hs : l.slope > 0
    · simp only [hs, if_true]
      apply div_le_div_of_nonneg_right _ (le_of_lt hs)
      have := mul_le_mul_of_nonneg_right hp (h0 ht hs)
      linarith
    · simp only [hs, if_false]
      exact le_refl _
  · simp only [ht, if_false]
    have hlt := h1 ht
    by_cases hs1 : sel.slope1_Opt > 0
    · simp only [hs1, if_true]
      by_cases hs2 : sel.slope2_Opt > 0
      · simp only [hs2, if_true]
        have hC := h2 ht hs1 hs2
        have hv := mul_le_mul_of_nonneg_right hp hC
        have hne : sel.slope2_Opt - sel.slope1_Opt ≠ 0 := by
          intro h
          linarith
        have hcross : sel.slope1_Opt
              * ((sel.intercept1_Opt - sel.intercept2_Opt) / (sel.slope2_Opt - sel.slope1_Opt))
            + sel.intercept1_Opt
            = sel.slope2_Opt
              * ((sel.intercept1_Opt - sel.intercept2_Opt) / (sel.slope2_Opt - sel.slope1_Opt))
            + sel.intercept2_Opt := by
          field_simp
          ring
        generalize (sel.intercept1_Opt - sel.intercept2_Opt) / (sel.slope2_Opt - sel.slope1_Opt)
          = cross at hcross ⊢
        generalize p1 * (sel.slope2_Opt * (prm.maxFreq : ℚ) + sel.intercept2_Opt) = v1 at hv ⊢
        generalize p2 * (sel.slope2_Opt * (prm.maxFreq : ℚ) + sel.intercept2_Opt) = v2 at hv ⊢
        split_ifs with c1 c2 c2
        · apply div_le_div_of_nonneg_right _ (le_of_lt hs1)
          linarith
        · have e1 : v1 - sel.intercept2_Opt ≤ cross * sel.slope2_Opt := (div_le_iff₀ hs2).mp c1
          have e2 : (v1 - sel.intercept1_Opt) / sel.slope1_Opt ≤ cross := by
            rw [div_le_iff₀ hs1]
            linarith
          linarith [not_le.mp c2]
        · exfalso
          have e1 : (v1 - sel.intercept2_Opt) / sel.slope2_Opt
              ≤ (v2 - sel.intercept2_Opt) / sel.slope2_Opt := by
            apply div_le_div_of_nonneg_right _ (le_of_lt hs2)
            linarith
          linarith [not_le.mp c1]
        · apply div_le_div_of_nonneg_right _ (le_of_lt hs2)
          linarith
      · simp only [hs2, if_false]
        have hV := h3 ht hs1 (not_lt.mp hs2)
        apply div_le_div_of_nonneg_right _ (le_of_lt hs1)
        have := mul_le_mul_of_nonneg_right hp hV
        linarith
    · simp only [hs1, if_false]
      exact le_refl _

/-- The two segments the partition loop leaves in the scratch buffers at
`turn = 2` with four probe frequencies and eight slots. -/
theorem partition_default (prm : Params) (gmem : Nat → ℚ) (buf : Scratch)
    (hk : prm.numProbFreq = 4) :
    (partitionLoop prm 2 gmem ⟨0, 0, buf⟩ 8).buf.x1 0 = (prm.probFreqs 0 : ℚ)
    ∧ (partitionLoop prm 2 gmem ⟨0, 0, buf⟩ 8).buf.x1 1 = (prm.probFreqs 1 : ℚ)
    ∧ (partitionLoop prm 2 gmem ⟨0, 0, buf⟩ 8).buf.x1 2 = (prm.probFreqs 1 : ℚ)
    ∧ (partitionLoop prm 2 gmem ⟨0, 0, buf⟩ 8).buf.x1 3 = (prm.probFreqs 0 : ℚ)
    ∧ (partitionLoop prm 2 gmem ⟨0, 0, buf⟩ 8).buf.y1 0 = gmem 0
    ∧ (partitionLoop prm 2 gmem ⟨0, 0, buf⟩ 8).buf.y1 1 = gmem 1
    ∧ (partitionLoop prm 2 gmem ⟨0, 0, buf⟩ 8).buf.y1 2 = gmem 6
    ∧ (partitionLoop prm 2 gmem ⟨0, 0, buf⟩ 8).buf.y1 3 = gmem 7
    ∧ (partitionLoop prm 2 gmem ⟨0, 0, buf⟩ 8).buf.x2 0 = (prm.probFreqs 2 : ℚ)
    ∧ (partitionLoop prm 2 gmem ⟨0, 0, buf⟩ 8).buf.x2 1 = (prm.probFreqs 3 : ℚ)
    ∧ (partitionLoop prm 2 gmem ⟨0, 0, buf⟩ 8).buf.x2 2 = (prm.probFreqs 3 : ℚ)
    ∧ (partitionLoop prm 2 gmem ⟨0, 0, buf⟩ 8).buf.x2 3 = (prm.probFreqs 2 : ℚ)
    ∧ (partitionLoop prm 2 gmem ⟨0, 0, buf⟩ 8).buf.y2 0 = gmem 2
    ∧ (partitionLoop prm 2 gmem ⟨0, 0, buf⟩ 8).buf.y2 1 = gmem 3
    ∧ (partitionLoop prm 2 gmem ⟨0, 0, buf⟩ 8).buf.y2 2 = gmem 4
    ∧ (partitionLoop prm 2 gmem ⟨0, 0, buf⟩ 8).buf.y2 3 = gmem 5 := by
  simp [partitionLoop, ifreqOf, hk, Function.update]


theorem probFreqs_order (m : Machine) :
    (params m).probFreqs 0 < (params m).probFreqs 1
      ∧ (params m).probFreqs 1 < (params m).probFreqs 2
      ∧ (params m).probFreqs 2 < (params m).probFreqs 3
      ∧ (params m).probFreqs 3 ≤ (params m).maxFreq := by
  cases m <;> simp [params]

/-- The bounds on the two segments of the partition at `turn = 2` that the
monotonicity argument uses (shipped profile, two repetitions). -/
theorem partition_bounds (m : Machine) (gmem : Nat → ℚ) (buf : Scratch)
    (hg : ∀ j, j < 8 → 0 ≤ gmem j) :
    (∀ i, i < 4 → (partitionLoop (params m) 2 gmem ⟨0, 0, buf⟩ 8).buf.x1 i
        ≤ ((params m).probFreqs 1 : ℚ))
      ∧ (∀ i, i < 4 → ((params m).probFreqs 1 : ℚ)
          ≤ (partitionLoop (params m) 2 gmem ⟨0, 0, buf⟩ 8).buf.x2 i)
      ∧ (∀ i, i < 4 → (partitionLoop (params m) 2 gmem ⟨0, 0, buf⟩ 8).buf.x2 i
          ≤ ((params m).maxFreq : ℚ))
      ∧ (∀ i, i < 4 → 0 ≤ (partitionLoop (params m) 2 gmem ⟨0, 0, buf⟩ 8).buf.y1 i)
      ∧ (∀ i, i < 4 → 0 ≤ (partitionLoop (params m) 2 gmem ⟨0, 0, buf⟩ 8).buf.y2 i)
      ∧ (∃ i j, i < 4 ∧ j < 4 ∧ (partitionLoop (params m) 2 gmem ⟨0, 0, buf⟩ 8).buf.x1 i
          ≠ (partitionLoop (params m) 2 gmem ⟨0, 0, buf⟩ 8).buf.x1 j)
      ∧ (∃ i j, i < 4 ∧ j < 4 ∧ (partitionLoop (params m) 2 gmem ⟨0, 0, buf⟩ 8).buf.x2 i
          ≠ (partitionLoop (params m) 2 gmem ⟨0, 0, buf⟩ 8).buf.x2 j) := by
  obtain ⟨a0, a1, a2, a3, b0, b1, b2, b3, c0, c1, c2, c3, d0, d1, d2, d3⟩ :=
    partition_default (params m) gmem buf (numProbFreq_eq m)
  obtain ⟨o1, o2, o3, o4⟩ := probFreqs_order m
  have q1 : ((params m).probFreqs 0 : ℚ) < ((params m).probFreqs 1 : ℚ) := by exact_mod_cast o1
  have q2 : ((params m).probFreqs 1 : ℚ) < ((params m).probFreqs 2 : ℚ) := by exact_mod_cast o2
  have q3 : ((params m).probFreqs 2 : ℚ) < ((params m).probFreqs 3 : ℚ) := by exact_mod_cast o3
  have q4 : ((params m).probFreqs 3 : ℚ) ≤ ((params m).maxFreq : ℚ) := by exact_mod_cast o4
  have cases4 : ∀ i, i < 4 → i = 0 ∨ i = 1 ∨ i = 2 ∨ i = 3 := fun i hi => by omega
  refine ⟨?_, ?_, ?_, ?_, ?_, ⟨0, 1, by norm_num, by norm_num, ?_⟩,
    ⟨0, 1, by norm_num, by norm_num, ?_⟩⟩
  · intro i hi
    rcases cases4 i hi with h | h | h | h <;> subst h
    · rw [a0]; linarith
    · rw [a1]
    · rw [a2]
    · rw [a3]; linarith
  · intro i hi
    rcases cases4 i hi with h | h | h | h <;> subst h
    · rw [c0]; linarith
    · rw [c1]; linarith
    · rw [c2]; linarith
    · rw [c3]; linarith
  · intro i hi
    rcases cases4 i hi with h | h | h | h <;> subst h
    · rw [c0]; linarith
    · rw [c1]; linarith
    · rw [c2]; linarith
    · rw [c3]; linarith
  · intro i hi
    rcases cases4 i hi with h | h | h | h <;> subst h
    · rw [b0]; exact hg 0 (by norm_num)
    · rw [b1]; exact hg 1 (by norm_num)
    · rw [b2]; exact hg 6 (by norm_num)
    · rw [b3]; exact hg 7 (by norm_num)
  · intro i hi
    rcases cases4 i hi with h | h | h | h <;> subst h
    · rw [d0]; exact hg 2 (by norm_num)
    · rw [d1]; exact hg 3 (by norm_num)
    · rw [d2]; exact hg 4 (by norm_num)
    · rw [d3]; exact hg 5 (by norm_num)
  · rw [a0, a1]
    exact ne_of_lt q1
  · rw [c0, c1]
    exact ne_of_lt q3


/-- The predicate the monotonicity argument needs of a fold-line candidate:
where the performance bound evaluates the model, the model is non-negative. -/
theorem fold_good_of_segments (prm : Params) (X1 Y1 X2 Y2 : Nat → ℚ) (n1 n2 : Nat) (turn : Nat)
    (hx1 : ∀ i, i < n1 → X1 i ≤ (prm.probFreqs (turn - 1) : ℚ))
    (hx2lo : ∀ i, i < n2 → (prm.probFreqs (turn - 1) : ℚ) ≤ X2 i)
    (hx2hi : ∀ i, i < n2 → X2 i ≤ (prm.maxFreq : ℚ))
    (hy1 : ∀ i, i < n1 → 0 ≤ Y1 i) (hy2 : ∀ i, i < n2 → 0 ≤ Y2 i)
    (hne1 : ∃ i j, i < n1 ∧ j < n1 ∧ X1 i ≠ X1 j)
    (hne2 : ∃ i j, i < n2 ∧ j < n2 ∧ X2 i ≠ X2 j)
    (c : FoldFit)
    (cross : ℚ)
    (hcr : cross = if (linearRegression n2 X2 Y2).slope ≠ (linearRegression n1 X1 Y1).slope
      then ((linearRegression n1 X1 Y1).intercept - (linearRegression n2 X2 Y2).intercept)
        / ((linearRegression n2 X2 Y2).slope - (linearRegression n1 X1 Y1).slope)
      else -1)
    (hc : c = (if cross ≥ (prm.probFreqs (turn - 1) : ℚ) ∧ cross ≤ (prm.probFreqs turn : ℚ)
        then ⟨(linearRegression n1 X1 Y1).slope, (linearRegression n1 X1 Y1).intercept,
          (linearRegression n2 X2 Y2).slope, (linearRegression n2 X2 Y2).intercept,
          (linearRegression n1 X1 Y1).regErr + (linearRegression n2 X2 Y2).regErr⟩
        else foldlineRegression (prm.probFreqs (turn - 1)) n1 X1 Y1 n2 X2 Y2)) :
    (0 < c.slope1 → 0 < c.slope2 → 0 ≤ c.slope2 * (prm.maxFreq : ℚ) + c.intercept2)
      ∧ (0 < c.slope1 → c.slope2 ≤ 0 →
          0 ≤ c.slope1 * ((c.intercept1 - c.intercept2) / (c.slope2 - c.slope1))
            + c.intercept1) := by
  have hn1 : (0 : ℚ) < (n1 : ℚ) := by
    obtain ⟨i, _, hi, _, _⟩ := hne1
    have : 0 < n1 := by omega
    exact_mod_cast this
  have hn2 : (0 : ℚ) < (n2 : ℚ) := by
    obtain ⟨i, _, hi, _, _⟩ := hne2
    have : 0 < n2 := by omega
    exact_mod_cast this
  have hxcmax : (prm.probFreqs (turn - 1) : ℚ) ≤ (prm.maxFreq : ℚ) := by
    obtain ⟨i, _, hi, _, _⟩ := hne2
    exact le_trans (hx2lo i hi) (hx2hi i hi)
  by_cases hcond : cross ≥ (prm.probFreqs (turn - 1) : ℚ) ∧ cross ≤ (prm.probFreqs turn : ℚ)
  · -- the unconstrained two-line fit
    rw [if_pos hcond] at hc
    subst hc
    constructor
    · intro _ hs2
      exact ols_value_nonneg n2 X2 Y2 _ hne2 hy2 hx2hi hs2
    · intro hs1 hs2
      have hne : (linearRegression n2 X2 Y2).slope ≠ (linearRegression n1 X1 Y1).slope := by
        intro h
        simp only [] at hs1 hs2
        linarith
      rw [if_pos hne] at hcr
      simp only []
      rw [← hcr]
      exact ols_value_nonneg n1 X1 Y1 _ hne1 hy1 (fun i hi => le_trans (hx1 i hi) hcond.1) hs1
  · -- the constrained refit
    rw [if_neg hcond] at hc
    by_cases hH : foldDet (prm.probFreqs (turn - 1)) n1 X1 Y1 n2 X2 Y2 = 0
    · rw [foldline_sentinel _ _ _ _ _ _ _ hH] at hc
      subst hc
      constructor
      · intro h
        norm_num at h
      · intro h
        norm_num at h
    · obtain ⟨hb2, heq3⟩ := foldline_normal _ _ _ _ _ _ _ hH
      rw [← hc] at hb2 heq3
      have s1 := lrSums_sumx_le X1 Y1 n1 _ hx1
      have s2lo := lrSums_sumx_ge X2 Y2 n2 _ hx2lo
      have s2hi := lrSums_sumx_le X2 Y2 n2 _ hx2hi
      have y1 := lrSums_sumy_nonneg X1 Y1 n1 hy1
      have y2 := lrSums_sumy_nonneg X2 Y2 n2 hy2
      rw [← (segSums_eq X1 Y1 n1).1] at s1
      rw [← (segSums_eq X2 Y2 n2).1] at s2lo s2hi
      rw [← (segSums_eq X1 Y1 n1).2] at y1
      rw [← (segSums_eq X2 Y2 n2).2] at y2
      generalize (segSums X1 Y1 n1).sum_x = S1x at *
      generalize (segSums X2 Y2 n2).sum_x = S2x at *
      generalize (segSums X1 Y1 n1).sum_y = S1y at *
      generalize (segSums X2 Y2 n2).sum_y = S2y at *
      generalize (prm.probFreqs (turn - 1) : ℚ) = xc at *
      generalize (prm.maxFreq : ℚ) = fmax at *
      constructor
      · intro hs1 hs2
        have e1 : c.slope1 * S1x ≤ c.slope1 * ((n1 : ℚ) * xc) :=
          mul_le_mul_of_nonneg_left s1 (le_of_lt hs1)
        have e2 : c.slope2 * S2x ≤ c.slope2 * ((n2 : ℚ) * fmax) :=
          mul_le_mul_of_nonneg_left s2hi (le_of_lt hs2)
        have e3 : c.slope2 * xc ≤ c.slope2 * fmax := mul_le_mul_of_nonneg_left hxcmax (le_of_lt hs2)
        have e4 : 0 ≤ ((n1 : ℚ) + (n2 : ℚ)) * (c.slope2 * fmax + c.intercept2) := by
          have e5 : (n1 : ℚ) * (c.slope2 * xc) ≤ (n1 : ℚ) * (c.slope2 * fmax) :=
            mul_le_mul_of_nonneg_left e3 (le_of_lt hn1)
          have e6 : (n1 : ℚ) * c.intercept2
              = (n1 : ℚ) * (xc * c.slope1) - (n1 : ℚ) * (xc * c.slope2) + (n1 : ℚ) * c.intercept1 := by
            rw [hb2]
            ring
          nlinarith [e1, e2, e5, e6, heq3, y1, y2]
        by_contra hneg
        have : ((n1 : ℚ) + (n2 : ℚ)) * (c.slope2 * fmax + c.intercept2) < 0 :=
          mul_neg_of_pos_of_neg (by linarith) (not_le.mp hneg)
        linarith
      · intro hs1 hs2
        have hne : c.slope2 - c.slope1 ≠ 0 := by
          intro h
          linarith
        have hcross : (c.intercept1 - c.intercept2) / (c.slope2 - c.slope1) = xc := by
          rw [div_eq_iff hne, hb2]
          ring
        rw [hcross]
        have e1 : c.slope1 * S1x ≤ c.slope1 * ((n1 : ℚ) * xc) :=
          mul_le_mul_of_nonneg_left s1 (le_of_lt hs1)
        have e2 : c.slope2 * S2x ≤ c.slope2 * ((n2 : ℚ) * xc) :=
          mul_le_mul_of_nonpos_left s2lo hs2
        have e4 : 0 ≤ ((n1 : ℚ) + (n2 : ℚ)) * (c.slope1 * xc + c.intercept1) := by
          have e6 : (n2 : ℚ) * c.intercept2
              = (n2 : ℚ) * (xc * c.slope1) - (n2 : ℚ) * (xc * c.slope2) + (n2 : ℚ) * c.intercept1 := by
            rw [hb2]
            ring
          nlinarith [e1, e2, e6, heq3, y1, y2]
        by_contra hneg
        have : ((n1 : ℚ) + (n2 : ℚ)) * (c.slope1 * xc + c.intercept1) < 0 :=
          mul_neg_of_pos_of_neg (by linarith) (not_le.mp hneg)
        linarith


theorem foldCandidate_good (m : Machine) (gmem : Nat → ℚ) (buf : Scratch)
    (hg : ∀ j, j < 8 → 0 ≤ gmem j) :
    (0 < (foldCandidate defaultConfig (params m) gmem 2 buf).1.slope1 →
        0 < (foldCandidate defaultConfig (params m) gmem 2 buf).1.slope2 →
        0 ≤ (foldCandidate defaultConfig (params m) gmem 2 buf).1.slope2
              * ((params m).maxFreq : ℚ)
            + (foldCandidate defaultConfig (params m) gmem 2 buf).1.intercept2)
      ∧ (0 < (foldCandidate defaultConfig (params m) gmem 2 buf).1.slope1 →
          (foldCandidate defaultConfig (params m) gmem 2 buf).1.slope2 ≤ 0 →
          0 ≤ (foldCandidate defaultConfig (params m) gmem 2 buf).1.slope1
                * (((foldCandidate defaultConfig (params m) gmem 2 buf).1.intercept1
                    - (foldCandidate defaultConfig (params m) gmem 2 buf).1.intercept2)
                  / ((foldCandidate defaultConfig (params m) gmem 2 buf).1.slope2
                    - (foldCandidate defaultConfig (params m) gmem 2 buf).1.slope1))
              + (foldCandidate defaultConfig (params m) gmem 2 buf).1.intercept1) := by
  obtain ⟨hx1, hx2lo, hx2hi, hy1, hy2, hne1, hne2⟩ := partition_bounds m gmem buf hg
  refine fold_good_of_segments (params m) _ _ _ _ 4 4 2 hx1 hx2lo hx2hi hy1 hy2 hne1 hne2 _ _ rfl ?_
  unfold foldCandidate
  simp only [numProbRec_default, numProbFreq_eq, apply_ite Prod.fst]
  rfl

theorem turnStep_sel (cfg : Config) (prm : Params) (gmem : Nat → ℚ) (turn : Nat) (sel : Sel) :
    (turnStep cfg prm gmem turn sel).turn_Opt = sel.turn_Opt
      ∨ ((turnStep cfg prm gmem turn sel).slope1_Opt
            = (foldCandidate cfg prm gmem turn sel.buf).1.slope1
          ∧ (turnStep cfg prm gmem turn sel).intercept1_Opt
            = (foldCandidate cfg prm gmem turn sel.buf).1.intercept1
          ∧ (turnStep cfg prm gmem turn sel).slope2_Opt
            = (foldCandidate cfg prm gmem turn sel.buf).1.slope2
          ∧ (turnStep cfg prm gmem turn sel).intercept2_Opt
            = (foldCandidate cfg prm gmem turn sel.buf).1.intercept2
          ∧ (foldCandidate cfg prm gmem turn sel.buf).1.slope2
            < (foldCandidate cfg prm gmem turn sel.buf).1.slope1) := by
  unfold turnStep
  simp only []
  split_ifs with h1 h2
  · exact Or.inl rfl
  · exact Or.inr ⟨rfl, rfl, rfl, rfl, not_le.mp h1⟩
  · exact Or.inl rfl

theorem xOf_le_max (m : Machine) (j : Nat) : xOf (params m) j ≤ ((params m).maxFreq : ℚ) := by
  unfold xOf ifreqOf
  simp only [numProbFreq_eq]
  split_ifs with h
  · exact_mod_cast (probFreqs_range m _ h).2
  · exact_mod_cast (probFreqs_range m _ (by omega)).2

/-- What model selection guarantees on a shipped profile with the source's
constants when the recorded memory utilisations are non-negative. -/
theorem modelSelect_good (m : Machine) (gmem : Nat → ℚ) (buf : Scratch)
    (hg : ∀ j, j < 8 → 0 ≤ gmem j) :
    ((modelSelect defaultConfig (params m) gmem buf).2.turn_Opt = 0 →
        0 < (modelSelect defaultConfig (params m) gmem buf).1.slope →
        0 ≤ (modelSelect defaultConfig (params m) gmem buf).1.slope * ((params m).maxFreq : ℚ)
            + (modelSelect defaultConfig (params m) gmem buf).1.intercept)
      ∧ ((modelSelect defaultConfig (params m) gmem buf).2.turn_Opt ≠ 0 →
          (modelSelect defaultConfig (params m) gmem buf).2.slope2_Opt
            < (modelSelect defaultConfig (params m) gmem buf).2.slope1_Opt)
      ∧ ((modelSelect defaultConfig (params m) gmem buf).2.turn_Opt ≠ 0 →
          0 < (modelSelect defaultConfig (params m) gmem buf).2.slope1_Opt →
          0 < (modelSelect defaultConfig (params m) gmem buf).2.slope2_Opt →
          0 ≤ (modelSelect defaultConfig (params m) gmem buf).2.slope2_Opt
                * ((params m).maxFreq : ℚ)
              + (modelSelect defaultConfig (params m) gmem buf).2.intercept2_Opt)
      ∧ ((modelSelect defaultConfig (params m) gmem buf).2.turn_Opt ≠ 0 →
          0 < (modelSelect defaultConfig (params m) gmem buf).2.slope1_Opt →
          (modelSelect defaultConfig (params m) gmem buf).2.slope2_Opt ≤ 0 →
          0 ≤ (modelSelect defaultConfig (params m) gmem buf).2.slope1_Opt
                * (((modelSelect defaultConfig (params m) gmem buf).2.intercept1_Opt
                    - (modelSelect defaultConfig (params m) gmem buf).2.intercept2_Opt)
                  / ((modelSelect defaultConfig (params m) gmem buf).2.slope2_Opt
                    - (modelSelect defaultConfig (params m) gmem buf).2.slope1_Opt))
              + (modelSelect defaultConfig (params m) gmem buf).2.intercept1_Opt) := by
  have h1 : (modelSelect defaultConfig (params m) gmem buf).1
      = linearRegression 8 (xOf (params m)) gmem := by
    unfold modelSelect
    simp only [numProbRec_default]
  have h2 : (modelSelect defaultConfig (params m) gmem buf).2
      = turnStep defaultConfig (params m) gmem 2
          ⟨0, (linearRegression 8 (xOf (params m)) gmem).regErr, 0, 0, 0, 0, buf⟩ := by
    unfold modelSelect
    simp only [numProbRec_default, numProbFreq_eq]
    rfl
  obtain ⟨o1, _, _, _⟩ := probFreqs_order m
  have hX : ∃ i j, i < 8 ∧ j < 8 ∧ xOf (params m) i ≠ xOf (params m) j := by
    refine ⟨0, 1, by norm_num, by norm_num, ?_⟩
    have e0 : xOf (params m) 0 = ((params m).probFreqs 0 : ℚ) := by
      simp [xOf, ifreqOf, numProbFreq_eq]
    have e1 : xOf (params m) 1 = ((params m).probFreqs 1 : ℚ) := by
      simp [xOf, ifreqOf, numProbFreq_eq]
    rw [e0, e1]
    have : ((params m).probFreqs 0 : ℚ) < ((params m).probFreqs 1 : ℚ) := by exact_mod_cast o1
    exact ne_of_lt this
  rw [h1, h2]
  refine ⟨?_, ?_⟩
  · intro _ hs
    exact ols_value_nonneg 8 (xOf (params m)) gmem _ hX hg (fun i _ => xOf_le_max m i) hs
  · obtain ⟨g1, g2⟩ := foldCandidate_good m gmem buf hg
    rcases turnStep_sel defaultConfig (params m) gmem 2
      ⟨0, (linearRegression 8 (xOf (params m)) gmem).regErr, 0, 0, 0, 0, buf⟩ with h | h
    · refine ⟨fun hne => absurd h hne, fun hne => absurd h hne, fun hne => absurd h hne⟩
    · obtain ⟨e1, e2, e3, e4, hlt⟩ := h
      rw [e1, e2, e3, e4]
      exact ⟨fun _ => hlt, fun _ => g1, fun _ => g2⟩

/-- The fit is monotone in the performance floor: `freqBound` does not decrease
when the floor rises, while `freqEff` and the scratch buffers do not depend on
the floor. -/
theorem fitDevice_mono (m : Machine) (gmem gpow : Nat → ℚ) (buf : Scratch) (p1 p2 : ℚ)
    (hp : p1 ≤ p2) (hg : ∀ j, j < 8 → 0 ≤ gmem j) :
    (fitDevice defaultConfig (params m) p1 gmem gpow buf).freqBound
        ≤ (fitDevice defaultConfig (params m) p2 gmem gpow buf).freqBound
      ∧ (fitDevice defaultConfig (params m) p1 gmem gpow buf).freqEff
        = (fitDevice defaultConfig (params m) p2 gmem gpow buf).freqEff
      ∧ (fitDevice defaultConfig (params m) p1 gmem gpow buf).buf
        = (fitDevice defaultConfig (params m) p2 gmem gpow buf).buf := by
  obtain ⟨h0, h1, h2, h3⟩ := modelSelect_good m gmem buf hg
  have hmono := freqPerfBound_mono (params m) (modelSelect defaultConfig (params m) gmem buf).1
    (modelSelect defaultConfig (params m) gmem buf).2 p1 p2 hp h0 h1 h2 h3
  unfold fitDevice
  simp only []
  split_ifs
  · exact ⟨le_refl _, rfl, rfl⟩
  · exact ⟨hmono, rfl, rfl⟩
  · exact ⟨le_refl _, rfl, rfl⟩
  · exact ⟨le_refl _, rfl, rfl⟩


theorem thisCapOf_mono (prm : Params) (p1 p2 : ℚ) (t : Telemetry) (hp : p1 ≤ p2) (hp2 : p2 ≤ 1)
    (hmax : 0 < prm.maxFreq) (hf : 0 < t.freq) (hu : t.gpu ≤ 100) :
    thisCapOf prm p1 t ≤ thisCapOf prm p2 t := by
  unfold thisCapOf
  have hfq : (0 : ℚ) < (t.freq : ℚ) := by exact_mod_cast hf
  have hmq : (0 : ℚ) < (prm.maxFreq : ℚ) := by exact_mod_cast hmax
  have hq : 0 < (t.freq : ℚ) / (prm.maxFreq : ℚ) := div_pos hfq hmq
  have hu1 : (1 : ℚ) ≤ dmax 1 (t.gpu : ℚ) := by
    rw [dmax_eq]
    exact le_max_left _ _
  have hu2 : dmax 1 (t.gpu : ℚ) ≤ 100 := by
    rw [dmax_eq]
    have : (t.gpu : ℚ) ≤ 100 := by exact_mod_cast hu
    exact max_le (by norm_num) this
  have hu3 : (1 : ℚ) ≤ 100 / dmax 1 (t.gpu : ℚ) := by
    rw [le_div_iff₀ (by linarith)]
    linarith
  generalize (t.freq : ℚ) / (prm.maxFreq : ℚ) = q at hq ⊢
  generalize 100 / dmax 1 (t.gpu : ℚ) = r at hu3 ⊢
  have hA : 0 ≤ q + r - 1 := by linarith
  have hD2 : 0 < (1 - p2) * (q + r - 1) + q := by
    have : 0 ≤ (1 - p2) * (q + r - 1) := mul_nonneg (by linarith) hA
    linarith
  have hD : (1 - p2) * (q + r - 1) + q ≤ (1 - p1) * (q + r - 1) + q := by
    have : (1 - p2) * (q + r - 1) ≤ (1 - p1) * (q + r - 1) :=
      mul_le_mul_of_nonneg_right (by linarith) hA
    linarith
  exact div_le_div_of_nonneg_left (le_of_lt hfq) hD2 hD

theorem freqOptClamped_mono (cfg : Config) (prm : Params) (fb1 fb2 cap1 cap2 fe : ℚ)
    (hfb : fb1 ≤ fb2) (hcap : cap1 ≤ cap2) :
    freqOptClamped cfg prm fb1 cap1 fe ≤ freqOptClamped cfg prm fb2 cap2 fe := by
  unfold freqOptClamped freqOptRaw freqPerfOf
  simp only [dmin_eq, dmax_eq]
  apply min_le_min _ (le_refl _)
  apply max_le_max _ (le_refl _)
  apply max_le_max _ (le_refl _)
  split_ifs
  · exact min_le_min hfb hcap
  · exact hfb

/-- On a shipped profile the arbiter is monotone in `freqBound` and `freqCap`,
whatever the previous operating frequencies. -/
theorem arbiter_mono (m : Machine) (cfg : Config) (fb1 fb2 cap1 cap2 fe : ℚ) (cur1 cur2 : Int)
    (hfb : fb1 ≤ fb2) (hcap : cap1 ≤ cap2) :
    arbiter cfg (params m) (availableFreqs m) fb1 cap1 fe cur1
      ≤ arbiter cfg (params m) (availableFreqs m) fb2 cap2 fe cur2 := by
  obtain ⟨k1, hk10, hk1n, e1, lt1, _⟩ := arbiter_profile m cfg fb1 cap1 fe cur1
  obtain ⟨k2, _, hk2n, e2, _, ge2⟩ := arbiter_profile m cfg fb2 cap2 fe cur2
  have hc := freqOptClamped_mono cfg (params m) fb1 fb2 cap1 cap2 fe hfb hcap
  rw [e1, e2]
  by_cases h : k1 ≤ k2
  · exact availableFreqs_mono m k1 k2 h hk2n
  · exfalso
    have h1 : availableFreqs m k2 ≤ availableFreqs m (k1 - 1) :=
      availableFreqs_mono m k2 (k1 - 1) (by omega) (by omega)
    have h2 : ((availableFreqs m k2 : Int) : ℚ) ≤ ((availableFreqs m (k1 - 1) : Int) : ℚ) := by
      exact_mod_cast h1
    linarith


theorem update_nonneg (g : Nat → ℚ) (k : Nat) (v : ℚ) (hg : ∀ j, 0 ≤ g j) (hv : 0 ≤ v) (j : Nat) :
    0 ≤ Function.update g k v j := by
  by_cases h : j = k
  · subst h
    rw [Function.update_same]
    exact hv
  · rw [Function.update_noteq h]
    exact hg j

theorem recordSample_rel (cfg : Config) (prm : Params) (p1 p2 : ℚ) (l : Int) (d1 d2 : DeviceState)
    (t : Telemetry) (hcap : thisCapOf prm p1 t ≤ thisCapOf prm p2 t) (h : DevRel d1 d2) :
    DevRel (recordSample cfg prm p1 l d1 t) (recordSample cfg prm p2 l d2 t) := by
  obtain ⟨h1, h2, h3, h4, h5, h6, h7, h8, h9⟩ := h
  have hm : (0 : ℚ) ≤ (t.memory : ℚ) := by exact_mod_cast Nat.zero_le _
  unfold recordSample
  simp only []
  by_cases hl : l > 0
  · simp only [hl, if_true]
    by_cases hc : cfg.useFreqCap = true
    · simp only [hc, if_true]
      by_cases he : l = (numProbRec cfg prm : Int)
      · simp only [he, if_true]
        exact ⟨h1, h2, by simp only [h3], by simp only [h4], h5, h6, hcap, h8,
          update_nonneg _ _ _ h9 hm⟩
      · simp only [he, if_false]
        split_ifs with c1 c2 c2
        · exact ⟨h1, h2, by simp only [h3], by simp only [h4], h5, h6, hcap, h8,
            update_nonneg _ _ _ h9 hm⟩
        · exact ⟨h1, h2, by simp only [h3], by simp only [h4], h5, h6,
            le_trans hcap (not_lt.mp c2), h8, update_nonneg _ _ _ h9 hm⟩
        · exact ⟨h1, h2, by simp only [h3], by simp only [h4], h5, h6,
            le_trans h7 (le_of_lt c2), h8, update_nonneg _ _ _ h9 hm⟩
        · exact ⟨h1, h2, by simp only [h3], by simp only [h4], h5, h6, h7, h8,
            update_nonneg _ _ _ h9 hm⟩
    · rw [if_neg hc, if_neg hc]
      exact ⟨h1, h2, by simp only [h3], by simp only [h4], h5, h6, h7, h8,
        update_nonneg _ _ _ h9 hm⟩
  · simp only [hl, if_false]
    exact ⟨h1, h2, h3, h4, h5, h6, h7, h8, h9⟩

theorem ringUpdate_rel (cfg : Config) (idx : Nat) (d1 d2 : DeviceState) (t : Telemetry)
    (h : DevRel d1 d2) : DevRel (ringUpdate cfg idx d1 t) (ringUpdate cfg idx d2 t) := by
  obtain ⟨h1, h2, h3, h4, h5, h6, h7, h8, h9⟩ := h
  unfold ringUpdate
  exact ⟨by simp only [h1], by simp only [h2], h3, h4, by simp only [h1, h5],
    by simp only [h2, h6], h7, h8, h9⟩

theorem sumGutil_congr (dv1 dv2 : Nat → DeviceState) (n : Nat)
    (h : ∀ i, (dv1 i).gutil_moving_avg = (dv2 i).gutil_moving_avg) :
    sumGutil dv1 n = sumGutil dv2 n := by
  induction n with
  | zero => rfl
  | succ n ih =>
    unfold sumGutil
    rw [ih, h n]

theorem sampleAll_rel (cfg : Config) (prm : Params) (p1 p2 : ℚ) (dc : Nat) (s1 s2 : State)
    (inp : TickInput) (hcap : ∀ i, thisCapOf prm p1 (inp.tel i) ≤ thisCapOf prm p2 (inp.tel i))
    (h : StateRel s1 s2) :
    StateRel (sampleAll cfg prm p1 dc s1 inp) (sampleAll cfg prm p2 dc s2 inp) := by
  obtain ⟨h1, h2, h3, h4, h5, h6⟩ := h
  unfold sampleAll
  refine ⟨h1, h2, h3, by simp only [h4], h5, ?_⟩
  intro i
  simp only []
  split_ifs
  · unfold assureDevice
    rw [h2, h4]
    exact recordSample_rel cfg prm p1 p2 _ _ _ _ (hcap i) (ringUpdate_rel cfg _ _ _ _ (h6 i))
  · exact h6 i

theorem gateUpdate_rel (cfg : Config) (prm : Params) (dc a : Nat) (s1 s2 : State)
    (h : StateRel s1 s2) : StateRel (gateUpdate cfg prm dc a s1) (gateUpdate cfg prm dc a s2) := by
  obtain ⟨h1, h2, h3, h4, h5, h6⟩ := h
  have hs := sumGutil_congr s1.devices s2.devices dc (fun i => (h6 i).2.2.2.2.1)
  unfold gateUpdate
  simp only [h1, h3, hs]
  split_ifs
  · exact ⟨rfl, rfl, rfl, h4, h5, h6⟩
  · exact ⟨rfl, rfl, rfl, h4, h5, h6⟩
  · exact ⟨rfl, rfl, rfl, h4, h5, h6⟩
  · exact ⟨rfl, rfl, rfl, h4, h5, h6⟩
  · exact ⟨rfl, rfl, rfl, h4, h5, h6⟩
  · exact ⟨rfl, rfl, rfl, h4, h5, h6⟩


theorem completeDevice_rel (m : Machine) (p1 p2 : ℚ) (hp : p1 ≤ p2) (d1 d2 : DeviceState)
    (buf : Scratch) (h : DevRel d1 d2) :
    DevRel (completeDevice defaultConfig (params m) (availableFreqs m) p1 d1 buf).1
        (completeDevice defaultConfig (params m) (availableFreqs m) p2 d2 buf).1
      ∧ (completeDevice defaultConfig (params m) (availableFreqs m) p1 d1 buf).2
        = (completeDevice defaultConfig (params m) (availableFreqs m) p2 d2 buf).2 := by
  obtain ⟨h1, h2, h3, h4, h5, h6, h7, h8, h9⟩ := h
  obtain ⟨m1, m2, m3⟩ := fitDevice_mono m d1.gmemUtils d1.gPowers buf p1 p2 hp (fun j _ => h9 j)
  refine ⟨⟨h1, h2, h3, h4, h5, h6, h7, ?_, h9⟩, ?_⟩
  · show arbiter defaultConfig (params m) (availableFreqs m)
        (fitDevice defaultConfig (params m) p1 d1.gmemUtils d1.gPowers buf).freqBound d1.freqCap
        (fitDevice defaultConfig (params m) p1 d1.gmemUtils d1.gPowers buf).freqEff
        d1.optimizedFreq
      ≤ arbiter defaultConfig (params m) (availableFreqs m)
        (fitDevice defaultConfig (params m) p2 d2.gmemUtils d2.gPowers buf).freqBound d2.freqCap
        (fitDevice defaultConfig (params m) p2 d2.gmemUtils d2.gPowers buf).freqEff
        d2.optimizedFreq
    rw [← h3, ← h4, m2]
    exact arbiter_mono m defaultConfig _ _ _ _ _ _ _ m1 h7
  · show (fitDevice defaultConfig (params m) p1 d1.gmemUtils d1.gPowers buf).buf
      = (fitDevice defaultConfig (params m) p2 d2.gmemUtils d2.gPowers buf).buf
    rw [← h3, ← h4]
    exact m3

theorem completeAll_rel (m : Machine) (p1 p2 : ℚ) (hp : p1 ≤ p2) (n : Nat)
    (st1 st2 : (Nat → DeviceState) × Scratch) (hb : st1.2 = st2.2)
    (hd : ∀ i, DevRel (st1.1 i) (st2.1 i)) :
    (∀ i, DevRel ((completeAll defaultConfig (params m) (availableFreqs m) p1 n st1).1 i)
        ((completeAll defaultConfig (params m) (availableFreqs m) p2 n st2).1 i))
      ∧ (completeAll defaultConfig (params m) (availableFreqs m) p1 n st1).2
        = (completeAll defaultConfig (params m) (availableFreqs m) p2 n st2).2 := by
  induction n with
  | zero => exact ⟨hd, hb⟩
  | succ n ih =>
    obtain ⟨ihd, ihb⟩ := ih
    unfold completeAll
    simp only []
    rw [ihb]
    have hc := completeDevice_rel m p1 p2 hp _ _
      (completeAll defaultConfig (params m) (availableFreqs m) p2 n st2).2 (ihd n)
    refine ⟨?_, hc.2⟩
    intro i
    by_cases hi : i = n
    · subst hi
      rw [Function.update_same, Function.update_same]
      exact hc.1
    · rw [Function.update_noteq hi, Function.update_noteq hi]
      exact ihd i

theorem completeStage_rel (m : Machine) (p1 p2 : ℚ) (hp : p1 ≤ p2) (dc : Nat) (s1 s2 : State)
    (h : StateRel s1 s2) :
    StateRel (completeStage defaultConfig (params m) (availableFreqs m) p1 dc s1)
      (completeStage defaultConfig (params m) (availableFreqs m) p2 dc s2) := by
  obtain ⟨h1, h2, h3, h4, h5, h6⟩ := h
  unfold completeStage
  by_cases hph : s1.probPhase = 0
  · have hph2 : s2.probPhase = 0 := by rw [← h1]; exact hph
    rw [if_pos hph, if_pos hph2]
    obtain ⟨c1, c2⟩ := completeAll_rel m p1 p2 hp dc (s1.devices, s1.buf) (s2.devices, s2.buf)
      h5 h6
    exact ⟨h1, h2, h3, h4, c2, c1⟩
  · have hph2 : ¬ s2.probPhase = 0 := by rw [← h1]; exact hph
    rw [if_neg hph, if_neg hph2]
    exact ⟨h1, h2, h3, h4, h5, h6⟩

theorem tick_rel (m : Machine) (mode : Bool) (p1 p2 : ℚ) (hp : p1 ≤ p2) (dc : Nat)
    (s1 s2 : State) (inp : TickInput)
    (hcap : ∀ i, thisCapOf (params m) p1 (inp.tel i) ≤ thisCapOf (params m) p2 (inp.tel i))
    (h : StateRel s1 s2) :
    StateRel (tick defaultConfig (params m) (availableFreqs m) mode p1 dc s1 inp)
      (tick defaultConfig (params m) (availableFreqs m) mode p2 dc s2 inp) := by
  have hs := sampleAll_rel defaultConfig (params m) p1 p2 dc s1 s2 inp hcap h
  unfold tick
  cases mode
  · exact hs
  · simp only [if_true]
    exact gateUpdate_rel _ _ _ _ _ _ (completeStage_rel m p1 p2 hp dc _ _ hs)

theorem initState_rel (cfg : Config) (prm : Params) (cap0 : Nat → ℚ) :
    StateRel (initState cfg prm cap0) (initState cfg prm cap0) :=
  ⟨rfl, rfl, rfl, rfl, rfl, fun _ => ⟨rfl, rfl, rfl, rfl, rfl, rfl, le_refl _, le_refl _,
    fun _ => le_refl _⟩⟩

theorem maxFreq_pos (m : Machine) : 0 < (params m).maxFreq := by
  cases m <;> simp [params]

/-- Two runs on the same inputs with floors `p1 ≤ p2 ≤ 1` stay related. -/
theorem run_rel (m : Machine) (mode : Bool) (p1 p2 : ℚ) (hp : p1 ≤ p2) (hp2 : p2 ≤ 1) (dc : Nat)
    (cap0 : Nat → ℚ) (inp : Nat → TickInput)
    (htel : ∀ t j, 0 < ((inp t).tel j).freq ∧ ((inp t).tel j).gpu ≤ 100) (n : Nat) :
    StateRel
      (run defaultConfig (params m) (availableFreqs m) mode p1 dc
        (initState defaultConfig (params m) cap0) inp n)
      (run defaultConfig (params m) (availableFreqs m) mode p2 dc
        (initState defaultConfig (params m) cap0) inp n) := by
  induction n with
  | zero => exact initState_rel _ _ _
  | succ n ih =>
    unfold run
    exact tick_rel m mode p1 p2 hp dc _ _ (inp n)
      (fun i => thisCapOf_mono (params m) p1 p2 _ hp hp2 (maxFreq_pos m) (htel n i).1 (htel n i).2)
      ih

theorem lrSums_congr (X X' Y Y' : Nat → ℚ) (n : Nat) (hX : ∀ i, i < n → X i = X' i)
    (hY : ∀ i, i < n → Y i = Y' i) : lrSums X Y n = lrSums X' Y' n := by
  induction n with
  | zero => rfl
  | succ n ih =>
    simp only [lrSums]
    rw [ih (fun i hi => hX i (by omega)) (fun i hi => hY i (by omega)), hX n (by omega),
      hY n (by omega)]

theorem linearRegression_congr (X X' Y Y' : Nat → ℚ) (n : Nat) (hX : ∀ i, i < n → X i = X' i)
    (hY : ∀ i, i < n → Y i = Y' i) : linearRegression n X Y = linearRegression n X' Y' := by
  unfold linearRegression
  rw [lrSums_congr X X' Y Y' n hX hY]

theorem segSums_congr (X X' Y Y' : Nat → ℚ) (n : Nat) (hX : ∀ i, i < n → X i = X' i)
    (hY : ∀ i, i < n → Y i = Y' i) : segSums X Y n = segSums X' Y' n := by
  induction n with
  | zero => rfl
  | succ n ih =>
    simp only [segSums]
    rw [ih (fun i hi => hX i (by omega)) (fun i hi => hY i (by omega)), hX n (by omega),
      hY n (by omega)]

theorem errLoop_congr (a b : ℚ) (X X' Y Y' : Nat → ℚ) (err : ℚ) (n : Nat)
    (hX : ∀ i, i < n → X i = X' i) (hY : ∀ i, i < n → Y i = Y' i) :
    errLoop a b X Y err n = errLoop a b X' Y' err n := by
  induction n with
  | zero => rfl
  | succ n ih =>
    simp only [errLoop]
    rw [ih (fun i hi => hX i (by omega)) (fun i hi => hY i (by omega)), hX n (by omega),
      hY n (by omega)]

theorem foldlineRegression_congr (xc : Int) (n1 n2 : Nat) (X1 X1' Y1 Y1' X2 X2' Y2 Y2' : Nat → ℚ)
    (hX1 : ∀ i, i < n1 → X1 i = X1' i) (hY1 : ∀ i, i < n1 → Y1 i = Y1' i)
    (hX2 : ∀ i, i < n2 → X2 i = X2' i) (hY2 : ∀ i, i < n2 → Y2 i = Y2' i) :
    foldlineRegression xc n1 X1 Y1 n2 X2 Y2 = foldlineRegression xc n1 X1' Y1' n2 X2' Y2' := by
  unfold foldlineRegression
  rw [segSums_congr X1 X1' Y1 Y1' n1 hX1 hY1, segSums_congr X2 X2' Y2 Y2' n2 hX2 hY2]
  simp only [errLoop_congr _ _ X1 X1' Y1 Y1' _ n1 hX1 hY1,
    errLoop_congr _ _ X2 X2' Y2 Y2' _ n2 hX2 hY2]

theorem sumyLoop_congr (y y' : Nat → ℚ) (n : Nat) (h : ∀ j, j < n → y j = y' j) :
    sumyLoop y n = sumyLoop y' n := by
  induction n with
  | zero => rfl
  | succ n ih =>
    simp only [sumyLoop]
    rw [ih (fun j hj => h j (by omega)), h n (by omega)]

theorem avgLoop_congr (k r : Nat) (v v' : Nat → ℚ) (n : Nat) (h : ∀ j, j < n → v j = v' j) :
    avgLoop k r v n = avgLoop k r v' n := by
  induction n with
  | zero => rfl
  | succ n ih =>
    simp only [avgLoop]
    rw [ih (fun j hj => h j (by omega)), h n (by omega)]

/-- The fold-line candidate at `turn = 2` depends on the eight recorded memory
utilisations only, not on what the scratch buffers held. -/
theorem foldCandidate_congr (m : Machine) (gmem gmem' : Nat → ℚ) (buf buf' : Scratch)
    (h : ∀ j, j < 8 → gmem j = gmem' j) :
    (foldCandidate defaultConfig (params m) gmem 2 buf).1
      = (foldCandidate defaultConfig (params m) gmem' 2 buf').1 := by
  obtain ⟨a0, a1, a2, a3, b0, b1, b2, b3, c0, c1, c2, c3, d0, d1, d2, d3⟩ :=
    partition_default (params m) gmem buf (numProbFreq_eq m)
  obtain ⟨a0', a1', a2', a3', b0', b1', b2', b3', c0', c1', c2', c3', d0', d1', d2', d3'⟩ :=
    partition_default (params m) gmem' buf' (numProbFreq_eq m)
  have cases4 : ∀ i, i < 4 → i = 0 ∨ i = 1 ∨ i = 2 ∨ i = 3 := fun i hi => by omega
  have hx1 : ∀ i, i < 4 → (partitionLoop (params m) 2 gmem ⟨0, 0, buf⟩ 8).buf.x1 i
      = (partitionLoop (params m) 2 gmem' ⟨0, 0, buf'⟩ 8).buf.x1 i := by
    intro i hi
    rcases cases4 i hi with e | e | e | e <;> subst e
    · rw [a0, a0']
    · rw [a1, a1']
    · rw [a2, a2']
    · rw [a3, a3']
  have hy1 : ∀ i, i < 4 → (partitionLoop (params m) 2 gmem ⟨0, 0, buf⟩ 8).buf.y1 i
      = (partitionLoop (params m) 2 gmem' ⟨0, 0, buf'⟩ 8).buf.y1 i := by
    intro i hi
    rcases cases4 i hi with e | e | e | e <;> subst e
    · rw [b0, b0', h 0 (by norm_num)]
    · rw [b1, b1', h 1 (by norm_num)]
    · rw [b2, b2', h 6 (by norm_num)]
    · rw [b3, b3', h 7 (by norm_num)]
  have hx2 : ∀ i, i < 4 → (partitionLoop (params m) 2 gmem ⟨0, 0, buf⟩ 8).buf.x2 i
      = (partitionLoop (params m) 2 gmem' ⟨0, 0, buf'⟩ 8).buf.x2 i := by
    intro i hi
    rcases cases4 i hi with e | e | e | e <;> subst e
    · rw [c0, c0']
    · rw [c1, c1']
    · rw [c2, c2']
    · rw [c3, c3']
  have hy2 : ∀ i, i < 4 → (partitionLoop (params m) 2 gmem ⟨0, 0, buf⟩ 8).buf.y2 i
      = (partitionLoop (params m) 2 gmem' ⟨0, 0, buf'⟩ 8).buf.y2 i := by
    intro i hi
    rcases cases4 i hi with e | e | e | e <;> subst e
    · rw [d0, d0', h 2 (by norm_num)]
    · rw [d1, d1', h 3 (by norm_num)]
    · rw [d2, d2', h 4 (by norm_num)]
    · rw [d3, d3', h 5 (by norm_num)]
  have n1 : 2 * defaultConfig.numProbRep = 4 := rfl
  have n2 : (4 - 2) * defaultConfig.numProbRep = 4 := rfl
  have e1 := linearRegression_congr _ _ _ _ 4 hx1 hy1
  have e2 := linearRegression_congr _ _ _ _ 4 hx2 hy2
  have e3 := foldlineRegression_congr ((params m).probFreqs (2 - 1)) 4 4 _ _ _ _ _ _ _ _
    hx1 hy1 hx2 hy2
  unfold foldCandidate
  simp only [numProbRec_default, numProbFreq_eq, apply_ite Prod.fst, n1, n2, e1, e2, e3]


theorem turnStep_congr (m : Machine) (gmem gmem' : Nat → ℚ) (sel : Sel) (b' : Scratch)
    (h : ∀ j, j < 8 → gmem j = gmem' j) :
    ∃ b, turnStep defaultConfig (params m) gmem' 2 { sel with buf := b' }
      = { turnStep defaultConfig (params m) gmem 2 sel with buf := b } := by
  have hc := foldCandidate_congr m gmem gmem' sel.buf b' h
  unfold turnStep
  simp only [← hc]
  split_ifs
  · exact ⟨_, rfl⟩
  · exact ⟨_, rfl⟩
  · exact ⟨_, rfl⟩

/-- Model selection depends on the eight recorded memory utilisations only. -/
theorem modelSelect_congr (m : Machine) (gmem gmem' : Nat → ℚ) (buf buf' : Scratch)
    (h : ∀ j, j < 8 → gmem j = gmem' j) :
    (modelSelect defaultConfig (params m) gmem' buf').1
        = (modelSelect defaultConfig (params m) gmem buf).1
      ∧ ∃ b, (modelSelect defaultConfig (params m) gmem' buf').2
        = { (modelSelect defaultConfig (params m) gmem buf).2 with buf := b } := by
  have hl : linearRegression 8 (xOf (params m)) gmem' = linearRegression 8 (xOf (params m)) gmem :=
    linearRegression_congr _ _ _ _ 8 (fun _ _ => rfl) (fun j hj => (h j hj).symm)
  have h3 : (params m).numProbFreq - 3 = 1 := by rw [numProbFreq_eq]
  unfold modelSelect
  simp only [numProbRec_default, h3, hl, turnLoop]
  exact ⟨trivial, turnStep_congr m gmem gmem'
    ⟨0, (linearRegression 8 (xOf (params m)) gmem).regErr, 0, 0, 0, 0, buf⟩ buf' h⟩

/-- The fit hands the arbiter values that depend on the eight recorded slots
only: not on other entries of the records, not on the scratch buffers. -/
theorem fitDevice_congr (m : Machine) (p : ℚ) (gmem gmem' gpow gpow' : Nat → ℚ)
    (buf buf' : Scratch) (hg : ∀ j, j < 8 → gmem j = gmem' j)
    (hw : ∀ j, j < 8 → gpow j = gpow' j) :
    (fitDevice defaultConfig (params m) p gmem' gpow' buf').freqBound
        = (fitDevice defaultConfig (params m) p gmem gpow buf).freqBound
      ∧ (fitDevice defaultConfig (params m) p gmem' gpow' buf').freqEff
        = (fitDevice defaultConfig (params m) p gmem gpow buf).freqEff := by
  obtain ⟨c1, b, c2⟩ := modelSelect_congr m gmem gmem' buf buf' hg
  have hs := sumyLoop_congr gmem gmem' 8 hg
  have ha := avgLoop_congr (params m).numProbFreq defaultConfig.numProbRep gpow gpow' 8 hw
  have hb := avgLoop_congr (params m).numProbFreq defaultConfig.numProbRep gmem gmem' 8 hg
  unfold fitDevice
  simp only [numProbRec_default, ← hs, ← ha, ← hb, c1]
  rw [c2]
  split_ifs
  · exact ⟨rfl, rfl⟩
  · exact ⟨rfl, rfl⟩
  · exact ⟨rfl, rfl⟩
  · exact ⟨rfl, rfl⟩


theorem recordSample_burst (m : Machine) (p1 p2 : ℚ) (r : Nat) (hr : r < 8)
    (d1 d2 : DeviceState) (t : Telemetry)
    (hcap : thisCapOf (params m) p1 t ≤ thisCapOf (params m) p2 t) (h : BurstRel r d1 d2) :
    BurstRel (r + 1) (recordSample defaultConfig (params m) p1 (8 - (r : Int)) d1 t)
      (recordSample defaultConfig (params m) p2 (8 - (r : Int)) d2 t) := by
  obtain ⟨hslots, hc⟩ := h
  have hm : (0 : ℚ) ≤ (t.memory : ℚ) := by exact_mod_cast Nat.zero_le _
  have hl : (8 : Int) - (r : Int) > 0 := by omega
  have hslot : (((numProbRec defaultConfig (params m) : Nat) : Int) - (8 - (r : Int))).toNat = r := by
    rw [numProbRec_default]
    omega
  have hcapT : defaultConfig.useFreqCap = true := rfl
  have slots : ∀ (c1 c2 : ℚ) (j : Nat), j < r + 1 →
      Function.update d1.gmemUtils r (t.memory : ℚ) j
          = Function.update d2.gmemUtils r (t.memory : ℚ) j
        ∧ 0 ≤ Function.update d1.gmemUtils r (t.memory : ℚ) j
        ∧ Function.update d1.gPowers r ((t.power : ℚ) / 1000) j
          = Function.update d2.gPowers r ((t.power : ℚ) / 1000) j := by
    intro _ _ j hj
    by_cases e : j = r
    · subst e
      simp only [Function.update_same]
      exact ⟨trivial, hm, trivial⟩
    · simp only [Function.update_noteq e]
      exact hslots j (by omega)
  unfold recordSample
  simp only [hl, if_true, hslot, hcapT]
  by_cases he : (8 : Int) - (r : Int) = ((numProbRec defaultConfig (params m) : Nat) : Int)
  · simp only [he, if_true]
    exact ⟨slots 0 0, fun _ => hcap⟩
  · simp only [he, if_false]
    have hr0 : 0 < r := by
      rw [numProbRec_default] at he
      omega
    have h7 := hc hr0
    split_ifs with c1 c2 c2
    · exact ⟨slots 0 0, fun _ => hcap⟩
    · exact ⟨slots 0 0, fun _ => le_trans hcap (not_lt.mp c2)⟩
    · exact ⟨slots 0 0, fun _ => le_trans h7 (le_of_lt c2)⟩
    · exact ⟨slots 0 0, fun _ => h7⟩

theorem recordSample_idle (cfg : Config) (prm : Params) (p : ℚ) (l : Int) (hl : l ≤ 0)
    (d : DeviceState) (t : Telemetry) : recordSample cfg prm p l d t = d := by
  unfold recordSample
  rw [if_neg (by omega)]

theorem tick_lastprobPhase (cfg : Config) (prm : Params) (F : Nat → Int) (p : ℚ) (dc : Nat)
    (s : State) (inp : TickInput) :
    (tick cfg prm F true p dc s inp).lastprobPhase = s.probPhase := by
  unfold tick
  simp only [if_true]
  unfold gateUpdate
  simp only []
  rw [completeStage_probPhase, sampleAll_probPhase]
  split_ifs <;> rfl

theorem tick_devices_of_ne (cfg : Config) (prm : Params) (F : Nat → Int) (p : ℚ) (dc : Nat)
    (s : State) (inp : TickInput) (hp : s.probPhase ≠ 0) (i : Nat) (hi : i < dc) :
    (tick cfg prm F true p dc s inp).devices i
      = recordSample cfg prm p s.lastprobPhase (ringUpdate cfg s.idx_oldest (s.devices i) (inp.tel i))
          (inp.tel i) := by
  unfold tick
  simp only [if_true]
  rw [gateUpdate_devices]
  unfold completeStage
  rw [if_neg (by rw [sampleAll_probPhase]; exact hp)]
  unfold sampleAll
  simp only [hi, if_true]
  rfl

theorem tick_devices_of_zero (cfg : Config) (prm : Params) (F : Nat → Int) (p : ℚ) (dc : Nat)
    (s : State) (inp : TickInput) (hp : s.probPhase = 0) :
    (tick cfg prm F true p dc s inp).devices
      = (completeAll cfg prm F p dc
          ((sampleAll cfg prm p dc s inp).devices, (sampleAll cfg prm p dc s inp).buf)).1 := by
  unfold tick
  simp only [if_true]
  rw [gateUpdate_devices]
  unfold completeStage
  rw [if_pos (by rw [sampleAll_probPhase]; exact hp)]

theorem completeAll_records (cfg : Config) (prm : Params) (F : Nat → Int) (p : ℚ) (n : Nat)
    (st : (Nat → DeviceState) × Scratch) (i : Nat) :
    ((completeAll cfg prm F p n st).1 i).gmemUtils = (st.1 i).gmemUtils
      ∧ ((completeAll cfg prm F p n st).1 i).gPowers = (st.1 i).gPowers
      ∧ ((completeAll cfg prm F p n st).1 i).freqCap = (st.1 i).freqCap := by
  induction n with
  | zero => exact ⟨rfl, rfl, rfl⟩
  | succ n ih =>
    unfold completeAll
    simp only []
    by_cases hi : i = n
    · subst hi
      rw [Function.update_same]
      exact ih
    · rw [Function.update_noteq hi]
      exact ih

/-- Burst completion of two executions whose eight recorded slots agree: every
device is given an operating frequency under the higher floor that is at least
the one under the lower floor, whatever the scratch buffers and the previous
operating frequencies were. -/
theorem completeAll_burst (m : Machine) (p1 p2 : ℚ) (hp : p1 ≤ p2) (n : Nat)
    (st1 st2 : (Nat → DeviceState) × Scratch)
    (hd : ∀ i, i < n → BurstRel 8 (st1.1 i) (st2.1 i)) (i : Nat) (hi : i < n) :
    ((completeAll defaultConfig (params m) (availableFreqs m) p1 n st1).1 i).optimizedFreq
      ≤ ((completeAll defaultConfig (params m) (availableFreqs m) p2 n st2).1 i).optimizedFreq := by
  induction n with
  | zero => omega
  | succ n ih =>
    unfold completeAll
    simp only []
    by_cases hin : i = n
    · subst hin
      rw [Function.update_same, Function.update_same]
      obtain ⟨g1, w1, c1⟩ := completeAll_records defaultConfig (params m) (availableFreqs m) p1 i
        st1 i
      obtain ⟨g2, w2, c2⟩ := completeAll_records defaultConfig (params m) (availableFreqs m) p2 i
        st2 i
      obtain ⟨hslots, hcap⟩ := hd i (by omega)
      have hcap' := hcap (by norm_num)
      rw [← c1, ← c2] at hcap'
      have hg : ∀ j, j < 8 →
          ((completeAll defaultConfig (params m) (availableFreqs m) p1 i st1).1 i).gmemUtils j
            = ((completeAll defaultConfig (params m) (availableFreqs m) p2 i st2).1 i).gmemUtils j
          := by
        intro j hj
        rw [g1, g2]
        exact (hslots j hj).1
      have hw : ∀ j, j < 8 →
          ((completeAll defaultConfig (params m) (availableFreqs m) p1 i st1).1 i).gPowers j
            = ((completeAll defaultConfig (params m) (availableFreqs m) p2 i st2).1 i).gPowers j
          := by
        intro j hj
        rw [w1, w2]
        exact (hslots j hj).2.2
      have hnn : ∀ j, j < 8 →
          0 ≤ ((completeAll defaultConfig (params m) (availableFreqs m) p1 i st1).1 i).gmemUtils j
          := by
        intro j hj
        rw [g1]
        exact (hslots j hj).2.1
      obtain ⟨e1, e2⟩ := fitDevice_congr m p2 _ _ _ _
        (completeAll defaultConfig (params m) (availableFreqs m) p1 i st1).2
        (completeAll defaultConfig (params m) (availableFreqs m) p2 i st2).2 hg hw
      obtain ⟨m1, m2, _⟩ := fitDevice_mono m _
        ((completeAll defaultConfig (params m) (availableFreqs m) p1 i st1).1 i).gPowers
        (completeAll defaultConfig (params m) (availableFreqs m) p1 i st1).2 p1 p2 hp hnn
      show arbiter _ _ _ _ _ _ _ ≤ arbiter _ _ _ _ _ _ _
      rw [e1, e2, ← m2]
      exact arbiter_mono m defaultConfig _ _ _ _ _ _ _ m1 hcap'
    · rw [Function.update_noteq hin, Function.update_noteq hin]
      exact ih (fun k hk => hd k (by omega)) (by omega)


theorem run_succ (cfg : Config) (prm : Params) (F : Nat → Int) (mode : Bool) (p : ℚ) (dc : Nat)
    (s0 : State) (inp : Nat → TickInput) (n : Nat) :
    run cfg prm F mode p dc s0 inp (n + 1)
      = tick cfg prm F mode p dc (run cfg prm F mode p dc s0 inp n) (inp n) := rfl

theorem burstRel_zero (d1 d2 : DeviceState) : BurstRel 0 d1 d2 :=
  ⟨fun _ hj => absurd hj (Nat.not_lt_zero _), fun h => absurd h (Nat.lt_irrefl 0)⟩

theorem burstRel_ringUpdate (cfg : Config) (r i1 i2 : Nat) (d1 d2 : DeviceState)
    (t1 t2 : Telemetry) (h : BurstRel r d1 d2) :
    BurstRel r (ringUpdate cfg i1 d1 t1) (ringUpdate cfg i2 d2 t2) := h

theorem sampleAll_devices (cfg : Config) (prm : Params) (p : ℚ) (dc : Nat) (s : State)
    (inp : TickInput) (i : Nat) (hi : i < dc) :
    (sampleAll cfg prm p dc s inp).devices i
      = recordSample cfg prm p s.lastprobPhase (ringUpdate cfg s.idx_oldest (s.devices i) (inp.tel i))
          (inp.tel i) := by
  unfold sampleAll
  simp only [hi, if_true]
  rfl

/-- The recordings of a burst: two executions that start a burst (from any two
states) and read the same telemetry have, after `t ≤ 8` ticks, agreeing records
in the first `t - 1` slots and ordered caps. -/
theorem burst_records (m : Machine) (p1 p2 : ℚ) (hp : p1 ≤ p2) (hp2 : p2 ≤ 1) (dc : Nat)
    (s1 s2 : State) (inp : Nat → TickInput) (h81 : s1.probPhase = 8) (h82 : s2.probPhase = 8)
    (a1 : s1.accumuTime = 0) (a2 : s2.accumuTime = 0)
    (htel : ∀ t j, 0 < ((inp t).tel j).freq ∧ ((inp t).tel j).gpu ≤ 100) (t : Nat) (ht : t ≤ 8) :
    (1 ≤ t →
        (run defaultConfig (params m) (availableFreqs m) true p1 dc s1 inp t).lastprobPhase
            = 9 - (t : Int)
          ∧ (run defaultConfig (params m) (availableFreqs m) true p2 dc s2 inp t).lastprobPhase
            = 9 - (t : Int))
      ∧ ∀ i, i < dc →
          BurstRel (t - 1)
            ((run defaultConfig (params m) (availableFreqs m) true p1 dc s1 inp t).devices i)
            ((run defaultConfig (params m) (availableFreqs m) true p2 dc s2 inp t).devices i) := by
  have hd : 0 < defaultConfig.probDelay := by norm_num [defaultConfig]
  induction t with
  | zero => exact ⟨fun h => absurd h (by norm_num), fun i _ => burstRel_zero _ _⟩
  | succ t ih =>
    obtain ⟨ihl, ihd⟩ := ih (by omega)
    have r1 := run_in_burst defaultConfig (params m) (availableFreqs m) p1 dc s1 inp hd a1 t
      (by rw [h81]; omega)
    have r2 := run_in_burst defaultConfig (params m) (availableFreqs m) p2 dc s2 inp hd a2 t
      (by rw [h82]; omega)
    have q1 : (run defaultConfig (params m) (availableFreqs m) true p1 dc s1 inp t).probPhase
        = 8 - (t : Int) := by rw [r1.1, h81]
    have q2 : (run defaultConfig (params m) (availableFreqs m) true p2 dc s2 inp t).probPhase
        = 8 - (t : Int) := by rw [r2.1, h82]
    rw [run_succ _ _ _ _ p1 _ s1 _ t, run_succ _ _ _ _ p2 _ s2 _ t]
    refine ⟨fun _ => ⟨?_, ?_⟩, ?_⟩
    · rw [tick_lastprobPhase, q1]
      push_cast
      ring
    · rw [tick_lastprobPhase, q2]
      push_cast
      ring
    · intro i hi
      rcases Nat.eq_zero_or_pos t with h0 | hpos
      · subst h0
        exact burstRel_zero _ _
      · obtain ⟨l1, l2⟩ := ihl hpos
        rw [tick_devices_of_ne _ _ _ _ _ _ _ (by rw [q1]; omega) i hi,
          tick_devices_of_ne _ _ _ _ _ _ _ (by rw [q2]; omega) i hi, l1, l2]
        have hr : (9 : Int) - (t : Int) = 8 - ((t - 1 : Nat) : Int) := by omega
        have ht1 : t + 1 - 1 = (t - 1) + 1 := by omega
        rw [hr, ht1]
        exact recordSample_burst m p1 p2 (t - 1) (by omega) _ _ _
          (thisCapOf_mono (params m) p1 p2 _ hp hp2 (maxFreq_pos m) (htel t i).1 (htel t i).2)
          (burstRel_ringUpdate _ _ _ _ _ _ _ _ (ihd i hi))

/-- Burst-level monotonicity: two executions of a burst from any two states at
a burst start, on the same telemetry, with floors `p1 ≤ p2 ≤ 1`. -/
theorem burst_mono (m : Machine) (p1 p2 : ℚ) (hp : p1 ≤ p2) (hp2 : p2 ≤ 1) (dc : Nat)
    (s1 s2 : State) (inp : Nat → TickInput) (h81 : s1.probPhase = 8) (h82 : s2.probPhase = 8)
    (a1 : s1.accumuTime = 0) (a2 : s2.accumuTime = 0)
    (htel : ∀ t j, 0 < ((inp t).tel j).freq ∧ ((inp t).tel j).gpu ≤ 100) (i : Nat)
    (hi : i < dc) :
    ((run defaultConfig (params m) (availableFreqs m) true p1 dc s1 inp 9).devices i).optimizedFreq
      ≤ ((run defaultConfig (params m) (availableFreqs m) true p2 dc s2 inp
          9).devices i).optimizedFreq := by
  rw [show (9 : Nat) = 8 + 1 from rfl]
  have hd : 0 < defaultConfig.probDelay := by norm_num [defaultConfig]
  obtain ⟨hl, hrel⟩ := burst_records m p1 p2 hp hp2 dc s1 s2 inp h81 h82 a1 a2 htel 8 (le_refl 8)
  obtain ⟨l1, l2⟩ := hl (by norm_num)
  have r1 := run_in_burst defaultConfig (params m) (availableFreqs m) p1 dc s1 inp hd a1 8
    (by rw [h81]; norm_num)
  have r2 := run_in_burst defaultConfig (params m) (availableFreqs m) p2 dc s2 inp hd a2 8
    (by rw [h82]; norm_num)
  have q1 : (run defaultConfig (params m) (availableFreqs m) true p1 dc s1 inp 8).probPhase = 0 := by
    rw [r1.1, h81]
    norm_num
  have q2 : (run defaultConfig (params m) (availableFreqs m) true p2 dc s2 inp 8).probPhase = 0 := by
    rw [r2.1, h82]
    norm_num
  rw [run_succ _ _ _ _ p1 _ s1 _ 8, run_succ _ _ _ _ p2 _ s2 _ 8,
    tick_devices_of_zero _ _ _ _ _ _ _ q1, tick_devices_of_zero _ _ _ _ _ _ _ q2]
  apply completeAll_burst m p1 p2 hp dc _ _ _ i hi
  intro k hk
  simp only []
  rw [sampleAll_devices _ _ _ _ _ _ k hk, sampleAll_devices _ _ _ _ _ _ k hk, l1, l2]
  have hr : (9 : Int) - ((8 : Nat) : Int) = 8 - ((7 : Nat) : Int) := by norm_num
  rw [hr]
  exact recordSample_burst m p1 p2 7 (by norm_num) _ _ _
    (thisCapOf_mono (params m) p1 p2 _ hp hp2 (maxFreq_pos m) (htel 8 k).1 (htel 8 k).2)
    (burstRel_ringUpdate _ _ _ _ _ _ _ _ (hrel k hk))


/-- C5 (monotonicity in the performance floor).  Same profile, the source's
constants, identical readings on every tick (observed frequency positive,
`util.gpu` at most 100; memory utilisation and power are unsigned readings),
floors 0.85 and 0.95.  First, two runs from the initial state: after any number
of ticks the operating frequency of every device under 0.95 is at least the one
under 0.85.  Second, two executions of one burst from any two states at a burst
start (`probPhase = 8`, `accumuTime = 0`; windows, records, caps, scratch
buffers and previous operating frequencies arbitrary): after the nine ticks of
the burst (eight recordings with cap accumulation, then model fit and arbiter)
the operating frequency chosen under 0.95 is at least the one chosen under 0.85. -/
theorem C5_perf_floor_monotone (m : Machine) (device_count : Nat) (inp : Nat → TickInput)
    (htel : ∀ t j, 0 < ((inp t).tel j).freq ∧ ((inp t).tel j).gpu ≤ 100) :
    (∀ (modeIsMod : Bool) (cap0 : Nat → ℚ) (n i : Nat),
        ((run defaultConfig (params m) (availableFreqs m) modeIsMod (85 / 100) device_count
            (initState defaultConfig (params m) cap0) inp n).devices i).optimizedFreq
          ≤ ((run defaultConfig (params m) (availableFreqs m) modeIsMod (95 / 100) device_count
            (initState defaultConfig (params m) cap0) inp n).devices i).optimizedFreq)
      ∧ ∀ (s1 s2 : State) (i : Nat),
          s1.probPhase = 8 → s2.probPhase = 8 → s1.accumuTime = 0 → s2.accumuTime = 0 →
          i < device_count →
          ((run defaultConfig (params m) (availableFreqs m) true (85 / 100) device_count s1 inp
              9).devices i).optimizedFreq
            ≤ ((run defaultConfig (params m) (availableFreqs m) true (95 / 100) device_count s2
              inp 9).devices i).optimizedFreq := by
  constructor
  · intro modeIsMod cap0 n i
    exact ((run_rel m modeIsMod (85 / 100) (95 / 100) (by norm_num) (by norm_num) device_count
      cap0 inp htel n).2.2.2.2.2 i).2.2.2.2.2.2.2.1
  · intro s1 s2 i h1 h2 a1 a2 hi
    exact burst_mono m (85 / 100) (95 / 100) (by norm_num) (by norm_num) device_count s1 s2 inp
      h1 h2 a1 a2 htel i hi

/-- C5 at a concrete input: profile `v100-300w`, one device, every tick reading
`util.gpu = 90`, `util.memory = 40`, 1200 MHz and 150 W; ten ticks cover the
first burst and its completion. -/
theorem C5_perf_floor_monotone_witness :
    (∀ t j : Nat, 0 < (((fun _ => ⟨fun _ => ⟨90, 40, 1200, 150000⟩, 200000⟩ : Nat → TickInput)
        t).tel j).freq
        ∧ (((fun _ => ⟨fun _ => ⟨90, 40, 1200, 150000⟩, 200000⟩ : Nat → TickInput) t).tel j).gpu
          ≤ 100)
      ∧ ((run defaultConfig (params Machine.v100_300w) (availableFreqs Machine.v100_300w) true
            (85 / 100) 1 (initState defaultConfig (params Machine.v100_300w) (fun _ => 0))
            (fun _ => ⟨fun _ => ⟨90, 40, 1200, 150000⟩, 200000⟩) 10).devices 0).optimizedFreq
          ≤ ((run defaultConfig (params Machine.v100_300w) (availableFreqs Machine.v100_300w) true
            (95 / 100) 1 (initState defaultConfig (params Machine.v100_300w) (fun _ => 0))
            (fun _ => ⟨fun _ => ⟨90, 40, 1200, 150000⟩, 200000⟩) 10).devices 0).optimizedFreq :=
  ⟨fun _ _ => ⟨by norm_num, by norm_num⟩,
    (C5_perf_floor_monotone Machine.v100_300w 1
      (fun _ => ⟨fun _ => ⟨90, 40, 1200, 150000⟩, 200000⟩)
      (fun _ _ => ⟨by norm_num, by norm_num⟩)).1 true (fun _ => 0) 10 0⟩

/-! ## The discard condition and the degenerate response -/

theorem numProbRec_thres_default (m : Machine) :
    (numProbRec defaultConfig (params m) : ℚ) * defaultConfig.regErrThres = 800 := by
  rw [numProbRec_default]
  norm_num [defaultConfig]

/-- C13 (discard condition).  With regression in use and a positive sum of the
recorded memory utilisations: when the least error of model selection exceeds
`numProbRec * regErrThres` (800 on the shipped profiles with the source's
constants), `skipmodel` is true and the fit hands over `freqBound = maxFreq`
and `freqEff = freqAvgEff`; otherwise `skipmodel` is false and the fit hands
over the model's performance bound and most efficient probe frequency. -/
theorem C13_discard_condition (cfg : Config) (prm : Params) (perfThres : ℚ)
    (gmem gpow : Nat → ℚ) (buf : Scratch) (hreg : cfg.useRegression = true)
    (hsum : sumyLoop gmem (numProbRec cfg prm) > 0) :
    ((modelSelect cfg prm gmem buf).2.regErrMin > (numProbRec cfg prm : ℚ) * cfg.regErrThres →
        skipmodel cfg prm gmem buf = true
          ∧ (fitDevice cfg prm perfThres gmem gpow buf).freqBound = (prm.maxFreq : ℚ)
          ∧ (fitDevice cfg prm perfThres gmem gpow buf).freqEff = (prm.freqAvgEff : ℚ))
      ∧ ((modelSelect cfg prm gmem buf).2.regErrMin ≤ (numProbRec cfg prm : ℚ) * cfg.regErrThres →
          skipmodel cfg prm gmem buf = false
            ∧ (fitDevice cfg prm perfThres gmem gpow buf).freqBound
              = freqPerfBound prm perfThres (modelSelect cfg prm gmem buf).1
                  (modelSelect cfg prm gmem buf).2
            ∧ (fitDevice cfg prm perfThres gmem gpow buf).freqEff
              = (((effLoop prm
                    (fun j => modelPerf prm (modelSelect cfg prm gmem buf).1
                        (modelSelect cfg prm gmem buf).2 j
                      / avgLoop prm.numProbFreq cfg.numProbRep gpow (numProbRec cfg prm) j)
                    (prm.numProbFreq - 1)).2 : Int) : ℚ))
      ∧ ∀ m : Machine,
          (numProbRec defaultConfig (params m) : ℚ) * defaultConfig.regErrThres = 800 := by
  refine ⟨?_, ?_, numProbRec_thres_default⟩
  · intro h
    unfold skipmodel fitDevice
    simp only [hreg, hsum, h, if_true]
    exact ⟨trivial, trivial, trivial⟩
  · intro h
    have h' : ¬ (modelSelect cfg prm gmem buf).2.regErrMin
        > (numProbRec cfg prm : ℚ) * cfg.regErrThres := not_lt.mpr h
    unfold skipmodel fitDevice
    simp only [hreg, hsum, h', if_true, if_false]
    exact ⟨trivial, trivial, trivial⟩

/-- C13 at a concrete input: profile `v100-300w`, the source's constants,
memory utilisation 5 in every slot. -/
theorem C13_discard_condition_witness :
    defaultConfig.useRegression = true
      ∧ sumyLoop (fun _ => 5) (numProbRec defaultConfig (params Machine.v100_300w)) > 0
      ∧ (numProbRec defaultConfig (params Machine.v100_300w) : ℚ) * defaultConfig.regErrThres
          = 800 :=
  ⟨rfl, by norm_num [sumyLoop, numProbRec, defaultConfig, params],
    (C13_discard_condition defaultConfig (params Machine.v100_300w) (9 / 10) (fun _ => 5)
      (fun _ => 150) ⟨fun _ => 0, fun _ => 0, fun _ => 0, fun _ => 0⟩ rfl
      (by norm_num [sumyLoop, numProbRec, defaultConfig, params])).2.2 Machine.v100_300w⟩

theorem sumyLoop_zero (y : Nat → ℚ) (n : Nat) (h : ∀ j, j < n → y j = 0) : sumyLoop y n = 0 := by
  induction n with
  | zero => rfl
  | succ n ih =>
    simp only [sumyLoop]
    rw [ih (fun j hj => h j (by omega)), h n (by omega)]
    norm_num

theorem freqAvgEff_eq (m : Machine) : (params m).freqAvgEff = (params m).minSetFreq := by
  cases m <;> rfl

/-- C14 (degenerate response).  On a shipped profile, with regression and the
cap in use: when every recorded memory utilisation of the burst is 0, the fit
hands over `freqBound = maxFreq` and `freqEff = freqAvgEff` and leaves the
scratch buffers of the regression untouched, and the operating frequency
becomes the least supported frequency that reaches
`max(min(maxFreq, freqCap), freqAvgEff)`. -/
theorem C14_degenerate_response (m : Machine) (cfg : Config) (perfThres : ℚ) (d : DeviceState)
    (buf : Scratch) (hreg : cfg.useRegression = true) (hcap : cfg.useFreqCap = true)
    (hzero : ∀ j, j < numProbRec cfg (params m) → d.gmemUtils j = 0) :
    (fitDevice cfg (params m) perfThres d.gmemUtils d.gPowers buf).freqBound
        = ((params m).maxFreq : ℚ)
      ∧ (fitDevice cfg (params m) perfThres d.gmemUtils d.gPowers buf).freqEff
        = ((params m).freqAvgEff : ℚ)
      ∧ (fitDevice cfg (params m) perfThres d.gmemUtils d.gPowers buf).buf = buf
      ∧ ∃ k, 0 < k ∧ k < (params m).numAvailableFreqs
          ∧ (completeDevice cfg (params m) (availableFreqs m) perfThres d buf).1.optimizedFreq
            = availableFreqs m k
          ∧ ((availableFreqs m (k - 1) : Int) : ℚ)
            < max (min ((params m).maxFreq : ℚ) d.freqCap) ((params m).freqAvgEff : ℚ)
          ∧ max (min ((params m).maxFreq : ℚ) d.freqCap) ((params m).freqAvgEff : ℚ)
            ≤ ((availableFreqs m k : Int) : ℚ) := by
  have hs := sumyLoop_zero d.gmemUtils _ hzero
  have hfit : fitDevice cfg (params m) perfThres d.gmemUtils d.gPowers buf
      = ⟨((params m).maxFreq : ℚ), ((params m).freqAvgEff : ℚ), buf⟩ := by
    unfold fitDevice
    simp only [hreg, hs, if_true]
    norm_num
  refine ⟨by rw [hfit], by rw [hfit], by rw [hfit], ?_⟩
  obtain ⟨k, hk0, hkn, hk, hlt, hge⟩ := arbiter_profile m cfg ((params m).maxFreq : ℚ) d.freqCap
    ((params m).freqAvgEff : ℚ) d.optimizedFreq
  have hmm : ((params m).minSetFreq : ℚ) ≤ ((params m).maxFreq : ℚ) := by
    exact_mod_cast minSetFreq_le_maxFreq m
  have hc : freqOptClamped cfg (params m) ((params m).maxFreq : ℚ) d.freqCap
      ((params m).freqAvgEff : ℚ)
      = max (min ((params m).maxFreq : ℚ) d.freqCap) ((params m).freqAvgEff : ℚ) := by
    unfold freqOptClamped freqOptRaw freqPerfOf
    rw [if_pos hcap, dmin_eq, dmax_eq, dmax_eq, dmin_eq, freqAvgEff_eq]
    rw [max_eq_left (le_max_right _ _)]
    exact min_eq_left (max_le (le_trans (min_le_left _ _) (le_refl _)) hmm)
  rw [hc] at hlt hge
  refine ⟨k, hk0, hkn, ?_, hlt, hge⟩
  show arbiter cfg (params m) (availableFreqs m)
      (fitDevice cfg (params m) perfThres d.gmemUtils d.gPowers buf).freqBound d.freqCap
      (fitDevice cfg (params m) perfThres d.gmemUtils d.gPowers buf).freqEff d.optimizedFreq
    = availableFreqs m k
  rw [hfit]
  exact hk

/-- C14 at a concrete input: profile `v100-300w`, the source's constants, a
device whose records are all zero, with cap 1300. -/
theorem C14_degenerate_response_witness :
    defaultConfig.useRegression = true ∧ defaultConfig.useFreqCap = true
      ∧ (∀ j, j < numProbRec defaultConfig (params Machine.v100_300w) →
          (⟨1530, fun _ => 0, fun _ => 0, fun _ => 0, fun _ => 0, 0, 0, 1300⟩
            : DeviceState).gmemUtils j = 0)
      ∧ (fitDevice defaultConfig (params Machine.v100_300w) (9 / 10)
          (⟨1530, fun _ => 0, fun _ => 0, fun _ => 0, fun _ => 0, 0, 0, 1300⟩
            : DeviceState).gmemUtils
          (⟨1530, fun _ => 0, fun _ => 0, fun _ => 0, fun _ => 0, 0, 0, 1300⟩
            : DeviceState).gPowers
          ⟨fun _ => 0, fun _ => 0, fun _ => 0, fun _ => 0⟩).freqBound
        = ((params Machine.v100_300w).maxFreq : ℚ) :=
  ⟨rfl, rfl, fun _ _ => rfl,
    (C14_degenerate_response Machine.v100_300w defaultConfig (9 / 10)
      ⟨1530, fun _ => 0, fun _ => 0, fun _ => 0, fun _ => 0, 0, 0, 1300⟩
      ⟨fun _ => 0, fun _ => 0, fun _ => 0, fun _ => 0⟩ rfl rfl (fun _ _ => rfl)).1⟩

/-! ## The cap over a burst -/

theorem recordSample_freqCap (cfg : Config) (prm : Params) (p : ℚ) (l : Int) (d : DeviceState)
    (t : Telemetry) (hcap : cfg.useFreqCap = true) :
    (recordSample cfg prm p l d t).freqCap
      = if l > 0 then
          (if l = (numProbRec cfg prm : Int) then thisCapOf prm p t
            else max d.freqCap (thisCapOf prm p t))
        else d.freqCap := by
  unfold recordSample
  by_cases hl : l > 0
  · simp only [hl, if_true, hcap]
    by_cases he : l = (numProbRec cfg prm : Int)
    · simp only [he, if_true]
    · simp only [he, if_false]
      by_cases hc : thisCapOf prm p t > d.freqCap
      · simp only [hc, if_true]
        exact (max_eq_right (le_of_lt hc)).symm
      · simp only [hc, if_false]
        exact (max_eq_left (not_lt.mp hc)).symm
  · simp only [hl, if_false]

theorem ringUpdate_freqCap (cfg : Config) (idx : Nat) (d : DeviceState) (t : Telemetry) :
    (ringUpdate cfg idx d t).freqCap = d.freqCap := rfl

/-- The cap of a device `i < device_count` after one tick in mode `mod`. -/
theorem tick_freqCap (cfg : Config) (prm : Params) (F : Nat → Int) (p : ℚ) (dc : Nat) (s : State)
    (inp : TickInput) (i : Nat) (hi : i < dc) (hcap : cfg.useFreqCap = true) :
    ((tick cfg prm F true p dc s inp).devices i).freqCap
      = if s.lastprobPhase > 0 then
          (if s.lastprobPhase = (numProbRec cfg prm : Int) then thisCapOf prm p (inp.tel i)
            else max (s.devices i).freqCap (thisCapOf prm p (inp.tel i)))
        else (s.devices i).freqCap := by
  have hs : ((sampleAll cfg prm p dc s inp).devices i).freqCap
      = if s.lastprobPhase > 0 then
          (if s.lastprobPhase = (numProbRec cfg prm : Int) then thisCapOf prm p (inp.tel i)
            else max (s.devices i).freqCap (thisCapOf prm p (inp.tel i)))
        else (s.devices i).freqCap := by
    rw [sampleAll_devices cfg prm p dc s inp i hi, recordSample_freqCap _ _ _ _ _ _ hcap,
      ringUpdate_freqCap]
  have hc : ((completeStage cfg prm F p dc (sampleAll cfg prm p dc s inp)).devices i).freqCap
      = ((sampleAll cfg prm p dc s inp).devices i).freqCap := by
    unfold completeStage
    by_cases h0 : (sampleAll cfg prm p dc s inp).probPhase = 0
    · rw [if_pos h0]
      exact (completeAll_records cfg prm F p dc _ i).2.2
    · rw [if_neg h0]
  unfold tick
  simp only [if_true]
  rw [gateUpdate_devices, hc]
  exact hs

/-- The cap after the ticks of a burst: after tick `t` of a burst (`1 ≤ t ≤
numProbRec`; tick 0 is the burst start) it is the greatest per-tick cap of the
ticks `1 .. t`. -/
theorem burst_cap (cfg : Config) (prm : Params) (F : Nat → Int) (p : ℚ) (dc : Nat) (s : State)
    (inp : Nat → TickInput) (i : Nat) (hi : i < dc) (hcap : cfg.useFreqCap = true)
    (hd : 0 < cfg.probDelay) (hs : s.probPhase = (numProbRec cfg prm : Int))
    (hacc : s.accumuTime = 0) (t : Nat) (ht : t < numProbRec cfg prm) :
    ((run cfg prm F true p dc s inp (t + 2)).devices i).freqCap
      = capMax prm p (fun u => (inp (u + 1)).tel i) t := by
  induction t with
  | zero =>
    have r1 := run_in_burst cfg prm F p dc s inp hd hacc 0 (by rw [hs]; omega)
    have hl : (run cfg prm F true p dc s inp (0 + 1)).lastprobPhase = (numProbRec cfg prm : Int) := by
      rw [run_succ, tick_lastprobPhase, r1.1, hs]
      simp
    rw [run_succ _ _ _ _ _ _ _ _ (0 + 1), tick_freqCap _ _ _ _ _ _ _ i hi hcap, hl]
    have hpos : (numProbRec cfg prm : Int) > 0 := by omega
    simp only [hpos, if_true]
    rfl
  | succ t ih =>
    have ih' := ih (by omega)
    have r1 := run_in_burst cfg prm F p dc s inp hd hacc (t + 1) (by rw [hs]; omega)
    have hl : (run cfg prm F true p dc s inp (t + 1 + 1)).lastprobPhase
        = (numProbRec cfg prm : Int) - (t + 1 : Nat) := by
      rw [run_succ, tick_lastprobPhase, r1.1, hs]
    rw [run_succ _ _ _ _ _ _ _ _ (t + 1 + 1), tick_freqCap _ _ _ _ _ _ _ i hi hcap, hl]
    have hpos : (numProbRec cfg prm : Int) - (t + 1 : Nat) > 0 := by omega
    have hne : ¬ ((numProbRec cfg prm : Int) - (t + 1 : Nat) = (numProbRec cfg prm : Int)) := by
      omega
    simp only [hpos, if_true, hne, if_false]
    rw [ih']
    rfl

theorem capMax_ge (prm : Params) (p : ℚ) (tel : Nat → Telemetry) (n t : Nat) (ht : t ≤ n) :
    thisCapOf prm p (tel t) ≤ capMax prm p tel n := by
  induction n with
  | zero =>
    have : t = 0 := by omega
    subst this
    exact le_refl _
  | succ n ih =>
    rcases Nat.eq_or_lt_of_le ht with h | h
    · subst h
      exact le_max_right _ _
    · exact le_trans (ih (by omega)) (le_max_left _ _)

theorem capMax_attained (prm : Params) (p : ℚ) (tel : Nat → Telemetry) (n : Nat) :
    ∃ t, t ≤ n ∧ capMax prm p tel n = thisCapOf prm p (tel t) := by
  induction n with
  | zero => exact ⟨0, le_refl 0, rfl⟩
  | succ n ih =>
    obtain ⟨t, ht, he⟩ := ih
    rcases le_total (capMax prm p tel n) (thisCapOf prm p (tel (n + 1))) with h | h
    · exact ⟨n + 1, le_refl _, max_eq_right h⟩
    · exact ⟨t, by omega, by rw [← he]; exact max_eq_left h⟩

/-- The divisors of the per-tick cap of line 610 for a reading with a positive
clock and a utilisation of at most 100, with a floor of at most 1: both are
positive, so the quotient is an ordinary division. -/
theorem thisCapOf_defined (prm : Params) (p : ℚ) (t : Telemetry) (hp : p ≤ 1)
    (hmax : 0 < prm.maxFreq) (hf : 0 < t.freq) (hu : t.gpu ≤ 100) :
    0 < max 1 (t.gpu : ℚ)
      ∧ 0 < (1 - p) * ((t.freq : ℚ) / (prm.maxFreq : ℚ) + 100 / max 1 (t.gpu : ℚ) - 1)
          + (t.freq : ℚ) / (prm.maxFreq : ℚ) := by
  have hfq : (0 : ℚ) < (t.freq : ℚ) := by exact_mod_cast hf
  have hmq : (0 : ℚ) < (prm.maxFreq : ℚ) := by exact_mod_cast hmax
  have hq : 0 < (t.freq : ℚ) / (prm.maxFreq : ℚ) := div_pos hfq hmq
  have hu1 : (1 : ℚ) ≤ max 1 (t.gpu : ℚ) := le_max_left _ _
  have hupos : (0 : ℚ) < max 1 (t.gpu : ℚ) := by linarith
  have hu2 : max 1 (t.gpu : ℚ) ≤ 100 := by
    have : (t.gpu : ℚ) ≤ 100 := by exact_mod_cast hu
    exact max_le (by norm_num) this
  have hu3 : (1 : ℚ) ≤ 100 / max 1 (t.gpu : ℚ) := by
    rw [le_div_iff₀ hupos]
    linarith
  refine ⟨hupos, ?_⟩
  have : 0 ≤ (1 - p) * ((t.freq : ℚ) / (prm.maxFreq : ℚ) + 100 / max 1 (t.gpu : ℚ) - 1) :=
    mul_nonneg (by linarith) (by linarith)
  linarith

/-- C15 (cap as a running maximum).  With the cap in use, `maxFreq > 0`, a
performance floor of at most 1 and readings with a positive clock and a
utilisation of at most 100 (so that the divisors of line 610 are positive): a
recording with `lastprobPhase = numProbRec` (the first of a burst) sets
`freqCap[i]` to that tick's `thisCap`, a recording with
`0 < lastprobPhase < numProbRec` sets it to `max(freqCap[i], thisCap)`, where
`thisCap` is the formula of line 610.  Hence in a burst of such readings
started from any state (mode `mod`, positive probe interval), for every device
the cap after tick `t + 1` is the greatest `thisCap` of the ticks `1 .. t + 1`,
it does not decrease from one recording to the next, and the cap at burst
completion (which the completion itself does not change) is the greatest of the
`numProbRec` per-tick values: at least each of them and equal to one of
them. -/
theorem C15_cap_running_max (cfg : Config) (prm : Params) (F : Nat → Int) (perfThres : ℚ)
    (device_count : Nat) (s : State) (inp : Nat → TickInput) (i : Nat) (hi : i < device_count)
    (hcap : cfg.useFreqCap = true) (hd : 0 < cfg.probDelay)
    (hs : s.probPhase = (numProbRec cfg prm : Int)) (hacc : s.accumuTime = 0)
    (hN : 0 < numProbRec cfg prm) (hmax : 0 < prm.maxFreq) (hp : perfThres ≤ 1)
    (htel : ∀ u, 0 < ((inp u).tel i).freq ∧ ((inp u).tel i).gpu ≤ 100) :
    (∀ (tel : Telemetry), 0 < tel.freq → tel.gpu ≤ 100 →
        0 < max 1 (tel.gpu : ℚ)
        ∧ 0 < (1 - perfThres) * ((tel.freq : ℚ) / (prm.maxFreq : ℚ)
              + 100 / max 1 (tel.gpu : ℚ) - 1) + (tel.freq : ℚ) / (prm.maxFreq : ℚ)
        ∧ thisCapOf prm perfThres tel
          = (tel.freq : ℚ) / ((1 - perfThres) * ((tel.freq : ℚ) / (prm.maxFreq : ℚ)
              + 100 / max 1 (tel.gpu : ℚ) - 1) + (tel.freq : ℚ) / (prm.maxFreq : ℚ)))
      ∧ (∀ (d : DeviceState) (tel : Telemetry) (l : Int), 0 < tel.freq → tel.gpu ≤ 100 →
          (l = (numProbRec cfg prm : Int) → 0 < l →
            (recordSample cfg prm perfThres l d tel).freqCap = thisCapOf prm perfThres tel)
          ∧ (0 < l → l ≠ (numProbRec cfg prm : Int) →
            (recordSample cfg prm perfThres l d tel).freqCap
              = max d.freqCap (thisCapOf prm perfThres tel)))
      ∧ (∀ t, t < numProbRec cfg prm →
          0 < (1 - perfThres) * ((((inp (t + 1)).tel i).freq : ℚ) / (prm.maxFreq : ℚ)
              + 100 / max 1 (((inp (t + 1)).tel i).gpu : ℚ) - 1)
              + (((inp (t + 1)).tel i).freq : ℚ) / (prm.maxFreq : ℚ))
      ∧ (∀ t, t < numProbRec cfg prm →
          ((run cfg prm F true perfThres device_count s inp (t + 2)).devices i).freqCap
            = capMax prm perfThres (fun u => (inp (u + 1)).tel i) t)
      ∧ (∀ t, t + 1 < numProbRec cfg prm →
          ((run cfg prm F true perfThres device_count s inp (t + 2)).devices i).freqCap
            ≤ ((run cfg prm F true perfThres device_count s inp (t + 3)).devices i).freqCap)
      ∧ (∀ t, t < numProbRec cfg prm →
          thisCapOf prm perfThres ((inp (t + 1)).tel i)
            ≤ ((run cfg prm F true perfThres device_count s inp
                (numProbRec cfg prm + 1)).devices i).freqCap)
      ∧ ∃ t, t < numProbRec cfg prm
          ∧ ((run cfg prm F true perfThres device_count s inp
                (numProbRec cfg prm + 1)).devices i).freqCap
            = thisCapOf prm perfThres ((inp (t + 1)).tel i) := by
  have hb := burst_cap cfg prm F perfThres device_count s inp i hi hcap hd hs hacc
  have hN2 : numProbRec cfg prm + 1 = (numProbRec cfg prm - 1) + 2 := by omega
  refine ⟨?_, ?_, ?_, hb, ?_, ?_, ?_⟩
  · intro tel hf hu
    obtain ⟨h1, h2⟩ := thisCapOf_defined prm perfThres tel hp hmax hf hu
    refine ⟨h1, h2, ?_⟩
    unfold thisCapOf
    rw [dmax_eq]
  · intro d tel l _ _
    constructor
    · intro h1 h2
      rw [recordSample_freqCap _ _ _ _ _ _ hcap, if_pos h2, if_pos h1]
    · intro h1 h2
      rw [recordSample_freqCap _ _ _ _ _ _ hcap, if_pos h1, if_neg h2]
  · intro t _
    exact (thisCapOf_defined prm perfThres _ hp hmax (htel (t + 1)).1 (htel (t + 1)).2).2
  · intro t ht
    rw [hb t (by omega), show t + 3 = (t + 1) + 2 from rfl, hb (t + 1) ht]
    exact le_max_left _ _
  · intro t ht
    rw [hN2, hb (numProbRec cfg prm - 1) (by omega)]
    exact capMax_ge prm perfThres (fun u => (inp (u + 1)).tel i) _ t (by omega)
  · rw [hN2, hb (numProbRec cfg prm - 1) (by omega)]
    obtain ⟨t, ht, he⟩ := capMax_attained prm perfThres (fun u => (inp (u + 1)).tel i)
      (numProbRec cfg prm - 1)
    exact ⟨t, by omega, he⟩

/-- C15 at a concrete input: profile `v100-300w`, the source's constants, one
device, the initial state (a burst start), constant readings. -/
theorem C15_cap_running_max_witness :
    (0 < 1) ∧ defaultConfig.useFreqCap = true ∧ 0 < defaultConfig.probDelay
      ∧ (initState defaultConfig (params Machine.v100_300w) (fun _ => 0)).probPhase
          = (numProbRec defaultConfig (params Machine.v100_300w) : Int)
      ∧ (initState defaultConfig (params Machine.v100_300w) (fun _ => 0)).accumuTime = 0
      ∧ 0 < (params Machine.v100_300w).maxFreq ∧ (9 / 10 : ℚ) ≤ 1
      ∧ (0 < (⟨90, 40, 1200, 150000⟩ : Telemetry).freq
          ∧ (⟨90, 40, 1200, 150000⟩ : Telemetry).gpu ≤ 100)
      ∧ ∀ t, t < numProbRec defaultConfig (params Machine.v100_300w) →
          ((run defaultConfig (params Machine.v100_300w) (availableFreqs Machine.v100_300w) true
              (9 / 10) 1 (initState defaultConfig (params Machine.v100_300w) (fun _ => 0))
              (fun _ => ⟨fun _ => ⟨90, 40, 1200, 150000⟩, 200000⟩) (t + 2)).devices 0).freqCap
            = capMax (params Machine.v100_300w) (9 / 10)
                (fun u => ((fun _ => ⟨fun _ => ⟨90, 40, 1200, 150000⟩, 200000⟩ : Nat → TickInput)
                  (u + 1)).tel 0) t :=
  ⟨by norm_num, rfl, by norm_num [defaultConfig], rfl, rfl, by decide, by norm_num,
    ⟨by decide, by decide⟩,
    (C15_cap_running_max defaultConfig (params Machine.v100_300w)
      (availableFreqs Machine.v100_300w) (9 / 10) 1
      (initState defaultConfig (params Machine.v100_300w) (fun _ => 0))
      (fun _ => ⟨fun _ => ⟨90, 40, 1200, 150000⟩, 200000⟩) 0 (by norm_num) rfl
      (by norm_num [defaultConfig]) rfl rfl (by decide) (by decide) (by norm_num)
      (fun _ => ⟨Nat.succ_pos 1199, Nat.le_of_ble_eq_true rfl⟩)).2.2.2.1⟩

/-! ## The supported list and the probe set of each profile -/

/-- Entry 142 of the `v100-300w` list is 1200, its neighbours are 1192 and 1207,
and entry 144 is 1215. -/
theorem availableFreqs_near_1200 :
    availableFreqs Machine.v100_300w 141 = 1192 ∧ availableFreqs Machine.v100_300w 142 = 1200
      ∧ availableFreqs Machine.v100_300w 143 = 1207
      ∧ availableFreqs Machine.v100_300w 144 = 1215 := by
  refine ⟨?_, ?_, ?_, ?_⟩ <;>
    · rw [availableFreqs_eq _ _ (by norm_num [params])]
      rfl

/-- On `v100-300w` the arbiter result is the entry `F[k]` bracketing the
clamped target, in the closed form of the list. -/
theorem arbiter_v100_300w (cfg : Config) (fb cap fe : ℚ) (cur : Int) :
    ∃ k, 0 < k ∧ k < 187
      ∧ arbiter cfg (params Machine.v100_300w) (availableFreqs Machine.v100_300w) fb cap fe cur
          = freqFormula Machine.v100_300w k
      ∧ ((freqFormula Machine.v100_300w (k - 1) : Int) : ℚ)
          < freqOptClamped cfg (params Machine.v100_300w) fb cap fe
      ∧ freqOptClamped cfg (params Machine.v100_300w) fb cap fe
          ≤ ((freqFormula Machine.v100_300w k : Int) : ℚ) := by
  obtain ⟨k, hk0, hkn, hr, hlt, hge⟩ := arbiter_profile Machine.v100_300w cfg fb cap fe cur
  have hn : (params Machine.v100_300w).numAvailableFreqs = 187 := rfl
  rw [hn] at hkn
  rw [availableFreqs_eq _ _ (by rw [hn]; omega)] at hr hge
  rw [availableFreqs_eq _ _ (by rw [hn]; omega)] at hlt
  exact ⟨k, hk0, hkn, hr, hlt, hge⟩

/-- C16, counterexample to the claim as stated: on `v100-300w`, with bound 1200,
cap 1530 and efficiency choice 0 the clamped target is exactly 1200, and the
arbiter stores 1200, which is not 1215. -/
theorem C16_target_1200_counterexample :
    freqOptClamped defaultConfig (params Machine.v100_300w) 1200 1530 0 = 1200
      ∧ arbiter defaultConfig (params Machine.v100_300w) (availableFreqs Machine.v100_300w)
          1200 1530 0 1530 = 1200
      ∧ ¬ (arbiter defaultConfig (params Machine.v100_300w) (availableFreqs Machine.v100_300w)
          1200 1530 0 1530 = 1215) := by
  have hc : freqOptClamped defaultConfig (params Machine.v100_300w) 1200 1530 0 = 1200 := by
    norm_num [freqOptClamped, freqOptRaw, freqPerfOf, dmax, dmin, params, defaultConfig]
  obtain ⟨k, hk0, hkn, hr, hlt, hge⟩ :=
    arbiter_v100_300w defaultConfig 1200 1530 0 1530
  rw [hc] at hlt hge
  have hlt2 : freqFormula Machine.v100_300w (k - 1) < 1200 := by exact_mod_cast hlt
  have hge2 : (1200 : Int) ≤ freqFormula Machine.v100_300w k := by exact_mod_cast hge
  simp only [freqFormula] at hlt2 hge2 hr
  have hk : k = 142 := by omega
  subst hk
  have hv : arbiter defaultConfig (params Machine.v100_300w) (availableFreqs Machine.v100_300w)
      1200 1530 0 1530 = 1200 := by
    rw [hr]
    norm_num
  exact ⟨hc, hv, by rw [hv]; norm_num⟩

/-- C16 (amended).  On `v100-300w` the value 1200 is entry 142 of the supported
list (1200 = 135 + 15 * 71), so a clamped arbiter target of exactly 1200 is
stored as 1200; the clamped targets stored as 1215 are exactly those in
`(1207, 1215]`, 1207 being the entry before 1215. -/
theorem C16_snap_near_1200 (cfg : Config) (freqBound freqCap freqEff : ℚ) (cur : Int) :
    availableFreqs Machine.v100_300w 142 = 1200
      ∧ availableFreqs Machine.v100_300w 143 = 1207
      ∧ availableFreqs Machine.v100_300w 144 = 1215
      ∧ (freqOptClamped cfg (params Machine.v100_300w) freqBound freqCap freqEff = 1200 →
          arbiter cfg (params Machine.v100_300w) (availableFreqs Machine.v100_300w)
            freqBound freqCap freqEff cur = 1200)
      ∧ (arbiter cfg (params Machine.v100_300w) (availableFreqs Machine.v100_300w)
            freqBound freqCap freqEff cur = 1215
          ↔ 1207 < freqOptClamped cfg (params Machine.v100_300w) freqBound freqCap freqEff
            ∧ freqOptClamped cfg (params Machine.v100_300w) freqBound freqCap freqEff ≤ 1215)
      ∧ arbiter defaultConfig (params Machine.v100_300w) (availableFreqs Machine.v100_300w)
          1200 1530 0 1530 = 1200 := by
  have hF := availableFreqs_near_1200
  refine ⟨hF.2.1, hF.2.2.1, hF.2.2.2, ?_, ?_, ?_⟩
  · intro hc
    obtain ⟨k, hk0, hkn, hr, hlt, hge⟩ := arbiter_v100_300w cfg freqBound freqCap freqEff cur
    rw [hc] at hlt hge
    have hlt2 : freqFormula Machine.v100_300w (k - 1) < 1200 := by exact_mod_cast hlt
    have hge2 : (1200 : Int) ≤ freqFormula Machine.v100_300w k := by exact_mod_cast hge
    simp only [freqFormula] at hlt2 hge2 hr
    rw [hr]
    omega
  · obtain ⟨k, hk0, hkn, hr, hlt, hge⟩ := arbiter_v100_300w cfg freqBound freqCap freqEff cur
    constructor
    · intro h
      rw [hr] at h
      have hk : k = 144 := by
        simp only [freqFormula] at h
        omega
      subst hk
      have e1 : ((freqFormula Machine.v100_300w (144 - 1) : Int) : ℚ) = 1207 := by
        norm_num [freqFormula]
      have e2 : ((freqFormula Machine.v100_300w 144 : Int) : ℚ) = 1215 := by
        norm_num [freqFormula]
      rw [e1] at hlt
      rw [e2] at hge
      exact ⟨hlt, hge⟩
    · rintro ⟨h1, h2⟩
      have a1 : ((freqFormula Machine.v100_300w (k - 1) : Int) : ℚ) < 1215 := lt_of_lt_of_le hlt h2
      have a2 : (1207 : ℚ) < ((freqFormula Machine.v100_300w k : Int) : ℚ) := lt_of_lt_of_le h1 hge
      have b1 : freqFormula Machine.v100_300w (k - 1) < 1215 := by exact_mod_cast a1
      have b2 : (1207 : Int) < freqFormula Machine.v100_300w k := by exact_mod_cast a2
      simp only [freqFormula] at b1 b2 hr
      rw [hr]
      omega
  · have hc : freqOptClamped defaultConfig (params Machine.v100_300w) 1200 1530 0 = 1200 := by
      norm_num [freqOptClamped, freqOptRaw, freqPerfOf, dmax, dmin, params, defaultConfig]
    obtain ⟨k, hk0, hkn, hr, hlt, hge⟩ :=
      arbiter_v100_300w defaultConfig 1200 1530 0 1530
    rw [hc] at hlt hge
    have hlt2 : freqFormula Machine.v100_300w (k - 1) < 1200 := by exact_mod_cast hlt
    have hge2 : (1200 : Int) ≤ freqFormula Machine.v100_300w k := by exact_mod_cast hge
    simp only [freqFormula] at hlt2 hge2 hr
    rw [hr]
    omega

/-- The gap between consecutive entries of the closed form. -/
theorem freqFormula_gap (m : Machine) (i : Nat) :
    freqFormula m (i + 1) - freqFormula m i
      = match m with
        | .a100_insp => 15
        | _ => if i % 2 = 0 then 7 else 8 := by
  cases m <;> simp only [freqFormula] <;> (try split_ifs) <;> omega

/-- C17 (the supported list).  For each machine key `getAvailableFreqs` returns,
and stores exactly `numAvailableFreqs` values (175, 187, 81); index `i` reads
the `i`-th of them; the list is strictly increasing, starts at 135 (both V100
keys) or 210 (`a100-insp`), ends at `maxFreq`, and consecutive gaps are
7, 8, 7, 8, ... on the V100 keys and 15 on `a100-insp`.  For `v100-300w`:
`maxFreq = 1530`, `minSetFreq = 952`, `setMemFreq = 877`, 187 entries. -/
theorem C17_supported_list (m : Machine) :
    (∃ l, getAvailableFreqs m = some l ∧ l.length = (params m).numAvailableFreqs
        ∧ (∀ i, i < (params m).numAvailableFreqs → l.get? i = some (availableFreqs m i))
        ∧ ∀ i, (params m).numAvailableFreqs ≤ i → l.get? i = none)
      ∧ (params Machine.v100_maxq).numAvailableFreqs = 175
      ∧ (params Machine.v100_300w).numAvailableFreqs = 187
      ∧ (params Machine.a100_insp).numAvailableFreqs = 81
      ∧ (∀ i j, i < j → j < (params m).numAvailableFreqs →
          availableFreqs m i < availableFreqs m j)
      ∧ availableFreqs m 0 = (match m with | .a100_insp => 210 | _ => 135)
      ∧ availableFreqs m ((params m).numAvailableFreqs - 1) = (params m).maxFreq
      ∧ (∀ i, i + 1 < (params m).numAvailableFreqs →
          availableFreqs m (i + 1) - availableFreqs m i
            = match m with
              | .a100_insp => 15
              | _ => if i % 2 = 0 then 7 else 8)
      ∧ (params Machine.v100_300w).maxFreq = 1530
      ∧ (params Machine.v100_300w).minSetFreq = 952
      ∧ (params Machine.v100_300w).setMemFreq = 877 := by
  refine ⟨⟨_, getAvailableFreqs_eq m, by simp, ?_, ?_⟩, rfl, rfl, rfl, ?_, ?_, availableFreqs_last m,
    ?_, rfl, rfl, rfl⟩
  · intro i hi
    rw [availableFreqs_eq m i hi]
    simp [List.getElem?_map, List.getElem?_range hi]
  · intro i hi
    simp [hi]
  · intro i j hij hj
    rw [availableFreqs_eq m i (by omega), availableFreqs_eq m j hj]
    exact freqFormula_strictMono m i j hij
  · rw [availableFreqs_eq m 0 (numAvailableFreqs_pos m)]
    cases m <;> rfl
  · intro i hi
    rw [availableFreqs_eq m (i + 1) hi, availableFreqs_eq m i (by omega)]
    exact freqFormula_gap m i

/-- The probe set of a shipped profile is strictly increasing. -/
theorem probFreqs_strictMono (m : Machine) (i j : Nat) (hij : i < j)
    (hj : j < (params m).numProbFreq) : (params m).probFreqs i < (params m).probFreqs j := by
  have ho := probFreqs_order m
  rw [numProbFreq_eq] at hj
  have hj4 : j = 1 ∨ j = 2 ∨ j = 3 := by omega
  rcases hj4 with h | h | h <;> subst h
  · have : i = 0 := by omega
    subst this
    exact ho.1
  · have : i = 0 ∨ i = 1 := by omega
    rcases this with h | h <;> subst h
    · exact lt_trans ho.1 ho.2.1
    · exact ho.2.1
  · have : i = 0 ∨ i = 1 ∨ i = 2 := by omega
    rcases this with h | h | h <;> subst h
    · exact lt_trans ho.1 (lt_trans ho.2.1 ho.2.2.1)
    · exact lt_trans ho.2.1 ho.2.2.1
    · exact ho.2.2.1

/-- C18 (the probe set).  On each of the three profiles the probe set has
`numProbFreq = 4` entries, is strictly increasing, every entry is an entry of
the supported list, `probFreqs[0] ≥ minSetFreq` and `probFreqs[3] ≤ maxFreq`. -/
theorem C18_probe_set (m : Machine) :
    (params m).numProbFreq = 4
      ∧ (∀ i j, i < j → j < (params m).numProbFreq →
          (params m).probFreqs i < (params m).probFreqs j)
      ∧ (∀ j, j < (params m).numProbFreq →
          ∃ k, k < (params m).numAvailableFreqs ∧ availableFreqs m k = (params m).probFreqs j)
      ∧ (∀ j, j < (params m).numProbFreq →
          ∃ l, getAvailableFreqs m = some l ∧ (params m).probFreqs j ∈ l)
      ∧ (params m).minSetFreq ≤ (params m).probFreqs 0
      ∧ (params m).probFreqs ((params m).numProbFreq - 1) ≤ (params m).maxFreq := by
  have hk := numProbFreq_eq m
  refine ⟨hk, probFreqs_strictMono m, ?_, ?_, (probFreqs_range m 0 (by omega)).1, ?_⟩
  · intro j hj
    rw [hk] at hj
    obtain ⟨k, hkn, he⟩ := probFreqs_in_formula m j hj
    exact ⟨k, hkn, by rw [availableFreqs_eq m k hkn, he]⟩
  · intro j hj
    rw [hk] at hj
    obtain ⟨k, hkn, he⟩ := probFreqs_in_formula m j hj
    refine ⟨_, getAvailableFreqs_eq m, ?_⟩
    rw [List.mem_map]
    exact ⟨k, List.mem_range.mpr hkn, he⟩
  · rw [hk]
    exact (probFreqs_range m 3 (by omega)).2

/-! ## Start-up checks and driver results -/

/-- C19, evaluation of the code at the failing input: with first argument `"m"`
(which is not `"mod"`) the check of lines 328-337 does not exit; execution
reaches `nvmlInit_v2`.  The same holds for every other substring of `"mod"`. -/
theorem C19_mode_substring_accepted :
    startupCheck ["./dvfs", "m", "Assure", "p90"] = Startup.initCalled
      ∧ startupCheck ["./dvfs", "od", "Assure", "p90"] = Startup.initCalled
      ∧ startupCheck ["./dvfs", "", "Assure", "p90"] = Startup.initCalled
      ∧ startupCheck ["./dvfs", "mod", "Assure", "p90"] = Startup.initCalled
      ∧ startupCheck ["./dvfs", "modulate", "Assure", "p90"] = Startup.exitBeforeInit 1 := by
  refine ⟨?_, ?_, ?_, ?_, ?_⟩ <;> decide

/-- C20, evaluation of the code: inside the control loop a set-clocks result of
`NVML_ERROR_NO_PERMISSION` is printed and the loop continues (lines 685-686),
while the same result from the reset at start-up leaves through `Error`
(lines 443-447); `NVML_ERROR_NOT_SUPPORTED` continues and any other failure
leaves through `Error`. -/
theorem C20_no_permission_continues :
    setFreqResultStep NvmlReturn.errorNoPermission = LoopStep.continues
      ∧ resetLockedResultStep NvmlReturn.errorNoPermission = LoopStep.gotoError
      ∧ setFreqResultStep NvmlReturn.errorNotSupported = LoopStep.continues
      ∧ setFreqResultStep NvmlReturn.errorOther = LoopStep.gotoError
      ∧ setFreqResultStep NvmlReturn.success = LoopStep.continues := by
  refine ⟨?_, ?_, ?_, ?_, ?_⟩ <;> rfl

/-! ## Model selection -/

/-- The invariant of the `turn` loop, started with `turn_Opt = 0`: after the
iterations `turn = 2 .. n+1` the running minimum is at most the starting error
and at most the error of every retained candidate, and either no retained
candidate was strictly below the starting error and nothing changed, or the
selection is the first retained candidate of least error. -/
theorem turnLoop_select (cfg : Config) (prm : Params) (gmem : Nat → ℚ) (sel0 : Sel)
    (h0 : sel0.turn_Opt = 0) (n : Nat) :
    (turnLoop cfg prm gmem sel0 n).regErrMin ≤ sel0.regErrMin
      ∧ (∀ i, i < n →
          (turnCandidate cfg prm gmem sel0 (i + 2)).slope2
            < (turnCandidate cfg prm gmem sel0 (i + 2)).slope1 →
          (turnLoop cfg prm gmem sel0 n).regErrMin
            ≤ (turnCandidate cfg prm gmem sel0 (i + 2)).regErr)
      ∧ (((turnLoop cfg prm gmem sel0 n).turn_Opt = 0
            ∧ (turnLoop cfg prm gmem sel0 n).regErrMin = sel0.regErrMin
            ∧ ∀ i, i < n →
                (turnCandidate cfg prm gmem sel0 (i + 2)).slope2
                  < (turnCandidate cfg prm gmem sel0 (i + 2)).slope1 →
                sel0.regErrMin ≤ (turnCandidate cfg prm gmem sel0 (i + 2)).regErr)
          ∨ ∃ i, i < n
              ∧ (turnCandidate cfg prm gmem sel0 (i + 2)).slope2
                  < (turnCandidate cfg prm gmem sel0 (i + 2)).slope1
              ∧ (turnLoop cfg prm gmem sel0 n).turn_Opt = i + 2
              ∧ (turnLoop cfg prm gmem sel0 n).regErrMin
                  = (turnCandidate cfg prm gmem sel0 (i + 2)).regErr
              ∧ (turnCandidate cfg prm gmem sel0 (i + 2)).regErr < sel0.regErrMin
              ∧ (turnLoop cfg prm gmem sel0 n).slope1_Opt
                  = (turnCandidate cfg prm gmem sel0 (i + 2)).slope1
              ∧ (turnLoop cfg prm gmem sel0 n).intercept1_Opt
                  = (turnCandidate cfg prm gmem sel0 (i + 2)).intercept1
              ∧ (turnLoop cfg prm gmem sel0 n).slope2_Opt
                  = (turnCandidate cfg prm gmem sel0 (i + 2)).slope2
              ∧ (turnLoop cfg prm gmem sel0 n).intercept2_Opt
                  = (turnCandidate cfg prm gmem sel0 (i + 2)).intercept2
              ∧ ∀ i2, i2 < i →
                  (turnCandidate cfg prm gmem sel0 (i2 + 2)).slope2
                    < (turnCandidate cfg prm gmem sel0 (i2 + 2)).slope1 →
                  (turnCandidate cfg prm gmem sel0 (i + 2)).regErr
                    < (turnCandidate cfg prm gmem sel0 (i2 + 2)).regErr) := by
  induction n with
  | zero =>
    refine ⟨le_refl _, ?_, Or.inl ⟨h0, rfl, ?_⟩⟩
    · intro i hi
      omega
    · intro i hi
      omega
  | succ n ih =>
    obtain ⟨ha, hb, hc⟩ := ih
    have hstep : turnLoop cfg prm gmem sel0 (n + 1)
        = turnStep cfg prm gmem (n + 2) (turnLoop cfg prm gmem sel0 n) := rfl
    obtain ⟨c, hce⟩ : ∃ c, c = turnCandidate cfg prm gmem sel0 (n + 2) := ⟨_, rfl⟩
    have hcand : (foldCandidate cfg prm gmem (n + 2) (turnLoop cfg prm gmem sel0 n).buf).1 = c := by
      rw [hce]
      rfl
    rw [hstep]
    generalize turnLoop cfg prm gmem sel0 n = s at ha hb hc hcand ⊢
    unfold turnStep
    simp only []
    rw [hcand]
    by_cases h1 : c.slope1 ≤ c.slope2
    · rw [if_pos h1]
      refine ⟨ha, ?_, ?_⟩
      · intro i hi hret
        rcases Nat.lt_succ_iff_lt_or_eq.mp hi with h | h
        · exact hb i h hret
        · subst h
          rw [← hce] at hret
          exact absurd h1 (not_le.mpr hret)
      · rcases hc with ⟨c1, c2, c3⟩ | ⟨i, hi, c1, c2, c3, c4, c5, c6, c7, c8, c9⟩
        · refine Or.inl ⟨c1, c2, ?_⟩
          intro i hi hret
          rcases Nat.lt_succ_iff_lt_or_eq.mp hi with h | h
          · exact c3 i h hret
          · subst h
            rw [← hce] at hret
            exact absurd h1 (not_le.mpr hret)
        · exact Or.inr ⟨i, by omega, c1, c2, c3, c4, c5, c6, c7, c8, c9⟩
    · rw [if_neg h1]
      have hret0 : c.slope2 < c.slope1 := not_le.mp h1
      by_cases h2 : c.regErr < s.regErrMin
      · rw [if_pos h2]
        refine ⟨le_of_lt (lt_of_lt_of_le h2 ha), ?_, Or.inr ⟨n, by omega, ?_, rfl, ?_, ?_, ?_, ?_, ?_,
          ?_, ?_⟩⟩
        · intro i hi hret
          rcases Nat.lt_succ_iff_lt_or_eq.mp hi with h | h
          · exact le_of_lt (lt_of_lt_of_le h2 (hb i h hret))
          · subst h
            rw [← hce]
        · rw [← hce]
          exact hret0
        · rw [← hce]
        · rw [← hce]
          exact lt_of_lt_of_le h2 ha
        · rw [← hce]
        · rw [← hce]
        · rw [← hce]
        · rw [← hce]
        · intro i2 hi2 hret
          rw [← hce]
          exact lt_of_lt_of_le h2 (hb i2 hi2 hret)
      · rw [if_neg h2]
        have h3 : s.regErrMin ≤ c.regErr := not_lt.mp h2
        refine ⟨ha, ?_, ?_⟩
        · intro i hi hret
          rcases Nat.lt_succ_iff_lt_or_eq.mp hi with h | h
          · exact hb i h hret
          · subst h
            rw [← hce]
            exact h3
        · rcases hc with ⟨c1, c2, c3⟩ | ⟨i, hi, c1, c2, c3, c4, c5, c6, c7, c8, c9⟩
          · refine Or.inl ⟨c1, c2, ?_⟩
            intro i hi hret
            rcases Nat.lt_succ_iff_lt_or_eq.mp hi with h | h
            · exact c3 i h hret
            · subst h
              rw [← hce, ← c2]
              exact h3
          · exact Or.inr ⟨i, by omega, c1, c2, c3, c4, c5, c6, c7, c8, c9⟩

/-- C12 (model selection).  With at least two probe frequencies, model
selection returns the single-line fit of the burst together with a selection
whose error `regErrMin` is the least among the single line's error and the
errors of the retained fold-line candidates (`turn` in `[2, numProbFreq-2]`,
`slope1 > slope2`): it is at most each of them and equal to one of them.  A
candidate with `slope1 ≤ slope2` leaves the selection unchanged whatever its
error.  `turn_Opt = 0` exactly when no retained candidate has an error strictly
below the single line's; otherwise `turn_Opt` is the first retained turn of
least error and the four `_Opt` parameters are that candidate's. -/
theorem C12_model_selection (cfg : Config) (prm : Params) (gmem : Nat → ℚ) (buf : Scratch)
    (_hk : 2 ≤ prm.numProbFreq) :
    let single := linearRegression (numProbRec cfg prm) (xOf prm) gmem
    let sel := (modelSelect cfg prm gmem buf).2
    let cand := turnCandidate cfg prm gmem ⟨0, single.regErr, 0, 0, 0, 0, buf⟩
    let retained := fun turn => 2 ≤ turn ∧ turn + 2 ≤ prm.numProbFreq
      ∧ (cand turn).slope2 < (cand turn).slope1
    (modelSelect cfg prm gmem buf).1 = single
      ∧ sel.regErrMin ≤ single.regErr
      ∧ (∀ turn, retained turn → sel.regErrMin ≤ (cand turn).regErr)
      ∧ (sel.regErrMin = single.regErr ∨ ∃ turn, retained turn ∧ sel.regErrMin = (cand turn).regErr)
      ∧ (∀ (turn : Nat) (s : Sel),
          (foldCandidate cfg prm gmem turn s.buf).1.slope1
            ≤ (foldCandidate cfg prm gmem turn s.buf).1.slope2 →
          (turnStep cfg prm gmem turn s).turn_Opt = s.turn_Opt
            ∧ (turnStep cfg prm gmem turn s).regErrMin = s.regErrMin
            ∧ (turnStep cfg prm gmem turn s).slope1_Opt = s.slope1_Opt
            ∧ (turnStep cfg prm gmem turn s).intercept1_Opt = s.intercept1_Opt
            ∧ (turnStep cfg prm gmem turn s).slope2_Opt = s.slope2_Opt
            ∧ (turnStep cfg prm gmem turn s).intercept2_Opt = s.intercept2_Opt)
      ∧ (sel.turn_Opt = 0 ↔ ∀ turn, retained turn → ¬ (cand turn).regErr < single.regErr)
      ∧ (sel.turn_Opt ≠ 0 →
          retained sel.turn_Opt
            ∧ sel.regErrMin = (cand sel.turn_Opt).regErr
            ∧ sel.slope1_Opt = (cand sel.turn_Opt).slope1
            ∧ sel.intercept1_Opt = (cand sel.turn_Opt).intercept1
            ∧ sel.slope2_Opt = (cand sel.turn_Opt).slope2
            ∧ sel.intercept2_Opt = (cand sel.turn_Opt).intercept2
            ∧ ∀ turn, retained turn → turn < sel.turn_Opt →
                (cand sel.turn_Opt).regErr < (cand turn).regErr) := by
  intro single sel cand retained
  have hsel : sel = turnLoop cfg prm gmem ⟨0, single.regErr, 0, 0, 0, 0, buf⟩
      (prm.numProbFreq - 3) := rfl
  obtain ⟨ha, hb, hc⟩ :=
    turnLoop_select cfg prm gmem ⟨0, single.regErr, 0, 0, 0, 0, buf⟩ rfl (prm.numProbFreq - 3)
  rw [← hsel] at ha hb hc
  have hidx : ∀ turn, 2 ≤ turn → turn + 2 ≤ prm.numProbFreq →
      turn - 2 < prm.numProbFreq - 3 ∧ turn - 2 + 2 = turn := by
    intro turn h1 h2
    omega
  refine ⟨rfl, ha, ?_, ?_, ?_, ?_, ?_⟩
  · rintro turn ⟨h1, h2, h3⟩
    obtain ⟨i1, i2⟩ := hidx turn h1 h2
    have := hb (turn - 2) i1
    rw [i2] at this
    exact this h3
  · rcases hc with ⟨c1, c2, c3⟩ | ⟨i, hi, c1, c2, c3, c4, c5, c6, c7, c8, c9⟩
    · exact Or.inl c2
    · exact Or.inr ⟨i + 2, ⟨by omega, by omega, c1⟩, c3⟩
  · intro turn s h
    unfold turnStep
    simp only []
    rw [if_pos h]
    exact ⟨rfl, rfl, rfl, rfl, rfl, rfl⟩
  · constructor
    · intro hz
      rcases hc with ⟨c1, c2, c3⟩ | ⟨i, hi, c1, c2, c3, c4, c5, c6, c7, c8, c9⟩
      · rintro turn ⟨h1, h2, h3⟩
        obtain ⟨i1, i2⟩ := hidx turn h1 h2
        have := c3 (turn - 2) i1
        rw [i2] at this
        exact not_lt.mpr (this h3)
      · rw [c2] at hz
        omega
    · intro hall
      rcases hc with ⟨c1, c2, c3⟩ | ⟨i, hi, c1, c2, c3, c4, c5, c6, c7, c8, c9⟩
      · exact c1
      · exact absurd c4 (hall (i + 2) ⟨by omega, by omega, c1⟩)
  · intro hne
    rcases hc with ⟨c1, c2, c3⟩ | ⟨i, hi, c1, c2, c3, c4, c5, c6, c7, c8, c9⟩
    · exact absurd c1 hne
    · rw [c2]
      refine ⟨⟨by omega, by omega, c1⟩, c3, c5, c6, c7, c8, ?_⟩
      rintro turn ⟨h1, h2, h3⟩ hlt
      obtain ⟨i1, i2⟩ := hidx turn h1 h2
      have := c9 (turn - 2) (by omega)
      rw [i2] at this
      exact this h3

/-- C12 at a concrete burst on `v100-300w` with the source's constants. -/
theorem C12_model_selection_witness :
    2 ≤ (params Machine.v100_300w).numProbFreq
      ∧ (modelSelect defaultConfig (params Machine.v100_300w)
            (fun j => (j : ℚ)) ⟨fun _ => 0, fun _ => 0, fun _ => 0, fun _ => 0⟩).2.regErrMin
          ≤ (linearRegression (numProbRec defaultConfig (params Machine.v100_300w))
              (xOf (params Machine.v100_300w)) (fun j => (j : ℚ))).regErr :=
  ⟨by decide, (C12_model_selection defaultConfig (params Machine.v100_300w)
    (fun j => (j : ℚ)) ⟨fun _ => 0, fun _ => 0, fun _ => 0, fun _ => 0⟩ (by decide)).2.1⟩

/-! ## The partition of a burst into two segments, for any number of probe
frequencies and repetitions -/

theorem ifreqOf_lt (k j : Nat) (hk : 0 < k) : ifreqOf k j < k := by
  unfold ifreqOf
  simp only []
  have h := Nat.mod_lt j (show 0 < 2 * k by omega)
  split_ifs with h1
  · exact h1
  · omega

theorem ifreqOf_self (k p : Nat) (hp : p < k) : ifreqOf k p = p := by
  unfold ifreqOf
  simp only []
  rw [Nat.mod_eq_of_lt (show p < 2 * k by omega), if_pos hp]

/-- The probe index inside block `b` of `k` slots: ascending in even blocks,
descending in odd blocks. -/
theorem ifreqOf_block (k b i : Nat) (hi : i < k) :
    ifreqOf k (b * k + i) = if b % 2 = 0 then i else k - 1 - i := by
  have hb := Nat.div_add_mod b 2
  unfold ifreqOf
  simp only []
  by_cases he : b % 2 = 0
  · rw [if_pos he]
    have e1 : b * k + i = i + 2 * k * (b / 2) := by
      have : b = 2 * (b / 2) := by omega
      calc b * k + i = (2 * (b / 2)) * k + i := by rw [← this]
        _ = i + 2 * k * (b / 2) := by ring
    rw [e1, Nat.add_mul_mod_self_left, Nat.mod_eq_of_lt (show i < 2 * k by omega), if_pos hi]
  · rw [if_neg he]
    have e1 : b * k + i = (k + i) + 2 * k * (b / 2) := by
      have : b = 2 * (b / 2) + 1 := by omega
      calc b * k + i = (2 * (b / 2) + 1) * k + i := by rw [← this]
        _ = (k + i) + 2 * k * (b / 2) := by ring
    rw [e1, Nat.add_mul_mod_self_left, Nat.mod_eq_of_lt (show k + i < 2 * k by omega),
      if_neg (show ¬ (k + i < k) by omega)]
    omega

theorem partitionLoop_succ (prm : Params) (turn : Nat) (gmem : Nat → ℚ) (s0 : PartState)
    (j : Nat) :
    partitionLoop prm turn gmem s0 (j + 1)
      = if ifreqOf prm.numProbFreq j < turn then
          ⟨(partitionLoop prm turn gmem s0 j).idx1 + 1, (partitionLoop prm turn gmem s0 j).idx2,
            ⟨Function.update (partitionLoop prm turn gmem s0 j).buf.x1
                (partitionLoop prm turn gmem s0 j).idx1
                (prm.probFreqs (ifreqOf prm.numProbFreq j) : ℚ),
              Function.update (partitionLoop prm turn gmem s0 j).buf.y1
                (partitionLoop prm turn gmem s0 j).idx1 (gmem j),
              (partitionLoop prm turn gmem s0 j).buf.x2,
              (partitionLoop prm turn gmem s0 j).buf.y2⟩⟩
        else
          ⟨(partitionLoop prm turn gmem s0 j).idx1, (partitionLoop prm turn gmem s0 j).idx2 + 1,
            ⟨(partitionLoop prm turn gmem s0 j).buf.x1, (partitionLoop prm turn gmem s0 j).buf.y1,
              Function.update (partitionLoop prm turn gmem s0 j).buf.x2
                (partitionLoop prm turn gmem s0 j).idx2
                (prm.probFreqs (ifreqOf prm.numProbFreq j) : ℚ),
              Function.update (partitionLoop prm turn gmem s0 j).buf.y2
                (partitionLoop prm turn gmem s0 j).idx2 (gmem j)⟩⟩ := rfl

/-- The counter `idx1` moves by one exactly on the slots of probe index below
`turn`, and `idx1 + idx2` counts the slots. -/
theorem partition_idx_succ (prm : Params) (turn : Nat) (gmem : Nat → ℚ) (s0 : PartState)
    (j : Nat) :
    (partitionLoop prm turn gmem s0 (j + 1)).idx1
        = (partitionLoop prm turn gmem s0 j).idx1
          + (if ifreqOf prm.numProbFreq j < turn then 1 else 0)
      ∧ (partitionLoop prm turn gmem s0 (j + 1)).idx2
        = (partitionLoop prm turn gmem s0 j).idx2
          + (if ifreqOf prm.numProbFreq j < turn then 0 else 1) := by
  rw [partitionLoop_succ]
  by_cases h : ifreqOf prm.numProbFreq j < turn
  · simp [h]
  · simp [h]

theorem partition_idx_sum (prm : Params) (turn : Nat) (gmem : Nat → ℚ) (buf : Scratch) (n : Nat) :
    (partitionLoop prm turn gmem ⟨0, 0, buf⟩ n).idx1
      + (partitionLoop prm turn gmem ⟨0, 0, buf⟩ n).idx2 = n := by
  induction n with
  | zero => rfl
  | succ n ih =>
    obtain ⟨h1, h2⟩ := partition_idx_succ prm turn gmem ⟨0, 0, buf⟩ n
    rw [h1, h2]
    split_ifs <;> omega

/-- Inside block `b`, after `i` of its `k` slots. -/
theorem partition_idx1_block (prm : Params) (turn : Nat) (gmem : Nat → ℚ) (buf : Scratch)
    (hturn : turn ≤ prm.numProbFreq) (b : Nat)
    (hbase : (partitionLoop prm turn gmem ⟨0, 0, buf⟩ (b * prm.numProbFreq)).idx1 = b * turn)
    (i : Nat) (hi : i ≤ prm.numProbFreq) :
    (partitionLoop prm turn gmem ⟨0, 0, buf⟩ (b * prm.numProbFreq + i)).idx1
      = b * turn + (if b % 2 = 0 then (if i ≤ turn then i else turn)
          else i - (prm.numProbFreq - turn)) := by
  induction i with
  | zero =>
    rw [Nat.add_zero, hbase]
    split_ifs <;> omega
  | succ i ih =>
    have ih2 := ih (by omega)
    have hs := (partition_idx_succ prm turn gmem ⟨0, 0, buf⟩ (b * prm.numProbFreq + i)).1
    rw [show b * prm.numProbFreq + (i + 1) = b * prm.numProbFreq + i + 1 from rfl, hs, ih2,
      ifreqOf_block prm.numProbFreq b i (by omega)]
    generalize b * turn = bt
    split_ifs <;> omega

theorem partition_idx1_blocks (prm : Params) (turn : Nat) (gmem : Nat → ℚ) (buf : Scratch)
    (hturn : turn ≤ prm.numProbFreq) (b : Nat) :
    (partitionLoop prm turn gmem ⟨0, 0, buf⟩ (b * prm.numProbFreq)).idx1 = b * turn := by
  induction b with
  | zero =>
    rw [Nat.zero_mul, Nat.zero_mul]
    rfl
  | succ b ih =>
    have h := partition_idx1_block prm turn gmem buf hturn b ih prm.numProbFreq (le_refl _)
    rw [Nat.succ_mul, h, Nat.succ_mul]
    split_ifs <;> omega

/-- The balance of the partition: after the `numProbRec` slots of a burst,
`idx1 = turn * numProbRep` and `idx2 = (numProbFreq - turn) * numProbRep`. -/
theorem partition_balance (cfg : Config) (prm : Params) (turn : Nat) (gmem : Nat → ℚ)
    (buf : Scratch) (hturn : turn ≤ prm.numProbFreq) :
    (partitionLoop prm turn gmem ⟨0, 0, buf⟩ (numProbRec cfg prm)).idx1 = turn * cfg.numProbRep
      ∧ (partitionLoop prm turn gmem ⟨0, 0, buf⟩ (numProbRec cfg prm)).idx2
          = (prm.numProbFreq - turn) * cfg.numProbRep := by
  have h1 : (partitionLoop prm turn gmem ⟨0, 0, buf⟩ (numProbRec cfg prm)).idx1
      = turn * cfg.numProbRep := by
    unfold numProbRec
    rw [Nat.mul_comm prm.numProbFreq, partition_idx1_blocks prm turn gmem buf hturn,
      Nat.mul_comm]
  refine ⟨h1, ?_⟩
  have h2 := partition_idx_sum prm turn gmem buf (numProbRec cfg prm)
  rw [h1] at h2
  have h3 : numProbRec cfg prm = prm.numProbFreq * cfg.numProbRep := rfl
  rw [Nat.sub_mul]
  omega

/-- What the two segments hold after `n` slots: every entry below the counters
comes from a slot of the right side, and every slot is present on its side. -/
theorem partition_content (prm : Params) (turn : Nat) (gmem : Nat → ℚ) (buf : Scratch) (n : Nat) :
    (∀ i, i < (partitionLoop prm turn gmem ⟨0, 0, buf⟩ n).idx1 →
        ∃ j, j < n ∧ ifreqOf prm.numProbFreq j < turn
          ∧ (partitionLoop prm turn gmem ⟨0, 0, buf⟩ n).buf.x1 i
              = (prm.probFreqs (ifreqOf prm.numProbFreq j) : ℚ)
          ∧ (partitionLoop prm turn gmem ⟨0, 0, buf⟩ n).buf.y1 i = gmem j)
      ∧ (∀ i, i < (partitionLoop prm turn gmem ⟨0, 0, buf⟩ n).idx2 →
        ∃ j, j < n ∧ ¬ ifreqOf prm.numProbFreq j < turn
          ∧ (partitionLoop prm turn gmem ⟨0, 0, buf⟩ n).buf.x2 i
              = (prm.probFreqs (ifreqOf prm.numProbFreq j) : ℚ)
          ∧ (partitionLoop prm turn gmem ⟨0, 0, buf⟩ n).buf.y2 i = gmem j)
      ∧ (∀ j, j < n → ifreqOf prm.numProbFreq j < turn →
        ∃ i, i < (partitionLoop prm turn gmem ⟨0, 0, buf⟩ n).idx1
          ∧ (partitionLoop prm turn gmem ⟨0, 0, buf⟩ n).buf.x1 i
              = (prm.probFreqs (ifreqOf prm.numProbFreq j) : ℚ)
          ∧ (partitionLoop prm turn gmem ⟨0, 0, buf⟩ n).buf.y1 i = gmem j)
      ∧ (∀ j, j < n → ¬ ifreqOf prm.numProbFreq j < turn →
        ∃ i, i < (partitionLoop prm turn gmem ⟨0, 0, buf⟩ n).idx2
          ∧ (partitionLoop prm turn gmem ⟨0, 0, buf⟩ n).buf.x2 i
              = (prm.probFreqs (ifreqOf prm.numProbFreq j) : ℚ)
          ∧ (partitionLoop prm turn gmem ⟨0, 0, buf⟩ n).buf.y2 i = gmem j) := by
  induction n with
  | zero =>
    refine ⟨?_, ?_, ?_, ?_⟩
    · intro i hi
      exact absurd hi (Nat.not_lt_zero _)
    · intro i hi
      exact absurd hi (Nat.not_lt_zero _)
    · intro j hj
      exact absurd hj (Nat.not_lt_zero _)
    · intro j hj
      exact absurd hj (Nat.not_lt_zero _)
  | succ n ih =>
    obtain ⟨i1, i2, i3, i4⟩ := ih
    rw [partitionLoop_succ]
    generalize partitionLoop prm turn gmem ⟨0, 0, buf⟩ n = s at i1 i2 i3 i4 ⊢
    by_cases h : ifreqOf prm.numProbFreq n < turn
    · simp only [if_pos h]
      refine ⟨?_, ?_, ?_, ?_⟩
      · intro i hi
        by_cases hie : i = s.idx1
        · subst hie
          exact ⟨n, by omega, h, by simp, by simp⟩
        · obtain ⟨j, hj, a, b, c⟩ := i1 i (by omega)
          exact ⟨j, by omega, a, by rw [Function.update_noteq hie]; exact b,
            by rw [Function.update_noteq hie]; exact c⟩
      · intro i hi
        obtain ⟨j, hj, a, b, c⟩ := i2 i hi
        exact ⟨j, by omega, a, b, c⟩
      · intro j hj hjt
        by_cases hje : j = n
        · subst hje
          exact ⟨s.idx1, by omega, by simp, by simp⟩
        · obtain ⟨i, hi, b, c⟩ := i3 j (by omega) hjt
          have hie : i ≠ s.idx1 := by omega
          exact ⟨i, by omega, by rw [Function.update_noteq hie]; exact b,
            by rw [Function.update_noteq hie]; exact c⟩
      · intro j hj hjt
        have hje : j ≠ n := by
          intro e
          subst e
          exact hjt h
        obtain ⟨i, hi, b, c⟩ := i4 j (by omega) hjt
        exact ⟨i, hi, b, c⟩
    · simp only [if_neg h]
      refine ⟨?_, ?_, ?_, ?_⟩
      · intro i hi
        obtain ⟨j, hj, a, b, c⟩ := i1 i hi
        exact ⟨j, by omega, a, b, c⟩
      · intro i hi
        by_cases hie : i = s.idx2
        · subst hie
          exact ⟨n, by omega, h, by simp, by simp⟩
        · obtain ⟨j, hj, a, b, c⟩ := i2 i (by omega)
          exact ⟨j, by omega, a, by rw [Function.update_noteq hie]; exact b,
            by rw [Function.update_noteq hie]; exact c⟩
      · intro j hj hjt
        have hje : j ≠ n := by
          intro e
          subst e
          exact h hjt
        obtain ⟨i, hi, b, c⟩ := i3 j (by omega) hjt
        exact ⟨i, hi, b, c⟩
      · intro j hj hjt
        by_cases hje : j = n
        · subst hje
          exact ⟨s.idx2, by omega, by simp, by simp⟩
        · obtain ⟨i, hi, b, c⟩ := i4 j (by omega) hjt
          have hie : i ≠ s.idx2 := by omega
          exact ⟨i, by omega, by rw [Function.update_noteq hie]; exact b,
            by rw [Function.update_noteq hie]; exact c⟩

/-! ## Fits of points on a fold line -/

/-- On points of one line with two different abscissae, `linearRegression`
returns that line with error 0. -/
theorem linearRegression_on_line (num : Nat) (X Y : Nat → ℚ) (a b : ℚ)
    (hX : ∃ i j, i < num ∧ j < num ∧ X i ≠ X j) (hY : ∀ i, i < num → Y i = a * X i + b) :
    linearRegression num X Y = ⟨a, b, 0⟩ := by
  have hd0 : lrDiv num X Y ≠ 0 := ne_of_gt (lrDiv_pos num X Y hX)
  obtain ⟨h1, h2, h3⟩ := lrSums_affine X Y a b num hY
  have hs : (linearRegression num X Y).slope = a := by
    show ((num : ℚ) * (lrSums X Y num).sumxy - (lrSums X Y num).sumx * (lrSums X Y num).sumy)
      / lrDiv num X Y = a
    rw [div_eq_iff hd0, h1, h2]
    unfold lrDiv
    ring
  have hi : (linearRegression num X Y).intercept = b := by
    show ((lrSums X Y num).sumy * (lrSums X Y num).sumxsq
      - (lrSums X Y num).sumx * (lrSums X Y num).sumxy) / lrDiv num X Y = b
    rw [div_eq_iff hd0, h1, h2]
    unfold lrDiv
    ring
  have he : (linearRegression num X Y).regErr = 0 := by
    rw [linearRegression_regErr, hs, hi]
    apply Finset.sum_eq_zero
    intro i hi2
    rw [hY i (Finset.mem_range.mp hi2)]
    ring
  cases hl : linearRegression num X Y with
  | mk s i e =>
    rw [hl] at hs hi he
    simp only at hs hi he
    rw [hs, hi, he]

theorem errLoop_eq_sum (a b : ℚ) (X Y : Nat → ℚ) (err : ℚ) (n : Nat) :
    errLoop a b X Y err n = err + ∑ i in Finset.range n, (a * X i + b - Y i) ^ 2 := by
  induction n with
  | zero => simp [errLoop]
  | succ n ih =>
    rw [Finset.sum_range_succ]
    simp only [errLoop]
    rw [ih]
    ring

theorem linearRegression_regErr_nonneg (num : Nat) (X Y : Nat → ℚ) :
    0 ≤ (linearRegression num X Y).regErr := by
  rw [linearRegression_regErr]
  exact Finset.sum_nonneg (fun t _ => sq_nonneg _)

/-- A residual sum of squares is positive as soon as one point is off the line. -/
theorem sum_sq_pos (X Y : Nat → ℚ) (a b : ℚ) (n : Nat)
    (h : ∃ i, i < n ∧ a * X i + b ≠ Y i) :
    0 < ∑ i in Finset.range n, (a * X i + b - Y i) ^ 2 := by
  obtain ⟨i, hi, hne⟩ := h
  have h1 : (a * X i + b - Y i) ^ 2 ≤ ∑ t in Finset.range n, (a * X t + b - Y t) ^ 2 :=
    Finset.single_le_sum (f := fun t => (a * X t + b - Y t) ^ 2) (fun t _ => sq_nonneg _)
      (Finset.mem_range.mpr hi)
  have h2 : 0 < (a * X i + b - Y i) ^ 2 := by
    have : a * X i + b - Y i ≠ 0 := sub_ne_zero.mpr hne
    positivity
  linarith

/-- The error of the constrained fit is 12345678 or a residual sum of squares
over both segments; in particular it is not negative. -/
theorem foldline_regErr_nonneg (xc : Int) (num1 : Nat) (X1 Y1 : Nat → ℚ) (num2 : Nat)
    (X2 Y2 : Nat → ℚ) : 0 ≤ (foldlineRegression xc num1 X1 Y1 num2 X2 Y2).regErr := by
  unfold foldlineRegression
  simp only []
  split_ifs with hH
  · norm_num
  · simp only []
    rw [errLoop_eq_sum, errLoop_eq_sum]
    apply add_nonneg
    · apply add_nonneg (le_refl _)
      exact Finset.sum_nonneg (fun t _ => sq_nonneg _)
    · exact Finset.sum_nonneg (fun t _ => sq_nonneg _)

theorem foldline_regErr_pos (xc : Int) (num1 : Nat) (X1 Y1 : Nat → ℚ) (num2 : Nat)
    (X2 Y2 : Nat → ℚ) (h : ∀ a b : ℚ, ∃ i, i < num2 ∧ a * X2 i + b ≠ Y2 i) :
    0 < (foldlineRegression xc num1 X1 Y1 num2 X2 Y2).regErr := by
  unfold foldlineRegression
  simp only []
  split_ifs with hH
  · norm_num
  · simp only []
    rw [errLoop_eq_sum, errLoop_eq_sum]
    apply add_pos_of_nonneg_of_pos
    · apply add_nonneg (le_refl _)
      exact Finset.sum_nonneg (fun t _ => sq_nonneg _)
    · exact sum_sq_pos X2 Y2 _ _ num2 (h _ _)

/-- No line passes through two points of the first line of a fold and a point
of the second line beyond the knee. -/
theorem fold_not_line (x0 x1 x2 a1 b1 a2 b2 a b : ℚ) (h01 : x0 < x1) (h12 : x1 < x2)
    (hknee : a1 * x1 + b1 = a2 * x1 + b2) (ha : a2 < a1) :
    a * x0 + b ≠ a1 * x0 + b1 ∨ a * x1 + b ≠ a1 * x1 + b1 ∨ a * x2 + b ≠ a2 * x2 + b2 := by
  by_contra hcon
  push_neg at hcon
  obtain ⟨e0, e1, e2⟩ := hcon
  have p1 : (a - a1) * (x1 - x0) = 0 := by linear_combination e1 - e0
  have hx : x1 - x0 ≠ 0 := by
    have : 0 < x1 - x0 := by linarith
    exact ne_of_gt this
  have haa : a = a1 := by
    rcases mul_eq_zero.mp p1 with h | h
    · linarith
    · exact absurd h hx
  subst haa
  have hbb : b = b1 := by linarith
  subst hbb
  have p2 : (a - a2) * (x2 - x1) = 0 := by linear_combination e2 - hknee
  have p3 : 0 < (a - a2) * (x2 - x1) := mul_pos (by linarith) (by linarith)
  linarith

/-- The two shapes of a fold-line candidate: the two segment fits with the sum
of their errors, or the constrained fit with the knee at `probFreqs[turn-1]`. -/
theorem foldCandidate_cases (cfg : Config) (prm : Params) (gmem : Nat → ℚ) (turn : Nat)
    (buf : Scratch) :
    (foldCandidate cfg prm gmem turn buf).1
        = ⟨(linearRegression (turn * cfg.numProbRep)
              (partitionLoop prm turn gmem ⟨0, 0, buf⟩ (numProbRec cfg prm)).buf.x1
              (partitionLoop prm turn gmem ⟨0, 0, buf⟩ (numProbRec cfg prm)).buf.y1).slope,
            (linearRegression (turn * cfg.numProbRep)
              (partitionLoop prm turn gmem ⟨0, 0, buf⟩ (numProbRec cfg prm)).buf.x1
              (partitionLoop prm turn gmem ⟨0, 0, buf⟩ (numProbRec cfg prm)).buf.y1).intercept,
            (linearRegression ((prm.numProbFreq - turn) * cfg.numProbRep)
              (partitionLoop prm turn gmem ⟨0, 0, buf⟩ (numProbRec cfg prm)).buf.x2
              (partitionLoop prm turn gmem ⟨0, 0, buf⟩ (numProbRec cfg prm)).buf.y2).slope,
            (linearRegression ((prm.numProbFreq - turn) * cfg.numProbRep)
              (partitionLoop prm turn gmem ⟨0, 0, buf⟩ (numProbRec cfg prm)).buf.x2
              (partitionLoop prm turn gmem ⟨0, 0, buf⟩ (numProbRec cfg prm)).buf.y2).intercept,
            (linearRegression (turn * cfg.numProbRep)
              (partitionLoop prm turn gmem ⟨0, 0, buf⟩ (numProbRec cfg prm)).buf.x1
              (partitionLoop prm turn gmem ⟨0, 0, buf⟩ (numProbRec cfg prm)).buf.y1).regErr
            + (linearRegression ((prm.numProbFreq - turn) * cfg.numProbRep)
              (partitionLoop prm turn gmem ⟨0, 0, buf⟩ (numProbRec cfg prm)).buf.x2
              (partitionLoop prm turn gmem ⟨0, 0, buf⟩ (numProbRec cfg prm)).buf.y2).regErr⟩
      ∨ (foldCandidate cfg prm gmem turn buf).1
        = foldlineRegression (prm.probFreqs (turn - 1)) (turn * cfg.numProbRep)
            (partitionLoop prm turn gmem ⟨0, 0, buf⟩ (numProbRec cfg prm)).buf.x1
            (partitionLoop prm turn gmem ⟨0, 0, buf⟩ (numProbRec cfg prm)).buf.y1
            ((prm.numProbFreq - turn) * cfg.numProbRep)
            (partitionLoop prm turn gmem ⟨0, 0, buf⟩ (numProbRec cfg prm)).buf.x2
            (partitionLoop prm turn gmem ⟨0, 0, buf⟩ (numProbRec cfg prm)).buf.y2 := by
  unfold foldCandidate
  simp only [apply_ite Prod.fst]
  exact ite_eq_or_eq _ _ _

/-- The error of a fold-line candidate is never negative. -/
theorem foldCandidate_regErr_nonneg (cfg : Config) (prm : Params) (gmem : Nat → ℚ) (turn : Nat)
    (buf : Scratch) : 0 ≤ (foldCandidate cfg prm gmem turn buf).1.regErr := by
  rcases foldCandidate_cases cfg prm gmem turn buf with h | h
  · rw [h]
    exact add_nonneg (linearRegression_regErr_nonneg _ _ _) (linearRegression_regErr_nonneg _ _ _)
  · rw [h]
    exact foldline_regErr_nonneg _ _ _ _ _ _ _

/-- The error of a fold-line candidate is positive when no line passes through
the points of its second segment. -/
theorem foldCandidate_regErr_pos (cfg : Config) (prm : Params) (gmem : Nat → ℚ) (turn : Nat)
    (buf : Scratch)
    (h : ∀ a b : ℚ, ∃ i, i < (prm.numProbFreq - turn) * cfg.numProbRep
      ∧ a * (partitionLoop prm turn gmem ⟨0, 0, buf⟩ (numProbRec cfg prm)).buf.x2 i + b
          ≠ (partitionLoop prm turn gmem ⟨0, 0, buf⟩ (numProbRec cfg prm)).buf.y2 i) :
    0 < (foldCandidate cfg prm gmem turn buf).1.regErr := by
  rcases foldCandidate_cases cfg prm gmem turn buf with hc | hc
  · rw [hc]
    apply add_pos_of_nonneg_of_pos (linearRegression_regErr_nonneg _ _ _)
    rw [linearRegression_regErr]
    exact sum_sq_pos _ _ _ _ _ (h _ _)
  · rw [hc]
    exact foldline_regErr_pos _ _ _ _ _ _ _ h

/-- The segments of a burst whose recorded value depends on the probe index
only (`gmem j = g (ifreq j)`): segment 1 holds the points `(probFreqs p, g p)`
with `p < turn` and all of them, segment 2 those with `turn ≤ p`. -/
theorem partition_segments (cfg : Config) (prm : Params) (turn : Nat) (gmem : Nat → ℚ)
    (buf : Scratch) (g : Nat → ℚ) (hr : 0 < cfg.numProbRep) (hk : 0 < prm.numProbFreq)
    (hturn : turn ≤ prm.numProbFreq)
    (hg : ∀ j, j < numProbRec cfg prm → gmem j = g (ifreqOf prm.numProbFreq j)) :
    (∀ i, i < turn * cfg.numProbRep → ∃ p, p < turn
        ∧ (partitionLoop prm turn gmem ⟨0, 0, buf⟩ (numProbRec cfg prm)).buf.x1 i
            = (prm.probFreqs p : ℚ)
        ∧ (partitionLoop prm turn gmem ⟨0, 0, buf⟩ (numProbRec cfg prm)).buf.y1 i = g p)
      ∧ (∀ i, i < (prm.numProbFreq - turn) * cfg.numProbRep → ∃ p, turn ≤ p ∧ p < prm.numProbFreq
        ∧ (partitionLoop prm turn gmem ⟨0, 0, buf⟩ (numProbRec cfg prm)).buf.x2 i
            = (prm.probFreqs p : ℚ)
        ∧ (partitionLoop prm turn gmem ⟨0, 0, buf⟩ (numProbRec cfg prm)).buf.y2 i = g p)
      ∧ (∀ p, p < turn → ∃ i, i < turn * cfg.numProbRep
        ∧ (partitionLoop prm turn gmem ⟨0, 0, buf⟩ (numProbRec cfg prm)).buf.x1 i
            = (prm.probFreqs p : ℚ)
        ∧ (partitionLoop prm turn gmem ⟨0, 0, buf⟩ (numProbRec cfg prm)).buf.y1 i = g p)
      ∧ (∀ p, turn ≤ p → p < prm.numProbFreq → ∃ i, i < (prm.numProbFreq - turn) * cfg.numProbRep
        ∧ (partitionLoop prm turn gmem ⟨0, 0, buf⟩ (numProbRec cfg prm)).buf.x2 i
            = (prm.probFreqs p : ℚ)
        ∧ (partitionLoop prm turn gmem ⟨0, 0, buf⟩ (numProbRec cfg prm)).buf.y2 i = g p) := by
  obtain ⟨c1, c2, c3, c4⟩ := partition_content prm turn gmem buf (numProbRec cfg prm)
  obtain ⟨e1, e2⟩ := partition_balance cfg prm turn gmem buf hturn
  rw [e1] at c1 c3
  rw [e2] at c2 c4
  have hN : prm.numProbFreq ≤ numProbRec cfg prm := Nat.le_mul_of_pos_right _ hr
  refine ⟨?_, ?_, ?_, ?_⟩
  · intro i hi
    obtain ⟨j, hj, hlt, hx, hyv⟩ := c1 i hi
    exact ⟨_, hlt, hx, by rw [hyv, hg j hj]⟩
  · intro i hi
    obtain ⟨j, hj, hlt, hx, hyv⟩ := c2 i hi
    exact ⟨_, not_lt.mp hlt, ifreqOf_lt _ _ hk, hx, by rw [hyv, hg j hj]⟩
  · intro p hp
    have hs := ifreqOf_self prm.numProbFreq p (by omega)
    obtain ⟨i, hi, hx, hyv⟩ := c3 p (by omega) (by rw [hs]; exact hp)
    rw [hs] at hx
    exact ⟨i, hi, hx, by rw [hyv, hg p (by omega), hs]⟩
  · intro p hp hpk
    have hs := ifreqOf_self prm.numProbFreq p hpk
    obtain ⟨i, hi, hx, hyv⟩ := c4 p (by omega) (by rw [hs]; omega)
    rw [hs] at hx
    exact ⟨i, hi, hx, by rw [hyv, hg p (by omega), hs]⟩

/-- The single-line error of a burst on a fold line is positive. -/
theorem single_regErr_pos (cfg : Config) (prm : Params) (gmem : Nat → ℚ) (T : Nat)
    (a1 b1 a2 b2 : ℚ) (hr : 0 < cfg.numProbRep)
    (hP : ∀ i j, i < j → j < prm.numProbFreq → prm.probFreqs i < prm.probFreqs j)
    (hT2 : 2 ≤ T) (hTk : T + 2 ≤ prm.numProbFreq)
    (hy : ∀ j, j < numProbRec cfg prm →
      gmem j = if ifreqOf prm.numProbFreq j < T then a1 * xOf prm j + b1 else a2 * xOf prm j + b2)
    (hknee : a1 * (prm.probFreqs T : ℚ) + b1 = a2 * (prm.probFreqs T : ℚ) + b2) (ha : a2 < a1) :
    0 < (linearRegression (numProbRec cfg prm) (xOf prm) gmem).regErr := by
  have hN : prm.numProbFreq ≤ numProbRec cfg prm := Nat.le_mul_of_pos_right _ hr
  have hx : ∀ p, p < prm.numProbFreq → xOf prm p = (prm.probFreqs p : ℚ) := by
    intro p hp
    unfold xOf
    rw [ifreqOf_self _ _ hp]
  have h0 : gmem (T - 1) = a1 * (prm.probFreqs (T - 1) : ℚ) + b1 := by
    rw [hy (T - 1) (by omega), ifreqOf_self _ _ (by omega), if_pos (by omega), hx _ (by omega)]
  have h1 : gmem T = a1 * (prm.probFreqs T : ℚ) + b1 := by
    rw [hy T (by omega), ifreqOf_self _ _ (by omega), if_neg (by omega), hx _ (by omega), hknee]
  have h2 : gmem (T + 1) = a2 * (prm.probFreqs (T + 1) : ℚ) + b2 := by
    rw [hy (T + 1) (by omega), ifreqOf_self _ _ (by omega), if_neg (by omega), hx _ (by omega)]
  have q01 : ((prm.probFreqs (T - 1) : Int) : ℚ) < (prm.probFreqs T : ℚ) := by
    exact_mod_cast hP (T - 1) T (by omega) (by omega)
  have q12 : ((prm.probFreqs T : Int) : ℚ) < (prm.probFreqs (T + 1) : ℚ) := by
    exact_mod_cast hP T (T + 1) (by omega) (by omega)
  rw [linearRegression_regErr]
  apply sum_sq_pos
  rcases fold_not_line _ _ _ a1 b1 a2 b2 (linearRegression (numProbRec cfg prm) (xOf prm) gmem).slope
    (linearRegression (numProbRec cfg prm) (xOf prm) gmem).intercept q01 q12 hknee ha
    with h | h | h
  · exact ⟨T - 1, by omega, by rw [hx _ (by omega), h0]; exact h⟩
  · exact ⟨T, by omega, by rw [hx _ (by omega), h1]; exact h⟩
  · exact ⟨T + 1, by omega, by rw [hx _ (by omega), h2]; exact h⟩

/-- Before the true turn every candidate has a positive error. -/
theorem candidate_before_pos (cfg : Config) (prm : Params) (gmem : Nat → ℚ) (buf : Scratch)
    (T t : Nat) (a1 b1 a2 b2 : ℚ) (hr : 0 < cfg.numProbRep)
    (hP : ∀ i j, i < j → j < prm.numProbFreq → prm.probFreqs i < prm.probFreqs j)
    (hT2 : 2 ≤ T) (hTk : T + 2 ≤ prm.numProbFreq)
    (hy : ∀ j, j < numProbRec cfg prm →
      gmem j = if ifreqOf prm.numProbFreq j < T then a1 * xOf prm j + b1 else a2 * xOf prm j + b2)
    (hknee : a1 * (prm.probFreqs T : ℚ) + b1 = a2 * (prm.probFreqs T : ℚ) + b2) (ha : a2 < a1)
    (ht : t < T) :
    0 < (foldCandidate cfg prm gmem t buf).1.regErr := by
  obtain ⟨_, _, _, s4⟩ := partition_segments cfg prm t gmem buf
    (fun p => if p < T then a1 * (prm.probFreqs p : ℚ) + b1 else a2 * (prm.probFreqs p : ℚ) + b2)
    hr (by omega) (by omega) hy
  have q01 : ((prm.probFreqs (T - 1) : Int) : ℚ) < (prm.probFreqs T : ℚ) := by
    exact_mod_cast hP (T - 1) T (by omega) (by omega)
  have q12 : ((prm.probFreqs T : Int) : ℚ) < (prm.probFreqs (T + 1) : ℚ) := by
    exact_mod_cast hP T (T + 1) (by omega) (by omega)
  apply foldCandidate_regErr_pos
  intro a b
  obtain ⟨i0, hi0, x0, y0⟩ := s4 (T - 1) (by omega) (by omega)
  obtain ⟨i1, hi1, x1, y1⟩ := s4 T (by omega) (by omega)
  obtain ⟨i2, hi2, x2, y2⟩ := s4 (T + 1) (by omega) (by omega)
  rw [if_pos (by omega)] at y0
  rw [if_neg (by omega), ← hknee] at y1
  rw [if_neg (by omega)] at y2
  rcases fold_not_line _ _ _ a1 b1 a2 b2 a b q01 q12 hknee ha with h | h | h
  · exact ⟨i0, hi0, by rw [x0, y0]; exact h⟩
  · exact ⟨i1, hi1, by rw [x1, y1]; exact h⟩
  · exact ⟨i2, hi2, by rw [x2, y2]; exact h⟩

/-- At the true turn the candidate is the fold line itself, with error 0. -/
theorem candidate_at_turn (cfg : Config) (prm : Params) (gmem : Nat → ℚ) (buf : Scratch)
    (T : Nat) (a1 b1 a2 b2 : ℚ) (hr : 0 < cfg.numProbRep)
    (hP : ∀ i j, i < j → j < prm.numProbFreq → prm.probFreqs i < prm.probFreqs j)
    (hT2 : 2 ≤ T) (hTk : T + 2 ≤ prm.numProbFreq)
    (hy : ∀ j, j < numProbRec cfg prm →
      gmem j = if ifreqOf prm.numProbFreq j < T then a1 * xOf prm j + b1 else a2 * xOf prm j + b2)
    (hknee : a1 * (prm.probFreqs T : ℚ) + b1 = a2 * (prm.probFreqs T : ℚ) + b2) (ha : a2 < a1) :
    (foldCandidate cfg prm gmem T buf).1 = ⟨a1, b1, a2, b2, 0⟩ := by
  obtain ⟨s1, s2, s3, s4⟩ := partition_segments cfg prm T gmem buf
    (fun p => if p < T then a1 * (prm.probFreqs p : ℚ) + b1 else a2 * (prm.probFreqs p : ℚ) + b2)
    hr (by omega) (by omega) hy
  have ne01 : ((prm.probFreqs 0 : Int) : ℚ) ≠ (prm.probFreqs 1 : ℚ) := by
    have := hP 0 1 (by omega) (by omega)
    have h2 : ((prm.probFreqs 0 : Int) : ℚ) < (prm.probFreqs 1 : ℚ) := by exact_mod_cast this
    exact ne_of_lt h2
  have neT : ((prm.probFreqs T : Int) : ℚ) ≠ (prm.probFreqs (T + 1) : ℚ) := by
    have := hP T (T + 1) (by omega) (by omega)
    have h2 : ((prm.probFreqs T : Int) : ℚ) < (prm.probFreqs (T + 1) : ℚ) := by exact_mod_cast this
    exact ne_of_lt h2
  have q01 : ((prm.probFreqs (T - 1) : Int) : ℚ) < (prm.probFreqs T : ℚ) := by
    exact_mod_cast hP (T - 1) T (by omega) (by omega)
  have hl1 : linearRegression (T * cfg.numProbRep)
      (partitionLoop prm T gmem ⟨0, 0, buf⟩ (numProbRec cfg prm)).buf.x1
      (partitionLoop prm T gmem ⟨0, 0, buf⟩ (numProbRec cfg prm)).buf.y1 = ⟨a1, b1, 0⟩ := by
    apply linearRegression_on_line
    · obtain ⟨i0, hi0, x0, _⟩ := s3 0 (by omega)
      obtain ⟨i1, hi1, x1, _⟩ := s3 1 (by omega)
      exact ⟨i0, i1, hi0, hi1, by rw [x0, x1]; exact ne01⟩
    · intro i hi
      obtain ⟨p, hp, hx, hyv⟩ := s1 i hi
      rw [hx, hyv, if_pos hp]
  have hl2 : linearRegression ((prm.numProbFreq - T) * cfg.numProbRep)
      (partitionLoop prm T gmem ⟨0, 0, buf⟩ (numProbRec cfg prm)).buf.x2
      (partitionLoop prm T gmem ⟨0, 0, buf⟩ (numProbRec cfg prm)).buf.y2 = ⟨a2, b2, 0⟩ := by
    apply linearRegression_on_line
    · obtain ⟨i0, hi0, x0, _⟩ := s4 T (by omega) (by omega)
      obtain ⟨i1, hi1, x1, _⟩ := s4 (T + 1) (by omega) (by omega)
      exact ⟨i0, i1, hi0, hi1, by rw [x0, x1]; exact neT⟩
    · intro i hi
      obtain ⟨p, hp, hpk, hx, hyv⟩ := s2 i hi
      rw [hx, hyv, if_neg (by omega)]
  have hcross : (b1 - b2) / (a2 - a1) = (prm.probFreqs T : ℚ) := by
    have hne : a2 - a1 ≠ 0 := by
      have : a2 - a1 < 0 := by linarith
      exact ne_of_lt this
    rw [div_eq_iff hne]
    linear_combination hknee
  unfold foldCandidate
  simp only [apply_ite Prod.fst]
  rw [hl1, hl2]
  simp only []
  rw [if_pos (ne_of_lt ha), hcross, if_pos ⟨le_of_lt q01, le_refl _⟩, add_zero]

/-! ## The `turn` loop on a fold line -/

theorem turnStep_regErrMin_cases (cfg : Config) (prm : Params) (gmem : Nat → ℚ) (turn : Nat)
    (sel : Sel) :
    (turnStep cfg prm gmem turn sel).regErrMin = sel.regErrMin
      ∨ (turnStep cfg prm gmem turn sel).regErrMin
          = (foldCandidate cfg prm gmem turn sel.buf).1.regErr := by
  unfold turnStep
  simp only []
  by_cases h1 : (foldCandidate cfg prm gmem turn sel.buf).1.slope1
      ≤ (foldCandidate cfg prm gmem turn sel.buf).1.slope2
  · rw [if_pos h1]
    exact Or.inl rfl
  · rw [if_neg h1]
    by_cases h2 : (foldCandidate cfg prm gmem turn sel.buf).1.regErr < sel.regErrMin
    · rw [if_pos h2]
      exact Or.inr rfl
    · rw [if_neg h2]
      exact Or.inl rfl

/-- A retained candidate of smaller error replaces the selection. -/
theorem turnStep_update (cfg : Config) (prm : Params) (gmem : Nat → ℚ) (turn : Nat) (sel : Sel)
    (h1 : (foldCandidate cfg prm gmem turn sel.buf).1.slope2
      < (foldCandidate cfg prm gmem turn sel.buf).1.slope1)
    (h2 : (foldCandidate cfg prm gmem turn sel.buf).1.regErr < sel.regErrMin) :
    (turnStep cfg prm gmem turn sel).turn_Opt = turn
      ∧ (turnStep cfg prm gmem turn sel).regErrMin
          = (foldCandidate cfg prm gmem turn sel.buf).1.regErr
      ∧ (turnStep cfg prm gmem turn sel).slope1_Opt
          = (foldCandidate cfg prm gmem turn sel.buf).1.slope1
      ∧ (turnStep cfg prm gmem turn sel).intercept1_Opt
          = (foldCandidate cfg prm gmem turn sel.buf).1.intercept1
      ∧ (turnStep cfg prm gmem turn sel).slope2_Opt
          = (foldCandidate cfg prm gmem turn sel.buf).1.slope2
      ∧ (turnStep cfg prm gmem turn sel).intercept2_Opt
          = (foldCandidate cfg prm gmem turn sel.buf).1.intercept2 := by
  unfold turnStep
  simp only []
  rw [if_neg (not_le.mpr h1), if_pos h2]
  exact ⟨rfl, rfl, rfl, rfl, rfl, rfl⟩

/-- A candidate whose error is not below the running minimum changes nothing
but the scratch buffers. -/
theorem turnStep_keep (cfg : Config) (prm : Params) (gmem : Nat → ℚ) (turn : Nat) (sel : Sel)
    (h : sel.regErrMin ≤ (foldCandidate cfg prm gmem turn sel.buf).1.regErr) :
    (turnStep cfg prm gmem turn sel).turn_Opt = sel.turn_Opt
      ∧ (turnStep cfg prm gmem turn sel).regErrMin = sel.regErrMin
      ∧ (turnStep cfg prm gmem turn sel).slope1_Opt = sel.slope1_Opt
      ∧ (turnStep cfg prm gmem turn sel).intercept1_Opt = sel.intercept1_Opt
      ∧ (turnStep cfg prm gmem turn sel).slope2_Opt = sel.slope2_Opt
      ∧ (turnStep cfg prm gmem turn sel).intercept2_Opt = sel.intercept2_Opt := by
  unfold turnStep
  simp only []
  by_cases h1 : (foldCandidate cfg prm gmem turn sel.buf).1.slope1
      ≤ (foldCandidate cfg prm gmem turn sel.buf).1.slope2
  · rw [if_pos h1]
    exact ⟨rfl, rfl, rfl, rfl, rfl, rfl⟩
  · rw [if_neg h1, if_neg (not_lt.mpr h)]
    exact ⟨rfl, rfl, rfl, rfl, rfl, rfl⟩

/-- Before the true turn the running minimum stays positive. -/
theorem turnLoop_before (cfg : Config) (prm : Params) (gmem : Nat → ℚ) (sel0 : Sel)
    (T : Nat) (a1 b1 a2 b2 : ℚ) (hr : 0 < cfg.numProbRep)
    (hP : ∀ i j, i < j → j < prm.numProbFreq → prm.probFreqs i < prm.probFreqs j)
    (hT2 : 2 ≤ T) (hTk : T + 2 ≤ prm.numProbFreq)
    (hy : ∀ j, j < numProbRec cfg prm →
      gmem j = if ifreqOf prm.numProbFreq j < T then a1 * xOf prm j + b1 else a2 * xOf prm j + b2)
    (hknee : a1 * (prm.probFreqs T : ℚ) + b1 = a2 * (prm.probFreqs T : ℚ) + b2) (ha : a2 < a1)
    (h0 : 0 < sel0.regErrMin) (n : Nat) (hn : n + 2 ≤ T) :
    0 < (turnLoop cfg prm gmem sel0 n).regErrMin := by
  induction n with
  | zero => exact h0
  | succ n ih =>
    have ih2 := ih (by omega)
    have hstep : turnLoop cfg prm gmem sel0 (n + 1)
        = turnStep cfg prm gmem (n + 2) (turnLoop cfg prm gmem sel0 n) := rfl
    rw [hstep]
    rcases turnStep_regErrMin_cases cfg prm gmem (n + 2) (turnLoop cfg prm gmem sel0 n) with h | h
    · rw [h]
      exact ih2
    · rw [h]
      exact candidate_before_pos cfg prm gmem _ T (n + 2) a1 b1 a2 b2 hr hP hT2 hTk hy hknee ha
        (by omega)

/-- From the true turn on the selection is the fold line, with error 0. -/
theorem turnLoop_from_turn (cfg : Config) (prm : Params) (gmem : Nat → ℚ) (sel0 : Sel)
    (T : Nat) (a1 b1 a2 b2 : ℚ) (hr : 0 < cfg.numProbRep)
    (hP : ∀ i j, i < j → j < prm.numProbFreq → prm.probFreqs i < prm.probFreqs j)
    (hT2 : 2 ≤ T) (hTk : T + 2 ≤ prm.numProbFreq)
    (hy : ∀ j, j < numProbRec cfg prm →
      gmem j = if ifreqOf prm.numProbFreq j < T then a1 * xOf prm j + b1 else a2 * xOf prm j + b2)
    (hknee : a1 * (prm.probFreqs T : ℚ) + b1 = a2 * (prm.probFreqs T : ℚ) + b2) (ha : a2 < a1)
    (h0 : 0 < sel0.regErrMin) (m : Nat) :
    (turnLoop cfg prm gmem sel0 (T - 2 + 1 + m)).turn_Opt = T
      ∧ (turnLoop cfg prm gmem sel0 (T - 2 + 1 + m)).regErrMin = 0
      ∧ (turnLoop cfg prm gmem sel0 (T - 2 + 1 + m)).slope1_Opt = a1
      ∧ (turnLoop cfg prm gmem sel0 (T - 2 + 1 + m)).intercept1_Opt = b1
      ∧ (turnLoop cfg prm gmem sel0 (T - 2 + 1 + m)).slope2_Opt = a2
      ∧ (turnLoop cfg prm gmem sel0 (T - 2 + 1 + m)).intercept2_Opt = b2 := by
  induction m with
  | zero =>
    have hstep : turnLoop cfg prm gmem sel0 (T - 2 + 1 + 0)
        = turnStep cfg prm gmem (T - 2 + 2) (turnLoop cfg prm gmem sel0 (T - 2)) := rfl
    have hT : T - 2 + 2 = T := by omega
    rw [hstep, hT]
    have hpos := turnLoop_before cfg prm gmem sel0 T a1 b1 a2 b2 hr hP hT2 hTk hy hknee ha h0
      (T - 2) (by omega)
    have hc := candidate_at_turn cfg prm gmem (turnLoop cfg prm gmem sel0 (T - 2)).buf T
      a1 b1 a2 b2 hr hP hT2 hTk hy hknee ha
    obtain ⟨u1, u2, u3, u4, u5, u6⟩ := turnStep_update cfg prm gmem T
      (turnLoop cfg prm gmem sel0 (T - 2)) (by rw [hc]; exact ha) (by rw [hc]; exact hpos)
    rw [hc] at u2 u3 u4 u5 u6
    exact ⟨u1, u2, u3, u4, u5, u6⟩
  | succ m ih =>
    obtain ⟨i1, i2, i3, i4, i5, i6⟩ := ih
    have hstep : turnLoop cfg prm gmem sel0 (T - 2 + 1 + (m + 1))
        = turnStep cfg prm gmem (T - 2 + 1 + m + 2) (turnLoop cfg prm gmem sel0 (T - 2 + 1 + m)) :=
      rfl
    rw [hstep]
    obtain ⟨u1, u2, u3, u4, u5, u6⟩ := turnStep_keep cfg prm gmem (T - 2 + 1 + m + 2)
      (turnLoop cfg prm gmem sel0 (T - 2 + 1 + m))
      (by rw [i2]; exact foldCandidate_regErr_nonneg _ _ _ _ _)
    rw [u1, u2, u3, u4, u5, u6]
    exact ⟨i1, i2, i3, i4, i5, i6⟩

/-- C11 (fold-line recovery, in exact arithmetic).  For any probe list that is
strictly increasing on its `numProbFreq` entries, any number of repetitions
`numProbRep ≥ 1` and any `turn` with `2 ≤ turn ≤ numProbFreq - 2`: if every
recorded sample of the burst lies on the fold line (`a1*x + b1` for probe
indices below `turn`, `a2*x + b2` from `turn` on), the two lines meet at
`probFreqs[turn]` and `a1 > a2`, then model selection, evaluated in exact
arithmetic, ends with `turn_Opt = turn` and `regErrMin = 0`, and the selected
parameters are `a1, b1, a2, b2`. -/
theorem C11_fold_line_recovery (cfg : Config) (prm : Params) (gmem : Nat → ℚ) (buf : Scratch)
    (turn : Nat) (a1 b1 a2 b2 : ℚ) (hr : 0 < cfg.numProbRep)
    (hP : ∀ i j, i < j → j < prm.numProbFreq → prm.probFreqs i < prm.probFreqs j)
    (hturn2 : 2 ≤ turn) (hturnk : turn + 2 ≤ prm.numProbFreq)
    (hy : ∀ j, j < numProbRec cfg prm →
      gmem j = if ifreqOf prm.numProbFreq j < turn then a1 * xOf prm j + b1
        else a2 * xOf prm j + b2)
    (hknee : a1 * (prm.probFreqs turn : ℚ) + b1 = a2 * (prm.probFreqs turn : ℚ) + b2)
    (ha : a1 > a2) :
    (modelSelect cfg prm gmem buf).2.turn_Opt = turn
      ∧ (modelSelect cfg prm gmem buf).2.regErrMin = 0
      ∧ (modelSelect cfg prm gmem buf).2.slope1_Opt = a1
      ∧ (modelSelect cfg prm gmem buf).2.intercept1_Opt = b1
      ∧ (modelSelect cfg prm gmem buf).2.slope2_Opt = a2
      ∧ (modelSelect cfg prm gmem buf).2.intercept2_Opt = b2 := by
  have h0 := single_regErr_pos cfg prm gmem turn a1 b1 a2 b2 hr hP hturn2 hturnk hy hknee ha
  have hn : prm.numProbFreq - 3 = turn - 2 + 1 + (prm.numProbFreq - 2 - turn) := by omega
  have hms : (modelSelect cfg prm gmem buf).2
      = turnLoop cfg prm gmem
          ⟨0, (linearRegression (numProbRec cfg prm) (xOf prm) gmem).regErr, 0, 0, 0, 0, buf⟩
          (prm.numProbFreq - 3) := rfl
  rw [hms, hn]
  exact turnLoop_from_turn cfg prm gmem _ turn a1 b1 a2 b2 hr hP hturn2 hturnk hy hknee ha h0 _

/-- C11 at a concrete burst: profile `v100-300w`, the source's constants,
`turn = 2`, the fold line `y = x` below the knee `probFreqs[2] = 1335` and
`y = 1335` from it on. -/
theorem C11_fold_line_recovery_witness :
    0 < defaultConfig.numProbRep
      ∧ (2 ≤ 2) ∧ 2 + 2 ≤ (params Machine.v100_300w).numProbFreq
      ∧ (1 : ℚ) * ((params Machine.v100_300w).probFreqs 2 : ℚ) + 0
          = 0 * ((params Machine.v100_300w).probFreqs 2 : ℚ) + 1335
      ∧ (1 : ℚ) > 0
      ∧ (modelSelect defaultConfig (params Machine.v100_300w)
          (fun j => if ifreqOf (params Machine.v100_300w).numProbFreq j < 2
            then 1 * xOf (params Machine.v100_300w) j + 0
            else 0 * xOf (params Machine.v100_300w) j + 1335)
          ⟨fun _ => 0, fun _ => 0, fun _ => 0, fun _ => 0⟩).2.turn_Opt = 2
      ∧ (modelSelect defaultConfig (params Machine.v100_300w)
          (fun j => if ifreqOf (params Machine.v100_300w).numProbFreq j < 2
            then 1 * xOf (params Machine.v100_300w) j + 0
            else 0 * xOf (params Machine.v100_300w) j + 1335)
          ⟨fun _ => 0, fun _ => 0, fun _ => 0, fun _ => 0⟩).2.regErrMin = 0 :=
  ⟨by decide, le_refl 2, by decide, by norm_num [params], by norm_num,
    (C11_fold_line_recovery defaultConfig (params Machine.v100_300w)
      (fun j => if ifreqOf (params Machine.v100_300w).numProbFreq j < 2
        then 1 * xOf (params Machine.v100_300w) j + 0
        else 0 * xOf (params Machine.v100_300w) j + 1335)
      ⟨fun _ => 0, fun _ => 0, fun _ => 0, fun _ => 0⟩ 2 1 0 0 1335 (by decide)
      (probFreqs_strictMono Machine.v100_300w) (le_refl 2) (by decide) (fun _ _ => rfl)
      (by norm_num [params]) (by norm_num)).1,
    (C11_fold_line_recovery defaultConfig (params Machine.v100_300w)
      (fun j => if ifreqOf (params Machine.v100_300w).numProbFreq j < 2
        then 1 * xOf (params Machine.v100_300w) j + 0
        else 0 * xOf (params Machine.v100_300w) j + 1335)
      ⟨fun _ => 0, fun _ => 0, fun _ => 0, fun _ => 0⟩ 2 1 0 0 1335 (by decide)
      (probFreqs_strictMono Machine.v100_300w) (le_refl 2) (by decide) (fun _ _ => rfl)
      (by norm_num [params]) (by norm_num)).2.1⟩

/-! ## The scheduler counter and the accumulated time -/

/-- The scheduler update when the gate does not fire. -/
theorem gateUpdate_quiet (cfg : Config) (prm : Params) (dc a : Nat) (s : State)
    (hq : ¬ ((s.accumuTime : ℚ) ≥ cfg.probDelay * 1000000)) :
    (gateUpdate cfg prm dc a s).probPhase
        = (if s.probPhase > -99 then s.probPhase - 1 else s.probPhase)
      ∧ (gateUpdate cfg prm dc a s).accumuTime
        = (if s.probPhase > -1 then 0 else (s.accumuTime + a) % 2 ^ 64)
      ∧ (gateUpdate cfg prm dc a s).lastprobPhase = s.probPhase := by
  unfold gateUpdate
  simp only []
  rw [if_neg hq]
  exact ⟨rfl, rfl, rfl⟩

theorem gateUpdate_lastprobPhase (cfg : Config) (prm : Params) (dc a : Nat) (s : State) :
    (gateUpdate cfg prm dc a s).lastprobPhase = s.probPhase := by
  unfold gateUpdate
  simp only []
  split_ifs <;> rfl

/-- The scheduler variables after a tick in mode `mod`, from those before it. -/
theorem tick_scheduler (cfg : Config) (prm : Params) (F : Nat → Int) (p : ℚ) (dc : Nat)
    (s : State) (inp : TickInput) :
    ((s.accumuTime : ℚ) ≥ cfg.probDelay * 1000000 →
        ((tick cfg prm F true p dc s inp).probPhase = (numProbRec cfg prm : Int)
            ∨ (tick cfg prm F true p dc s inp).probPhase = -2)
          ∧ (tick cfg prm F true p dc s inp).accumuTime = 0)
      ∧ (¬ ((s.accumuTime : ℚ) ≥ cfg.probDelay * 1000000) →
        (tick cfg prm F true p dc s inp).probPhase
            = (if s.probPhase > -99 then s.probPhase - 1 else s.probPhase)
          ∧ (tick cfg prm F true p dc s inp).accumuTime
            = (if s.probPhase > -1 then 0
                else (s.accumuTime + addTimeOf cfg inp.duration) % 2 ^ 64)) := by
  have hp : (completeStage cfg prm F p dc (sampleAll cfg prm p dc s inp)).probPhase = s.probPhase := by
    rw [completeStage_probPhase, sampleAll_probPhase]
  have ha : (completeStage cfg prm F p dc (sampleAll cfg prm p dc s inp)).accumuTime
      = s.accumuTime := by
    rw [completeStage_accumuTime, sampleAll_accumuTime]
  unfold tick
  simp only [if_true]
  constructor
  · intro hf
    obtain ⟨h1, h2⟩ := gateUpdate_fire cfg prm dc (addTimeOf cfg inp.duration)
      (completeStage cfg prm F p dc (sampleAll cfg prm p dc s inp)) (by rw [ha]; exact hf)
    refine ⟨?_, h2⟩
    rw [h1]
    split_ifs
    · exact Or.inl rfl
    · exact Or.inr rfl
  · intro hq
    obtain ⟨h1, h2, _⟩ := gateUpdate_quiet cfg prm dc (addTimeOf cfg inp.duration)
      (completeStage cfg prm F p dc (sampleAll cfg prm p dc s inp)) (by rw [ha]; exact hq)
    rw [h1, h2, hp, ha]
    exact ⟨rfl, rfl⟩

/-- C23 (range of the scheduler counter).  From the initial state, where
`probPhase = numProbRec`, after any number of ticks with any readings and any
durations, in either mode, `probPhase` lies in `[-99, numProbRec]`.  In mode
`mod`, a tick on which the gate does not fire takes `probPhase` to
`probPhase - 1` when it is above `-99` and leaves it at `-99` otherwise; a tick
on which the gate fires sets it to `numProbRec` or to `-2`. -/
theorem C23_probPhase_range (cfg : Config) (prm : Params) (F : Nat → Int) (modeIsMod : Bool)
    (perfThres : ℚ) (device_count : Nat) (cap0 : Nat → ℚ) (inp : Nat → TickInput) (n : Nat) :
    (initState cfg prm cap0).probPhase = (numProbRec cfg prm : Int)
      ∧ -99 ≤ (run cfg prm F modeIsMod perfThres device_count (initState cfg prm cap0) inp n).probPhase
      ∧ (run cfg prm F modeIsMod perfThres device_count (initState cfg prm cap0) inp n).probPhase
          ≤ (numProbRec cfg prm : Int)
      ∧ (¬ (((run cfg prm F true perfThres device_count (initState cfg prm cap0) inp n).accumuTime
              : ℚ) ≥ cfg.probDelay * 1000000) →
          (run cfg prm F true perfThres device_count (initState cfg prm cap0) inp (n + 1)).probPhase
            = (if (run cfg prm F true perfThres device_count (initState cfg prm cap0) inp
                    n).probPhase > -99
                then (run cfg prm F true perfThres device_count (initState cfg prm cap0) inp
                    n).probPhase - 1
                else -99))
      ∧ (((run cfg prm F true perfThres device_count (initState cfg prm cap0) inp n).accumuTime
              : ℚ) ≥ cfg.probDelay * 1000000 →
          (run cfg prm F true perfThres device_count (initState cfg prm cap0) inp (n + 1)).probPhase
              = (numProbRec cfg prm : Int)
            ∨ (run cfg prm F true perfThres device_count (initState cfg prm cap0) inp
                (n + 1)).probPhase = -2) := by
  have hrange : ∀ (mode : Bool) (k : Nat),
      -99 ≤ (run cfg prm F mode perfThres device_count (initState cfg prm cap0) inp k).probPhase
        ∧ (run cfg prm F mode perfThres device_count (initState cfg prm cap0) inp k).probPhase
            ≤ (numProbRec cfg prm : Int) := by
    intro mode k
    induction k with
    | zero =>
      show -99 ≤ (initState cfg prm cap0).probPhase
        ∧ (initState cfg prm cap0).probPhase ≤ (numProbRec cfg prm : Int)
      have h0 : (initState cfg prm cap0).probPhase = (numProbRec cfg prm : Int) := rfl
      rw [h0]
      omega
    | succ k ih =>
      rw [run_succ]
      generalize run cfg prm F mode perfThres device_count (initState cfg prm cap0) inp k = s at ih
      cases mode with
      | false =>
        have : (tick cfg prm F false perfThres device_count s (inp k)).probPhase = s.probPhase := rfl
        rw [this]
        exact ih
      | true =>
        obtain ⟨hf, hq⟩ := tick_scheduler cfg prm F perfThres device_count s (inp k)
        by_cases hfire : (s.accumuTime : ℚ) ≥ cfg.probDelay * 1000000
        · rcases (hf hfire).1 with h | h
          · rw [h]
            omega
          · rw [h]
            omega
        · rw [(hq hfire).1]
          split_ifs <;> omega
  refine ⟨rfl, (hrange modeIsMod n).1, (hrange modeIsMod n).2, ?_, ?_⟩
  · intro hq
    rw [run_succ, ((tick_scheduler cfg prm F perfThres device_count _ (inp n)).2 hq).1]
    have hr := (hrange true n).1
    split_ifs with h
    · rfl
    · omega
  · intro hf
    rw [run_succ]
    exact ((tick_scheduler cfg prm F perfThres device_count _ (inp n)).1 hf).1

/-- C24, counterexample to the claim as stated: in the run from the initial
state on `v100-300w` with the source's constants, the tick that starts with
`probPhase = -1` and `accumuTime = 0` does not fire the gate and ends with
`accumuTime = 200000`: the time is accumulated at `probPhase = -1`. -/
theorem C24_accumulate_at_minus_one_counterexample :
    (run defaultConfig (params Machine.v100_300w) (availableFreqs Machine.v100_300w) true (9 / 10) 1
        (initState defaultConfig (params Machine.v100_300w) (fun _ => 0))
        (fun _ => ⟨fun _ => ⟨90, 40, 1200, 150000⟩, 100000⟩) 9).probPhase = -1
      ∧ (run defaultConfig (params Machine.v100_300w) (availableFreqs Machine.v100_300w) true
        (9 / 10) 1 (initState defaultConfig (params Machine.v100_300w) (fun _ => 0))
        (fun _ => ⟨fun _ => ⟨90, 40, 1200, 150000⟩, 100000⟩) 9).accumuTime = 0
      ∧ (run defaultConfig (params Machine.v100_300w) (availableFreqs Machine.v100_300w) true
        (9 / 10) 1 (initState defaultConfig (params Machine.v100_300w) (fun _ => 0))
        (fun _ => ⟨fun _ => ⟨90, 40, 1200, 150000⟩, 100000⟩) (9 + 1)).accumuTime = 200000
      ∧ (run defaultConfig (params Machine.v100_300w) (availableFreqs Machine.v100_300w) true
          (9 / 10) 1 (initState defaultConfig (params Machine.v100_300w) (fun _ => 0))
          (fun _ => ⟨fun _ => ⟨90, 40, 1200, 150000⟩, 100000⟩) 9).accumuTime
        < (run defaultConfig (params Machine.v100_300w) (availableFreqs Machine.v100_300w) true
          (9 / 10) 1 (initState defaultConfig (params Machine.v100_300w) (fun _ => 0))
          (fun _ => ⟨fun _ => ⟨90, 40, 1200, 150000⟩, 100000⟩) (9 + 1)).accumuTime := by
  have hd : 0 < defaultConfig.probDelay := by norm_num [defaultConfig]
  have h0 : (initState defaultConfig (params Machine.v100_300w) (fun _ => 0)).probPhase = 8 := rfl
  obtain ⟨h1, h2⟩ := run_in_burst defaultConfig (params Machine.v100_300w)
    (availableFreqs Machine.v100_300w) (9 / 10) 1
    (initState defaultConfig (params Machine.v100_300w) (fun _ => 0))
    (fun _ => ⟨fun _ => ⟨90, 40, 1200, 150000⟩, 100000⟩) hd rfl 9 (by rw [h0]; norm_num)
  rw [h0] at h1
  have h1b : (run defaultConfig (params Machine.v100_300w) (availableFreqs Machine.v100_300w) true
      (9 / 10) 1 (initState defaultConfig (params Machine.v100_300w) (fun _ => 0))
      (fun _ => ⟨fun _ => ⟨90, 40, 1200, 150000⟩, 100000⟩) 9).probPhase = -1 := by
    rw [h1]
    norm_num
  have h10 : (run defaultConfig (params Machine.v100_300w) (availableFreqs Machine.v100_300w) true
      (9 / 10) 1 (initState defaultConfig (params Machine.v100_300w) (fun _ => 0))
      (fun _ => ⟨fun _ => ⟨90, 40, 1200, 150000⟩, 100000⟩) (9 + 1)).accumuTime = 200000 := ?_
  · refine ⟨h1b, h2, h10, ?_⟩
    rw [h10, h2]
    norm_num
  rw [run_succ]
  obtain ⟨_, hq⟩ := tick_scheduler defaultConfig (params Machine.v100_300w)
    (availableFreqs Machine.v100_300w) (9 / 10) 1
    (run defaultConfig (params Machine.v100_300w) (availableFreqs Machine.v100_300w) true
      (9 / 10) 1 (initState defaultConfig (params Machine.v100_300w) (fun _ => 0))
      (fun _ => ⟨fun _ => ⟨90, 40, 1200, 150000⟩, 100000⟩) 9)
    (⟨fun _ => ⟨90, 40, 1200, 150000⟩, 100000⟩)
  have hno : ¬ (((run defaultConfig (params Machine.v100_300w) (availableFreqs Machine.v100_300w)
      true (9 / 10) 1 (initState defaultConfig (params Machine.v100_300w) (fun _ => 0))
      (fun _ => ⟨fun _ => ⟨90, 40, 1200, 150000⟩, 100000⟩) 9).accumuTime : ℚ)
        ≥ defaultConfig.probDelay * 1000000) := by
    rw [h2]
    norm_num [defaultConfig]
  rw [(hq hno).2, h1b, h2]
  rfl

/-- C24 (amended).  `addTime` is `max(duration, loopDelay*1000)`, where
`duration` is the stored unsigned value.  On a tick in mode `mod` on which the
gate does not fire, `accumuTime` is increased by `addTime`, modulo `2^64` (the
width of the counter), exactly when `probPhase ≤ -1` at that point (at
`probPhase = -1` too): the new value is the plain sum whenever the sum is below
`2^64`.  It is set to 0 for every `probPhase ≥ 0`, and on a tick on which the
gate fires. -/
theorem C24_accumulate (cfg : Config) (prm : Params) (F : Nat → Int) (perfThres : ℚ)
    (device_count : Nat) (s : State) (inp : TickInput) :
    addTimeOf cfg inp.duration = max inp.duration (cfg.loopDelay * 1000)
      ∧ (¬ ((s.accumuTime : ℚ) ≥ cfg.probDelay * 1000000) → s.probPhase ≤ -1 →
          (tick cfg prm F true perfThres device_count s inp).accumuTime
            = (s.accumuTime + addTimeOf cfg inp.duration) % 2 ^ 64)
      ∧ (¬ ((s.accumuTime : ℚ) ≥ cfg.probDelay * 1000000) → s.probPhase ≤ -1 →
          s.accumuTime + addTimeOf cfg inp.duration < 2 ^ 64 →
          (tick cfg prm F true perfThres device_count s inp).accumuTime
            = s.accumuTime + addTimeOf cfg inp.duration)
      ∧ (¬ ((s.accumuTime : ℚ) ≥ cfg.probDelay * 1000000) → s.probPhase = -1 →
          (tick cfg prm F true perfThres device_count s inp).accumuTime
            = (s.accumuTime + addTimeOf cfg inp.duration) % 2 ^ 64)
      ∧ (¬ ((s.accumuTime : ℚ) ≥ cfg.probDelay * 1000000) → 0 ≤ s.probPhase →
          (tick cfg prm F true perfThres device_count s inp).accumuTime = 0)
      ∧ ((s.accumuTime : ℚ) ≥ cfg.probDelay * 1000000 →
          (tick cfg prm F true perfThres device_count s inp).accumuTime = 0) := by
  obtain ⟨hf, hq⟩ := tick_scheduler cfg prm F perfThres device_count s inp
  refine ⟨?_, ?_, ?_, ?_, ?_, ?_⟩
  · unfold addTimeOf
    split_ifs with h
    · exact (max_eq_right (le_of_lt h)).symm
    · exact (max_eq_left (not_lt.mp h)).symm
  · intro h1 h2
    rw [(hq h1).2, if_neg (by omega)]
  · intro h1 h2 h3
    rw [(hq h1).2, if_neg (by omega), Nat.mod_eq_of_lt h3]
  · intro h1 h2
    rw [(hq h1).2, if_neg (by omega)]
  · intro h1 h2
    rw [(hq h1).2, if_pos (by omega)]
  · intro h1
    exact (hf h1).2

/-- C25 (actuation gating).  On every tick under the Assure policy and for
every device, `applyFreqSet` is true, and the set-clocks call is issued, if and
only if `probPhase ≥ -1`.  At `probPhase = -1` the command is the operating
frequency `optimizedFreqs[i]` and it is actuated (with the profile's memory
clock); at every `probPhase ≤ -2` the command is the operating frequency and no
call is made. -/
theorem C25_actuation_gating (cfg : Config) (prm : Params) (s : State) (i : Nat) :
    ((commands cfg prm s i).applyFreqSet = true ↔ s.probPhase ≥ -1)
      ∧ ((setClocksCall prm (commands cfg prm s i)).isSome = true ↔ s.probPhase ≥ -1)
      ∧ (s.probPhase = -1 →
          commands cfg prm s i = ⟨(s.devices i).optimizedFreq, true⟩
            ∧ setClocksCall prm (commands cfg prm s i)
              = some (prm.setMemFreq, (s.devices i).optimizedFreq))
      ∧ (s.probPhase ≤ -2 →
          commands cfg prm s i = ⟨(s.devices i).optimizedFreq, false⟩
            ∧ setClocksCall prm (commands cfg prm s i) = none) := by
  have happ : (commands cfg prm s i).applyFreqSet = true ↔ s.probPhase ≥ -1 := by
    unfold commands command
    simp only []
    split_ifs with h
    · exact ⟨fun _ => h, fun _ => rfl⟩
    · exact ⟨fun hc => absurd hc (by simp), fun hc => absurd hc h⟩
  have hm1 : s.probPhase = -1 → commands cfg prm s i = ⟨(s.devices i).optimizedFreq, true⟩ := by
    intro h
    unfold commands command
    simp only [h]
    norm_num
  have hm2 : s.probPhase ≤ -2 → commands cfg prm s i = ⟨(s.devices i).optimizedFreq, false⟩ := by
    intro h
    unfold commands command
    simp only []
    rw [if_neg (by omega), if_neg (by omega), if_neg (by omega)]
  refine ⟨happ, ?_, ?_, ?_⟩
  · rw [← happ]
    unfold setClocksCall
    split_ifs with h
    · simp [h]
    · simp [h]
  · intro h
    refine ⟨hm1 h, ?_⟩
    rw [hm1 h]
    rfl
  · intro h
    refine ⟨hm2 h, ?_⟩
    rw [hm2 h]
    rfl

/-! ## The records of a burst -/

/-- The slot written by a recording, and the slots it leaves alone. -/
theorem recordSample_records (cfg : Config) (prm : Params) (p : ℚ) (l : Int) (d : DeviceState)
    (t : Telemetry) :
    (recordSample cfg prm p l d t).gmemUtils
        = (if l > 0 then Function.update d.gmemUtils ((numProbRec cfg prm : Int) - l).toNat
            (t.memory : ℚ) else d.gmemUtils)
      ∧ (recordSample cfg prm p l d t).gPowers
        = (if l > 0 then Function.update d.gPowers ((numProbRec cfg prm : Int) - l).toNat
            ((t.power : ℚ) / 1000) else d.gPowers) := by
  unfold recordSample
  by_cases hl : l > 0
  · rw [if_pos hl, if_pos hl, if_pos hl]
    simp only []
    split_ifs <;> exact ⟨rfl, rfl⟩
  · rw [if_neg hl, if_neg hl, if_neg hl]
    exact ⟨rfl, rfl⟩

/-- The records of a device after one tick in mode `mod`: when
`lastprobPhase > 0` the reading of the tick is in slot
`numProbRec - lastprobPhase`, and every other slot is unchanged. -/
theorem tick_records (cfg : Config) (prm : Params) (F : Nat → Int) (p : ℚ) (dc : Nat) (s : State)
    (inp : TickInput) (i : Nat) (hi : i < dc) :
    ((tick cfg prm F true p dc s inp).devices i).gmemUtils
        = (if s.lastprobPhase > 0
            then Function.update (s.devices i).gmemUtils
              ((numProbRec cfg prm : Int) - s.lastprobPhase).toNat ((inp.tel i).memory : ℚ)
            else (s.devices i).gmemUtils)
      ∧ ((tick cfg prm F true p dc s inp).devices i).gPowers
        = (if s.lastprobPhase > 0
            then Function.update (s.devices i).gPowers
              ((numProbRec cfg prm : Int) - s.lastprobPhase).toNat
              (((inp.tel i).power : ℚ) / 1000)
            else (s.devices i).gPowers) := by
  have hs := sampleAll_devices cfg prm p dc s inp i hi
  obtain ⟨r1, r2⟩ := recordSample_records cfg prm p s.lastprobPhase
    (ringUpdate cfg s.idx_oldest (s.devices i) (inp.tel i)) (inp.tel i)
  have hc : ((completeStage cfg prm F p dc (sampleAll cfg prm p dc s inp)).devices i).gmemUtils
        = ((sampleAll cfg prm p dc s inp).devices i).gmemUtils
      ∧ ((completeStage cfg prm F p dc (sampleAll cfg prm p dc s inp)).devices i).gPowers
        = ((sampleAll cfg prm p dc s inp).devices i).gPowers := by
    unfold completeStage
    by_cases h0 : (sampleAll cfg prm p dc s inp).probPhase = 0
    · rw [if_pos h0]
      exact ⟨(completeAll_records cfg prm F p dc _ i).1, (completeAll_records cfg prm F p dc _ i).2.1⟩
    · rw [if_neg h0]
      exact ⟨rfl, rfl⟩
  unfold tick
  simp only [if_true]
  rw [gateUpdate_devices, hc.1, hc.2, hs, r1, r2]
  exact ⟨rfl, rfl⟩

/-- In a run in mode `mod`, `lastprobPhase` at a tick is `probPhase` at the
tick before. -/
theorem run_lastprobPhase (cfg : Config) (prm : Params) (F : Nat → Int) (p : ℚ) (dc : Nat)
    (s : State) (inp : Nat → TickInput) (n : Nat) :
    (run cfg prm F true p dc s inp (n + 1)).lastprobPhase
      = (run cfg prm F true p dc s inp n).probPhase := by
  rw [run_succ, tick_lastprobPhase]

/-- In a run from the initial state in mode `mod`, a tick that starts with
`0 ≤ probPhase < numProbRec` has `lastprobPhase = probPhase + 1`. -/
theorem run_lastprobPhase_succ (cfg : Config) (prm : Params) (F : Nat → Int) (p : ℚ) (dc : Nat)
    (cap0 : Nat → ℚ) (inp : Nat → TickInput) (n : Nat)
    (h0 : 0 ≤ (run cfg prm F true p dc (initState cfg prm cap0) inp n).probPhase)
    (hN : (run cfg prm F true p dc (initState cfg prm cap0) inp n).probPhase
      < (numProbRec cfg prm : Int)) :
    (run cfg prm F true p dc (initState cfg prm cap0) inp n).lastprobPhase
      = (run cfg prm F true p dc (initState cfg prm cap0) inp n).probPhase + 1 := by
  cases n with
  | zero =>
    exfalso
    have : (run cfg prm F true p dc (initState cfg prm cap0) inp 0).probPhase
        = (numProbRec cfg prm : Int) := rfl
    omega
  | succ n =>
    rw [run_lastprobPhase]
    rw [run_succ] at h0 hN ⊢
    obtain ⟨hf, hq⟩ := tick_scheduler cfg prm F p dc
      (run cfg prm F true p dc (initState cfg prm cap0) inp n) (inp n)
    by_cases hfire : ((run cfg prm F true p dc (initState cfg prm cap0) inp n).accumuTime : ℚ)
        ≥ cfg.probDelay * 1000000
    · rcases (hf hfire).1 with h | h
      · omega
      · omega
    · have h1 := (hq hfire).1
      rw [h1] at h0 hN ⊢
      split_ifs at h0 hN ⊢ with hc
      · omega
      · omega

/-- C28, counterexample to the claim as stated: in the run from the initial
state on `v100-300w` with the source's constants (`numProbRec = 8`), the tick
that starts with `probPhase = 7` reads memory utilisation 40; after it slot
`8 - 7 = 1` still holds 0 and the reading is in slot 0. -/
theorem C28_slot_counterexample :
    (run defaultConfig (params Machine.v100_300w) (availableFreqs Machine.v100_300w) true (9 / 10) 1
        (initState defaultConfig (params Machine.v100_300w) (fun _ => 0))
        (fun _ => ⟨fun _ => ⟨90, 40, 1200, 150000⟩, 100000⟩) 1).probPhase = 7
      ∧ (((run defaultConfig (params Machine.v100_300w) (availableFreqs Machine.v100_300w) true
          (9 / 10) 1 (initState defaultConfig (params Machine.v100_300w) (fun _ => 0))
          (fun _ => ⟨fun _ => ⟨90, 40, 1200, 150000⟩, 100000⟩) (1 + 1)).devices 0).gmemUtils 1 = 0)
      ∧ (((run defaultConfig (params Machine.v100_300w) (availableFreqs Machine.v100_300w) true
          (9 / 10) 1 (initState defaultConfig (params Machine.v100_300w) (fun _ => 0))
          (fun _ => ⟨fun _ => ⟨90, 40, 1200, 150000⟩, 100000⟩) (1 + 1)).devices 0).gmemUtils 0 = 40)
      := by
  have hd : 0 < defaultConfig.probDelay := by norm_num [defaultConfig]
  have h0 : (initState defaultConfig (params Machine.v100_300w) (fun _ => 0)).probPhase = 8 := rfl
  obtain ⟨h1, _⟩ := run_in_burst defaultConfig (params Machine.v100_300w)
    (availableFreqs Machine.v100_300w) (9 / 10) 1
    (initState defaultConfig (params Machine.v100_300w) (fun _ => 0))
    (fun _ => ⟨fun _ => ⟨90, 40, 1200, 150000⟩, 100000⟩) hd rfl 1 (by rw [h0]; norm_num)
  rw [h0] at h1
  have hl := run_lastprobPhase defaultConfig (params Machine.v100_300w)
    (availableFreqs Machine.v100_300w) (9 / 10) 1
    (initState defaultConfig (params Machine.v100_300w) (fun _ => 0))
    (fun _ => ⟨fun _ => ⟨90, 40, 1200, 150000⟩, 100000⟩) 0
  have hl8 : (run defaultConfig (params Machine.v100_300w) (availableFreqs Machine.v100_300w) true
      (9 / 10) 1 (initState defaultConfig (params Machine.v100_300w) (fun _ => 0))
      (fun _ => ⟨fun _ => ⟨90, 40, 1200, 150000⟩, 100000⟩) (0 + 1)).lastprobPhase = 8 := by
    rw [hl]
    rfl
  have hg1 : ((run defaultConfig (params Machine.v100_300w) (availableFreqs Machine.v100_300w) true
      (9 / 10) 1 (initState defaultConfig (params Machine.v100_300w) (fun _ => 0))
      (fun _ => ⟨fun _ => ⟨90, 40, 1200, 150000⟩, 100000⟩) (0 + 1)).devices 0).gmemUtils
        = fun _ => 0 := by
    rw [run_succ, (tick_records _ _ _ _ _ _ _ 0 (by norm_num)).1]
    rfl
  refine ⟨by rw [h1]; norm_num, ?_, ?_⟩
  · rw [run_succ _ _ _ _ _ _ _ _ 1, (tick_records _ _ _ _ _ _ _ 0 (by norm_num)).1]
    rw [show (1 : Nat) = 0 + 1 from rfl, hl8, hg1, numProbRec_default]
    norm_num [Function.update]
  · rw [run_succ _ _ _ _ _ _ _ _ 1, (tick_records _ _ _ _ _ _ _ 0 (by norm_num)).1]
    rw [show (1 : Nat) = 0 + 1 from rfl, hl8, hg1, numProbRec_default]
    norm_num [Function.update]

/-- C28 (amended).  In a run from the initial state in mode `mod`, on every
tick that starts with `probPhase = c`, `0 < c < numProbRec`, the counter of the
tick before is `lastprobPhase = c + 1`, and the reading of the tick is recorded
into slot `numProbRec - lastprobPhase = numProbRec - c - 1` (memory utilisation
and power in watts); no other slot changes. -/
theorem C28_sample_slot (cfg : Config) (prm : Params) (F : Nat → Int) (perfThres : ℚ)
    (device_count : Nat) (cap0 : Nat → ℚ) (inp : Nat → TickInput) (n i c : Nat)
    (hi : i < device_count) (hc0 : 0 < c) (hcN : c < numProbRec cfg prm)
    (hc : (run cfg prm F true perfThres device_count (initState cfg prm cap0) inp n).probPhase
      = (c : Int)) :
    (run cfg prm F true perfThres device_count (initState cfg prm cap0) inp n).lastprobPhase
        = (c : Int) + 1
      ∧ ((run cfg prm F true perfThres device_count (initState cfg prm cap0) inp (n + 1)).devices
          i).gmemUtils (numProbRec cfg prm - c - 1) = (((inp n).tel i).memory : ℚ)
      ∧ ((run cfg prm F true perfThres device_count (initState cfg prm cap0) inp (n + 1)).devices
          i).gPowers (numProbRec cfg prm - c - 1) = (((inp n).tel i).power : ℚ) / 1000
      ∧ ∀ j, j ≠ numProbRec cfg prm - c - 1 →
          ((run cfg prm F true perfThres device_count (initState cfg prm cap0) inp (n + 1)).devices
              i).gmemUtils j
            = ((run cfg prm F true perfThres device_count (initState cfg prm cap0) inp n).devices
              i).gmemUtils j
          ∧ ((run cfg prm F true perfThres device_count (initState cfg prm cap0) inp (n + 1)).devices
              i).gPowers j
            = ((run cfg prm F true perfThres device_count (initState cfg prm cap0) inp n).devices
              i).gPowers j := by
  have hl := run_lastprobPhase_succ cfg prm F perfThres device_count cap0 inp n
    (by rw [hc]; omega) (by rw [hc]; omega)
  rw [hc] at hl
  obtain ⟨r1, r2⟩ := tick_records cfg prm F perfThres device_count
    (run cfg prm F true perfThres device_count (initState cfg prm cap0) inp n) (inp n) i hi
  rw [hl, if_pos (by omega)] at r1 r2
  have hslot : ((numProbRec cfg prm : Int) - ((c : Int) + 1)).toNat = numProbRec cfg prm - c - 1 := by
    omega
  rw [hslot] at r1 r2
  rw [run_succ, r1, r2]
  refine ⟨hl, by simp, by simp, ?_⟩
  intro j hj
  exact ⟨Function.update_noteq hj _ _, Function.update_noteq hj _ _⟩

/-- C28 (amended) at a concrete input: the tick of the initial burst on
`v100-300w` that starts with `probPhase = 7` records into slot 0. -/
theorem C28_sample_slot_witness :
    (0 < 1) ∧ (0 < 7) ∧ 7 < numProbRec defaultConfig (params Machine.v100_300w)
      ∧ (run defaultConfig (params Machine.v100_300w) (availableFreqs Machine.v100_300w) true
          (9 / 10) 1 (initState defaultConfig (params Machine.v100_300w) (fun _ => 0))
          (fun _ => ⟨fun _ => ⟨90, 40, 1200, 150000⟩, 100000⟩) 1).probPhase = ((7 : Nat) : Int)
      ∧ ((run defaultConfig (params Machine.v100_300w) (availableFreqs Machine.v100_300w) true
          (9 / 10) 1 (initState defaultConfig (params Machine.v100_300w) (fun _ => 0))
          (fun _ => ⟨fun _ => ⟨90, 40, 1200, 150000⟩, 100000⟩) (1 + 1)).devices 0).gmemUtils
            (numProbRec defaultConfig (params Machine.v100_300w) - 7 - 1)
          = ((((fun _ => ⟨fun _ => ⟨90, 40, 1200, 150000⟩, 100000⟩ : Nat → TickInput) 1).tel
              0).memory : ℚ) :=
  have hp : (run defaultConfig (params Machine.v100_300w) (availableFreqs Machine.v100_300w) true
      (9 / 10) 1 (initState defaultConfig (params Machine.v100_300w) (fun _ => 0))
      (fun _ => ⟨fun _ => ⟨90, 40, 1200, 150000⟩, 100000⟩) 1).probPhase = ((7 : Nat) : Int) := by
    have h := (run_in_burst defaultConfig (params Machine.v100_300w)
      (availableFreqs Machine.v100_300w) (9 / 10) 1
      (initState defaultConfig (params Machine.v100_300w) (fun _ => 0))
      (fun _ => ⟨fun _ => ⟨90, 40, 1200, 150000⟩, 100000⟩) (by norm_num [defaultConfig]) rfl 1
      (by
        have h0 : (initState defaultConfig (params Machine.v100_300w) (fun _ => 0)).probPhase = 8 :=
          rfl
        rw [h0]
        norm_num)).1
    rw [h]
    rfl
  ⟨by decide, by decide, by decide, hp,
    (C28_sample_slot defaultConfig (params Machine.v100_300w) (availableFreqs Machine.v100_300w)
      (9 / 10) 1 (fun _ => 0) (fun _ => ⟨fun _ => ⟨90, 40, 1200, 150000⟩, 100000⟩) 1 0 7
      (by decide) (by decide) (by decide) hp).2.1⟩

/-- The records of a burst: slot `j` holds the reading of tick `j + 1` from the
end of that tick to the end of the completion tick. -/
theorem burst_slot (cfg : Config) (prm : Params) (F : Nat → Int) (p : ℚ) (dc : Nat) (s : State)
    (inp : Nat → TickInput) (i : Nat) (hi : i < dc) (hd : 0 < cfg.probDelay)
    (hs : s.probPhase = (numProbRec cfg prm : Int)) (hacc : s.accumuTime = 0) (j : Nat)
    (hj : j < numProbRec cfg prm) (d : Nat) (hd2 : j + d < numProbRec cfg prm) :
    ((run cfg prm F true p dc s inp (j + d + 2)).devices i).gmemUtils j
        = (((inp (j + 1)).tel i).memory : ℚ)
      ∧ ((run cfg prm F true p dc s inp (j + d + 2)).devices i).gPowers j
        = (((inp (j + 1)).tel i).power : ℚ) / 1000 := by
  have hlast : ∀ e, j + e < numProbRec cfg prm →
      (run cfg prm F true p dc s inp (j + e + 1)).lastprobPhase
        = (numProbRec cfg prm : Int) - ((j + e : Nat) : Int) := by
    intro e he
    rw [run_lastprobPhase, (run_in_burst cfg prm F p dc s inp hd hacc (j + e)
      (by rw [hs]; omega)).1, hs]
  induction d with
  | zero =>
    obtain ⟨r1, r2⟩ := tick_records cfg prm F p dc (run cfg prm F true p dc s inp (j + 0 + 1))
      (inp (j + 0 + 1)) i hi
    rw [hlast 0 hd2, if_pos (by omega)] at r1 r2
    have hslot : ((numProbRec cfg prm : Int)
        - ((numProbRec cfg prm : Int) - ((j + 0 : Nat) : Int))).toNat = j := by
      omega
    rw [hslot] at r1 r2
    rw [show j + 0 + 2 = j + 0 + 1 + 1 from rfl, run_succ, r1, r2]
    exact ⟨by simp, by simp⟩
  | succ d ih =>
    obtain ⟨i1, i2⟩ := ih (by omega)
    obtain ⟨r1, r2⟩ := tick_records cfg prm F p dc
      (run cfg prm F true p dc s inp (j + (d + 1) + 1)) (inp (j + (d + 1) + 1)) i hi
    rw [hlast (d + 1) hd2, if_pos (by omega)] at r1 r2
    have hslot : ((numProbRec cfg prm : Int)
        - ((numProbRec cfg prm : Int) - ((j + (d + 1) : Nat) : Int))).toNat = j + (d + 1) := by
      omega
    rw [hslot] at r1 r2
    have hne : j ≠ j + (d + 1) := by omega
    rw [show j + (d + 1) + 2 = j + (d + 1) + 1 + 1 from rfl, run_succ, r1, r2,
      Function.update_noteq hne, Function.update_noteq hne]
    exact ⟨i1, i2⟩

/-- C26 (one-tick actuation lag).  In a burst started from any state (mode
`mod`, positive probe interval, `probPhase = numProbRec`, `accumuTime = 0`),
for every device and every slot `j < numProbRec`: tick `j` of the burst
commands and actuates `probFreqs[ifreq j]`, which is the abscissa `x[j]` of the
regression; the reading of the next tick `j + 1` (memory utilisation, power in
watts) is what slot `j` holds from the end of tick `j + 1` on, through the
completion of the burst. -/
theorem C26_actuation_lag (cfg : Config) (prm : Params) (F : Nat → Int) (perfThres : ℚ)
    (device_count : Nat) (s : State) (inp : Nat → TickInput) (i j : Nat)
    (hi : i < device_count) (hd : 0 < cfg.probDelay)
    (hs : s.probPhase = (numProbRec cfg prm : Int)) (hacc : s.accumuTime = 0)
    (hj : j < numProbRec cfg prm) :
    commands cfg prm (run cfg prm F true perfThres device_count s inp j) i
        = ⟨prm.probFreqs (ifreqOf prm.numProbFreq j), true⟩
      ∧ xOf prm j
        = (((commands cfg prm (run cfg prm F true perfThres device_count s inp j) i).setFreq : Int)
            : ℚ)
      ∧ (run cfg prm F true perfThres device_count s inp (j + 1)).lastprobPhase
        = (numProbRec cfg prm : Int) - (j : Int)
      ∧ ∀ t, j + 2 ≤ t → t ≤ numProbRec cfg prm + 1 →
          ((run cfg prm F true perfThres device_count s inp t).devices i).gmemUtils j
              = (((inp (j + 1)).tel i).memory : ℚ)
            ∧ ((run cfg prm F true perfThres device_count s inp t).devices i).gPowers j
              = (((inp (j + 1)).tel i).power : ℚ) / 1000 := by
  have hp : (run cfg prm F true perfThres device_count s inp j).probPhase
      = (numProbRec cfg prm : Int) - (j : Int) := by
    rw [(run_in_burst cfg prm F perfThres device_count s inp hd hacc j (by rw [hs]; omega)).1, hs]
  have hcmd : commands cfg prm (run cfg prm F true perfThres device_count s inp j) i
      = ⟨prm.probFreqs (ifreqOf prm.numProbFreq j), true⟩ := by
    have hset := command_in_burst cfg prm _
      ((run cfg prm F true perfThres device_count s inp j).devices i).optimizedFreq j hj hp
    have happ : (command cfg prm (run cfg prm F true perfThres device_count s inp j).probPhase
        ((run cfg prm F true perfThres device_count s inp j).devices i).optimizedFreq).applyFreqSet
          = true := by
      unfold command
      simp only []
      rw [if_pos (by rw [hp]; omega)]
    unfold commands
    cases hc : command cfg prm (run cfg prm F true perfThres device_count s inp j).probPhase
      ((run cfg prm F true perfThres device_count s inp j).devices i).optimizedFreq with
    | mk sf ap =>
      rw [hc] at hset happ
      simp only [] at hset happ
      rw [hset, happ]
      unfold ifreqOf
      simp only [apply_ite prm.probFreqs]
  refine ⟨hcmd, ?_, ?_, ?_⟩
  · rw [hcmd]
    rfl
  · rw [run_lastprobPhase, hp]
  · intro t h1 h2
    obtain ⟨d, rfl⟩ : ∃ d, t = j + d + 2 := ⟨t - j - 2, by omega⟩
    exact burst_slot cfg prm F perfThres device_count s inp i hi hd hs hacc j hj d (by omega)

/-- C26 at a concrete input: the initial burst on `v100-300w` with the source's
constants, slot 0. -/
theorem C26_actuation_lag_witness :
    (0 < 1) ∧ 0 < defaultConfig.probDelay
      ∧ (initState defaultConfig (params Machine.v100_300w) (fun _ => 0)).probPhase
          = (numProbRec defaultConfig (params Machine.v100_300w) : Int)
      ∧ (initState defaultConfig (params Machine.v100_300w) (fun _ => 0)).accumuTime = 0
      ∧ 0 < numProbRec defaultConfig (params Machine.v100_300w)
      ∧ commands defaultConfig (params Machine.v100_300w)
          (run defaultConfig (params Machine.v100_300w) (availableFreqs Machine.v100_300w) true
            (9 / 10) 1 (initState defaultConfig (params Machine.v100_300w) (fun _ => 0))
            (fun _ => ⟨fun _ => ⟨90, 40, 1200, 150000⟩, 100000⟩) 0) 0
        = ⟨(params Machine.v100_300w).probFreqs
            (ifreqOf (params Machine.v100_300w).numProbFreq 0), true⟩ :=
  ⟨by decide, by norm_num [defaultConfig], rfl, rfl, by decide,
    (C26_actuation_lag defaultConfig (params Machine.v100_300w) (availableFreqs Machine.v100_300w)
      (9 / 10) 1 (initState defaultConfig (params Machine.v100_300w) (fun _ => 0))
      (fun _ => ⟨fun _ => ⟨90, 40, 1200, 150000⟩, 100000⟩) 0 0 (by decide)
      (by norm_num [defaultConfig]) rfl rfl (by decide)).1⟩

/-! ## Fatal paths and termination -/

/-- The calls of a reset loop in which every call succeeds. -/
theorem resetLoop_success (lockedStep : NvmlReturn → LoopStep)
    (hl : lockedStep NvmlReturn.success = LoopStep.continues) (n : Nat) :
    resetLoop lockedStep (fun _ => (NvmlReturn.success, NvmlReturn.success, NvmlReturn.success)) n
      = ((List.range n).flatMap (fun i =>
            [Call.getHandle i, Call.resetGpuLockedClocks i, Call.resetApplicationsClocks i]),
          LoopStep.continues) := by
  induction n with
  | zero => rfl
  | succ n ih =>
    simp only [resetLoop]
    rw [ih]
    simp only [resetDeviceCalls, hl]
    rw [List.range_succ, List.flatMap_append]
    simp [resetAppResultStep]

/-- C21, counterexample to the claim as stated: with one device, a tick in
which the set-clocks call fails with an error other than permission or
support jumps to `Error`; the whole execution from that tick on is the four
reads, the set-clocks call and `nvmlShutdown`, with exit code 1, and contains
no clock reset of device 0. -/
theorem C21_fatal_path_counterexample :
    deviceTickCalls (params Machine.v100_300w) 0 ⟨952, true⟩ NvmlReturn.success NvmlReturn.success
        NvmlReturn.success NvmlReturn.success NvmlReturn.errorOther
      = ([Call.getHandle 0, Call.getUtilizationRates 0, Call.getClockInfo 0, Call.getPowerUsage 0,
          Call.setApplicationsClocks 0 877 952], LoopStep.gotoError)
      ∧ fatalExit (deviceTickCalls (params Machine.v100_300w) 0 ⟨952, true⟩ NvmlReturn.success
          NvmlReturn.success NvmlReturn.success NvmlReturn.success NvmlReturn.errorOther).1
        = ([Call.getHandle 0, Call.getUtilizationRates 0, Call.getClockInfo 0,
            Call.getPowerUsage 0, Call.setApplicationsClocks 0 877 952, Call.nvmlShutdown], 1)
      ∧ Call.resetGpuLockedClocks 0
          ∉ (fatalExit (deviceTickCalls (params Machine.v100_300w) 0 ⟨952, true⟩ NvmlReturn.success
              NvmlReturn.success NvmlReturn.success NvmlReturn.success NvmlReturn.errorOther).1).1
      ∧ Call.resetApplicationsClocks 0
          ∉ (fatalExit (deviceTickCalls (params Machine.v100_300w) 0 ⟨952, true⟩ NvmlReturn.success
              NvmlReturn.success NvmlReturn.success NvmlReturn.success NvmlReturn.errorOther).1).1
      := by
  refine ⟨by decide, by decide, by decide, by decide⟩

/-- C21 (amended).  Every jump to `Error` is followed by `nvmlShutdown` alone
and the exit code 1: the sink makes no clock reset.  The jumps inside the loop
(a failed read or a fatal set-clocks result), in the start-up reset loop and in
the reset loop of the termination path all end this way.  A clock reset of
every device is made by the start-up reset loop and by the termination path
that follows the loop: when every call succeeds each of them resets the locked
and the applications clocks of each device in turn, and the termination path
then calls `nvmlShutdown` and exits with code 0. -/
theorem C21_error_sink (prm : Params) (before : List Call) (device_count : Nat)
    (res : Nat → NvmlReturn × NvmlReturn × NvmlReturn) :
    errorSink = ([Call.nvmlShutdown], 1)
      ∧ fatalExit before = (before ++ [Call.nvmlShutdown], 1)
      ∧ (∀ i, Call.resetGpuLockedClocks i ∉ errorSink.1
          ∧ Call.resetApplicationsClocks i ∉ errorSink.1)
      ∧ (∀ calls, resetLoop resetAppResultStep res device_count = (calls, LoopStep.gotoError) →
          terminate device_count res = (calls ++ [Call.nvmlShutdown], 1))
      ∧ (∀ calls, resetLoop resetAppResultStep res device_count = (calls, LoopStep.continues) →
          terminate device_count res = (calls ++ [Call.nvmlShutdown], 0))
      ∧ terminate device_count
          (fun _ => (NvmlReturn.success, NvmlReturn.success, NvmlReturn.success))
        = ((List.range device_count).flatMap (fun i =>
              [Call.getHandle i, Call.resetGpuLockedClocks i, Call.resetApplicationsClocks i])
            ++ [Call.nvmlShutdown], 0)
      ∧ (∀ (i : Nat) (c : Command) (rh ru rc rp rs : NvmlReturn),
          (deviceTickCalls prm i c rh ru rc rp rs).2 = LoopStep.gotoError →
          fatalExit (deviceTickCalls prm i c rh ru rc rp rs).1
            = ((deviceTickCalls prm i c rh ru rc rp rs).1 ++ [Call.nvmlShutdown], 1))
      ∧ resetLoop resetLockedResultStep
          (fun _ => (NvmlReturn.success, NvmlReturn.success, NvmlReturn.success)) device_count
        = ((List.range device_count).flatMap (fun i =>
              [Call.getHandle i, Call.resetGpuLockedClocks i, Call.resetApplicationsClocks i]),
            LoopStep.continues)
      ∧ (∀ calls, resetLoop resetLockedResultStep res device_count = (calls, LoopStep.gotoError) →
          fatalExit calls = (calls ++ [Call.nvmlShutdown], 1)) := by
  refine ⟨rfl, rfl, ?_, ?_, ?_, ?_, ?_, resetLoop_success resetLockedResultStep rfl device_count,
    fun _ _ => rfl⟩
  · intro i
    constructor <;> simp [errorSink]
  · intro calls h
    unfold terminate
    rw [h]
    rfl
  · intro calls h
    unfold terminate
    rw [h]
  · unfold terminate
    rw [resetLoop_success resetAppResultStep rfl]
  · intro i c rh ru rc rp rs _
    rfl

/-! ## A constant response -/

theorem sumyLoop_const (y : Nat → ℚ) (c : ℚ) (n : Nat) (h : ∀ j, j < n → y j = c) :
    sumyLoop y n = (n : ℚ) * c := by
  induction n with
  | zero => simp [sumyLoop]
  | succ n ih =>
    simp only [sumyLoop]
    rw [ih (fun j hj => h j (by omega)), h n (by omega)]
    push_cast
    ring

/-- A selection with error 0 and `turn_Opt = 0` is kept by every further turn. -/
theorem turnLoop_zero (cfg : Config) (prm : Params) (gmem : Nat → ℚ) (sel0 : Sel)
    (ht : sel0.turn_Opt = 0) (he : sel0.regErrMin = 0) (n : Nat) :
    (turnLoop cfg prm gmem sel0 n).turn_Opt = 0 ∧ (turnLoop cfg prm gmem sel0 n).regErrMin = 0 := by
  induction n with
  | zero => exact ⟨ht, he⟩
  | succ n ih =>
    have hstep : turnLoop cfg prm gmem sel0 (n + 1)
        = turnStep cfg prm gmem (n + 2) (turnLoop cfg prm gmem sel0 n) := rfl
    obtain ⟨u1, u2, _⟩ := turnStep_keep cfg prm gmem (n + 2) (turnLoop cfg prm gmem sel0 n)
      (by rw [ih.2]; exact foldCandidate_regErr_nonneg _ _ _ _ _)
    rw [hstep, u1, u2]
    exact ih

/-- Model selection on a constant response `c`: the single line with slope 0,
intercept `c` and error 0, and `turn_Opt = 0`. -/
theorem modelSelect_const (cfg : Config) (prm : Params) (gmem : Nat → ℚ) (buf : Scratch) (c : ℚ)
    (hr : 0 < cfg.numProbRep) (hk : 2 ≤ prm.numProbFreq)
    (hP : prm.probFreqs 0 ≠ prm.probFreqs 1)
    (hg : ∀ j, j < numProbRec cfg prm → gmem j = c) :
    (modelSelect cfg prm gmem buf).1 = ⟨0, c, 0⟩
      ∧ (modelSelect cfg prm gmem buf).2.turn_Opt = 0
      ∧ (modelSelect cfg prm gmem buf).2.regErrMin = 0 := by
  have hN : prm.numProbFreq ≤ numProbRec cfg prm := Nat.le_mul_of_pos_right _ hr
  have hl : linearRegression (numProbRec cfg prm) (xOf prm) gmem = ⟨0, c, 0⟩ := by
    apply linearRegression_on_line
    · refine ⟨0, 1, by omega, by omega, ?_⟩
      unfold xOf
      rw [ifreqOf_self _ _ (by omega), ifreqOf_self _ _ (by omega)]
      exact_mod_cast hP
    · intro i hi
      rw [hg i hi]
      ring
  have hms : modelSelect cfg prm gmem buf
      = (linearRegression (numProbRec cfg prm) (xOf prm) gmem,
          turnLoop cfg prm gmem
            ⟨0, (linearRegression (numProbRec cfg prm) (xOf prm) gmem).regErr, 0, 0, 0, 0, buf⟩
            (prm.numProbFreq - 3)) := rfl
  rw [hms, hl]
  obtain ⟨t1, t2⟩ := turnLoop_zero cfg prm gmem ⟨0, 0, 0, 0, 0, 0, buf⟩ rfl rfl (prm.numProbFreq - 3)
  exact ⟨rfl, t1, t2⟩

/-- The search for the most efficient probe frequency stays at `probFreqs[0]`
when no later entry is more efficient. -/
theorem effLoop_first (prm : Params) (pe : Nat → ℚ) (n : Nat)
    (h : ∀ j, 1 ≤ j → j ≤ n → pe j ≤ pe 0) : effLoop prm pe n = (pe 0, prm.probFreqs 0) := by
  induction n with
  | zero => rfl
  | succ n ih =>
    simp only [effLoop]
    rw [ih (fun j h1 h2 => h j h1 (by omega))]
    simp only []
    rw [if_neg (not_lt.mpr (h (n + 1) (by omega) (le_refl _)))]

/-- The fit of a device on a positive constant response: the model is in use
(not skipped), the performance bound is `probFreqs[0]`, and so is the
efficiency choice when the average power is positive and least at
`probFreqs[0]`. -/
theorem fitDevice_const (cfg : Config) (prm : Params) (p : ℚ) (gmem gpow : Nat → ℚ)
    (buf : Scratch) (c : ℚ) (hreg : cfg.useRegression = true) (hr : 0 < cfg.numProbRep)
    (hk : 2 ≤ prm.numProbFreq) (hP : prm.probFreqs 0 ≠ prm.probFreqs 1) (hc : 0 < c)
    (hth : 0 ≤ cfg.regErrThres) (hg : ∀ j, j < numProbRec cfg prm → gmem j = c) :
    skipmodel cfg prm gmem buf = false
      ∧ (fitDevice cfg prm p gmem gpow buf).freqBound = (prm.probFreqs 0 : ℚ)
      ∧ (0 < avgLoop prm.numProbFreq cfg.numProbRep gpow (numProbRec cfg prm) 0 →
          (∀ j, 1 ≤ j → j ≤ prm.numProbFreq - 1 →
            avgLoop prm.numProbFreq cfg.numProbRep gpow (numProbRec cfg prm) 0
              ≤ avgLoop prm.numProbFreq cfg.numProbRep gpow (numProbRec cfg prm) j) →
          (fitDevice cfg prm p gmem gpow buf).freqEff = (prm.probFreqs 0 : ℚ)) := by
  obtain ⟨m1, m2, m3⟩ := modelSelect_const cfg prm gmem buf c hr hk hP hg
  have hN : 0 < numProbRec cfg prm := by
    have : prm.numProbFreq ≤ numProbRec cfg prm := Nat.le_mul_of_pos_right _ hr
    omega
  have hsum : sumyLoop gmem (numProbRec cfg prm) > 0 := by
    rw [sumyLoop_const gmem c _ hg]
    have : (0 : ℚ) < (numProbRec cfg prm : ℚ) := by exact_mod_cast hN
    positivity
  have hnot : ¬ ((modelSelect cfg prm gmem buf).2.regErrMin
      > (numProbRec cfg prm : ℚ) * cfg.regErrThres) := by
    rw [m3]
    have : (0 : ℚ) ≤ (numProbRec cfg prm : ℚ) * cfg.regErrThres := by positivity
    exact not_lt.mpr this
  have hfit : fitDevice cfg prm p gmem gpow buf
      = ⟨freqPerfBound prm p (modelSelect cfg prm gmem buf).1 (modelSelect cfg prm gmem buf).2,
          (((effLoop prm
              (fun j => modelPerf prm (modelSelect cfg prm gmem buf).1
                  (modelSelect cfg prm gmem buf).2 j
                / avgLoop prm.numProbFreq cfg.numProbRep gpow (numProbRec cfg prm) j)
              (prm.numProbFreq - 1)).2 : Int) : ℚ),
          (modelSelect cfg prm gmem buf).2.buf⟩ := by
    unfold fitDevice
    simp only [hreg, hsum, hnot, if_true, if_false]
  have hperf : ∀ j, modelPerf prm (modelSelect cfg prm gmem buf).1
      (modelSelect cfg prm gmem buf).2 j = c := by
    intro j
    unfold modelPerf
    rw [if_pos m2, m1]
    simp only []
    rw [if_neg (lt_irrefl 0)]
    ring
  refine ⟨?_, ?_, ?_⟩
  · unfold skipmodel
    rw [if_neg hnot]
  · rw [hfit]
    show freqPerfBound prm p (modelSelect cfg prm gmem buf).1 (modelSelect cfg prm gmem buf).2
      = (prm.probFreqs 0 : ℚ)
    unfold freqPerfBound
    rw [if_pos m2, m1]
    simp only []
    rw [if_neg (lt_irrefl 0)]
  · intro h0 hle
    rw [hfit]
    show (((effLoop prm
        (fun j => modelPerf prm (modelSelect cfg prm gmem buf).1 (modelSelect cfg prm gmem buf).2 j
          / avgLoop prm.numProbFreq cfg.numProbRep gpow (numProbRec cfg prm) j)
        (prm.numProbFreq - 1)).2 : Int) : ℚ) = (prm.probFreqs 0 : ℚ)
    rw [effLoop_first]
    intro j h1 h2
    rw [hperf j, hperf 0]
    exact div_le_div_of_nonneg_left (le_of_lt hc) h0 (hle j h1 h2)

/-- C22, counterexample to the claim as stated: on `v100-300w` with the
source's constants and performance floor 0.9, a burst with memory utilisation
5 in every slot (and power growing with the probe frequency) gives a single
line of slope 0, which is not positive, and the performance bound is
`probFreqs[0] = 952`, not `0.9 * 1530 = 1377`. -/
theorem C22_constant_response_counterexample :
    (modelSelect defaultConfig (params Machine.v100_300w) (fun _ => 5)
        ⟨fun _ => 0, fun _ => 0, fun _ => 0, fun _ => 0⟩).2.turn_Opt = 0
      ∧ (modelSelect defaultConfig (params Machine.v100_300w) (fun _ => 5)
        ⟨fun _ => 0, fun _ => 0, fun _ => 0, fun _ => 0⟩).1.slope = 0
      ∧ ¬ (0 < (modelSelect defaultConfig (params Machine.v100_300w) (fun _ => 5)
        ⟨fun _ => 0, fun _ => 0, fun _ => 0, fun _ => 0⟩).1.slope)
      ∧ (fitDevice defaultConfig (params Machine.v100_300w) (9 / 10) (fun _ => 5)
          (fun j => xOf (params Machine.v100_300w) j / 10)
          ⟨fun _ => 0, fun _ => 0, fun _ => 0, fun _ => 0⟩).freqBound = 952
      ∧ (fitDevice defaultConfig (params Machine.v100_300w) (9 / 10) (fun _ => 5)
          (fun j => xOf (params Machine.v100_300w) j / 10)
          ⟨fun _ => 0, fun _ => 0, fun _ => 0, fun _ => 0⟩).freqBound
        ≠ (9 / 10) * (((params Machine.v100_300w).maxFreq : Int) : ℚ) := by
  obtain ⟨m1, m2, _⟩ := modelSelect_const defaultConfig (params Machine.v100_300w) (fun _ => 5)
    ⟨fun _ => 0, fun _ => 0, fun _ => 0, fun _ => 0⟩ 5 (by decide) (by decide) (by decide)
    (fun _ _ => rfl)
  obtain ⟨_, f2, _⟩ := fitDevice_const defaultConfig (params Machine.v100_300w) (9 / 10)
    (fun _ => 5) (fun j => xOf (params Machine.v100_300w) j / 10)
    ⟨fun _ => 0, fun _ => 0, fun _ => 0, fun _ => 0⟩ 5 rfl (by decide) (by decide) (by decide)
    (by norm_num) (by norm_num [defaultConfig]) (fun _ _ => rfl)
  have hb : (fitDevice defaultConfig (params Machine.v100_300w) (9 / 10) (fun _ => 5)
      (fun j => xOf (params Machine.v100_300w) j / 10)
      ⟨fun _ => 0, fun _ => 0, fun _ => 0, fun _ => 0⟩).freqBound = 952 := by
    rw [f2]
    norm_num [params]
  refine ⟨m2, by rw [m1], by rw [m1]; exact lt_irrefl 0, hb, ?_⟩
  rw [hb]
  norm_num [params]

/-- C22 (amended).  On a shipped profile, with regression in use, at least one
repetition and a non-negative error threshold: for a burst in which memory
utilisation 5 is recorded in every slot, model selection picks the single line
(`turn_Opt = 0`) with slope exactly 0, intercept 5 and error 0; the model is
used (not skipped); as the slope is not positive the performance bound is
`probFreqs[0]`; and when the average power per probe frequency is positive and
least at `probFreqs[0]`, the efficiency choice is `probFreqs[0]` too. -/
theorem C22_constant_response (m : Machine) (cfg : Config) (perfThres : ℚ)
    (gmem gpow : Nat → ℚ) (buf : Scratch) (hreg : cfg.useRegression = true)
    (hr : 0 < cfg.numProbRep) (hth : 0 ≤ cfg.regErrThres)
    (hg : ∀ j, j < numProbRec cfg (params m) → gmem j = 5) :
    (modelSelect cfg (params m) gmem buf).2.turn_Opt = 0
      ∧ (modelSelect cfg (params m) gmem buf).1 = ⟨0, 5, 0⟩
      ∧ (modelSelect cfg (params m) gmem buf).2.regErrMin = 0
      ∧ skipmodel cfg (params m) gmem buf = false
      ∧ (fitDevice cfg (params m) perfThres gmem gpow buf).freqBound
          = ((params m).probFreqs 0 : ℚ)
      ∧ (0 < avgLoop (params m).numProbFreq cfg.numProbRep gpow (numProbRec cfg (params m)) 0 →
          (∀ j, 1 ≤ j → j ≤ (params m).numProbFreq - 1 →
            avgLoop (params m).numProbFreq cfg.numProbRep gpow (numProbRec cfg (params m)) 0
              ≤ avgLoop (params m).numProbFreq cfg.numProbRep gpow (numProbRec cfg (params m)) j) →
          (fitDevice cfg (params m) perfThres gmem gpow buf).freqEff
            = ((params m).probFreqs 0 : ℚ)) := by
  have hk : 2 ≤ (params m).numProbFreq := by
    rw [numProbFreq_eq]
    omega
  have hP : (params m).probFreqs 0 ≠ (params m).probFreqs 1 :=
    ne_of_lt (probFreqs_order m).1
  obtain ⟨m1, m2, m3⟩ := modelSelect_const cfg (params m) gmem buf 5 hr hk hP hg
  obtain ⟨f1, f2, f3⟩ := fitDevice_const cfg (params m) perfThres gmem gpow buf 5 hreg hr hk hP
    (by norm_num) hth hg
  exact ⟨m2, m1, m3, f1, f2, f3⟩

/-- C22 (amended) at a concrete input: `v100-300w`, the source's constants,
memory utilisation 5 in every slot. -/
theorem C22_constant_response_witness :
    defaultConfig.useRegression = true ∧ 0 < defaultConfig.numProbRep
      ∧ 0 ≤ defaultConfig.regErrThres
      ∧ (fitDevice defaultConfig (params Machine.v100_300w) (9 / 10) (fun _ => 5)
          (fun j => xOf (params Machine.v100_300w) j / 10)
          ⟨fun _ => 0, fun _ => 0, fun _ => 0, fun _ => 0⟩).freqBound
        = ((params Machine.v100_300w).probFreqs 0 : ℚ) :=
  ⟨rfl, by decide, by norm_num [defaultConfig],
    (C22_constant_response Machine.v100_300w defaultConfig (9 / 10) (fun _ => 5)
      (fun j => xOf (params Machine.v100_300w) j / 10)
      ⟨fun _ => 0, fun _ => 0, fun _ => 0, fun _ => 0⟩ rfl (by decide)
      (by norm_num [defaultConfig]) (fun _ _ => rfl)).2.2.2.2.1⟩

/-- The two segment fits of a turn on a constant response: both are the line
of slope 0 through `c`. -/
theorem segments_const (cfg : Config) (prm : Params) (gmem : Nat → ℚ) (buf : Scratch) (c : ℚ)
    (turn : Nat) (hr : 0 < cfg.numProbRep)
    (hP : ∀ i j, i < j → j < prm.numProbFreq → prm.probFreqs i < prm.probFreqs j)
    (ht2 : 2 ≤ turn) (htk : turn + 2 ≤ prm.numProbFreq)
    (hg : ∀ j, j < numProbRec cfg prm → gmem j = c) :
    linearRegression (turn * cfg.numProbRep)
        (partitionLoop prm turn gmem ⟨0, 0, buf⟩ (numProbRec cfg prm)).buf.x1
        (partitionLoop prm turn gmem ⟨0, 0, buf⟩ (numProbRec cfg prm)).buf.y1 = ⟨0, c, 0⟩
      ∧ linearRegression ((prm.numProbFreq - turn) * cfg.numProbRep)
        (partitionLoop prm turn gmem ⟨0, 0, buf⟩ (numProbRec cfg prm)).buf.x2
        (partitionLoop prm turn gmem ⟨0, 0, buf⟩ (numProbRec cfg prm)).buf.y2 = ⟨0, c, 0⟩ := by
  obtain ⟨s1, s2, s3, s4⟩ := partition_segments cfg prm turn gmem buf (fun _ => c) hr (by omega)
    (by omega) hg
  constructor
  · apply linearRegression_on_line
    · obtain ⟨i0, hi0, x0, _⟩ := s3 0 (by omega)
      obtain ⟨i1, hi1, x1, _⟩ := s3 1 (by omega)
      refine ⟨i0, i1, hi0, hi1, ?_⟩
      rw [x0, x1]
      have := hP 0 1 (by omega) (by omega)
      exact_mod_cast ne_of_lt this
    · intro i hi
      obtain ⟨q, _, _, hy⟩ := s1 i hi
      rw [hy]
      ring
  · apply linearRegression_on_line
    · obtain ⟨i0, hi0, x0, _⟩ := s4 turn (le_refl _) (by omega)
      obtain ⟨i1, hi1, x1, _⟩ := s4 (turn + 1) (by omega) (by omega)
      refine ⟨i0, i1, hi0, hi1, ?_⟩
      rw [x0, x1]
      have := hP turn (turn + 1) (by omega) (by omega)
      exact_mod_cast ne_of_lt this
    · intro i hi
      obtain ⟨q, _, _, _, hy⟩ := s2 i hi
      rw [hy]
      ring

/-- C27, counterexample to the claim as stated: on `v100-300w` with the
source's constants, a burst with memory utilisation 5 in every slot makes the
two segment fits of `turn = 2` have equal slopes (both 0), yet the model is not
skipped and the performance bound is `probFreqs[0] = 952`, not
`maxFreq = 1530`. -/
theorem C27_equal_slopes_counterexample :
    (linearRegression (2 * defaultConfig.numProbRep)
        (partitionLoop (params Machine.v100_300w) 2 (fun _ => 5)
          ⟨0, 0, ⟨fun _ => 0, fun _ => 0, fun _ => 0, fun _ => 0⟩⟩
          (numProbRec defaultConfig (params Machine.v100_300w))).buf.x1
        (partitionLoop (params Machine.v100_300w) 2 (fun _ => 5)
          ⟨0, 0, ⟨fun _ => 0, fun _ => 0, fun _ => 0, fun _ => 0⟩⟩
          (numProbRec defaultConfig (params Machine.v100_300w))).buf.y1).slope
      = (linearRegression (((params Machine.v100_300w).numProbFreq - 2) * defaultConfig.numProbRep)
        (partitionLoop (params Machine.v100_300w) 2 (fun _ => 5)
          ⟨0, 0, ⟨fun _ => 0, fun _ => 0, fun _ => 0, fun _ => 0⟩⟩
          (numProbRec defaultConfig (params Machine.v100_300w))).buf.x2
        (partitionLoop (params Machine.v100_300w) 2 (fun _ => 5)
          ⟨0, 0, ⟨fun _ => 0, fun _ => 0, fun _ => 0, fun _ => 0⟩⟩
          (numProbRec defaultConfig (params Machine.v100_300w))).buf.y2).slope
      ∧ skipmodel defaultConfig (params Machine.v100_300w) (fun _ => 5)
          ⟨fun _ => 0, fun _ => 0, fun _ => 0, fun _ => 0⟩ = false
      ∧ (fitDevice defaultConfig (params Machine.v100_300w) (9 / 10) (fun _ => 5)
          (fun _ => 150) ⟨fun _ => 0, fun _ => 0, fun _ => 0, fun _ => 0⟩).freqBound = 952
      ∧ (fitDevice defaultConfig (params Machine.v100_300w) (9 / 10) (fun _ => 5)
          (fun _ => 150) ⟨fun _ => 0, fun _ => 0, fun _ => 0, fun _ => 0⟩).freqBound
        ≠ (((params Machine.v100_300w).maxFreq : Int) : ℚ) := by
  obtain ⟨l1, l2⟩ := segments_const defaultConfig (params Machine.v100_300w) (fun _ => 5)
    ⟨fun _ => 0, fun _ => 0, fun _ => 0, fun _ => 0⟩ 5 2 (by decide)
    (probFreqs_strictMono Machine.v100_300w) (le_refl 2) (by decide) (fun _ _ => rfl)
  obtain ⟨f1, f2, _⟩ := fitDevice_const defaultConfig (params Machine.v100_300w) (9 / 10)
    (fun _ => 5) (fun _ => 150)
    ⟨fun _ => 0, fun _ => 0, fun _ => 0, fun _ => 0⟩ 5 rfl (by decide) (by decide) (by decide)
    (by norm_num) (by norm_num [defaultConfig]) (fun _ _ => rfl)
  have hb : (fitDevice defaultConfig (params Machine.v100_300w) (9 / 10) (fun _ => 5)
      (fun _ => 150) ⟨fun _ => 0, fun _ => 0, fun _ => 0, fun _ => 0⟩).freqBound = 952 := by
    rw [f2]
    norm_num [params]
  refine ⟨by rw [l1, l2], f1, hb, ?_⟩
  rw [hb]
  norm_num [params]

/-- C27 (amended).  What the fit does in the degenerate cases.  An all-zero
response (with regression in use) makes the fit return `maxFreq` and
`freqAvgEff` without touching the regression buffers.  A zero determinant makes
`foldlineRegression` return the fit `(-1, -2, -3, -4)` with error 12345678.
Equal segment slopes (with a non-negative `probFreqs[turn-1]`) make the
candidate the constrained fit.  A candidate with `slope1 ≤ slope2` leaves the
selection as it was.  None of these sets `skipmodel`: it is true exactly when
the least error exceeds `numProbRec * regErrThres`, and then (with a positive
sum of the response) the fit returns `maxFreq` and `freqAvgEff`. -/
theorem C27_degenerate_cases (cfg : Config) (prm : Params) (perfThres : ℚ)
    (gmem gpow : Nat → ℚ) (buf : Scratch) :
    (cfg.useRegression = true → (∀ j, j < numProbRec cfg prm → gmem j = 0) →
        fitDevice cfg prm perfThres gmem gpow buf
          = ⟨(prm.maxFreq : ℚ), (prm.freqAvgEff : ℚ), buf⟩)
      ∧ (∀ (xc : Int) (num1 num2 : Nat) (X1 Y1 X2 Y2 : Nat → ℚ),
          foldDet xc num1 X1 Y1 num2 X2 Y2 = 0 →
          foldlineRegression xc num1 X1 Y1 num2 X2 Y2 = ⟨-1, -2, -3, -4, 12345678⟩)
      ∧ (∀ turn : Nat, 0 ≤ prm.probFreqs (turn - 1) →
          (linearRegression ((prm.numProbFreq - turn) * cfg.numProbRep)
              (partitionLoop prm turn gmem ⟨0, 0, buf⟩ (numProbRec cfg prm)).buf.x2
              (partitionLoop prm turn gmem ⟨0, 0, buf⟩ (numProbRec cfg prm)).buf.y2).slope
            = (linearRegression (turn * cfg.numProbRep)
              (partitionLoop prm turn gmem ⟨0, 0, buf⟩ (numProbRec cfg prm)).buf.x1
              (partitionLoop prm turn gmem ⟨0, 0, buf⟩ (numProbRec cfg prm)).buf.y1).slope →
          (foldCandidate cfg prm gmem turn buf).1
            = foldlineRegression (prm.probFreqs (turn - 1)) (turn * cfg.numProbRep)
                (partitionLoop prm turn gmem ⟨0, 0, buf⟩ (numProbRec cfg prm)).buf.x1
                (partitionLoop prm turn gmem ⟨0, 0, buf⟩ (numProbRec cfg prm)).buf.y1
                ((prm.numProbFreq - turn) * cfg.numProbRep)
                (partitionLoop prm turn gmem ⟨0, 0, buf⟩ (numProbRec cfg prm)).buf.x2
                (partitionLoop prm turn gmem ⟨0, 0, buf⟩ (numProbRec cfg prm)).buf.y2)
      ∧ (∀ (turn : Nat) (sel : Sel),
          (foldCandidate cfg prm gmem turn sel.buf).1.slope1
            ≤ (foldCandidate cfg prm gmem turn sel.buf).1.slope2 →
          (turnStep cfg prm gmem turn sel).turn_Opt = sel.turn_Opt
            ∧ (turnStep cfg prm gmem turn sel).regErrMin = sel.regErrMin
            ∧ (turnStep cfg prm gmem turn sel).slope1_Opt = sel.slope1_Opt
            ∧ (turnStep cfg prm gmem turn sel).intercept1_Opt = sel.intercept1_Opt
            ∧ (turnStep cfg prm gmem turn sel).slope2_Opt = sel.slope2_Opt
            ∧ (turnStep cfg prm gmem turn sel).intercept2_Opt = sel.intercept2_Opt)
      ∧ (skipmodel cfg prm gmem buf = true
          ↔ (modelSelect cfg prm gmem buf).2.regErrMin
              > (numProbRec cfg prm : ℚ) * cfg.regErrThres)
      ∧ (cfg.useRegression = true → sumyLoop gmem (numProbRec cfg prm) > 0 →
          skipmodel cfg prm gmem buf = true →
          (fitDevice cfg prm perfThres gmem gpow buf).freqBound = (prm.maxFreq : ℚ)
            ∧ (fitDevice cfg prm perfThres gmem gpow buf).freqEff = (prm.freqAvgEff : ℚ)) := by
  have hskip : skipmodel cfg prm gmem buf = true
      ↔ (modelSelect cfg prm gmem buf).2.regErrMin
          > (numProbRec cfg prm : ℚ) * cfg.regErrThres := by
    unfold skipmodel
    split_ifs with h
    · exact ⟨fun _ => h, fun _ => rfl⟩
    · exact ⟨fun hc => absurd hc (by simp), fun hc => absurd hc h⟩
  refine ⟨?_, ?_, ?_, ?_, hskip, ?_⟩
  · intro hreg hzero
    have hs := sumyLoop_zero gmem _ hzero
    unfold fitDevice
    simp only [hreg, hs, if_true]
    norm_num
  · intro xc num1 num2 X1 Y1 X2 Y2 hH
    exact foldline_sentinel xc num1 X1 Y1 num2 X2 Y2 hH
  · intro turn hp heq
    have hq : (0 : ℚ) ≤ ((prm.probFreqs (turn - 1) : Int) : ℚ) := by exact_mod_cast hp
    unfold foldCandidate
    simp only [apply_ite Prod.fst]
    rw [if_neg (not_not.mpr heq), if_neg]
    intro hcon
    linarith [hcon.1]
  · intro turn sel h
    unfold turnStep
    simp only []
    rw [if_pos h]
    exact ⟨rfl, rfl, rfl, rfl, rfl, rfl⟩
  · intro hreg hsum hsk
    have h := hskip.mp hsk
    unfold fitDevice
    simp only [hreg, hsum, h, if_true]
    exact ⟨trivial, trivial⟩

/-! ## The constrained fold-line fit -/

theorem segSums_eq_lr (X Y : Nat → ℚ) (n : Nat) :
    (segSums X Y n).sum_x = (lrSums X Y n).sumx ∧ (segSums X Y n).sum_y = (lrSums X Y n).sumy
      ∧ (segSums X Y n).sum_xsq = (lrSums X Y n).sumxsq
      ∧ (segSums X Y n).sum_xy = (lrSums X Y n).sumxy := by
  induction n with
  | zero => simp [segSums, lrSums]
  | succ n ih =>
    simp only [segSums, lrSums]
    rw [ih.1, ih.2.1, ih.2.2.1, ih.2.2.2]
    exact ⟨rfl, rfl, rfl, rfl⟩

/-- With a non-zero determinant the result of `foldlineRegression` is
continuous at `xc`, its error is the accumulated residual sum, and its
parameters solve the three normal equations of the constrained problem. -/
theorem foldline_solution (xc : Int) (num1 : Nat) (X1 Y1 : Nat → ℚ) (num2 : Nat)
    (X2 Y2 : Nat → ℚ) (hH : foldDet xc num1 X1 Y1 num2 X2 Y2 ≠ 0) :
    ∃ a1 b1 a2 b2 : ℚ,
      foldlineRegression xc num1 X1 Y1 num2 X2 Y2
          = ⟨a1, b1, a2, b2, errLoop a2 b2 X2 Y2 (errLoop a1 b1 X1 Y1 0 num1) num2⟩
        ∧ b2 = (xc : ℚ) * (a1 - a2) + b1
        ∧ a1 * ((segSums X1 Y1 num1).sum_xsq + (num2 : ℚ) * (xc : ℚ) * (xc : ℚ))
            + a2 * ((xc : ℚ) * (segSums X2 Y2 num2).sum_x - (num2 : ℚ) * (xc : ℚ) * (xc : ℚ))
            + b1 * ((segSums X1 Y1 num1).sum_x + (num2 : ℚ) * (xc : ℚ))
          = (segSums X1 Y1 num1).sum_xy + (xc : ℚ) * (segSums X2 Y2 num2).sum_y
        ∧ a1 * ((xc : ℚ) * (segSums X2 Y2 num2).sum_x - (num2 : ℚ) * (xc : ℚ) * (xc : ℚ))
            + a2 * ((segSums X2 Y2 num2).sum_xsq - 2 * (xc : ℚ) * (segSums X2 Y2 num2).sum_x
                + (num2 : ℚ) * (xc : ℚ) * (xc : ℚ))
            + b1 * ((segSums X2 Y2 num2).sum_x - (num2 : ℚ) * (xc : ℚ))
          = (segSums X2 Y2 num2).sum_xy - (xc : ℚ) * (segSums X2 Y2 num2).sum_y
        ∧ a1 * ((segSums X1 Y1 num1).sum_x + (num2 : ℚ) * (xc : ℚ))
            + a2 * ((segSums X2 Y2 num2).sum_x - (num2 : ℚ) * (xc : ℚ))
            + b1 * ((num1 : ℚ) + (num2 : ℚ))
          = (segSums X1 Y1 num1).sum_y + (segSums X2 Y2 num2).sum_y := by
  unfold foldDet at hH
  unfold foldlineRegression
  simp only [] at hH ⊢
  rw [if_neg hH]
  refine ⟨_, _, _, _, rfl, rfl, ?_, ?_, ?_⟩
  · generalize (segSums X1 Y1 num1).sum_x = s1x at hH ⊢
    generalize (segSums X1 Y1 num1).sum_y = s1y at hH ⊢
    generalize (segSums X1 Y1 num1).sum_xsq = s1xx at hH ⊢
    generalize (segSums X1 Y1 num1).sum_xy = s1xy at hH ⊢
    generalize (segSums X2 Y2 num2).sum_x = s2x at hH ⊢
    generalize (segSums X2 Y2 num2).sum_y = s2y at hH ⊢
    generalize (segSums X2 Y2 num2).sum_xsq = s2xx at hH ⊢
    generalize (segSums X2 Y2 num2).sum_xy = s2xy at hH ⊢
    push_cast at hH ⊢
    field_simp
    ring
  · generalize (segSums X1 Y1 num1).sum_x = s1x at hH ⊢
    generalize (segSums X1 Y1 num1).sum_y = s1y at hH ⊢
    generalize (segSums X1 Y1 num1).sum_xsq = s1xx at hH ⊢
    generalize (segSums X1 Y1 num1).sum_xy = s1xy at hH ⊢
    generalize (segSums X2 Y2 num2).sum_x = s2x at hH ⊢
    generalize (segSums X2 Y2 num2).sum_y = s2y at hH ⊢
    generalize (segSums X2 Y2 num2).sum_xsq = s2xx at hH ⊢
    generalize (segSums X2 Y2 num2).sum_xy = s2xy at hH ⊢
    push_cast at hH ⊢
    field_simp
    ring
  · generalize (segSums X1 Y1 num1).sum_x = s1x at hH ⊢
    generalize (segSums X1 Y1 num1).sum_y = s1y at hH ⊢
    generalize (segSums X1 Y1 num1).sum_xsq = s1xx at hH ⊢
    generalize (segSums X1 Y1 num1).sum_xy = s1xy at hH ⊢
    generalize (segSums X2 Y2 num2).sum_x = s2x at hH ⊢
    generalize (segSums X2 Y2 num2).sum_y = s2y at hH ⊢
    generalize (segSums X2 Y2 num2).sum_xsq = s2xx at hH ⊢
    generalize (segSums X2 Y2 num2).sum_xy = s2xy at hH ⊢
    push_cast at hH ⊢
    field_simp
    ring

/-- Among the parameter tuples continuous at `xc`, a tuple that solves the
three normal equations has the least residual sum of squares. -/
theorem constrained_least (xc : ℚ) (num1 num2 : Nat) (X1 Y1 X2 Y2 : Nat → ℚ)
    (a1 b1 a2 b2 : ℚ) (hb : b2 = xc * (a1 - a2) + b1)
    (n1 : a1 * ((lrSums X1 Y1 num1).sumxsq + (num2 : ℚ) * xc * xc)
        + a2 * (xc * (lrSums X2 Y2 num2).sumx - (num2 : ℚ) * xc * xc)
        + b1 * ((lrSums X1 Y1 num1).sumx + (num2 : ℚ) * xc)
      = (lrSums X1 Y1 num1).sumxy + xc * (lrSums X2 Y2 num2).sumy)
    (n2 : a1 * (xc * (lrSums X2 Y2 num2).sumx - (num2 : ℚ) * xc * xc)
        + a2 * ((lrSums X2 Y2 num2).sumxsq - 2 * xc * (lrSums X2 Y2 num2).sumx
            + (num2 : ℚ) * xc * xc)
        + b1 * ((lrSums X2 Y2 num2).sumx - (num2 : ℚ) * xc)
      = (lrSums X2 Y2 num2).sumxy - xc * (lrSums X2 Y2 num2).sumy)
    (n3 : a1 * ((lrSums X1 Y1 num1).sumx + (num2 : ℚ) * xc)
        + a2 * ((lrSums X2 Y2 num2).sumx - (num2 : ℚ) * xc)
        + b1 * ((num1 : ℚ) + (num2 : ℚ))
      = (lrSums X1 Y1 num1).sumy + (lrSums X2 Y2 num2).sumy)
    (c1 d1 c2 d2 : ℚ) (hd : c1 * xc + d1 = c2 * xc + d2) :
    ∑ i in Finset.range num1, (a1 * X1 i + b1 - Y1 i) ^ 2
        + ∑ i in Finset.range num2, (a2 * X2 i + b2 - Y2 i) ^ 2
      ≤ ∑ i in Finset.range num1, (c1 * X1 i + d1 - Y1 i) ^ 2
        + ∑ i in Finset.range num2, (c2 * X2 i + d2 - Y2 i) ^ 2 := by
  have hd2 : d2 = xc * (c1 - c2) + d1 := by linarith
  have q1 : 0 ≤ ∑ i in Finset.range num1, ((c1 - a1) * X1 i + (d1 - b1)) ^ 2 :=
    Finset.sum_nonneg (fun t _ => sq_nonneg _)
  have q2 : 0 ≤ ∑ i in Finset.range num2, ((c2 - a2) * X2 i + (d2 - b2)) ^ 2 :=
    Finset.sum_nonneg (fun t _ => sq_nonneg _)
  rw [sum_sq_affine X1 Y1] at q1
  rw [sum_sq_affine X2 Y2] at q2
  rw [sum_sq_residual, sum_sq_residual, sum_sq_residual, sum_sq_residual]
  subst hb
  subst hd2
  generalize (lrSums X1 Y1 num1).sumx = s1x at *
  generalize (lrSums X1 Y1 num1).sumy = s1y at *
  generalize (lrSums X1 Y1 num1).sumxsq = s1xx at *
  generalize (lrSums X1 Y1 num1).sumxy = s1xy at *
  generalize (lrSums X1 Y1 num1).sumysq = s1yy at *
  generalize (lrSums X2 Y2 num2).sumx = s2x at *
  generalize (lrSums X2 Y2 num2).sumy = s2y at *
  generalize (lrSums X2 Y2 num2).sumxsq = s2xx at *
  generalize (lrSums X2 Y2 num2).sumxy = s2xy at *
  generalize (lrSums X2 Y2 num2).sumysq = s2yy at *
  generalize (num1 : ℚ) = m1 at *
  generalize (num2 : ℚ) = m2 at *
  have key : (s1yy + c1 * c1 * s1xx + m1 * d1 * d1 - 2 * c1 * s1xy - 2 * d1 * s1y
        + 2 * c1 * d1 * s1x
        + (s2yy + c2 * c2 * s2xx + m2 * (xc * (c1 - c2) + d1) * (xc * (c1 - c2) + d1)
          - 2 * c2 * s2xy - 2 * (xc * (c1 - c2) + d1) * s2y
          + 2 * c2 * (xc * (c1 - c2) + d1) * s2x))
      - (s1yy + a1 * a1 * s1xx + m1 * b1 * b1 - 2 * a1 * s1xy - 2 * b1 * s1y + 2 * a1 * b1 * s1x
        + (s2yy + a2 * a2 * s2xx + m2 * (xc * (a1 - a2) + b1) * (xc * (a1 - a2) + b1)
          - 2 * a2 * s2xy - 2 * (xc * (a1 - a2) + b1) * s2y
          + 2 * a2 * (xc * (a1 - a2) + b1) * s2x))
      = ((c1 - a1) * (c1 - a1) * s1xx + 2 * (c1 - a1) * (d1 - b1) * s1x
          + m1 * (d1 - b1) * (d1 - b1))
        + ((c2 - a2) * (c2 - a2) * s2xx
          + 2 * (c2 - a2) * (xc * (c1 - c2) + d1 - (xc * (a1 - a2) + b1)) * s2x
          + m2 * (xc * (c1 - c2) + d1 - (xc * (a1 - a2) + b1))
              * (xc * (c1 - c2) + d1 - (xc * (a1 - a2) + b1))) := by
    linear_combination (2 * (c1 - a1)) * n1 + (2 * (c2 - a2)) * n2 + (2 * (d1 - b1)) * n3
  linarith

/-- C29 (constrained fold-line fit).  For any two segments and any knee `xc`
(with the `int` products `num2*xc*xc`, `num2*xc` and `2*xc` of lines 123-131
in range) whose determinant `H` is not 0, `foldlineRegression` returns
parameters with `slope1*xc + intercept1 = slope2*xc + intercept2`, its `regErr`
is the residual sum of squares of the two segments under these parameters, and
no parameter tuple that is continuous at `xc` has a smaller residual sum of
squares. -/
theorem C29_constrained_fit (xc : Int) (num1 : Nat) (X1 Y1 : Nat → ℚ) (num2 : Nat)
    (X2 Y2 : Nat → ℚ) (hH : foldDet xc num1 X1 Y1 num2 X2 Y2 ≠ 0)
    (_hint : (num2 : Int) * |xc| * |xc| < 2 ^ 31 ∧ (num2 : Int) * |xc| < 2 ^ 31
      ∧ 2 * |xc| < 2 ^ 31) :
    (foldlineRegression xc num1 X1 Y1 num2 X2 Y2).slope1 * (xc : ℚ)
          + (foldlineRegression xc num1 X1 Y1 num2 X2 Y2).intercept1
        = (foldlineRegression xc num1 X1 Y1 num2 X2 Y2).slope2 * (xc : ℚ)
          + (foldlineRegression xc num1 X1 Y1 num2 X2 Y2).intercept2
      ∧ (foldlineRegression xc num1 X1 Y1 num2 X2 Y2).regErr
        = ∑ i in Finset.range num1,
            ((foldlineRegression xc num1 X1 Y1 num2 X2 Y2).slope1 * X1 i
              + (foldlineRegression xc num1 X1 Y1 num2 X2 Y2).intercept1 - Y1 i) ^ 2
          + ∑ i in Finset.range num2,
            ((foldlineRegression xc num1 X1 Y1 num2 X2 Y2).slope2 * X2 i
              + (foldlineRegression xc num1 X1 Y1 num2 X2 Y2).intercept2 - Y2 i) ^ 2
      ∧ ∀ a1 b1 a2 b2 : ℚ, a1 * (xc : ℚ) + b1 = a2 * (xc : ℚ) + b2 →
          (foldlineRegression xc num1 X1 Y1 num2 X2 Y2).regErr
            ≤ ∑ i in Finset.range num1, (a1 * X1 i + b1 - Y1 i) ^ 2
              + ∑ i in Finset.range num2, (a2 * X2 i + b2 - Y2 i) ^ 2 := by
  obtain ⟨f1, g1, f2, g2, hf, hb, n1, n2, n3⟩ :=
    foldline_solution xc num1 X1 Y1 num2 X2 Y2 hH
  obtain ⟨e1, e2, e3, e4⟩ := segSums_eq_lr X1 Y1 num1
  obtain ⟨e5, e6, e7, e8⟩ := segSums_eq_lr X2 Y2 num2
  rw [e1, e3, e4, e5, e6] at n1
  rw [e5, e6, e7, e8] at n2
  rw [e1, e2, e5, e6] at n3
  rw [hf]
  simp only []
  have herr : errLoop f2 g2 X2 Y2 (errLoop f1 g1 X1 Y1 0 num1) num2
      = ∑ i in Finset.range num1, (f1 * X1 i + g1 - Y1 i) ^ 2
        + ∑ i in Finset.range num2, (f2 * X2 i + g2 - Y2 i) ^ 2 := by
    rw [errLoop_eq_sum, errLoop_eq_sum]
    ring
  refine ⟨?_, herr, ?_⟩
  · rw [hb]
    ring
  · intro a1 b1 a2 b2 hc
    rw [herr]
    exact constrained_least (xc : ℚ) num1 num2 X1 Y1 X2 Y2 f1 g1 f2 g2 hb n1 n2 n3 a1 b1 a2 b2 hc

/-- C29 at a concrete input: knee 1, first segment `(0,0), (1,1)`, second
segment `(2,1), (3,1)`. -/
theorem C29_constrained_fit_witness :
    foldDet 1 2 (fun i => (i : ℚ)) (fun i => (i : ℚ)) 2 (fun i => (i : ℚ) + 2) (fun _ => 1) ≠ 0
      ∧ (foldlineRegression 1 2 (fun i => (i : ℚ)) (fun i => (i : ℚ)) 2 (fun i => (i : ℚ) + 2)
            (fun _ => 1)).slope1 * ((1 : Int) : ℚ)
          + (foldlineRegression 1 2 (fun i => (i : ℚ)) (fun i => (i : ℚ)) 2
              (fun i => (i : ℚ) + 2) (fun _ => 1)).intercept1
        = (foldlineRegression 1 2 (fun i => (i : ℚ)) (fun i => (i : ℚ)) 2 (fun i => (i : ℚ) + 2)
            (fun _ => 1)).slope2 * ((1 : Int) : ℚ)
          + (foldlineRegression 1 2 (fun i => (i : ℚ)) (fun i => (i : ℚ)) 2
              (fun i => (i : ℚ) + 2) (fun _ => 1)).intercept2 :=
  have h : foldDet 1 2 (fun i => (i : ℚ)) (fun i => (i : ℚ)) 2 (fun i => (i : ℚ) + 2)
      (fun _ => 1) ≠ 0 := by
    norm_num [foldDet, segSums]
  ⟨h, (C29_constrained_fit 1 2 (fun i => (i : ℚ)) (fun i => (i : ℚ)) 2 (fun i => (i : ℚ) + 2)
    (fun _ => 1) h (by norm_num)).1⟩

/-! ## The performance bound as the solution of the model equation -/

theorem ite_cases_prop {α : Type} (c : Prop) [Decidable c] (a b : α) :
    (c ∧ (if c then a else b) = a) ∨ (¬ c ∧ (if c then a else b) = b) := by
  by_cases h : c
  · exact Or.inl ⟨h, if_pos h⟩
  · exact Or.inr ⟨h, if_neg h⟩

/-- The two shapes of a fold-line candidate, with the crossing test that
selects the first. -/
theorem foldCandidate_shape (cfg : Config) (prm : Params) (gmem : Nat → ℚ) (turn : Nat)
    (buf : Scratch) :
    ∃ (l1 l2 : Line) (n1 n2 : Nat) (X1 Y1 X2 Y2 : Nat → ℚ),
      (((if l2.slope ≠ l1.slope then (l1.intercept - l2.intercept) / (l2.slope - l1.slope)
            else -1) ≥ (prm.probFreqs (turn - 1) : ℚ)
          ∧ (if l2.slope ≠ l1.slope then (l1.intercept - l2.intercept) / (l2.slope - l1.slope)
            else -1) ≤ (prm.probFreqs turn : ℚ))
          ∧ (foldCandidate cfg prm gmem turn buf).1
            = ⟨l1.slope, l1.intercept, l2.slope, l2.intercept, l1.regErr + l2.regErr⟩)
        ∨ (foldCandidate cfg prm gmem turn buf).1
            = foldlineRegression (prm.probFreqs (turn - 1)) n1 X1 Y1 n2 X2 Y2 := by
  refine ⟨linearRegression (turn * cfg.numProbRep)
      (partitionLoop prm turn gmem ⟨0, 0, buf⟩ (numProbRec cfg prm)).buf.x1
      (partitionLoop prm turn gmem ⟨0, 0, buf⟩ (numProbRec cfg prm)).buf.y1,
    linearRegression ((prm.numProbFreq - turn) * cfg.numProbRep)
      (partitionLoop prm turn gmem ⟨0, 0, buf⟩ (numProbRec cfg prm)).buf.x2
      (partitionLoop prm turn gmem ⟨0, 0, buf⟩ (numProbRec cfg prm)).buf.y2,
    turn * cfg.numProbRep, (prm.numProbFreq - turn) * cfg.numProbRep,
    (partitionLoop prm turn gmem ⟨0, 0, buf⟩ (numProbRec cfg prm)).buf.x1,
    (partitionLoop prm turn gmem ⟨0, 0, buf⟩ (numProbRec cfg prm)).buf.y1,
    (partitionLoop prm turn gmem ⟨0, 0, buf⟩ (numProbRec cfg prm)).buf.x2,
    (partitionLoop prm turn gmem ⟨0, 0, buf⟩ (numProbRec cfg prm)).buf.y2, ?_⟩
  unfold foldCandidate
  simp only [apply_ite Prod.fst]
  exact Or.imp id And.right (ite_cases_prop _ _ _)

/-- The knee of a retained candidate with positive slopes lies at or below
`probFreqs[turn]`, or is `probFreqs[turn-1]`. -/
theorem foldCandidate_cross (cfg : Config) (prm : Params) (gmem : Nat → ℚ) (turn : Nat)
    (buf : Scratch)
    (hlt : (foldCandidate cfg prm gmem turn buf).1.slope2
      < (foldCandidate cfg prm gmem turn buf).1.slope1)
    (hpos : 0 < (foldCandidate cfg prm gmem turn buf).1.slope2) :
    ((foldCandidate cfg prm gmem turn buf).1.intercept1
          - (foldCandidate cfg prm gmem turn buf).1.intercept2)
        / ((foldCandidate cfg prm gmem turn buf).1.slope2
          - (foldCandidate cfg prm gmem turn buf).1.slope1) ≤ (prm.probFreqs turn : ℚ)
      ∨ ((foldCandidate cfg prm gmem turn buf).1.intercept1
          - (foldCandidate cfg prm gmem turn buf).1.intercept2)
        / ((foldCandidate cfg prm gmem turn buf).1.slope2
          - (foldCandidate cfg prm gmem turn buf).1.slope1) = (prm.probFreqs (turn - 1) : ℚ) := by
  obtain ⟨l1, l2, n1, n2, X1, Y1, X2, Y2, h⟩ := foldCandidate_shape cfg prm gmem turn buf
  rcases h with ⟨hc, he⟩ | he
  · rw [he] at hlt ⊢
    simp only [] at hlt ⊢
    rw [if_pos (ne_of_lt hlt)] at hc
    exact Or.inl hc.2
  · rw [he] at hlt hpos ⊢
    by_cases hH : foldDet (prm.probFreqs (turn - 1)) n1 X1 Y1 n2 X2 Y2 = 0
    · rw [foldline_sentinel _ _ _ _ _ _ _ hH] at hpos
      norm_num at hpos
    · right
      obtain ⟨hb, _⟩ := foldline_normal (prm.probFreqs (turn - 1)) n1 X1 Y1 n2 X2 Y2 hH
      have hne : (foldlineRegression (prm.probFreqs (turn - 1)) n1 X1 Y1 n2 X2 Y2).slope2
          - (foldlineRegression (prm.probFreqs (turn - 1)) n1 X1 Y1 n2 X2 Y2).slope1 ≠ 0 := by
        intro h0
        linarith
      rw [div_eq_iff hne, hb]
      ring

/-- The equation the fold-line bound solves: with `a1 > a2 > 0` and the knee
at or below `fmax`, the bound of lines 996-1003 is the one frequency at which
the prediction equals `p` times the prediction at `fmax`. -/
theorem fold_bound_solves (a1 b1 a2 b2 p fmax : ℚ) (h12 : a2 < a1) (h2 : 0 < a2)
    (hfc : (b1 - b2) / (a2 - a1) ≤ fmax) :
    specFoldPrediction a1 b1 a2 b2 fmax = a2 * fmax + b2
      ∧ specFoldPrediction a1 b1 a2 b2
          (if (p * (a2 * fmax + b2) - b2) / a2 ≤ (b1 - b2) / (a2 - a1)
            then (p * (a2 * fmax + b2) - b1) / a1 else (p * (a2 * fmax + b2) - b2) / a2)
        = p * specFoldPrediction a1 b1 a2 b2 fmax
      ∧ ∀ x, specFoldPrediction a1 b1 a2 b2 x = p * specFoldPrediction a1 b1 a2 b2 fmax →
          x = (if (p * (a2 * fmax + b2) - b2) / a2 ≤ (b1 - b2) / (a2 - a1)
            then (p * (a2 * fmax + b2) - b1) / a1 else (p * (a2 * fmax + b2) - b2) / a2) := by
  have h1 : 0 < a1 := lt_trans h2 h12
  have hne : a2 - a1 ≠ 0 := ne_of_lt (by linarith)
  have hmeet : a1 * ((b1 - b2) / (a2 - a1)) + b1 = a2 * ((b1 - b2) / (a2 - a1)) + b2 := by
    field_simp
    ring
  generalize (b1 - b2) / (a2 - a1) = fc at hfc hmeet ⊢
  have hmax : specFoldPrediction a1 b1 a2 b2 fmax = a2 * fmax + b2 := by
    unfold specFoldPrediction
    have : (b1 - b2) / (a2 - a1) = fc := by
      have e : (a2 - a1) * fc = b1 - b2 := by linarith
      rw [div_eq_iff hne]
      linarith
    rw [this]
    split_ifs with h
    · have : fmax = fc := le_antisymm h hfc
      rw [this]
      exact hmeet
    · rfl
  have hfc2 : (b1 - b2) / (a2 - a1) = fc := by
    rw [div_eq_iff hne]
    linarith
  have hx2 : a2 * ((p * (a2 * fmax + b2) - b2) / a2) + b2 = p * (a2 * fmax + b2) := by
    field_simp
  have hx1 : a1 * ((p * (a2 * fmax + b2) - b1) / a1) + b1 = p * (a2 * fmax + b2) := by
    field_simp
  generalize (p * (a2 * fmax + b2) - b2) / a2 = x2 at hx2 ⊢
  generalize (p * (a2 * fmax + b2) - b1) / a1 = x1 at hx1 ⊢
  refine ⟨hmax, ?_, ?_⟩
  · rw [hmax]
    unfold specFoldPrediction
    rw [hfc2]
    by_cases hc : x2 ≤ fc
    · rw [if_pos hc]
      have hle : x1 ≤ fc := by
        by_contra hcon
        have h3 : a1 * fc < a1 * x1 := mul_lt_mul_of_pos_left (not_le.mp hcon) h1
        have h4 : a2 * x2 ≤ a2 * fc := mul_le_mul_of_nonneg_left hc (le_of_lt h2)
        linarith
      rw [if_pos hle]
      exact hx1
    · rw [if_neg hc, if_neg hc]
      exact hx2
  · intro x hx
    rw [hmax] at hx
    unfold specFoldPrediction at hx
    rw [hfc2] at hx
    by_cases hc : x2 ≤ fc
    · rw [if_pos hc]
      by_cases hxc : x ≤ fc
      · rw [if_pos hxc] at hx
        have : a1 * (x - x1) = 0 := by linarith
        rcases mul_eq_zero.mp this with h | h
        · linarith
        · linarith
      · rw [if_neg hxc] at hx
        exfalso
        have : a2 * (x - x2) = 0 := by linarith
        rcases mul_eq_zero.mp this with h | h
        · linarith
        · have : x = x2 := by linarith
          rw [this] at hxc
          exact hxc hc
    · rw [if_neg hc]
      by_cases hxc : x ≤ fc
      · rw [if_pos hxc] at hx
        exfalso
        have h3 : a1 * x ≤ a1 * fc := mul_le_mul_of_nonneg_left hxc (le_of_lt h1)
        have h4 : a2 * fc < a2 * x2 := mul_lt_mul_of_pos_left (not_le.mp hc) h2
        linarith
      · rw [if_neg hxc] at hx
        have : a2 * (x - x2) = 0 := by linarith
        rcases mul_eq_zero.mp this with h | h
        · linarith
        · linarith

/-- The bound of a fold-line selection with two positive slopes (lines
994-1010). -/
theorem freqPerfBound_fold (prm : Params) (p : ℚ) (l : Line) (sel : Sel) (ht : sel.turn_Opt ≠ 0)
    (h1 : 0 < sel.slope1_Opt) (h2 : 0 < sel.slope2_Opt) :
    freqPerfBound prm p l sel
      = (if (p * (sel.slope2_Opt * (prm.maxFreq : ℚ) + sel.intercept2_Opt) - sel.intercept2_Opt)
              / sel.slope2_Opt
            ≤ (sel.intercept1_Opt - sel.intercept2_Opt) / (sel.slope2_Opt - sel.slope1_Opt)
          then (p * (sel.slope2_Opt * (prm.maxFreq : ℚ) + sel.intercept2_Opt) - sel.intercept1_Opt)
              / sel.slope1_Opt
          else (p * (sel.slope2_Opt * (prm.maxFreq : ℚ) + sel.intercept2_Opt) - sel.intercept2_Opt)
              / sel.slope2_Opt) := by
  unfold freqPerfBound
  rw [if_neg ht, if_pos h1, if_pos h2]

/-- On a shipped profile the knee of a selected fold line with positive
slopes is at most `maxFreq`. -/
theorem modelSelect_cross_le (m : Machine) (cfg : Config) (gmem : Nat → ℚ) (buf : Scratch)
    (ht : (modelSelect cfg (params m) gmem buf).2.turn_Opt ≠ 0)
    (h2 : 0 < (modelSelect cfg (params m) gmem buf).2.slope2_Opt) :
    (modelSelect cfg (params m) gmem buf).2.slope2_Opt
        < (modelSelect cfg (params m) gmem buf).2.slope1_Opt
      ∧ ((modelSelect cfg (params m) gmem buf).2.intercept1_Opt
          - (modelSelect cfg (params m) gmem buf).2.intercept2_Opt)
        / ((modelSelect cfg (params m) gmem buf).2.slope2_Opt
          - (modelSelect cfg (params m) gmem buf).2.slope1_Opt) ≤ ((params m).maxFreq : ℚ) := by
  have hsel : (modelSelect cfg (params m) gmem buf).2
      = turnLoop cfg (params m) gmem
          ⟨0, (linearRegression (numProbRec cfg (params m)) (xOf (params m)) gmem).regErr,
            0, 0, 0, 0, buf⟩ ((params m).numProbFreq - 3) := rfl
  obtain ⟨_, _, hc⟩ := turnLoop_select cfg (params m) gmem
    ⟨0, (linearRegression (numProbRec cfg (params m)) (xOf (params m)) gmem).regErr,
      0, 0, 0, 0, buf⟩ rfl ((params m).numProbFreq - 3)
  rw [← hsel] at hc
  rcases hc with ⟨c1, _, _⟩ | ⟨i, hi, c1, c2, c3, c4, c5, c6, c7, c8, _⟩
  · exact absurd c1 ht
  · have hi0 : i = 0 := by
      rw [numProbFreq_eq] at hi
      omega
    subst hi0
    have hcand : turnCandidate cfg (params m) gmem
        ⟨0, (linearRegression (numProbRec cfg (params m)) (xOf (params m)) gmem).regErr,
          0, 0, 0, 0, buf⟩ (0 + 2)
        = (foldCandidate cfg (params m) gmem 2 buf).1 := rfl
    rw [hcand] at c1 c5 c6 c7 c8
    rw [c5, c6, c7, c8]
    rw [c7] at h2
    refine ⟨c1, ?_⟩
    have hP2 : (((params m).probFreqs 2 : Int) : ℚ) ≤ ((params m).maxFreq : ℚ) := by
      exact_mod_cast (probFreqs_range m 2 (by omega)).2
    have hP1 : (((params m).probFreqs (2 - 1) : Int) : ℚ) ≤ ((params m).maxFreq : ℚ) := by
      exact_mod_cast (probFreqs_range m 1 (by omega)).2
    rcases foldCandidate_cross cfg (params m) gmem 2 buf c1 h2 with h | h
    · exact le_trans h hP2
    · rw [h]
      exact hP1

/-- C30 (performance-bound equation).  On a shipped profile, for the model
that selection returns: when it is a single line with positive slope, the
computed bound is the one frequency `x` with
`slope*x + intercept = perfThres * (slope*maxFreq + intercept)`; when it is a
fold line with `slope1 > slope2 > 0`, the computed bound is the one frequency
at which the fold-line prediction (the low line at or below the knee, the high
line above it) equals `perfThres` times the prediction at `maxFreq`, and it is
the solution on the low line exactly when the solution on the high line is at
or below the knee. -/
theorem C30_perf_bound_equation (m : Machine) (cfg : Config) (perfThres : ℚ) (gmem : Nat → ℚ)
    (buf : Scratch) :
    let ms := modelSelect cfg (params m) gmem buf
    let fmax := (((params m).maxFreq : Int) : ℚ)
    (ms.2.turn_Opt = 0 → 0 < ms.1.slope →
        ms.1.slope * freqPerfBound (params m) perfThres ms.1 ms.2 + ms.1.intercept
            = perfThres * (ms.1.slope * fmax + ms.1.intercept)
          ∧ ∀ x, ms.1.slope * x + ms.1.intercept = perfThres * (ms.1.slope * fmax + ms.1.intercept) →
              x = freqPerfBound (params m) perfThres ms.1 ms.2)
      ∧ (ms.2.turn_Opt ≠ 0 → ms.2.slope2_Opt < ms.2.slope1_Opt → 0 < ms.2.slope2_Opt →
          specFoldPrediction ms.2.slope1_Opt ms.2.intercept1_Opt ms.2.slope2_Opt ms.2.intercept2_Opt
              (freqPerfBound (params m) perfThres ms.1 ms.2)
            = perfThres * specFoldPrediction ms.2.slope1_Opt ms.2.intercept1_Opt ms.2.slope2_Opt
                ms.2.intercept2_Opt fmax
          ∧ (∀ x, specFoldPrediction ms.2.slope1_Opt ms.2.intercept1_Opt ms.2.slope2_Opt
                  ms.2.intercept2_Opt x
                = perfThres * specFoldPrediction ms.2.slope1_Opt ms.2.intercept1_Opt
                    ms.2.slope2_Opt ms.2.intercept2_Opt fmax →
              x = freqPerfBound (params m) perfThres ms.1 ms.2)
          ∧ freqPerfBound (params m) perfThres ms.1 ms.2
            = (if (perfThres * (ms.2.slope2_Opt * fmax + ms.2.intercept2_Opt)
                    - ms.2.intercept2_Opt) / ms.2.slope2_Opt
                  ≤ (ms.2.intercept1_Opt - ms.2.intercept2_Opt)
                    / (ms.2.slope2_Opt - ms.2.slope1_Opt)
                then (perfThres * (ms.2.slope2_Opt * fmax + ms.2.intercept2_Opt)
                    - ms.2.intercept1_Opt) / ms.2.slope1_Opt
                else (perfThres * (ms.2.slope2_Opt * fmax + ms.2.intercept2_Opt)
                    - ms.2.intercept2_Opt) / ms.2.slope2_Opt)) := by
  intro ms fmax
  constructor
  · intro ht hs
    have hb : freqPerfBound (params m) perfThres ms.1 ms.2
        = (perfThres * (ms.1.slope * fmax + ms.1.intercept) - ms.1.intercept) / ms.1.slope := by
      unfold freqPerfBound
      rw [if_pos ht, if_pos hs]
    have hne : ms.1.slope ≠ 0 := ne_of_gt hs
    rw [hb]
    constructor
    · field_simp
    · intro x hx
      rw [eq_div_iff hne]
      linarith
  · intro ht h12 h2
    have h1 : 0 < ms.2.slope1_Opt := lt_trans h2 h12
    have hfc := (modelSelect_cross_le m cfg gmem buf ht h2).2
    have hb := freqPerfBound_fold (params m) perfThres ms.1 ms.2 ht h1 h2
    obtain ⟨_, e2, e3⟩ := fold_bound_solves ms.2.slope1_Opt ms.2.intercept1_Opt ms.2.slope2_Opt
      ms.2.intercept2_Opt perfThres fmax h12 h2 hfc
    rw [hb]
    exact ⟨e2, e3, rfl⟩

/-- Model selection on a burst that lies on a fold line with knee
`probFreqs[turn]`: the selection is that fold line. -/
theorem modelSelect_on_fold (cfg : Config) (prm : Params) (gmem : Nat → ℚ) (buf : Scratch)
    (turn : Nat) (a1 b1 a2 b2 : ℚ) (hr : 0 < cfg.numProbRep)
    (hP : ∀ i j, i < j → j < prm.numProbFreq → prm.probFreqs i < prm.probFreqs j)
    (hturn2 : 2 ≤ turn) (hturnk : turn + 2 ≤ prm.numProbFreq)
    (hy : ∀ j, j < numProbRec cfg prm →
      gmem j = if ifreqOf prm.numProbFreq j < turn then a1 * xOf prm j + b1
        else a2 * xOf prm j + b2)
    (hknee : a1 * (prm.probFreqs turn : ℚ) + b1 = a2 * (prm.probFreqs turn : ℚ) + b2)
    (ha : a2 < a1) :
    (modelSelect cfg prm gmem buf).2.turn_Opt = turn
      ∧ (modelSelect cfg prm gmem buf).2.slope1_Opt = a1
      ∧ (modelSelect cfg prm gmem buf).2.intercept1_Opt = b1
      ∧ (modelSelect cfg prm gmem buf).2.slope2_Opt = a2
      ∧ (modelSelect cfg prm gmem buf).2.intercept2_Opt = b2 := by
  have h0 := single_regErr_pos cfg prm gmem turn a1 b1 a2 b2 hr hP hturn2 hturnk hy hknee ha
  have hn : prm.numProbFreq - 3 = turn - 2 + 1 + (prm.numProbFreq - 2 - turn) := by omega
  have hms : (modelSelect cfg prm gmem buf).2
      = turnLoop cfg prm gmem
          ⟨0, (linearRegression (numProbRec cfg prm) (xOf prm) gmem).regErr, 0, 0, 0, 0, buf⟩
          (prm.numProbFreq - 3) := rfl
  rw [hms, hn]
  obtain ⟨t1, _, t3, t4, t5, t6⟩ := turnLoop_from_turn cfg prm gmem
    ⟨0, (linearRegression (numProbRec cfg prm) (xOf prm) gmem).regErr, 0, 0, 0, 0, buf⟩
    turn a1 b1 a2 b2 hr hP hturn2 hturnk hy hknee ha h0 (prm.numProbFreq - 2 - turn)
  exact ⟨t1, t3, t4, t5, t6⟩

/-- C30 at a concrete burst on `v100-300w` with the source's constants: the
samples lie on the fold line `y = 2x` below the knee `probFreqs[2] = 1335` and
`y = x + 1335` from it on; the selection is this fold line, with
`slope1 > slope2 > 0`, and the bound solves the fold-line equation. -/
theorem C30_perf_bound_equation_witness :
    (modelSelect defaultConfig (params Machine.v100_300w)
        (fun j => if ifreqOf (params Machine.v100_300w).numProbFreq j < 2
          then 2 * xOf (params Machine.v100_300w) j + 0
          else 1 * xOf (params Machine.v100_300w) j + 1335)
        ⟨fun _ => 0, fun _ => 0, fun _ => 0, fun _ => 0⟩).2.turn_Opt ≠ 0
      ∧ (modelSelect defaultConfig (params Machine.v100_300w)
          (fun j => if ifreqOf (params Machine.v100_300w).numProbFreq j < 2
            then 2 * xOf (params Machine.v100_300w) j + 0
            else 1 * xOf (params Machine.v100_300w) j + 1335)
          ⟨fun _ => 0, fun _ => 0, fun _ => 0, fun _ => 0⟩).2.slope1_Opt = 2
      ∧ (modelSelect defaultConfig (params Machine.v100_300w)
          (fun j => if ifreqOf (params Machine.v100_300w).numProbFreq j < 2
            then 2 * xOf (params Machine.v100_300w) j + 0
            else 1 * xOf (params Machine.v100_300w) j + 1335)
          ⟨fun _ => 0, fun _ => 0, fun _ => 0, fun _ => 0⟩).2.slope2_Opt = 1
      ∧ specFoldPrediction
          (modelSelect defaultConfig (params Machine.v100_300w)
            (fun j => if ifreqOf (params Machine.v100_300w).numProbFreq j < 2
              then 2 * xOf (params Machine.v100_300w) j + 0
              else 1 * xOf (params Machine.v100_300w) j + 1335)
            ⟨fun _ => 0, fun _ => 0, fun _ => 0, fun _ => 0⟩).2.slope1_Opt
          (modelSelect defaultConfig (params Machine.v100_300w)
            (fun j => if ifreqOf (params Machine.v100_300w).numProbFreq j < 2
              then 2 * xOf (params Machine.v100_300w) j + 0
              else 1 * xOf (params Machine.v100_300w) j + 1335)
            ⟨fun _ => 0, fun _ => 0, fun _ => 0, fun _ => 0⟩).2.intercept1_Opt
          (modelSelect defaultConfig (params Machine.v100_300w)
            (fun j => if ifreqOf (params Machine.v100_300w).numProbFreq j < 2
              then 2 * xOf (params Machine.v100_300w) j + 0
              else 1 * xOf (params Machine.v100_300w) j + 1335)
            ⟨fun _ => 0, fun _ => 0, fun _ => 0, fun _ => 0⟩).2.slope2_Opt
          (modelSelect defaultConfig (params Machine.v100_300w)
            (fun j => if ifreqOf (params Machine.v100_300w).numProbFreq j < 2
              then 2 * xOf (params Machine.v100_300w) j + 0
              else 1 * xOf (params Machine.v100_300w) j + 1335)
            ⟨fun _ => 0, fun _ => 0, fun _ => 0, fun _ => 0⟩).2.intercept2_Opt
          (freqPerfBound (params Machine.v100_300w) (9 / 10)
            (modelSelect defaultConfig (params Machine.v100_300w)
              (fun j => if ifreqOf (params Machine.v100_300w).numProbFreq j < 2
                then 2 * xOf (params Machine.v100_300w) j + 0
                else 1 * xOf (params Machine.v100_300w) j + 1335)
              ⟨fun _ => 0, fun _ => 0, fun _ => 0, fun _ => 0⟩).1
            (modelSelect defaultConfig (params Machine.v100_300w)
              (fun j => if ifreqOf (params Machine.v100_300w).numProbFreq j < 2
                then 2 * xOf (params Machine.v100_300w) j + 0
                else 1 * xOf (params Machine.v100_300w) j + 1335)
              ⟨fun _ => 0, fun _ => 0, fun _ => 0, fun _ => 0⟩).2)
        = (9 / 10) * specFoldPrediction
            (modelSelect defaultConfig (params Machine.v100_300w)
              (fun j => if ifreqOf (params Machine.v100_300w).numProbFreq j < 2
                then 2 * xOf (params Machine.v100_300w) j + 0
                else 1 * xOf (params Machine.v100_300w) j + 1335)
              ⟨fun _ => 0, fun _ => 0, fun _ => 0, fun _ => 0⟩).2.slope1_Opt
            (modelSelect defaultConfig (params Machine.v100_300w)
              (fun j => if ifreqOf (params Machine.v100_300w).numProbFreq j < 2
                then 2 * xOf (params Machine.v100_300w) j + 0
                else 1 * xOf (params Machine.v100_300w) j + 1335)
              ⟨fun _ => 0, fun _ => 0, fun _ => 0, fun _ => 0⟩).2.intercept1_Opt
            (modelSelect defaultConfig (params Machine.v100_300w)
              (fun j => if ifreqOf (params Machine.v100_300w).numProbFreq j < 2
                then 2 * xOf (params Machine.v100_300w) j + 0
                else 1 * xOf (params Machine.v100_300w) j + 1335)
              ⟨fun _ => 0, fun _ => 0, fun _ => 0, fun _ => 0⟩).2.slope2_Opt
            (modelSelect defaultConfig (params Machine.v100_300w)
              (fun j => if ifreqOf (params Machine.v100_300w).numProbFreq j < 2
                then 2 * xOf (params Machine.v100_300w) j + 0
                else 1 * xOf (params Machine.v100_300w) j + 1335)
              ⟨fun _ => 0, fun _ => 0, fun _ => 0, fun _ => 0⟩).2.intercept2_Opt
            (((params Machine.v100_300w).maxFreq : Int) : ℚ) :=
  have h := modelSelect_on_fold defaultConfig (params Machine.v100_300w)
    (fun j => if ifreqOf (params Machine.v100_300w).numProbFreq j < 2
      then 2 * xOf (params Machine.v100_300w) j + 0
      else 1 * xOf (params Machine.v100_300w) j + 1335)
    ⟨fun _ => 0, fun _ => 0, fun _ => 0, fun _ => 0⟩ 2 2 0 1 1335 (by decide)
    (probFreqs_strictMono Machine.v100_300w) (le_refl 2) (by decide) (fun _ _ => rfl)
    (by norm_num [params]) (by norm_num)
  ⟨by rw [h.1]; decide, h.2.1, h.2.2.2.1,
    ((C30_perf_bound_equation Machine.v100_300w defaultConfig (9 / 10)
      (fun j => if ifreqOf (params Machine.v100_300w).numProbFreq j < 2
        then 2 * xOf (params Machine.v100_300w) j + 0
        else 1 * xOf (params Machine.v100_300w) j + 1335)
      ⟨fun _ => 0, fun _ => 0, fun _ => 0, fun _ => 0⟩).2 (by rw [h.1]; decide)
      (by rw [h.2.1, h.2.2.2.1]; norm_num) (by rw [h.2.2.2.1]; norm_num)).1⟩

/-! ## The snap step always assigns on the shipped profiles -/

/-- C40. On each of the three shipped profiles `F[0] < minSetFreq` and
`F[last] = maxFreq`; hence for every clamped target `c` in
`[minSetFreq, maxFreq]` the descending search of lines 1086-1096 stops at an
index `iAvail` (the greatest with `F[iAvail] < c`) which satisfies
`iAvail + 1 < numAvailableFreqs`, the result is `F[iAvail + 1] ≥ c`, and the
result does not depend on the previous operating frequency: neither the
"unchanged" case nor the `F[iAvail]` fallback is reached. -/
theorem C40_snap_always_assigns (m : Machine) (c : ℚ)
    (hlo : ((params m).minSetFreq : ℚ) ≤ c) (hhi : c ≤ ((params m).maxFreq : ℚ)) :
    availableFreqs m 0 < (params m).minSetFreq
    ∧ availableFreqs m ((params m).numAvailableFreqs - 1) = (params m).maxFreq
    ∧ (∃ iAvail, iAvail + 1 < (params m).numAvailableFreqs
        ∧ ((availableFreqs m iAvail : Int) : ℚ) < c
        ∧ (∀ j, iAvail < j → j < (params m).numAvailableFreqs
            → ¬ ((availableFreqs m j : Int) : ℚ) < c)
        ∧ c ≤ ((availableFreqs m (iAvail + 1) : Int) : ℚ)
        ∧ ∀ cur : Int, snapLoop (availableFreqs m) (params m).numAvailableFreqs c cur
            (params m).numAvailableFreqs = availableFreqs m (iAvail + 1)) := by
  refine ⟨availableFreqs_zero_lt m, availableFreqs_last m, ?_⟩
  obtain ⟨k, hk0, hkn, _, hlt, hge⟩ := snap_profile m c 0 hlo hhi
  refine ⟨k - 1, by omega, hlt, ?_, ?_, ?_⟩
  · intro j hj hjn
    have h1 : availableFreqs m k ≤ availableFreqs m j := availableFreqs_mono m k j (by omega) hjn
    have h2 : ((availableFreqs m k : Int) : ℚ) ≤ ((availableFreqs m j : Int) : ℚ) := by
      exact_mod_cast h1
    linarith
  · have e : k - 1 + 1 = k := by omega
    rw [e]
    exact hge
  · intro cur
    obtain ⟨k2, hk20, hk2n, e2, hlt2, hge2⟩ := snap_profile m c cur hlo hhi
    have e : k - 1 + 1 = k := by omega
    rw [e, e2]
    have hkk : k2 = k := by
      rcases Nat.lt_trichotomy k2 k with h | h | h
      · exfalso
        have h1 : availableFreqs m k2 ≤ availableFreqs m (k - 1) :=
          availableFreqs_mono m k2 (k - 1) (by omega) (by omega)
        have h2 : ((availableFreqs m k2 : Int) : ℚ) ≤ ((availableFreqs m (k - 1) : Int) : ℚ) := by
          exact_mod_cast h1
        linarith
      · exact h
      · exfalso
        have h1 : availableFreqs m k ≤ availableFreqs m (k2 - 1) :=
          availableFreqs_mono m k (k2 - 1) (by omega) (by omega)
        have h2 : ((availableFreqs m k : Int) : ℚ) ≤ ((availableFreqs m (k2 - 1) : Int) : ℚ) := by
          exact_mod_cast h1
        linarith
    rw [hkk]

theorem C40_snap_always_assigns_witness :
    (((params Machine.v100_300w).minSetFreq : ℚ) ≤ 1000
      ∧ (1000 : ℚ) ≤ ((params Machine.v100_300w).maxFreq : ℚ))
    ∧ ∃ iAvail, iAvail + 1 < (params Machine.v100_300w).numAvailableFreqs
        ∧ ((availableFreqs Machine.v100_300w iAvail : Int) : ℚ) < 1000
        ∧ ∀ cur : Int, snapLoop (availableFreqs Machine.v100_300w)
            (params Machine.v100_300w).numAvailableFreqs 1000 cur
            (params Machine.v100_300w).numAvailableFreqs
              = availableFreqs Machine.v100_300w (iAvail + 1) :=
  have hlo : ((params Machine.v100_300w).minSetFreq : ℚ) ≤ 1000 := by norm_num [params]
  have hhi : (1000 : ℚ) ≤ ((params Machine.v100_300w).maxFreq : ℚ) := by norm_num [params]
  have h := C40_snap_always_assigns Machine.v100_300w 1000 hlo hhi
  ⟨⟨hlo, hhi⟩, h.2.2.imp (fun _ hi => ⟨hi.1, hi.2.1, hi.2.2.2.2⟩)⟩

/-! ## The least-squares calls of model selection never divide by zero -/

theorem numProbRec_ge (cfg : Config) (prm : Params) (hr : 1 ≤ cfg.numProbRep) :
    prm.numProbFreq ≤ numProbRec cfg prm := by
  unfold numProbRec
  exact Nat.le_mul_of_pos_right _ hr

/-- C38. For every strictly increasing probe list with `numProbFreq ≥ 4` and every
`numProbRep ≥ 1`: the denominator `div` of the whole-burst `linearRegression`
is strictly positive; and for every `turn` in `[2, numProbFreq - 2]` the
partition places exactly `turn * numProbRep` points in segment 1 and
`(numProbFreq - turn) * numProbRep` in segment 2 (the counts the two segment
fits are called with), and the denominators of both segment fits are strictly
positive. -/
theorem C38_ols_denominators_positive (cfg : Config) (prm : Params) (gmem : Nat → ℚ)
    (buf : Scratch)
    (hP : ∀ i j, i < j → j < prm.numProbFreq → prm.probFreqs i < prm.probFreqs j)
    (hk : 4 ≤ prm.numProbFreq) (hr : 1 ≤ cfg.numProbRep) :
    (linearRegression (numProbRec cfg prm) (xOf prm) gmem).slope
        = ((numProbRec cfg prm : ℚ) * (lrSums (xOf prm) gmem (numProbRec cfg prm)).sumxy
            - (lrSums (xOf prm) gmem (numProbRec cfg prm)).sumx
              * (lrSums (xOf prm) gmem (numProbRec cfg prm)).sumy)
          / lrDiv (numProbRec cfg prm) (xOf prm) gmem
    ∧ 0 < lrDiv (numProbRec cfg prm) (xOf prm) gmem
    ∧ ∀ turn, 2 ≤ turn → turn + 2 ≤ prm.numProbFreq →
        (partitionLoop prm turn gmem ⟨0, 0, buf⟩ (numProbRec cfg prm)).idx1
            = turn * cfg.numProbRep
        ∧ (partitionLoop prm turn gmem ⟨0, 0, buf⟩ (numProbRec cfg prm)).idx2
            = (prm.numProbFreq - turn) * cfg.numProbRep
        ∧ 0 < lrDiv (turn * cfg.numProbRep)
            (partitionLoop prm turn gmem ⟨0, 0, buf⟩ (numProbRec cfg prm)).buf.x1
            (partitionLoop prm turn gmem ⟨0, 0, buf⟩ (numProbRec cfg prm)).buf.y1
        ∧ 0 < lrDiv ((prm.numProbFreq - turn) * cfg.numProbRep)
            (partitionLoop prm turn gmem ⟨0, 0, buf⟩ (numProbRec cfg prm)).buf.x2
            (partitionLoop prm turn gmem ⟨0, 0, buf⟩ (numProbRec cfg prm)).buf.y2 := by
  have hN := numProbRec_ge cfg prm hr
  refine ⟨rfl, ?_, ?_⟩
  · apply lrDiv_pos
    refine ⟨0, 1, by omega, by omega, ?_⟩
    unfold xOf
    rw [ifreqOf_self _ 0 (by omega), ifreqOf_self _ 1 (by omega)]
    have h := hP 0 1 (by omega) (by omega)
    have h2 : ((prm.probFreqs 0 : Int) : ℚ) < ((prm.probFreqs 1 : Int) : ℚ) := by exact_mod_cast h
    exact ne_of_lt h2
  · intro turn h2 hturn
    obtain ⟨e1, e2⟩ := partition_balance cfg prm turn gmem buf (by omega)
    obtain ⟨_, _, c3, c4⟩ := partition_content prm turn gmem buf (numProbRec cfg prm)
    rw [e1] at c3
    rw [e2] at c4
    refine ⟨e1, e2, ?_, ?_⟩
    · apply lrDiv_pos
      obtain ⟨i, hi, xi, _⟩ := c3 0 (by omega) (by rw [ifreqOf_self _ 0 (by omega)]; omega)
      obtain ⟨j, hj, xj, _⟩ := c3 1 (by omega) (by rw [ifreqOf_self _ 1 (by omega)]; omega)
      refine ⟨i, j, hi, hj, ?_⟩
      rw [xi, xj, ifreqOf_self _ 0 (by omega), ifreqOf_self _ 1 (by omega)]
      have h := hP 0 1 (by omega) (by omega)
      have h2 : ((prm.probFreqs 0 : Int) : ℚ) < ((prm.probFreqs 1 : Int) : ℚ) := by
        exact_mod_cast h
      exact ne_of_lt h2
    · apply lrDiv_pos
      obtain ⟨i, hi, xi, _⟩ := c4 turn (by omega)
        (by rw [ifreqOf_self _ turn (by omega)]; omega)
      obtain ⟨j, hj, xj, _⟩ := c4 (turn + 1) (by omega)
        (by rw [ifreqOf_self _ (turn + 1) (by omega)]; omega)
      refine ⟨i, j, hi, hj, ?_⟩
      rw [xi, xj, ifreqOf_self _ turn (by omega), ifreqOf_self _ (turn + 1) (by omega)]
      have h := hP turn (turn + 1) (by omega) (by omega)
      have h2 : ((prm.probFreqs turn : Int) : ℚ) < ((prm.probFreqs (turn + 1) : Int) : ℚ) := by
        exact_mod_cast h
      exact ne_of_lt h2

theorem C38_ols_denominators_positive_witness :
    (4 ≤ (params Machine.v100_300w).numProbFreq ∧ 1 ≤ defaultConfig.numProbRep)
    ∧ 0 < lrDiv (numProbRec defaultConfig (params Machine.v100_300w))
        (xOf (params Machine.v100_300w)) (fun j => (j : ℚ)) :=
  ⟨⟨by decide, by decide⟩,
    (C38_ols_denominators_positive defaultConfig (params Machine.v100_300w) (fun j => (j : ℚ))
      ⟨fun _ => 0, fun _ => 0, fun _ => 0, fun _ => 0⟩
      (fun i j hij hj => probFreqs_strictMono Machine.v100_300w i j hij hj)
      (by decide) (by decide)).2.1⟩

/-! ## A burst is never interrupted by the gate -/

/-- After a tick in mode `mod`, `probPhase ≥ -1` implies `accumuTime = 0`. -/
theorem tick_gate_invariant (cfg : Config) (prm : Params) (F : Nat → Int) (p : ℚ) (dc : Nat)
    (s : State) (inp : TickInput)
    (h : (tick cfg prm F true p dc s inp).probPhase ≥ -1) :
    (tick cfg prm F true p dc s inp).accumuTime = 0 := by
  obtain ⟨hf, hq⟩ := tick_scheduler cfg prm F p dc s inp
  by_cases hfire : (s.accumuTime : ℚ) ≥ cfg.probDelay * 1000000
  · exact (hf hfire).2
  · obtain ⟨e1, e2⟩ := hq hfire
    rw [e2]
    rw [e1] at h
    by_cases h99 : s.probPhase > -99
    · rw [if_pos h99] at h
      rw [if_pos (by omega)]
    · rw [if_neg h99] at h
      omega

/-- In every state of a run from the initial state, `probPhase ≥ -1` implies
`accumuTime = 0`. -/
theorem run_gate_invariant (cfg : Config) (prm : Params) (F : Nat → Int) (p : ℚ) (dc : Nat)
    (cap0 : Nat → ℚ) (inp : Nat → TickInput) (n : Nat)
    (h : (run cfg prm F true p dc (initState cfg prm cap0) inp n).probPhase ≥ -1) :
    (run cfg prm F true p dc (initState cfg prm cap0) inp n).accumuTime = 0 := by
  induction n with
  | zero => rfl
  | succ n ih =>
    rw [run_succ] at h ⊢
    exact tick_gate_invariant cfg prm F p dc _ _ h

/-- A tick from a state with `probPhase ≥ -1` and `accumuTime = 0` counts the
phase down by one when the probe interval is positive. -/
theorem tick_countdown (cfg : Config) (prm : Params) (F : Nat → Int) (p : ℚ) (dc : Nat)
    (s : State) (inp : TickInput) (hd : 0 < cfg.probDelay) (hp : s.probPhase ≥ -1)
    (ha : s.accumuTime = 0) :
    (tick cfg prm F true p dc s inp).probPhase = s.probPhase - 1 := by
  have hfire : ¬ ((s.accumuTime : ℚ) ≥ cfg.probDelay * 1000000) := by
    rw [ha]
    push_cast
    have : 0 < cfg.probDelay * 1000000 := by positivity
    linarith
  rw [((tick_scheduler cfg prm F p dc s inp).2 hfire).1, if_pos (by omega)]

/-- C36. In mode `mod`, in every state reached from the initial state (the
state at the start of a tick is the one the gate update of the previous tick
left), `probPhase ≥ -1` implies `accumuTime = 0`, so with a positive probe
interval the gate condition `accumuTime ≥ probDelay * 1000000` is false there.
Hence once `probPhase = numProbRec`, the phase is `numProbRec - t` at the start
of the `t`-th following tick for every `t ≤ numProbRec + 2` (the values
`numProbRec, ..., 0, -1, -2`): the first `numProbRec` ticks command the probe
frequencies with actuation, the phase is 0 (the fit) on tick `numProbRec` and on
no other, tick `numProbRec + 1` commands the operating frequency with actuation,
and tick `numProbRec + 2` does not actuate. -/
theorem C36_burst_not_interrupted (cfg : Config) (prm : Params) (F : Nat → Int) (perfThres : ℚ)
    (device_count : Nat) (cap0 : Nat → ℚ) (inp : Nat → TickInput) (hd : 0 < cfg.probDelay) :
    (∀ n, (run cfg prm F true perfThres device_count (initState cfg prm cap0) inp n).probPhase ≥ -1 →
        (run cfg prm F true perfThres device_count (initState cfg prm cap0) inp n).accumuTime = 0
        ∧ ¬ (((run cfg prm F true perfThres device_count (initState cfg prm cap0) inp n).accumuTime
              : ℚ) ≥ cfg.probDelay * 1000000))
    ∧ ∀ n, (run cfg prm F true perfThres device_count (initState cfg prm cap0) inp n).probPhase
          = (numProbRec cfg prm : Int) →
        (∀ t, t ≤ numProbRec cfg prm + 2 →
          (run cfg prm F true perfThres device_count (initState cfg prm cap0) inp (n + t)).probPhase
            = (numProbRec cfg prm : Int) - (t : Int))
        ∧ (∀ t i, t < numProbRec cfg prm →
          commands cfg prm
              (run cfg prm F true perfThres device_count (initState cfg prm cap0) inp (n + t)) i
            = ⟨prm.probFreqs (ifreqOf prm.numProbFreq t), true⟩)
        ∧ (∀ t, t ≤ numProbRec cfg prm + 2 →
          ((run cfg prm F true perfThres device_count (initState cfg prm cap0) inp (n + t)).probPhase
            = 0 ↔ t = numProbRec cfg prm))
        ∧ (∀ i, commands cfg prm
              (run cfg prm F true perfThres device_count (initState cfg prm cap0) inp
                (n + (numProbRec cfg prm + 1))) i
            = ⟨((run cfg prm F true perfThres device_count (initState cfg prm cap0) inp
                (n + (numProbRec cfg prm + 1))).devices i).optimizedFreq, true⟩)
        ∧ (∀ i, (commands cfg prm
              (run cfg prm F true perfThres device_count (initState cfg prm cap0) inp
                (n + (numProbRec cfg prm + 2))) i).applyFreqSet = false) := by
  have hinv : ∀ n,
      (run cfg prm F true perfThres device_count (initState cfg prm cap0) inp n).probPhase ≥ -1 →
      (run cfg prm F true perfThres device_count (initState cfg prm cap0) inp n).accumuTime = 0 :=
    fun n h => run_gate_invariant cfg prm F perfThres device_count cap0 inp n h
  refine ⟨?_, ?_⟩
  · intro n h
    refine ⟨hinv n h, ?_⟩
    rw [hinv n h]
    push_cast
    have : 0 < cfg.probDelay * 1000000 := by positivity
    linarith
  · intro n hn
    have hseq : ∀ t, t ≤ numProbRec cfg prm + 2 →
        (run cfg prm F true perfThres device_count (initState cfg prm cap0) inp (n + t)).probPhase
          = (numProbRec cfg prm : Int) - (t : Int) := by
      intro t
      induction t with
      | zero =>
        intro _
        rw [Nat.add_zero, hn]
        simp
      | succ t ih =>
        intro ht
        have ih1 := ih (by omega)
        have hge : (run cfg prm F true perfThres device_count (initState cfg prm cap0) inp
            (n + t)).probPhase ≥ -1 := by
          rw [ih1]
          omega
        rw [show n + (t + 1) = (n + t) + 1 from rfl, run_succ,
          tick_countdown cfg prm F perfThres device_count _ _ hd hge (hinv _ hge), ih1]
        push_cast
        ring
    refine ⟨hseq, ?_, ?_, ?_, ?_⟩
    · intro t i ht
      have hp := hseq t (by omega)
      have hset := command_in_burst cfg prm _
        ((run cfg prm F true perfThres device_count (initState cfg prm cap0) inp
          (n + t)).devices i).optimizedFreq t ht hp
      have happ : (command cfg prm
          (run cfg prm F true perfThres device_count (initState cfg prm cap0) inp (n + t)).probPhase
          ((run cfg prm F true perfThres device_count (initState cfg prm cap0) inp
            (n + t)).devices i).optimizedFreq).applyFreqSet = true := by
        unfold command
        simp only []
        rw [if_pos (by rw [hp]; omega)]
      unfold commands
      cases hc : command cfg prm
        (run cfg prm F true perfThres device_count (initState cfg prm cap0) inp (n + t)).probPhase
        ((run cfg prm F true perfThres device_count (initState cfg prm cap0) inp
          (n + t)).devices i).optimizedFreq with
      | mk sf ap =>
        rw [hc] at hset happ
        simp only [] at hset happ
        rw [hset, happ]
        unfold ifreqOf
        simp only [apply_ite prm.probFreqs]
    · intro t ht
      rw [hseq t ht]
      omega
    · intro i
      have hp := hseq (numProbRec cfg prm + 1) (by omega)
      unfold commands command
      simp only []
      rw [hp]
      push_cast
      rw [if_neg (by omega), if_neg (by omega), if_pos (by omega)]
    · intro i
      have hp := hseq (numProbRec cfg prm + 2) (by omega)
      unfold commands command
      simp only []
      rw [hp]
      push_cast
      rw [if_neg (by omega)]

theorem C36_burst_not_interrupted_witness :
    0 < defaultConfig.probDelay
    ∧ (run defaultConfig (params Machine.v100_300w) (availableFreqs Machine.v100_300w) true
        (9 / 10) 1 (initState defaultConfig (params Machine.v100_300w) (fun _ => 0))
        (fun _ => ⟨fun _ => ⟨90, 40, 1200, 150000⟩, 100000⟩) (0 + (9 + 1))).probPhase
      = (numProbRec defaultConfig (params Machine.v100_300w) : Int) - ((9 + 1 : Nat) : Int) :=
  ⟨by norm_num [defaultConfig],
    ((C36_burst_not_interrupted defaultConfig (params Machine.v100_300w)
      (availableFreqs Machine.v100_300w) (9 / 10) 1 (fun _ => 0)
      (fun _ => ⟨fun _ => ⟨90, 40, 1200, 150000⟩, 100000⟩) (by norm_num [defaultConfig])).2 0
        rfl).1 (9 + 1) (by decide)⟩

/-! ## The per-probe averages -/

/-- The entry `p` of the averages after `n` slots: the sum of `v[j] / numProbRep`
over the slots `j < n` of probe index `p`. -/
theorem avgLoop_eq_sum (k r : Nat) (v : Nat → ℚ) (n p : Nat) :
    avgLoop k r v n p
      = ∑ j in Finset.range n, if ifreqOf k j = p then v j / (r : ℚ) else 0 := by
  induction n with
  | zero => simp [avgLoop]
  | succ n ih =>
    rw [Finset.sum_range_succ, ← ih]
    simp only [avgLoop]
    by_cases h : ifreqOf k n = p
    · rw [if_pos h, ← h, Function.update_same]
    · rw [if_neg h, Function.update_noteq (Ne.symm h), add_zero]

/-- The counter `idx1` of the partition loop counts the slots of probe index
below `turn`. -/
theorem partition_idx1_count (prm : Params) (turn : Nat) (gmem : Nat → ℚ) (buf : Scratch)
    (n : Nat) :
    (partitionLoop prm turn gmem ⟨0, 0, buf⟩ n).idx1
      = ∑ j in Finset.range n, if ifreqOf prm.numProbFreq j < turn then 1 else 0 := by
  induction n with
  | zero => rfl
  | succ n ih =>
    rw [Finset.sum_range_succ, ← ih, (partition_idx_succ prm turn gmem ⟨0, 0, buf⟩ n).1]

/-- In `k * r` slots every probe index `p < k` occurs exactly `r` times. -/
theorem ifreqOf_count (k r p : Nat) (hp : p < k) :
    (Finset.filter (fun j => ifreqOf k j = p) (Finset.range (k * r))).card = r := by
  have e1 := partition_idx1_count ⟨0, 0, 0, 0, 0, k, fun _ => 0⟩ (p + 1) (fun _ => 0)
    ⟨fun _ => 0, fun _ => 0, fun _ => 0, fun _ => 0⟩ (k * r)
  have e2 := partition_idx1_count ⟨0, 0, 0, 0, 0, k, fun _ => 0⟩ p (fun _ => 0)
    ⟨fun _ => 0, fun _ => 0, fun _ => 0, fun _ => 0⟩ (k * r)
  have b1 := partition_idx1_blocks ⟨0, 0, 0, 0, 0, k, fun _ => 0⟩ (p + 1) (fun _ => 0)
    ⟨fun _ => 0, fun _ => 0, fun _ => 0, fun _ => 0⟩ (by show p + 1 ≤ k; omega) r
  have b2 := partition_idx1_blocks ⟨0, 0, 0, 0, 0, k, fun _ => 0⟩ p (fun _ => 0)
    ⟨fun _ => 0, fun _ => 0, fun _ => 0, fun _ => 0⟩ (by show p ≤ k; omega) r
  simp only [] at e1 e2 b1 b2
  rw [Nat.mul_comm r k] at b1 b2
  rw [b1] at e1
  rw [b2] at e2
  rw [Finset.card_filter]
  have hsplit : ∀ j, (if ifreqOf k j < p + 1 then 1 else 0)
      = (if ifreqOf k j < p then 1 else 0) + (if ifreqOf k j = p then 1 else 0) := by
    intro j
    split_ifs <;> omega
  have hsum : (∑ j in Finset.range (k * r), if ifreqOf k j < p + 1 then 1 else 0)
      = (∑ j in Finset.range (k * r), if ifreqOf k j < p then 1 else 0)
        + ∑ j in Finset.range (k * r), if ifreqOf k j = p then 1 else 0 := by
    rw [← Finset.sum_add_distrib]
    exact Finset.sum_congr rfl (fun j _ => hsplit j)
  rw [← e1, ← e2] at hsum
  have : r * (p + 1) = r * p + r := by ring
  omega

/-- C33. For every number of probe frequencies and of repetitions, in a
burst of `numProbRec = numProbFreq * numProbRep` slots every probe index
`p < numProbFreq` is the index `ifreq j` of exactly `numProbRep` slots `j` (the
slot whose tick commands `probFreqs[ifreq j]`), and at burst completion
`avg_gmemUtils[p]` and `avg_gPowers[p]` are the sums of the memory
utilisations and of the powers recorded in exactly those slots, divided by
`numProbRep`. -/
theorem C33_per_probe_averages (cfg : Config) (prm : Params) (gmem gpow : Nat → ℚ) (p : Nat)
    (hp : p < prm.numProbFreq) :
    (∀ j x, j < numProbRec cfg prm →
      (command cfg prm ((numProbRec cfg prm : Int) - (j : Int)) x).setFreq
        = prm.probFreqs (ifreqOf prm.numProbFreq j))
    ∧ (Finset.filter (fun j => ifreqOf prm.numProbFreq j = p)
        (Finset.range (numProbRec cfg prm))).card = cfg.numProbRep
    ∧ avgLoop prm.numProbFreq cfg.numProbRep gmem (numProbRec cfg prm) p
      = (∑ j in Finset.filter (fun j => ifreqOf prm.numProbFreq j = p)
          (Finset.range (numProbRec cfg prm)), gmem j) / (cfg.numProbRep : ℚ)
    ∧ avgLoop prm.numProbFreq cfg.numProbRep gpow (numProbRec cfg prm) p
      = (∑ j in Finset.filter (fun j => ifreqOf prm.numProbFreq j = p)
          (Finset.range (numProbRec cfg prm)), gpow j) / (cfg.numProbRep : ℚ) := by
  refine ⟨?_, ifreqOf_count prm.numProbFreq cfg.numProbRep p hp, ?_, ?_⟩
  · intro j x hj
    rw [command_in_burst cfg prm _ x j hj rfl]
    unfold ifreqOf
    simp only [apply_ite prm.probFreqs]
  · rw [avgLoop_eq_sum, Finset.sum_div, Finset.sum_filter]
  · rw [avgLoop_eq_sum, Finset.sum_div, Finset.sum_filter]

theorem C33_per_probe_averages_witness :
    1 < (params Machine.v100_300w).numProbFreq
    ∧ (Finset.filter (fun j => ifreqOf (params Machine.v100_300w).numProbFreq j = 1)
        (Finset.range (numProbRec defaultConfig (params Machine.v100_300w)))).card
      = defaultConfig.numProbRep :=
  ⟨by decide,
    (C33_per_probe_averages defaultConfig (params Machine.v100_300w) (fun j => (j : ℚ))
      (fun _ => 150) 1 (by decide)).2.1⟩

/-! ## An upper bound on the utilisation cap -/

/-- The per-tick cap: its denominator is positive, it is at most
`maxFreq / (2 - perfThres)`, and it reaches that value exactly at
`util.gpu = 100`. -/
theorem thisCapOf_bound (prm : Params) (p : ℚ) (t : Telemetry) (hp0 : 0 < p) (hp1 : p < 1)
    (hmax : 0 < prm.maxFreq) (hf : 0 < t.freq) (hu : t.gpu ≤ 100) :
    0 < (1 - p) * ((t.freq : ℚ) / (prm.maxFreq : ℚ) + 100 / dmax 1 (t.gpu : ℚ) - 1)
        + (t.freq : ℚ) / (prm.maxFreq : ℚ)
      ∧ thisCapOf prm p t ≤ (prm.maxFreq : ℚ) / (2 - p)
      ∧ (thisCapOf prm p t = (prm.maxFreq : ℚ) / (2 - p) ↔ t.gpu = 100) := by
  unfold thisCapOf
  have hfq : (0 : ℚ) < (t.freq : ℚ) := by exact_mod_cast hf
  have hmq : (0 : ℚ) < (prm.maxFreq : ℚ) := by exact_mod_cast hmax
  have hu1 : (1 : ℚ) ≤ dmax 1 (t.gpu : ℚ) := by
    rw [dmax_eq]
    exact le_max_left _ _
  have hupos : (0 : ℚ) < dmax 1 (t.gpu : ℚ) := by linarith
  have hu2 : dmax 1 (t.gpu : ℚ) ≤ 100 := by
    rw [dmax_eq]
    have : (t.gpu : ℚ) ≤ 100 := by exact_mod_cast hu
    exact max_le (by norm_num) this
  have hu3 : (1 : ℚ) ≤ 100 / dmax 1 (t.gpu : ℚ) := by
    rw [le_div_iff₀ hupos]
    linarith
  have hr1 : 100 / dmax 1 (t.gpu : ℚ) = 1 ↔ t.gpu = 100 := by
    rw [div_eq_one_iff_eq (ne_of_gt hupos), dmax_eq]
    constructor
    · intro h
      rcases le_total (1 : ℚ) (t.gpu : ℚ) with h1 | h1
      · rw [max_eq_right h1] at h
        exact_mod_cast h.symm
      · rw [max_eq_left h1] at h
        norm_num at h
    · intro h
      rw [h]
      norm_num
  obtain ⟨q, hq⟩ : ∃ q, q = (t.freq : ℚ) / (prm.maxFreq : ℚ) := ⟨_, rfl⟩
  have hqpos : 0 < q := by
    rw [hq]
    exact div_pos hfq hmq
  have hfe : (t.freq : ℚ) = q * (prm.maxFreq : ℚ) := by
    rw [hq]
    field_simp
  rw [← hq, ← hr1]
  generalize 100 / dmax 1 (t.gpu : ℚ) = r at hu3 ⊢
  rw [hfe]
  generalize (prm.maxFreq : ℚ) = fm at hmq ⊢
  have hD : 0 < (1 - p) * (q + r - 1) + q := by
    have : 0 ≤ (1 - p) * (q + r - 1) := mul_nonneg (by linarith) (by linarith)
    linarith
  have h2p : 0 < 2 - p := by linarith
  have key : fm * ((1 - p) * (q + r - 1) + q) - q * fm * (2 - p) = fm * (1 - p) * (r - 1) := by
    ring
  have hnn : 0 ≤ fm * (1 - p) * (r - 1) :=
    mul_nonneg (mul_nonneg (le_of_lt hmq) (by linarith)) (by linarith)
  refine ⟨hD, ?_, ?_⟩
  · rw [div_le_div_iff₀ hD h2p]
    linarith
  · rw [div_eq_div_iff (ne_of_gt hD) (ne_of_gt h2p)]
    constructor
    · intro h
      have hz : fm * (1 - p) * (r - 1) = 0 := by linarith
      have hne : fm * (1 - p) ≠ 0 := ne_of_gt (mul_pos hmq (by linarith))
      have := (mul_eq_zero.mp hz).resolve_left hne
      linarith
    · intro h
      rw [h]
      ring

theorem capMax_le (prm : Params) (p c : ℚ) (tel : Nat → Telemetry) (n : Nat)
    (h : ∀ t, t ≤ n → thisCapOf prm p (tel t) ≤ c) : capMax prm p tel n ≤ c := by
  induction n with
  | zero => exact h 0 (le_refl 0)
  | succ n ih =>
    exact max_le (ih (fun t ht => h t (by omega))) (h (n + 1) (le_refl _))

/-- On a shipped profile the arbiter is at most the snap of any level `c` that
bounds the cap and the efficiency choice, when the efficiency choice is at
least `minSetFreq`. -/
theorem arbiter_le_snap (m : Machine) (cfg : Config) (fb cap fe c : ℚ) (cur cur2 : Int)
    (hcap : cfg.useFreqCap = true) (h1 : cap ≤ c) (h2 : fe ≤ c)
    (h3 : ((params m).minSetFreq : ℚ) ≤ fe) (h4 : c ≤ ((params m).maxFreq : ℚ)) :
    arbiter cfg (params m) (availableFreqs m) fb cap fe cur
      ≤ snapLoop (availableFreqs m) (params m).numAvailableFreqs c cur2
          (params m).numAvailableFreqs := by
  obtain ⟨k1, hk10, hk1n, e1, lt1, _⟩ := arbiter_profile m cfg fb cap fe cur
  obtain ⟨k2, _, hk2n, e2, _, ge2⟩ := snap_profile m c cur2 (le_trans h3 h2) h4
  have hc : freqOptClamped cfg (params m) fb cap fe ≤ c := by
    unfold freqOptClamped freqOptRaw freqPerfOf
    simp only [dmin_eq, dmax_eq, hcap, if_true]
    apply le_trans (min_le_left _ _)
    exact max_le (max_le (le_trans (min_le_right _ _) h1) h2) (le_trans h3 h2)
  rw [e1, e2]
  by_cases h : k1 ≤ k2
  · exact availableFreqs_mono m k1 k2 h hk2n
  · exfalso
    have h5 : availableFreqs m k2 ≤ availableFreqs m (k1 - 1) :=
      availableFreqs_mono m k2 (k1 - 1) (by omega) (by omega)
    have h6 : ((availableFreqs m k2 : Int) : ℚ) ≤ ((availableFreqs m (k1 - 1) : Int) : ℚ) := by
      exact_mod_cast h5
    linarith

/-- C35. For every `maxFreq > 0` and every performance floor in `(0, 1)`:
(1) for every reading with `freq > 0` and `util.gpu ≤ 100` the denominator of
`thisCap` (and the inner divisor `max(1, util.gpu)`) is positive,
`thisCap ≤ maxFreq / (2 - perfThres)`, with equality exactly when
`util.gpu = 100`; (2) `maxFreq / (2 - perfThres) < maxFreq`; (3) with
`useFreqCap`, after a burst whose readings satisfy these bounds the cap the
arbiter reads is at most `maxFreq / (2 - perfThres)` and `min(freqBound, cap)`
is strictly below `maxFreq` for every `freqBound`; (4) on a shipped profile,
when the cap is at most that bound and the efficiency choice `freqEff` of the
fit is too, the operating frequency stored at burst completion is at most the
snap of `maxFreq / (2 - perfThres)`: it exceeds it only when `freqEff` does. -/
theorem C35_cap_upper_bound (prm : Params) (perfThres : ℚ) (hp0 : 0 < perfThres)
    (hp1 : perfThres < 1) (hmax : 0 < prm.maxFreq) :
    (∀ t : Telemetry, 0 < t.freq → t.gpu ≤ 100 →
        0 < dmax 1 (t.gpu : ℚ)
        ∧ 0 < (1 - perfThres) * ((t.freq : ℚ) / (prm.maxFreq : ℚ) + 100 / dmax 1 (t.gpu : ℚ) - 1)
            + (t.freq : ℚ) / (prm.maxFreq : ℚ)
        ∧ thisCapOf prm perfThres t ≤ (prm.maxFreq : ℚ) / (2 - perfThres)
        ∧ (thisCapOf prm perfThres t = (prm.maxFreq : ℚ) / (2 - perfThres) ↔ t.gpu = 100))
    ∧ (prm.maxFreq : ℚ) / (2 - perfThres) < (prm.maxFreq : ℚ)
    ∧ (∀ (cfg : Config) (F : Nat → Int) (device_count : Nat) (s : State) (inp : Nat → TickInput)
        (i : Nat), i < device_count → cfg.useFreqCap = true → 0 < cfg.probDelay →
        s.probPhase = (numProbRec cfg prm : Int) → s.accumuTime = 0 → 0 < numProbRec cfg prm →
        (∀ u, 1 ≤ u → u ≤ numProbRec cfg prm →
          0 < ((inp u).tel i).freq ∧ ((inp u).tel i).gpu ≤ 100) →
        ((run cfg prm F true perfThres device_count s inp (numProbRec cfg prm + 1)).devices i).freqCap
            ≤ (prm.maxFreq : ℚ) / (2 - perfThres)
          ∧ ∀ freqBound : ℚ, freqPerfOf cfg freqBound
              ((run cfg prm F true perfThres device_count s inp
                (numProbRec cfg prm + 1)).devices i).freqCap < (prm.maxFreq : ℚ))
    ∧ (∀ (m : Machine) (cfg : Config) (d : DeviceState) (buf : Scratch) (cur : Int),
        cfg.useFreqCap = true →
        d.freqCap ≤ ((params m).maxFreq : ℚ) / (2 - perfThres) →
        (fitDevice cfg (params m) perfThres d.gmemUtils d.gPowers buf).freqEff
          ≤ ((params m).maxFreq : ℚ) / (2 - perfThres) →
        (completeDevice cfg (params m) (availableFreqs m) perfThres d buf).1.optimizedFreq
          ≤ snapLoop (availableFreqs m) (params m).numAvailableFreqs
              (((params m).maxFreq : ℚ) / (2 - perfThres)) cur (params m).numAvailableFreqs) := by
  have h2p : 0 < 2 - perfThres := by linarith
  have hlt : ∀ fm : ℚ, 0 < fm → fm / (2 - perfThres) < fm := by
    intro fm hfm
    rw [div_lt_iff₀ h2p]
    nlinarith
  have hmq : (0 : ℚ) < (prm.maxFreq : ℚ) := by exact_mod_cast hmax
  refine ⟨?_, hlt _ hmq, ?_, ?_⟩
  · intro t hf hu
    have hu1 : (1 : ℚ) ≤ dmax 1 (t.gpu : ℚ) := by
      rw [dmax_eq]
      exact le_max_left _ _
    exact ⟨by linarith, thisCapOf_bound prm perfThres t hp0 hp1 hmax hf hu⟩
  · intro cfg F dc s inp i hi hcap hd hs hacc hN htel
    have hb := burst_cap cfg prm F perfThres dc s inp i hi hcap hd hs hacc
      (numProbRec cfg prm - 1) (by omega)
    have e : numProbRec cfg prm - 1 + 2 = numProbRec cfg prm + 1 := by omega
    rw [e] at hb
    have hle : ((run cfg prm F true perfThres dc s inp (numProbRec cfg prm + 1)).devices i).freqCap
        ≤ (prm.maxFreq : ℚ) / (2 - perfThres) := by
      rw [hb]
      apply capMax_le
      intro t ht
      have := htel (t + 1) (by omega) (by omega)
      exact (thisCapOf_bound prm perfThres _ hp0 hp1 hmax this.1 this.2).2.1
    refine ⟨hle, ?_⟩
    intro fb
    unfold freqPerfOf
    rw [if_pos hcap, dmin_eq]
    exact lt_of_le_of_lt (min_le_right _ _) (lt_of_le_of_lt hle (hlt _ hmq))
  · intro m cfg d buf cur hcap hc hfe
    have hmm : (0 : ℚ) < ((params m).maxFreq : ℚ) := by exact_mod_cast maxFreq_pos m
    exact arbiter_le_snap m cfg _ d.freqCap _ _ d.optimizedFreq cur hcap hc hfe
      (fitDevice_freqEff_range m cfg perfThres d.gmemUtils d.gPowers buf).1
      (le_of_lt (hlt _ hmm))

theorem C35_cap_upper_bound_witness :
    ((0 : ℚ) < 9 / 10 ∧ (9 / 10 : ℚ) < 1 ∧ 0 < (params Machine.v100_300w).maxFreq)
    ∧ (thisCapOf (params Machine.v100_300w) (9 / 10) ⟨100, 40, 1200, 150000⟩
        = ((params Machine.v100_300w).maxFreq : ℚ) / (2 - 9 / 10)
      ↔ (⟨100, 40, 1200, 150000⟩ : Telemetry).gpu = 100) :=
  ⟨⟨by norm_num, by norm_num, by decide⟩,
    ((C35_cap_upper_bound (params Machine.v100_300w) (9 / 10) (by norm_num) (by norm_num)
      (by decide)).1 ⟨100, 40, 1200, 150000⟩ (by decide) (by decide)).2.2.2⟩

/-! ## The determinant guard of the constrained fit -/

/-- The determinant `H` of the constrained fit at `xc = b` for the segments
`(a, b, b, a)` and `(c, d, d, c)`. -/
theorem foldDet_default (xc : Int) (X1 Y1 X2 Y2 : Nat → ℚ) (a c d : ℚ)
    (h10 : X1 0 = a) (h11 : X1 1 = (xc : ℚ)) (h12 : X1 2 = (xc : ℚ)) (h13 : X1 3 = a)
    (h20 : X2 0 = c) (h21 : X2 1 = d) (h22 : X2 2 = d) (h23 : X2 3 = c) :
    foldDet xc 4 X1 Y1 4 X2 Y2
      = 16 * (a - (xc : ℚ)) ^ 2
          * ((c - (xc : ℚ)) ^ 2 - (c - (xc : ℚ)) * (d - (xc : ℚ)) + (d - (xc : ℚ)) ^ 2) := by
  unfold foldDet
  simp only [segSums, h10, h11, h12, h13, h20, h21, h22, h23]
  push_cast
  ring

theorem foldDet_default_pos (xc : Int) (X1 Y1 X2 Y2 : Nat → ℚ) (a c d : ℚ)
    (h10 : X1 0 = a) (h11 : X1 1 = (xc : ℚ)) (h12 : X1 2 = (xc : ℚ)) (h13 : X1 3 = a)
    (h20 : X2 0 = c) (h21 : X2 1 = d) (h22 : X2 2 = d) (h23 : X2 3 = c)
    (hab : a < (xc : ℚ)) (hcd : c < d) :
    0 < foldDet xc 4 X1 Y1 4 X2 Y2 := by
  rw [foldDet_default xc X1 Y1 X2 Y2 a c d h10 h11 h12 h13 h20 h21 h22 h23]
  have hA : 0 < (a - (xc : ℚ)) ^ 2 := by
    have : a - (xc : ℚ) ≠ 0 := by linarith
    positivity
  have hB : 0 < (c - (xc : ℚ)) ^ 2 - (c - (xc : ℚ)) * (d - (xc : ℚ)) + (d - (xc : ℚ)) ^ 2 := by
    have hne : 0 < (d - c) ^ 2 := by
      have : d - c ≠ 0 := by linarith
      positivity
    nlinarith [sq_nonneg (c - (xc : ℚ)), sq_nonneg (d - (xc : ℚ))]
  positivity

/-- C39. With four probe frequencies, two repetitions and any strictly
increasing probe list, the determinant `H` that `foldlineRegression` computes
for `turn = 2` (`xc = probFreqs[1]`, four points in each segment) is strictly
positive whatever was recorded, so the call takes the branch of the normal
equations and not the sentinel branch: its result is continuous at `xc` and its
error is the accumulated residual sum.  And with the source's threshold
(`regErrThres = 100`) the sentinel error 12345678 exceeds
`numProbRec * regErrThres`, so a model selection whose least error were the
sentinel's is discarded: the fit hands over `maxFreq` and `freqAvgEff`. -/
theorem C39_determinant_guard_unreachable (cfg : Config) (prm : Params) (gmem : Nat → ℚ)
    (buf : Scratch) (hk : prm.numProbFreq = 4) (hr : cfg.numProbRep = 2)
    (ht : cfg.regErrThres = 100)
    (hP : prm.probFreqs 0 < prm.probFreqs 1 ∧ prm.probFreqs 1 < prm.probFreqs 2
      ∧ prm.probFreqs 2 < prm.probFreqs 3) :
    0 < foldDet (prm.probFreqs (2 - 1)) (2 * cfg.numProbRep)
          (partitionLoop prm 2 gmem ⟨0, 0, buf⟩ (numProbRec cfg prm)).buf.x1
          (partitionLoop prm 2 gmem ⟨0, 0, buf⟩ (numProbRec cfg prm)).buf.y1
          ((prm.numProbFreq - 2) * cfg.numProbRep)
          (partitionLoop prm 2 gmem ⟨0, 0, buf⟩ (numProbRec cfg prm)).buf.x2
          (partitionLoop prm 2 gmem ⟨0, 0, buf⟩ (numProbRec cfg prm)).buf.y2
    ∧ (∃ a1 b1 a2 b2 : ℚ,
        foldlineRegression (prm.probFreqs (2 - 1)) (2 * cfg.numProbRep)
          (partitionLoop prm 2 gmem ⟨0, 0, buf⟩ (numProbRec cfg prm)).buf.x1
          (partitionLoop prm 2 gmem ⟨0, 0, buf⟩ (numProbRec cfg prm)).buf.y1
          ((prm.numProbFreq - 2) * cfg.numProbRep)
          (partitionLoop prm 2 gmem ⟨0, 0, buf⟩ (numProbRec cfg prm)).buf.x2
          (partitionLoop prm 2 gmem ⟨0, 0, buf⟩ (numProbRec cfg prm)).buf.y2
          = ⟨a1, b1, a2, b2,
              errLoop a2 b2 (partitionLoop prm 2 gmem ⟨0, 0, buf⟩ (numProbRec cfg prm)).buf.x2
                (partitionLoop prm 2 gmem ⟨0, 0, buf⟩ (numProbRec cfg prm)).buf.y2
                (errLoop a1 b1 (partitionLoop prm 2 gmem ⟨0, 0, buf⟩ (numProbRec cfg prm)).buf.x1
                  (partitionLoop prm 2 gmem ⟨0, 0, buf⟩ (numProbRec cfg prm)).buf.y1 0
                  (2 * cfg.numProbRep))
                ((prm.numProbFreq - 2) * cfg.numProbRep)⟩
          ∧ b2 = ((prm.probFreqs (2 - 1) : Int) : ℚ) * (a1 - a2) + b1)
    ∧ (numProbRec cfg prm : ℚ) * cfg.regErrThres < 12345678
    ∧ (∀ (perfThres : ℚ) (gpow : Nat → ℚ), cfg.useRegression = true →
        sumyLoop gmem (numProbRec cfg prm) > 0 →
        (modelSelect cfg prm gmem buf).2.regErrMin = 12345678 →
        (fitDevice cfg prm perfThres gmem gpow buf).freqBound = (prm.maxFreq : ℚ)
          ∧ (fitDevice cfg prm perfThres gmem gpow buf).freqEff = (prm.freqAvgEff : ℚ)) := by
  have hN : numProbRec cfg prm = 8 := by
    unfold numProbRec
    rw [hk, hr]
  have hthr : (numProbRec cfg prm : ℚ) * cfg.regErrThres < 12345678 := by
    rw [hN, ht]
    norm_num
  obtain ⟨x10, x11, x12, x13, _, _, _, _, x20, x21, x22, x23, _⟩ :=
    partition_default prm gmem buf hk
  have h01 : ((prm.probFreqs 0 : Int) : ℚ) < ((prm.probFreqs 1 : Int) : ℚ) := by
    exact_mod_cast hP.1
  have h23 : ((prm.probFreqs 2 : Int) : ℚ) < ((prm.probFreqs 3 : Int) : ℚ) := by
    exact_mod_cast hP.2.2
  have hpos : 0 < foldDet (prm.probFreqs (2 - 1)) (2 * cfg.numProbRep)
      (partitionLoop prm 2 gmem ⟨0, 0, buf⟩ (numProbRec cfg prm)).buf.x1
      (partitionLoop prm 2 gmem ⟨0, 0, buf⟩ (numProbRec cfg prm)).buf.y1
      ((prm.numProbFreq - 2) * cfg.numProbRep)
      (partitionLoop prm 2 gmem ⟨0, 0, buf⟩ (numProbRec cfg prm)).buf.x2
      (partitionLoop prm 2 gmem ⟨0, 0, buf⟩ (numProbRec cfg prm)).buf.y2 := by
    rw [hN, hk, hr]
    exact foldDet_default_pos (prm.probFreqs 1) _ _ _ _ _ _ _ x10 x11 x12 x13 x20 x21 x22 x23
      h01 h23
  refine ⟨hpos, ?_, hthr, ?_⟩
  · obtain ⟨a1, b1, a2, b2, e, hb, _⟩ := foldline_solution _ _ _ _ _ _ _ (ne_of_gt hpos)
    exact ⟨a1, b1, a2, b2, e, hb⟩
  · intro p gpow hreg hsum hmin
    have hgt : (modelSelect cfg prm gmem buf).2.regErrMin
        > (numProbRec cfg prm : ℚ) * cfg.regErrThres := by
      rw [hmin]
      exact hthr
    unfold fitDevice
    simp only []
    rw [if_pos hreg, if_pos hsum, if_pos hgt]
    exact ⟨rfl, rfl⟩

theorem C39_determinant_guard_unreachable_witness :
    ((params Machine.v100_300w).numProbFreq = 4 ∧ defaultConfig.numProbRep = 2
      ∧ defaultConfig.regErrThres = 100)
    ∧ 0 < foldDet ((params Machine.v100_300w).probFreqs (2 - 1)) (2 * defaultConfig.numProbRep)
          (partitionLoop (params Machine.v100_300w) 2 (fun j => (j : ℚ))
            ⟨0, 0, ⟨fun _ => 0, fun _ => 0, fun _ => 0, fun _ => 0⟩⟩
            (numProbRec defaultConfig (params Machine.v100_300w))).buf.x1
          (partitionLoop (params Machine.v100_300w) 2 (fun j => (j : ℚ))
            ⟨0, 0, ⟨fun _ => 0, fun _ => 0, fun _ => 0, fun _ => 0⟩⟩
            (numProbRec defaultConfig (params Machine.v100_300w))).buf.y1
          (((params Machine.v100_300w).numProbFreq - 2) * defaultConfig.numProbRep)
          (partitionLoop (params Machine.v100_300w) 2 (fun j => (j : ℚ))
            ⟨0, 0, ⟨fun _ => 0, fun _ => 0, fun _ => 0, fun _ => 0⟩⟩
            (numProbRec defaultConfig (params Machine.v100_300w))).buf.x2
          (partitionLoop (params Machine.v100_300w) 2 (fun j => (j : ℚ))
            ⟨0, 0, ⟨fun _ => 0, fun _ => 0, fun _ => 0, fun _ => 0⟩⟩
            (numProbRec defaultConfig (params Machine.v100_300w))).buf.y2 :=
  ⟨⟨rfl, rfl, rfl⟩,
    (C39_determinant_guard_unreachable defaultConfig (params Machine.v100_300w)
      (fun j => (j : ℚ)) ⟨fun _ => 0, fun _ => 0, fun _ => 0, fun _ => 0⟩ rfl rfl rfl
      (by decide)).1⟩

/-! ## The knee of a used fold-line model -/

/-- The knee of a retained candidate that is not the sentinel: it lies at or
above `probFreqs[turn-1]`, and at or below `probFreqs[turn]` or at
`probFreqs[turn-1]`. -/
theorem foldCandidate_knee (cfg : Config) (prm : Params) (gmem : Nat → ℚ) (turn : Nat)
    (buf : Scratch)
    (hlt : (foldCandidate cfg prm gmem turn buf).1.slope2
      < (foldCandidate cfg prm gmem turn buf).1.slope1)
    (hne : (foldCandidate cfg prm gmem turn buf).1.slope1 ≠ -1
      ∨ (foldCandidate cfg prm gmem turn buf).1.regErr ≠ 12345678) :
    ((prm.probFreqs (turn - 1) : ℚ)
          ≤ ((foldCandidate cfg prm gmem turn buf).1.intercept1
              - (foldCandidate cfg prm gmem turn buf).1.intercept2)
            / ((foldCandidate cfg prm gmem turn buf).1.slope2
              - (foldCandidate cfg prm gmem turn buf).1.slope1)
        ∧ ((foldCandidate cfg prm gmem turn buf).1.intercept1
              - (foldCandidate cfg prm gmem turn buf).1.intercept2)
            / ((foldCandidate cfg prm gmem turn buf).1.slope2
              - (foldCandidate cfg prm gmem turn buf).1.slope1) ≤ (prm.probFreqs turn : ℚ))
      ∨ ((foldCandidate cfg prm gmem turn buf).1.intercept1
          - (foldCandidate cfg prm gmem turn buf).1.intercept2)
        / ((foldCandidate cfg prm gmem turn buf).1.slope2
          - (foldCandidate cfg prm gmem turn buf).1.slope1) = (prm.probFreqs (turn - 1) : ℚ) := by
  obtain ⟨l1, l2, n1, n2, X1, Y1, X2, Y2, h⟩ := foldCandidate_shape cfg prm gmem turn buf
  rcases h with ⟨hc, he⟩ | he
  · rw [he] at hlt ⊢
    simp only [] at hlt ⊢
    rw [if_pos (ne_of_lt hlt)] at hc
    exact Or.inl hc
  · rw [he] at hlt hne ⊢
    by_cases hH : foldDet (prm.probFreqs (turn - 1)) n1 X1 Y1 n2 X2 Y2 = 0
    · rw [foldline_sentinel _ _ _ _ _ _ _ hH] at hne
      rcases hne with h | h
      · exact absurd rfl h
      · exact absurd rfl h
    · right
      obtain ⟨hb, _⟩ := foldline_normal (prm.probFreqs (turn - 1)) n1 X1 Y1 n2 X2 Y2 hH
      have hne2 : (foldlineRegression (prm.probFreqs (turn - 1)) n1 X1 Y1 n2 X2 Y2).slope2
          - (foldlineRegression (prm.probFreqs (turn - 1)) n1 X1 Y1 n2 X2 Y2).slope1 ≠ 0 := by
        intro h0
        linarith
      rw [div_eq_iff hne2, hb]
      ring

/-- The knee of a result of the constrained fit that is not the sentinel is
`xc`. -/
theorem foldline_knee (xc : Int) (num1 : Nat) (X1 Y1 : Nat → ℚ) (num2 : Nat) (X2 Y2 : Nat → ℚ)
    (hlt : (foldlineRegression xc num1 X1 Y1 num2 X2 Y2).slope2
      < (foldlineRegression xc num1 X1 Y1 num2 X2 Y2).slope1)
    (hne : (foldlineRegression xc num1 X1 Y1 num2 X2 Y2).slope1 ≠ -1
      ∨ (foldlineRegression xc num1 X1 Y1 num2 X2 Y2).regErr ≠ 12345678) :
    ((foldlineRegression xc num1 X1 Y1 num2 X2 Y2).intercept1
        - (foldlineRegression xc num1 X1 Y1 num2 X2 Y2).intercept2)
      / ((foldlineRegression xc num1 X1 Y1 num2 X2 Y2).slope2
        - (foldlineRegression xc num1 X1 Y1 num2 X2 Y2).slope1) = (xc : ℚ) := by
  by_cases hH : foldDet xc num1 X1 Y1 num2 X2 Y2 = 0
  · rw [foldline_sentinel _ _ _ _ _ _ _ hH] at hne
    rcases hne with h | h
    · exact absurd rfl h
    · exact absurd rfl h
  · obtain ⟨hb, _⟩ := foldline_normal xc num1 X1 Y1 num2 X2 Y2 hH
    have hne2 : (foldlineRegression xc num1 X1 Y1 num2 X2 Y2).slope2
        - (foldlineRegression xc num1 X1 Y1 num2 X2 Y2).slope1 ≠ 0 := by
      intro h0
      linarith
    rw [div_eq_iff hne2, hb]
    ring

/-- Model selection on a burst that lies on a fold line with knee
`probFreqs[turn]` selects that turn with error 0. -/
theorem modelSelect_on_fold_err (cfg : Config) (prm : Params) (gmem : Nat → ℚ) (buf : Scratch)
    (turn : Nat) (a1 b1 a2 b2 : ℚ) (hr : 0 < cfg.numProbRep)
    (hP : ∀ i j, i < j → j < prm.numProbFreq → prm.probFreqs i < prm.probFreqs j)
    (hturn2 : 2 ≤ turn) (hturnk : turn + 2 ≤ prm.numProbFreq)
    (hy : ∀ j, j < numProbRec cfg prm →
      gmem j = if ifreqOf prm.numProbFreq j < turn then a1 * xOf prm j + b1
        else a2 * xOf prm j + b2)
    (hknee : a1 * (prm.probFreqs turn : ℚ) + b1 = a2 * (prm.probFreqs turn : ℚ) + b2)
    (ha : a2 < a1) :
    (modelSelect cfg prm gmem buf).2.turn_Opt = turn
      ∧ (modelSelect cfg prm gmem buf).2.regErrMin = 0 := by
  have h0 := single_regErr_pos cfg prm gmem turn a1 b1 a2 b2 hr hP hturn2 hturnk hy hknee ha
  have hn : prm.numProbFreq - 3 = turn - 2 + 1 + (prm.numProbFreq - 2 - turn) := by omega
  have hms : (modelSelect cfg prm gmem buf).2
      = turnLoop cfg prm gmem
          ⟨0, (linearRegression (numProbRec cfg prm) (xOf prm) gmem).regErr, 0, 0, 0, 0, buf⟩
          (prm.numProbFreq - 3) := rfl
  rw [hms, hn]
  obtain ⟨t1, t2, _⟩ := turnLoop_from_turn cfg prm gmem
    ⟨0, (linearRegression (numProbRec cfg prm) (xOf prm) gmem).regErr, 0, 0, 0, 0, buf⟩
    turn a1 b1 a2 b2 hr hP hturn2 hturnk hy hknee ha h0 (prm.numProbFreq - 2 - turn)
  exact ⟨t1, t2⟩

/-- The knee of a selected fold line that is not the sentinel of the
constrained fit: `2 ≤ turn_Opt ≤ numProbFreq - 2`, `slope2 < slope1`, and the
knee lies in `[probFreqs[turn_Opt - 1], probFreqs[turn_Opt]]`. -/
theorem modelSelect_knee (cfg : Config) (prm : Params) (gmem : Nat → ℚ) (buf : Scratch)
    (hP : ∀ i j, i < j → j < prm.numProbFreq → prm.probFreqs i < prm.probFreqs j)
    (hsel : (modelSelect cfg prm gmem buf).2.turn_Opt ≠ 0)
    (hns : (modelSelect cfg prm gmem buf).2.slope1_Opt ≠ -1
      ∨ (modelSelect cfg prm gmem buf).2.regErrMin ≠ 12345678) :
    2 ≤ (modelSelect cfg prm gmem buf).2.turn_Opt
    ∧ (modelSelect cfg prm gmem buf).2.turn_Opt + 2 ≤ prm.numProbFreq
    ∧ (modelSelect cfg prm gmem buf).2.slope2_Opt < (modelSelect cfg prm gmem buf).2.slope1_Opt
    ∧ (prm.probFreqs ((modelSelect cfg prm gmem buf).2.turn_Opt - 1) : ℚ)
        ≤ ((modelSelect cfg prm gmem buf).2.intercept1_Opt
            - (modelSelect cfg prm gmem buf).2.intercept2_Opt)
          / ((modelSelect cfg prm gmem buf).2.slope2_Opt
            - (modelSelect cfg prm gmem buf).2.slope1_Opt)
    ∧ ((modelSelect cfg prm gmem buf).2.intercept1_Opt
          - (modelSelect cfg prm gmem buf).2.intercept2_Opt)
        / ((modelSelect cfg prm gmem buf).2.slope2_Opt
          - (modelSelect cfg prm gmem buf).2.slope1_Opt)
        ≤ (prm.probFreqs (modelSelect cfg prm gmem buf).2.turn_Opt : ℚ) := by
  have hms : (modelSelect cfg prm gmem buf).2
      = turnLoop cfg prm gmem
          ⟨0, (linearRegression (numProbRec cfg prm) (xOf prm) gmem).regErr, 0, 0, 0, 0, buf⟩
          (prm.numProbFreq - 3) := rfl
  obtain ⟨_, _, hc⟩ := turnLoop_select cfg prm gmem
    ⟨0, (linearRegression (numProbRec cfg prm) (xOf prm) gmem).regErr, 0, 0, 0, 0, buf⟩ rfl
    (prm.numProbFreq - 3)
  rw [← hms] at hc
  rcases hc with ⟨c1, _, _⟩ | ⟨i, hi, c1, c2, c3, c4, c5, c6, c7, c8, _⟩
  · exact absurd c1 hsel
  · have hlt : (modelSelect cfg prm gmem buf).2.slope2_Opt
        < (modelSelect cfg prm gmem buf).2.slope1_Opt := by
      rw [c5, c7]
      exact c1
    have hmono : ((prm.probFreqs (i + 2 - 1) : Int) : ℚ) ≤ ((prm.probFreqs (i + 2) : Int) : ℚ) := by
      have := hP (i + 2 - 1) (i + 2) (by omega) (by omega)
      exact_mod_cast le_of_lt this
    have e : turnCandidate cfg prm gmem
        ⟨0, (linearRegression (numProbRec cfg prm) (xOf prm) gmem).regErr, 0, 0, 0, 0, buf⟩ (i + 2)
        = (foldCandidate cfg prm gmem (i + 2)
            (turnLoop cfg prm gmem
              ⟨0, (linearRegression (numProbRec cfg prm) (xOf prm) gmem).regErr,
                0, 0, 0, 0, buf⟩ (i + 2 - 2)).buf).1 := rfl
    rw [c3, c5] at hns
    rw [e] at hns c1
    have hknee := foldCandidate_knee cfg prm gmem (i + 2) _ c1 hns
    refine ⟨by rw [c2]; omega, by rw [c2]; omega, hlt, ?_⟩
    rw [c2, c5, c6, c7, c8, e]
    rcases hknee with h | h
    · exact h
    · rw [h]
      exact ⟨le_refl _, hmono⟩

/-- C37 (in exact arithmetic). For every strictly increasing probe list and
every burst: a fold-line model that model selection returns (`turn_Opt ≠ 0`)
and that the error threshold does not discard
(`regErrMin ≤ numProbRec * regErrThres`, with the threshold below the sentinel
error 12345678, as it is with the source's constants) has
`2 ≤ turn_Opt ≤ numProbFreq - 2` and `slope1 > slope2` strictly, so the divisor
`slope2 - slope1` of the knee is not zero, and the knee
`(intercept1 - intercept2) / (slope2 - slope1)`, evaluated in exact arithmetic,
lies in `[probFreqs[turn_Opt - 1], probFreqs[turn_Opt]]`; and when the selected
model is a result of the constrained fit at `xc = probFreqs[turn_Opt - 1]`, the
exact knee is `probFreqs[turn_Opt - 1]`. -/
theorem C37_knee_well_formed (cfg : Config) (prm : Params) (gmem : Nat → ℚ) (buf : Scratch)
    (hP : ∀ i j, i < j → j < prm.numProbFreq → prm.probFreqs i < prm.probFreqs j)
    (hthr : (numProbRec cfg prm : ℚ) * cfg.regErrThres < 12345678)
    (hsel : (modelSelect cfg prm gmem buf).2.turn_Opt ≠ 0)
    (hkeep : ¬ (modelSelect cfg prm gmem buf).2.regErrMin
      > (numProbRec cfg prm : ℚ) * cfg.regErrThres) :
    2 ≤ (modelSelect cfg prm gmem buf).2.turn_Opt
    ∧ (modelSelect cfg prm gmem buf).2.turn_Opt + 2 ≤ prm.numProbFreq
    ∧ (modelSelect cfg prm gmem buf).2.slope2_Opt < (modelSelect cfg prm gmem buf).2.slope1_Opt
    ∧ (modelSelect cfg prm gmem buf).2.slope2_Opt - (modelSelect cfg prm gmem buf).2.slope1_Opt ≠ 0
    ∧ (prm.probFreqs ((modelSelect cfg prm gmem buf).2.turn_Opt - 1) : ℚ)
        ≤ ((modelSelect cfg prm gmem buf).2.intercept1_Opt
            - (modelSelect cfg prm gmem buf).2.intercept2_Opt)
          / ((modelSelect cfg prm gmem buf).2.slope2_Opt
            - (modelSelect cfg prm gmem buf).2.slope1_Opt)
    ∧ ((modelSelect cfg prm gmem buf).2.intercept1_Opt
          - (modelSelect cfg prm gmem buf).2.intercept2_Opt)
        / ((modelSelect cfg prm gmem buf).2.slope2_Opt
          - (modelSelect cfg prm gmem buf).2.slope1_Opt)
        ≤ (prm.probFreqs (modelSelect cfg prm gmem buf).2.turn_Opt : ℚ)
    ∧ (∀ (num1 : Nat) (X1 Y1 : Nat → ℚ) (num2 : Nat) (X2 Y2 : Nat → ℚ),
        (⟨(modelSelect cfg prm gmem buf).2.slope1_Opt,
            (modelSelect cfg prm gmem buf).2.intercept1_Opt,
            (modelSelect cfg prm gmem buf).2.slope2_Opt,
            (modelSelect cfg prm gmem buf).2.intercept2_Opt,
            (modelSelect cfg prm gmem buf).2.regErrMin⟩ : FoldFit)
          = foldlineRegression (prm.probFreqs ((modelSelect cfg prm gmem buf).2.turn_Opt - 1))
              num1 X1 Y1 num2 X2 Y2 →
        ((modelSelect cfg prm gmem buf).2.intercept1_Opt
            - (modelSelect cfg prm gmem buf).2.intercept2_Opt)
          / ((modelSelect cfg prm gmem buf).2.slope2_Opt
            - (modelSelect cfg prm gmem buf).2.slope1_Opt)
          = (prm.probFreqs ((modelSelect cfg prm gmem buf).2.turn_Opt - 1) : ℚ)) := by
  have hreg : (modelSelect cfg prm gmem buf).2.regErrMin ≠ 12345678 := by
    intro h
    rw [h] at hkeep
    exact hkeep hthr
  obtain ⟨k1, k2, hlt, k4, k5⟩ := modelSelect_knee cfg prm gmem buf hP hsel (Or.inr hreg)
  refine ⟨k1, k2, hlt, ne_of_lt (by linarith), k4, k5, ?_⟩
  intro num1 X1 Y1 num2 X2 Y2 he
  have hf := foldline_knee (prm.probFreqs ((modelSelect cfg prm gmem buf).2.turn_Opt - 1))
    num1 X1 Y1 num2 X2 Y2
  rw [← he] at hf
  exact hf hlt (Or.inr hreg)

/-- C37 at a concrete burst: profile `v100-300w`, the source's constants, the
fold line `y = x` below the knee `probFreqs[2] = 1335` and `y = 1335` from it
on. -/
theorem C37_knee_well_formed_witness :
    ((numProbRec defaultConfig (params Machine.v100_300w) : ℚ) * defaultConfig.regErrThres
        < 12345678
      ∧ (modelSelect defaultConfig (params Machine.v100_300w)
          (fun j => if ifreqOf (params Machine.v100_300w).numProbFreq j < 2
            then 1 * xOf (params Machine.v100_300w) j + 0
            else 0 * xOf (params Machine.v100_300w) j + 1335)
          ⟨fun _ => 0, fun _ => 0, fun _ => 0, fun _ => 0⟩).2.turn_Opt ≠ 0
      ∧ ¬ (modelSelect defaultConfig (params Machine.v100_300w)
          (fun j => if ifreqOf (params Machine.v100_300w).numProbFreq j < 2
            then 1 * xOf (params Machine.v100_300w) j + 0
            else 0 * xOf (params Machine.v100_300w) j + 1335)
          ⟨fun _ => 0, fun _ => 0, fun _ => 0, fun _ => 0⟩).2.regErrMin
        > (numProbRec defaultConfig (params Machine.v100_300w) : ℚ) * defaultConfig.regErrThres)
    ∧ (modelSelect defaultConfig (params Machine.v100_300w)
          (fun j => if ifreqOf (params Machine.v100_300w).numProbFreq j < 2
            then 1 * xOf (params Machine.v100_300w) j + 0
            else 0 * xOf (params Machine.v100_300w) j + 1335)
          ⟨fun _ => 0, fun _ => 0, fun _ => 0, fun _ => 0⟩).2.slope2_Opt
        < (modelSelect defaultConfig (params Machine.v100_300w)
          (fun j => if ifreqOf (params Machine.v100_300w).numProbFreq j < 2
            then 1 * xOf (params Machine.v100_300w) j + 0
            else 0 * xOf (params Machine.v100_300w) j + 1335)
          ⟨fun _ => 0, fun _ => 0, fun _ => 0, fun _ => 0⟩).2.slope1_Opt :=
  have h := modelSelect_on_fold_err defaultConfig (params Machine.v100_300w)
    (fun j => if ifreqOf (params Machine.v100_300w).numProbFreq j < 2
      then 1 * xOf (params Machine.v100_300w) j + 0
      else 0 * xOf (params Machine.v100_300w) j + 1335)
    ⟨fun _ => 0, fun _ => 0, fun _ => 0, fun _ => 0⟩ 2 1 0 0 1335 (by decide)
    (probFreqs_strictMono Machine.v100_300w) (le_refl 2) (by decide) (fun _ _ => rfl)
    (by norm_num [params]) (by norm_num)
  have hthr : (numProbRec defaultConfig (params Machine.v100_300w) : ℚ) * defaultConfig.regErrThres
      < 12345678 := by
    rw [numProbRec_thres_default]
    norm_num
  have hsel : (modelSelect defaultConfig (params Machine.v100_300w)
      (fun j => if ifreqOf (params Machine.v100_300w).numProbFreq j < 2
        then 1 * xOf (params Machine.v100_300w) j + 0
        else 0 * xOf (params Machine.v100_300w) j + 1335)
      ⟨fun _ => 0, fun _ => 0, fun _ => 0, fun _ => 0⟩).2.turn_Opt ≠ 0 := by
    rw [h.1]
    decide
  have hkeep : ¬ (modelSelect defaultConfig (params Machine.v100_300w)
      (fun j => if ifreqOf (params Machine.v100_300w).numProbFreq j < 2
        then 1 * xOf (params Machine.v100_300w) j + 0
        else 0 * xOf (params Machine.v100_300w) j + 1335)
      ⟨fun _ => 0, fun _ => 0, fun _ => 0, fun _ => 0⟩).2.regErrMin
      > (numProbRec defaultConfig (params Machine.v100_300w) : ℚ) * defaultConfig.regErrThres := by
    rw [h.2, numProbRec_thres_default]
    norm_num
  ⟨⟨hthr, hsel, hkeep⟩,
    (C37_knee_well_formed defaultConfig (params Machine.v100_300w)
      (fun j => if ifreqOf (params Machine.v100_300w).numProbFreq j < 2
        then 1 * xOf (params Machine.v100_300w) j + 0
        else 0 * xOf (params Machine.v100_300w) j + 1335)
      ⟨fun _ => 0, fun _ => 0, fun _ => 0, fun _ => 0⟩
      (probFreqs_strictMono Machine.v100_300w) hthr hsel hkeep).2.2.1⟩

/-! ## The efficiency choice -/

/-- The search of lines 963-972 returns the first entry of greatest power
efficiency among `0 .. n`. -/
theorem effLoop_argmax (prm : Params) (pe : Nat → ℚ) (n : Nat) :
    ∃ js, js ≤ n ∧ effLoop prm pe n = (pe js, prm.probFreqs js)
      ∧ (∀ j, j ≤ n → pe j ≤ pe js) ∧ (∀ j, j < js → pe j < pe js) := by
  induction n with
  | zero =>
    refine ⟨0, le_refl 0, rfl, ?_, ?_⟩
    · intro j hj
      have : j = 0 := by omega
      subst this
      exact le_refl _
    · intro j hj
      omega
  | succ n ih =>
    obtain ⟨js, hjs, he, hmax, hfirst⟩ := ih
    by_cases h : pe (n + 1) > (effLoop prm pe n).1
    · refine ⟨n + 1, le_refl _, ?_, ?_, ?_⟩
      · simp only [effLoop]
        rw [if_pos h]
      · intro j hj
        rcases Nat.eq_or_lt_of_le hj with e | e
        · rw [e]
        · rw [he] at h
          exact le_of_lt (lt_of_le_of_lt (hmax j (by omega)) h)
      · intro j hj
        rw [he] at h
        exact lt_of_le_of_lt (hmax j (by omega)) h
    · refine ⟨js, by omega, ?_, ?_, hfirst⟩
      · simp only [effLoop]
        rw [if_neg h, he]
      · intro j hj
        rcases Nat.eq_or_lt_of_le hj with e | e
        · rw [e]
          rw [he] at h
          exact not_lt.mp h
        · exact hmax j (by omega)

/-- Model selection on a burst that lies on one line: the single fit is that
line with error 0, and no fold line is selected. -/
theorem modelSelect_line (cfg : Config) (prm : Params) (gmem : Nat → ℚ) (buf : Scratch) (a b : ℚ)
    (hr : 0 < cfg.numProbRep) (hk : 2 ≤ prm.numProbFreq)
    (hP : prm.probFreqs 0 ≠ prm.probFreqs 1)
    (hg : ∀ j, j < numProbRec cfg prm → gmem j = a * xOf prm j + b) :
    (modelSelect cfg prm gmem buf).1 = ⟨a, b, 0⟩
      ∧ (modelSelect cfg prm gmem buf).2.turn_Opt = 0
      ∧ (modelSelect cfg prm gmem buf).2.regErrMin = 0 := by
  have hN : prm.numProbFreq ≤ numProbRec cfg prm := Nat.le_mul_of_pos_right _ hr
  have hl : linearRegression (numProbRec cfg prm) (xOf prm) gmem = ⟨a, b, 0⟩ := by
    apply linearRegression_on_line
    · refine ⟨0, 1, by omega, by omega, ?_⟩
      unfold xOf
      rw [ifreqOf_self _ _ (by omega), ifreqOf_self _ _ (by omega)]
      exact_mod_cast hP
    · exact hg
  have hms : modelSelect cfg prm gmem buf
      = (linearRegression (numProbRec cfg prm) (xOf prm) gmem,
          turnLoop cfg prm gmem
            ⟨0, (linearRegression (numProbRec cfg prm) (xOf prm) gmem).regErr, 0, 0, 0, 0, buf⟩
            (prm.numProbFreq - 3)) := rfl
  rw [hms, hl]
  obtain ⟨t1, t2⟩ := turnLoop_zero cfg prm gmem ⟨0, 0, 0, 0, 0, 0, buf⟩ rfl rfl (prm.numProbFreq - 3)
  exact ⟨rfl, t1, t2⟩

/-- The fold-line prediction on the two sides of a knee, with `a2 < a1`. -/
theorem specFoldPrediction_sides (a1 b1 a2 b2 x : ℚ) (h12 : a2 < a1) :
    (x ≤ (b1 - b2) / (a2 - a1) → specFoldPrediction a1 b1 a2 b2 x = a1 * x + b1)
      ∧ ((b1 - b2) / (a2 - a1) ≤ x → specFoldPrediction a1 b1 a2 b2 x = a2 * x + b2) := by
  have hne : a2 - a1 ≠ 0 := ne_of_lt (by linarith)
  unfold specFoldPrediction
  refine ⟨fun h => if_pos h, ?_⟩
  intro h
  by_cases hx : x ≤ (b1 - b2) / (a2 - a1)
  · rw [if_pos hx]
    have e : x = (b1 - b2) / (a2 - a1) := le_antisymm hx h
    rw [e]
    field_simp
    ring
  · rw [if_neg hx]

/-- C31 as stated fails: on `v100-300w` with the source's constants, a burst on
the line `y = -x + 2000` is fitted without error by the single line of slope
`-1`, the model is in use, and `modelPerf[1]` is the line's value at
`probFreqs[0]` (1048), not its value at `probFreqs[1]` (853). -/
theorem C31_counterexample :
    defaultConfig.useRegression = true
    ∧ sumyLoop (fun j => -1 * xOf (params Machine.v100_300w) j + 2000)
        (numProbRec defaultConfig (params Machine.v100_300w)) > 0
    ∧ ¬ (modelSelect defaultConfig (params Machine.v100_300w)
          (fun j => -1 * xOf (params Machine.v100_300w) j + 2000)
          ⟨fun _ => 0, fun _ => 0, fun _ => 0, fun _ => 0⟩).2.regErrMin
        > (numProbRec defaultConfig (params Machine.v100_300w) : ℚ) * defaultConfig.regErrThres
    ∧ modelPerf (params Machine.v100_300w)
        (modelSelect defaultConfig (params Machine.v100_300w)
          (fun j => -1 * xOf (params Machine.v100_300w) j + 2000)
          ⟨fun _ => 0, fun _ => 0, fun _ => 0, fun _ => 0⟩).1
        (modelSelect defaultConfig (params Machine.v100_300w)
          (fun j => -1 * xOf (params Machine.v100_300w) j + 2000)
          ⟨fun _ => 0, fun _ => 0, fun _ => 0, fun _ => 0⟩).2 1 = 1048
    ∧ specModelValue
        (modelSelect defaultConfig (params Machine.v100_300w)
          (fun j => -1 * xOf (params Machine.v100_300w) j + 2000)
          ⟨fun _ => 0, fun _ => 0, fun _ => 0, fun _ => 0⟩).1
        (modelSelect defaultConfig (params Machine.v100_300w)
          (fun j => -1 * xOf (params Machine.v100_300w) j + 2000)
          ⟨fun _ => 0, fun _ => 0, fun _ => 0, fun _ => 0⟩).2
        ((params Machine.v100_300w).probFreqs 1 : ℚ) = 853
    ∧ modelPerf (params Machine.v100_300w)
        (modelSelect defaultConfig (params Machine.v100_300w)
          (fun j => -1 * xOf (params Machine.v100_300w) j + 2000)
          ⟨fun _ => 0, fun _ => 0, fun _ => 0, fun _ => 0⟩).1
        (modelSelect defaultConfig (params Machine.v100_300w)
          (fun j => -1 * xOf (params Machine.v100_300w) j + 2000)
          ⟨fun _ => 0, fun _ => 0, fun _ => 0, fun _ => 0⟩).2 1
      ≠ specModelValue
        (modelSelect defaultConfig (params Machine.v100_300w)
          (fun j => -1 * xOf (params Machine.v100_300w) j + 2000)
          ⟨fun _ => 0, fun _ => 0, fun _ => 0, fun _ => 0⟩).1
        (modelSelect defaultConfig (params Machine.v100_300w)
          (fun j => -1 * xOf (params Machine.v100_300w) j + 2000)
          ⟨fun _ => 0, fun _ => 0, fun _ => 0, fun _ => 0⟩).2
        ((params Machine.v100_300w).probFreqs 1 : ℚ) := by
  obtain ⟨m1, m2, m3⟩ := modelSelect_line defaultConfig (params Machine.v100_300w)
    (fun j => -1 * xOf (params Machine.v100_300w) j + 2000)
    ⟨fun _ => 0, fun _ => 0, fun _ => 0, fun _ => 0⟩ (-1) 2000 (by decide) (by decide)
    (by decide) (fun _ _ => rfl)
  have hperf : modelPerf (params Machine.v100_300w)
      (modelSelect defaultConfig (params Machine.v100_300w)
        (fun j => -1 * xOf (params Machine.v100_300w) j + 2000)
        ⟨fun _ => 0, fun _ => 0, fun _ => 0, fun _ => 0⟩).1
      (modelSelect defaultConfig (params Machine.v100_300w)
        (fun j => -1 * xOf (params Machine.v100_300w) j + 2000)
        ⟨fun _ => 0, fun _ => 0, fun _ => 0, fun _ => 0⟩).2 1 = 1048 := by
    unfold modelPerf
    rw [if_pos m2, m1]
    norm_num [params]
  have hspec : specModelValue
      (modelSelect defaultConfig (params Machine.v100_300w)
        (fun j => -1 * xOf (params Machine.v100_300w) j + 2000)
        ⟨fun _ => 0, fun _ => 0, fun _ => 0, fun _ => 0⟩).1
      (modelSelect defaultConfig (params Machine.v100_300w)
        (fun j => -1 * xOf (params Machine.v100_300w) j + 2000)
        ⟨fun _ => 0, fun _ => 0, fun _ => 0, fun _ => 0⟩).2
      ((params Machine.v100_300w).probFreqs 1 : ℚ) = 853 := by
    unfold specModelValue
    rw [if_pos m2, m1]
    norm_num [params]
  refine ⟨rfl, ?_, ?_, hperf, hspec, ?_⟩
  · norm_num [sumyLoop, numProbRec, params, defaultConfig, xOf, ifreqOf]
  · rw [m3, numProbRec_thres_default]
    norm_num
  · rw [hperf, hspec]
    norm_num

/-- C31 (amended, in exact arithmetic).  For every strictly increasing probe
list, whenever the model is used (regression on, positive sum of the recorded memory
utilisations, least error within the threshold) and every average power is
positive, for every probe index `j`: `modelPerf[j]` is the value of the
selected model `M*` at `probFreqs[j]` when `M*` is a single line of positive
slope or a fold line with both slopes positive; for a single line of slope
`≤ 0` it is `M*` at `probFreqs[0]`; for a fold line with `slope1 > 0 ≥ slope2`
it is `M*` at `probFreqs[j]` below `turn_Opt` and `M*` at the knee from
`turn_Opt` on; for a fold line with `slope1 ≤ 0` it is the first line at
`probFreqs[0]`.  The power efficiency is the quotient
`modelPerf[j] / avg_gPowers[j]` by a positive divisor.  The search of lines
963-972 returns, for every array it is given, `probFreqs[j*]` for the lowest
index `j*` of greatest value; and `freqEff = probFreqs[j*]` for the index `j*`
of greatest power efficiency whenever no two power efficiencies are equal. -/
theorem C31_efficient_choice (cfg : Config) (prm : Params) (perfThres : ℚ) (gmem gpow : Nat → ℚ)
    (buf : Scratch)
    (hP : ∀ i j, i < j → j < prm.numProbFreq → prm.probFreqs i < prm.probFreqs j)
    (hreg : cfg.useRegression = true) (hsum : sumyLoop gmem (numProbRec cfg prm) > 0)
    (hkeep : ¬ (modelSelect cfg prm gmem buf).2.regErrMin
      > (numProbRec cfg prm : ℚ) * cfg.regErrThres)
    (hpow : ∀ j, j < prm.numProbFreq →
      0 < avgLoop prm.numProbFreq cfg.numProbRep gpow (numProbRec cfg prm) j) :
    let ms := modelSelect cfg prm gmem buf
    let knee := (ms.2.intercept1_Opt - ms.2.intercept2_Opt) / (ms.2.slope2_Opt - ms.2.slope1_Opt)
    let powerEffici := fun j => modelPerf prm ms.1 ms.2 j
      / avgLoop prm.numProbFreq cfg.numProbRep gpow (numProbRec cfg prm) j
    (∀ j, j < prm.numProbFreq →
      (ms.2.turn_Opt = 0 → 0 < ms.1.slope →
        modelPerf prm ms.1 ms.2 j = specModelValue ms.1 ms.2 (prm.probFreqs j : ℚ))
      ∧ (ms.2.turn_Opt ≠ 0 → 0 < ms.2.slope1_Opt → 0 < ms.2.slope2_Opt →
        modelPerf prm ms.1 ms.2 j = specModelValue ms.1 ms.2 (prm.probFreqs j : ℚ))
      ∧ (ms.2.turn_Opt = 0 → ms.1.slope ≤ 0 →
        modelPerf prm ms.1 ms.2 j = specModelValue ms.1 ms.2 (prm.probFreqs 0 : ℚ))
      ∧ (ms.2.turn_Opt ≠ 0 → 0 < ms.2.slope1_Opt → ms.2.slope2_Opt ≤ 0 →
        modelPerf prm ms.1 ms.2 j
          = if j < ms.2.turn_Opt then specModelValue ms.1 ms.2 (prm.probFreqs j : ℚ)
            else specModelValue ms.1 ms.2 knee)
      ∧ (ms.2.turn_Opt ≠ 0 → ms.2.slope1_Opt ≤ 0 →
        modelPerf prm ms.1 ms.2 j
          = ms.2.slope1_Opt * (prm.probFreqs 0 : ℚ) + ms.2.intercept1_Opt))
    ∧ (∀ j, j < prm.numProbFreq →
        powerEffici j * avgLoop prm.numProbFreq cfg.numProbRep gpow (numProbRec cfg prm) j
          = modelPerf prm ms.1 ms.2 j)
    ∧ (∀ pe : Nat → ℚ, ∃ jstar, jstar ≤ prm.numProbFreq - 1
        ∧ effLoop prm pe (prm.numProbFreq - 1) = (pe jstar, prm.probFreqs jstar)
        ∧ (∀ j, j ≤ prm.numProbFreq - 1 → pe j ≤ pe jstar)
        ∧ (∀ j, j < jstar → pe j < pe jstar))
    ∧ ((∀ i j, i < j → j ≤ prm.numProbFreq - 1 → powerEffici i ≠ powerEffici j) →
        ∃ jstar, jstar ≤ prm.numProbFreq - 1
          ∧ (fitDevice cfg prm perfThres gmem gpow buf).freqEff = (prm.probFreqs jstar : ℚ)
          ∧ ∀ j, j ≤ prm.numProbFreq - 1 → j ≠ jstar → powerEffici j < powerEffici jstar) := by
  intro ms knee powerEffici
  have hfit : (fitDevice cfg prm perfThres gmem gpow buf).freqEff
      = (((effLoop prm powerEffici (prm.numProbFreq - 1)).2 : Int) : ℚ) := by
    unfold fitDevice
    simp only []
    rw [if_pos hreg, if_pos hsum, if_neg hkeep]
  refine ⟨?_, ?_, ?_, ?_⟩
  · intro j hj
    refine ⟨?_, ?_, ?_, ?_, ?_⟩
    · intro ht hs
      unfold modelPerf specModelValue
      rw [if_pos ht, if_pos hs, if_pos ht]
    · intro ht h1 h2
      obtain ⟨k1, k2, hlt, k4, k5⟩ := modelSelect_knee cfg prm gmem buf hP ht
        (Or.inl (by
          intro h
          rw [h] at h1
          norm_num at h1))
      have k1b : 2 ≤ ms.2.turn_Opt := k1
      have k2b : ms.2.turn_Opt + 2 ≤ prm.numProbFreq := k2
      obtain ⟨s1, s2⟩ := specFoldPrediction_sides ms.2.slope1_Opt ms.2.intercept1_Opt
        ms.2.slope2_Opt ms.2.intercept2_Opt (prm.probFreqs j : ℚ) hlt
      have hspec : ∀ x, specModelValue ms.1 ms.2 x
          = specFoldPrediction ms.2.slope1_Opt ms.2.intercept1_Opt ms.2.slope2_Opt
              ms.2.intercept2_Opt x := by
        intro x
        unfold specModelValue
        rw [if_neg ht]
      rw [hspec]
      unfold modelPerf
      rw [if_neg ht, if_pos ⟨h1, h2⟩]
      by_cases hjt : j ≥ ms.2.turn_Opt
      · rw [if_pos hjt]
        refine (s2 (le_trans k5 ?_)).symm
        rcases Nat.eq_or_lt_of_le hjt with e | e
        · rw [e]
        · have := hP ms.2.turn_Opt j e hj
          exact_mod_cast le_of_lt this
      · rw [if_neg hjt]
        refine (s1 (le_trans ?_ k4)).symm
        rcases Nat.eq_or_lt_of_le (show j ≤ ms.2.turn_Opt - 1 by omega) with e | e
        · rw [e]
        · have := hP j (ms.2.turn_Opt - 1) e (by omega)
          exact_mod_cast le_of_lt this
    · intro ht hs
      unfold modelPerf specModelValue
      rw [if_pos ht, if_neg (not_lt.mpr hs), if_pos ht]
    · intro ht h1 h2
      obtain ⟨k1, k2, hlt, k4, k5⟩ := modelSelect_knee cfg prm gmem buf hP ht
        (Or.inl (by
          intro h
          rw [h] at h1
          norm_num at h1))
      have k1b : 2 ≤ ms.2.turn_Opt := k1
      have k2b : ms.2.turn_Opt + 2 ≤ prm.numProbFreq := k2
      have hne : ms.2.slope2_Opt - ms.2.slope1_Opt ≠ 0 := ne_of_lt (by linarith)
      have hspec : ∀ x, specModelValue ms.1 ms.2 x
          = specFoldPrediction ms.2.slope1_Opt ms.2.intercept1_Opt ms.2.slope2_Opt
              ms.2.intercept2_Opt x := by
        intro x
        unfold specModelValue
        rw [if_neg ht]
      rw [hspec, hspec]
      unfold modelPerf
      rw [if_neg ht, if_neg (fun h => absurd h.2 (not_lt.mpr h2)), if_pos ⟨h2, h1⟩]
      by_cases hjt : j < ms.2.turn_Opt
      · rw [if_pos hjt, if_pos hjt]
        obtain ⟨s1, _⟩ := specFoldPrediction_sides ms.2.slope1_Opt ms.2.intercept1_Opt
          ms.2.slope2_Opt ms.2.intercept2_Opt (prm.probFreqs j : ℚ) hlt
        refine (s1 (le_trans ?_ k4)).symm
        rcases Nat.eq_or_lt_of_le (show j ≤ ms.2.turn_Opt - 1 by omega) with e | e
        · rw [e]
        · have := hP j (ms.2.turn_Opt - 1) e (by omega)
          exact_mod_cast le_of_lt this
      · rw [if_neg hjt, if_neg hjt]
        obtain ⟨s1, _⟩ := specFoldPrediction_sides ms.2.slope1_Opt ms.2.intercept1_Opt
          ms.2.slope2_Opt ms.2.intercept2_Opt knee hlt
        rw [s1 (le_refl _)]
        show _ = ms.2.slope1_Opt * ((ms.2.intercept1_Opt - ms.2.intercept2_Opt)
          / (ms.2.slope2_Opt - ms.2.slope1_Opt)) + ms.2.intercept1_Opt
        field_simp
        ring
    · intro ht h1
      unfold modelPerf
      rw [if_neg ht, if_neg (fun h => absurd h.1 (not_lt.mpr h1)),
        if_neg (fun h => absurd h.2 (not_lt.mpr h1))]
  · intro j hj
    exact div_mul_cancel₀ _ (ne_of_gt (hpow j hj))
  · intro pe
    exact effLoop_argmax prm pe (prm.numProbFreq - 1)
  · intro hne
    obtain ⟨js, hjs, he, hmax, hfirst⟩ := effLoop_argmax prm powerEffici (prm.numProbFreq - 1)
    refine ⟨js, hjs, ?_, ?_⟩
    · rw [hfit, he]
    · intro j hj hjs2
      rcases Nat.lt_or_gt_of_ne hjs2 with h | h
      · exact hfirst j h
      · exact lt_of_le_of_ne (hmax j hj) (Ne.symm (hne js j h hj))

/-- C31 (amended) at a concrete burst: profile `v100-300w`, the source's
constants, the line `y = x`, constant power 150. -/
theorem C31_efficient_choice_witness :
    (defaultConfig.useRegression = true
      ∧ sumyLoop (fun j => 1 * xOf (params Machine.v100_300w) j + 0)
          (numProbRec defaultConfig (params Machine.v100_300w)) > 0
      ∧ ¬ (modelSelect defaultConfig (params Machine.v100_300w)
            (fun j => 1 * xOf (params Machine.v100_300w) j + 0)
            ⟨fun _ => 0, fun _ => 0, fun _ => 0, fun _ => 0⟩).2.regErrMin
          > (numProbRec defaultConfig (params Machine.v100_300w) : ℚ) * defaultConfig.regErrThres
      ∧ ∀ j, j < (params Machine.v100_300w).numProbFreq →
          0 < avgLoop (params Machine.v100_300w).numProbFreq defaultConfig.numProbRep
            (fun _ => 150) (numProbRec defaultConfig (params Machine.v100_300w)) j)
    ∧ modelPerf (params Machine.v100_300w)
        (modelSelect defaultConfig (params Machine.v100_300w)
          (fun j => 1 * xOf (params Machine.v100_300w) j + 0)
          ⟨fun _ => 0, fun _ => 0, fun _ => 0, fun _ => 0⟩).1
        (modelSelect defaultConfig (params Machine.v100_300w)
          (fun j => 1 * xOf (params Machine.v100_300w) j + 0)
          ⟨fun _ => 0, fun _ => 0, fun _ => 0, fun _ => 0⟩).2 1
      = specModelValue
        (modelSelect defaultConfig (params Machine.v100_300w)
          (fun j => 1 * xOf (params Machine.v100_300w) j + 0)
          ⟨fun _ => 0, fun _ => 0, fun _ => 0, fun _ => 0⟩).1
        (modelSelect defaultConfig (params Machine.v100_300w)
          (fun j => 1 * xOf (params Machine.v100_300w) j + 0)
          ⟨fun _ => 0, fun _ => 0, fun _ => 0, fun _ => 0⟩).2
        ((params Machine.v100_300w).probFreqs 1 : ℚ) :=
  have hm := modelSelect_line defaultConfig (params Machine.v100_300w)
    (fun j => 1 * xOf (params Machine.v100_300w) j + 0)
    ⟨fun _ => 0, fun _ => 0, fun _ => 0, fun _ => 0⟩ 1 0 (by decide) (by decide)
    (by decide) (fun _ _ => rfl)
  have hsum : sumyLoop (fun j => 1 * xOf (params Machine.v100_300w) j + 0)
      (numProbRec defaultConfig (params Machine.v100_300w)) > 0 := by
    norm_num [sumyLoop, numProbRec, params, defaultConfig, xOf, ifreqOf]
  have hkeep : ¬ (modelSelect defaultConfig (params Machine.v100_300w)
      (fun j => 1 * xOf (params Machine.v100_300w) j + 0)
      ⟨fun _ => 0, fun _ => 0, fun _ => 0, fun _ => 0⟩).2.regErrMin
      > (numProbRec defaultConfig (params Machine.v100_300w) : ℚ) * defaultConfig.regErrThres := by
    rw [hm.2.2, numProbRec_thres_default]
    norm_num
  have hpow : ∀ j, j < (params Machine.v100_300w).numProbFreq →
      0 < avgLoop (params Machine.v100_300w).numProbFreq defaultConfig.numProbRep
        (fun _ => 150) (numProbRec defaultConfig (params Machine.v100_300w)) j := by
    intro j hj
    have hj4 : j = 0 ∨ j = 1 ∨ j = 2 ∨ j = 3 := by
      have : (params Machine.v100_300w).numProbFreq = 4 := rfl
      omega
    rcases hj4 with h | h | h | h <;> subst h <;>
      norm_num [avgLoop, ifreqOf, numProbRec, params, defaultConfig, Function.update]
  ⟨⟨rfl, hsum, hkeep, hpow⟩,
    ((C31_efficient_choice defaultConfig (params Machine.v100_300w) (9 / 10)
      (fun j => 1 * xOf (params Machine.v100_300w) j + 0) (fun _ => 150)
      ⟨fun _ => 0, fun _ => 0, fun _ => 0, fun _ => 0⟩
      (probFreqs_strictMono Machine.v100_300w) rfl hsum hkeep hpow).1 1 (by decide)).1
      hm.2.1 (by rw [hm.1]; norm_num)⟩

/-! ## The moving sum of squares and the deviation -/

theorem recordSample_ring_sq (cfg : Config) (prm : Params) (p : ℚ) (l : Int) (d : DeviceState)
    (t : Telemetry) :
    (recordSample cfg prm p l d t).gpuUtils_sq = d.gpuUtils_sq
      ∧ (recordSample cfg prm p l d t).gutil_moving_sqsum = d.gutil_moving_sqsum := by
  unfold recordSample
  simp only []
  split_ifs <;> exact ⟨rfl, rfl⟩

theorem completeAll_ring_sq (cfg : Config) (prm : Params) (F : Nat → Int) (p : ℚ) (n : Nat)
    (st : (Nat → DeviceState) × Scratch) (i : Nat) :
    ((completeAll cfg prm F p n st).1 i).gpuUtils_sq = (st.1 i).gpuUtils_sq
      ∧ ((completeAll cfg prm F p n st).1 i).gutil_moving_sqsum
          = (st.1 i).gutil_moving_sqsum := by
  induction n with
  | zero => exact ⟨rfl, rfl⟩
  | succ n ih =>
    unfold completeAll
    simp only []
    by_cases hi : i = n
    · subst hi
      rw [Function.update_same]
      exact ih
    · rw [Function.update_noteq hi]
      exact ih

theorem completeStage_ring_sq (cfg : Config) (prm : Params) (F : Nat → Int) (p : ℚ) (dc : Nat)
    (s : State) (i : Nat) :
    ((completeStage cfg prm F p dc s).devices i).gpuUtils_sq = (s.devices i).gpuUtils_sq
      ∧ ((completeStage cfg prm F p dc s).devices i).gutil_moving_sqsum
          = (s.devices i).gutil_moving_sqsum := by
  unfold completeStage
  split_ifs
  · exact ⟨(completeAll_ring_sq cfg prm F p dc _ i).1, (completeAll_ring_sq cfg prm F p dc _ i).2⟩
  · exact ⟨rfl, rfl⟩

/-- What one tick does to the window of squares of a device
`i < device_count`. -/
theorem tick_ring_sq (cfg : Config) (prm : Params) (F : Nat → Int) (mode : Bool) (p : ℚ)
    (dc : Nat) (s : State) (inp : TickInput) (i : Nat) (hi : i < dc) :
    ((tick cfg prm F mode p dc s inp).devices i).gpuUtils_sq
        = Function.update (s.devices i).gpuUtils_sq s.idx_oldest
            (wrapInt ((inp.tel i).gpu * (inp.tel i).gpu))
      ∧ ((tick cfg prm F mode p dc s inp).devices i).gutil_moving_sqsum
        = (s.devices i).gutil_moving_sqsum
            - (((s.devices i).gpuUtils_sq s.idx_oldest : Int) : ℚ)
            + ((inp.tel i).gpu : ℚ) * ((inp.tel i).gpu : ℚ) := by
  have hs : ((sampleAll cfg prm p dc s inp).devices i).gpuUtils_sq
        = Function.update (s.devices i).gpuUtils_sq s.idx_oldest
            (wrapInt ((inp.tel i).gpu * (inp.tel i).gpu))
      ∧ ((sampleAll cfg prm p dc s inp).devices i).gutil_moving_sqsum
        = (s.devices i).gutil_moving_sqsum
            - (((s.devices i).gpuUtils_sq s.idx_oldest : Int) : ℚ)
            + ((inp.tel i).gpu : ℚ) * ((inp.tel i).gpu : ℚ) := by
    unfold sampleAll
    simp only [hi, if_true]
    unfold assureDevice
    refine ⟨?_, ?_⟩
    · rw [(recordSample_ring_sq cfg prm p _ _ _).1]
      rfl
    · rw [(recordSample_ring_sq cfg prm p _ _ _).2]
      rfl
  unfold tick
  cases mode
  · exact hs
  · simp only [if_true]
    rw [gateUpdate_devices]
    have hc := completeStage_ring_sq cfg prm F p dc (sampleAll cfg prm p dc s inp) i
    rw [hc.1, hc.2]
    exact hs

theorem gpu_lt_of_sq_lt (g : Nat) (h : g * g < 2 ^ 31) : g < 2 ^ 31 := by
  rcases Nat.eq_zero_or_pos g with h0 | h0
  · rw [h0]
    norm_num
  · exact lt_of_le_of_lt (Nat.le_mul_self g) h

/-- Along a run from the initial state, the window of squares holds the
squares of the window entries, and the moving sum of squares is its sum. -/
theorem ring_sq_invariant (cfg : Config) (prm : Params) (F : Nat → Int) (mode : Bool) (p : ℚ)
    (dc : Nat) (cap0 : Nat → ℚ) (inp : Nat → TickInput) (i : Nat) (hi : i < dc)
    (hW : 0 < cfg.movingAvg_windowSize) (n : Nat)
    (hu : ∀ t, t < n → ((inp t).tel i).gpu * ((inp t).tel i).gpu < 2 ^ 31) :
    (∀ j, ((run cfg prm F mode p dc (initState cfg prm cap0) inp n).devices i).gpuUtils_sq j
        = ((run cfg prm F mode p dc (initState cfg prm cap0) inp n).devices i).gpuUtils j
          * ((run cfg prm F mode p dc (initState cfg prm cap0) inp n).devices i).gpuUtils j)
      ∧ ((run cfg prm F mode p dc (initState cfg prm cap0) inp n).devices i).gutil_moving_sqsum
          = ∑ j in Finset.range cfg.movingAvg_windowSize,
              ((((run cfg prm F mode p dc (initState cfg prm cap0) inp n).devices i).gpuUtils_sq j
                : Int) : ℚ) := by
  induction n with
  | zero =>
    refine ⟨?_, ?_⟩
    · intro j
      simp [run, initState]
    · simp [run, initState]
  | succ n ih =>
    obtain ⟨ha, hb⟩ := ih (fun t ht => hu t (by omega))
    have hidx := (ring_invariant cfg prm F mode p dc cap0 inp i hi hW n
      (fun t ht => gpu_lt_of_sq_lt _ (hu t (by omega)))).1
    have hlt := Nat.mod_lt n hW
    obtain ⟨hg, _, _⟩ := tick_ring cfg prm F mode p dc
      (run cfg prm F mode p dc (initState cfg prm cap0) inp n) (inp n) i hi
    obtain ⟨hq, hsum⟩ := tick_ring_sq cfg prm F mode p dc
      (run cfg prm F mode p dc (initState cfg prm cap0) inp n) (inp n) i hi
    rw [wrapInt_small _ (gpu_lt_of_sq_lt _ (hu n (by omega)))] at hg
    rw [wrapInt_small _ (hu n (by omega))] at hq
    rw [run_succ]
    refine ⟨?_, ?_⟩
    · intro j
      rw [hg, hq]
      by_cases hj : j = (run cfg prm F mode p dc (initState cfg prm cap0) inp n).idx_oldest
      · rw [hj, Function.update_same, Function.update_same]
        push_cast
        rfl
      · rw [Function.update_noteq hj, Function.update_noteq hj]
        exact ha j
    · rw [hsum, hq, hidx, sum_window_update _ _ _ _ hlt, hb]
      push_cast
      ring

/-- The computed variance `sumsq / W - mean^2` of a window is its population
variance. -/
theorem variance_identity (x : Nat → ℚ) (W : Nat) (hW : 0 < W) :
    (∑ j in Finset.range W, x j ^ 2) / (W : ℚ)
        - ((∑ j in Finset.range W, x j) / (W : ℚ)) * ((∑ j in Finset.range W, x j) / (W : ℚ))
      = (∑ j in Finset.range W, (x j - (∑ j in Finset.range W, x j) / (W : ℚ)) ^ 2) / (W : ℚ) := by
  have hWq : (W : ℚ) ≠ 0 := by
    have : (0 : ℚ) < (W : ℚ) := by exact_mod_cast hW
    exact ne_of_gt this
  generalize hm : (∑ j in Finset.range W, x j) / (W : ℚ) = m
  have hS : ∑ j in Finset.range W, x j = m * (W : ℚ) := by
    rw [← hm]
    field_simp
  have hexp : ∑ j in Finset.range W, (x j - m) ^ 2
      = ∑ j in Finset.range W, x j ^ 2 - 2 * m * ∑ j in Finset.range W, x j + (W : ℚ) * m ^ 2 := by
    have h1 : ∀ j, (x j - m) ^ 2 = x j ^ 2 - 2 * m * x j + m ^ 2 := by
      intro j
      ring
    rw [Finset.sum_congr rfl (fun j _ => h1 j), Finset.sum_add_distrib, Finset.sum_sub_distrib,
      ← Finset.mul_sum, Finset.sum_const, Finset.card_range, nsmul_eq_mul]
  rw [hexp, hS]
  field_simp
  ring

/-- C32. Along every run from the initial state (window size `W > 0`, readings
whose square fits an `int`), after every tick and for every device: the moving
sum of squares is the sum of the squares of the `W` window entries, the moving
average is their mean, and the computed variance `sqsum / W - avg^2` is the
population variance of the `W` window entries, hence non-negative.  The stored
deviation (in exact arithmetic, with the real square root) is 0 whenever the
computed variance is `≤ 0`, it is `≥ 0`, its square is `max(variance, 0)`, and
it is `sqrt(max(variance, 0))`. -/
theorem C32_ring_deviation (cfg : Config) (prm : Params) (F : Nat → Int) (mode : Bool)
    (perfThres : ℚ) (device_count : Nat) (cap0 : Nat → ℚ) (inp : Nat → TickInput) (i : Nat)
    (hi : i < device_count) (hW : 0 < cfg.movingAvg_windowSize) (n : Nat)
    (hu : ∀ t, t < n → ((inp t).tel i).gpu * ((inp t).tel i).gpu < 2 ^ 31) :
    let d := (run cfg prm F mode perfThres device_count (initState cfg prm cap0) inp n).devices i
    d.gutil_moving_sqsum
        = ∑ j in Finset.range cfg.movingAvg_windowSize, ((d.gpuUtils j : Int) : ℚ) ^ 2
    ∧ d.gutil_moving_avg
        = (∑ j in Finset.range cfg.movingAvg_windowSize, ((d.gpuUtils j : Int) : ℚ))
          / (cfg.movingAvg_windowSize : ℚ)
    ∧ varianceOf cfg d
        = (∑ j in Finset.range cfg.movingAvg_windowSize,
            (((d.gpuUtils j : Int) : ℚ) - d.gutil_moving_avg) ^ 2) / (cfg.movingAvg_windowSize : ℚ)
    ∧ 0 ≤ varianceOf cfg d
    ∧ (varianceOf cfg d ≤ 0 → movingStd (varianceOf cfg d) = 0)
    ∧ 0 ≤ movingStd (varianceOf cfg d)
    ∧ movingStd (varianceOf cfg d) * movingStd (varianceOf cfg d)
        = ((max (varianceOf cfg d) 0 : ℚ) : ℝ)
    ∧ movingStd (varianceOf cfg d) = Real.sqrt ((max (varianceOf cfg d) 0 : ℚ) : ℝ) := by
  intro d
  obtain ⟨ha, hb⟩ := ring_sq_invariant cfg prm F mode perfThres device_count cap0 inp i hi hW n hu
  obtain ⟨_, _, _, _, he⟩ := ring_invariant cfg prm F mode perfThres device_count cap0 inp i hi hW n
    (fun t ht => gpu_lt_of_sq_lt _ (hu t ht))
  have hsq : d.gutil_moving_sqsum
      = ∑ j in Finset.range cfg.movingAvg_windowSize, ((d.gpuUtils j : Int) : ℚ) ^ 2 := by
    have h1 : d.gutil_moving_sqsum
        = ∑ j in Finset.range cfg.movingAvg_windowSize, ((d.gpuUtils_sq j : Int) : ℚ) := hb
    rw [h1]
    apply Finset.sum_congr rfl
    intro j _
    have h2 : d.gpuUtils_sq j = d.gpuUtils j * d.gpuUtils j := ha j
    rw [h2]
    push_cast
    ring
  have havg : d.gutil_moving_avg
      = (∑ j in Finset.range cfg.movingAvg_windowSize, ((d.gpuUtils j : Int) : ℚ))
        / (cfg.movingAvg_windowSize : ℚ) := he
  have hvar : varianceOf cfg d
      = (∑ j in Finset.range cfg.movingAvg_windowSize,
          (((d.gpuUtils j : Int) : ℚ) - d.gutil_moving_avg) ^ 2)
        / (cfg.movingAvg_windowSize : ℚ) := by
    unfold varianceOf
    rw [hsq, havg]
    exact variance_identity (fun j => ((d.gpuUtils j : Int) : ℚ)) cfg.movingAvg_windowSize hW
  have hnn : 0 ≤ varianceOf cfg d := by
    rw [hvar]
    apply div_nonneg
    · exact Finset.sum_nonneg (fun j _ => sq_nonneg _)
    · exact_mod_cast Nat.zero_le _
  have hnnr : (0 : ℝ) ≤ ((varianceOf cfg d : ℚ) : ℝ) := by exact_mod_cast hnn
  have hstd : movingStd (varianceOf cfg d) = Real.sqrt ((varianceOf cfg d : ℚ) : ℝ) := by
    unfold movingStd
    by_cases hv : varianceOf cfg d > 0
    · rw [if_pos hv]
    · rw [if_neg hv]
      have hz : varianceOf cfg d = 0 := le_antisymm (not_lt.mp hv) hnn
      rw [hz]
      simp
  refine ⟨hsq, havg, hvar, hnn, ?_, ?_, ?_, ?_⟩
  · intro hle
    unfold movingStd
    rw [if_neg (not_lt.mpr hle)]
  · rw [hstd]
    exact Real.sqrt_nonneg _
  · rw [hstd, max_eq_left hnn]
    exact Real.mul_self_sqrt hnnr
  · rw [hstd, max_eq_left hnn]

/-- C32 at a concrete run: profile `v100-300w`, the source's constants, one
device, three ticks with utilisation 90. -/
theorem C32_ring_deviation_witness :
    ((0 : Nat) < 1 ∧ 0 < defaultConfig.movingAvg_windowSize)
    ∧ 0 ≤ varianceOf defaultConfig
        ((run defaultConfig (params Machine.v100_300w) (availableFreqs Machine.v100_300w) true
          (9 / 10) 1 (initState defaultConfig (params Machine.v100_300w) (fun _ => 0))
          (fun _ => ⟨fun _ => ⟨90, 40, 1200, 150000⟩, 100000⟩) (2 + 1)).devices 0)
    ∧ 0 ≤ movingStd (varianceOf defaultConfig
        ((run defaultConfig (params Machine.v100_300w) (availableFreqs Machine.v100_300w) true
          (9 / 10) 1 (initState defaultConfig (params Machine.v100_300w) (fun _ => 0))
          (fun _ => ⟨fun _ => ⟨90, 40, 1200, 150000⟩, 100000⟩) (2 + 1)).devices 0))
    ∧ movingStd (varianceOf defaultConfig
        ((run defaultConfig (params Machine.v100_300w) (availableFreqs Machine.v100_300w) true
          (9 / 10) 1 (initState defaultConfig (params Machine.v100_300w) (fun _ => 0))
          (fun _ => ⟨fun _ => ⟨90, 40, 1200, 150000⟩, 100000⟩) (2 + 1)).devices 0))
      * movingStd (varianceOf defaultConfig
        ((run defaultConfig (params Machine.v100_300w) (availableFreqs Machine.v100_300w) true
          (9 / 10) 1 (initState defaultConfig (params Machine.v100_300w) (fun _ => 0))
          (fun _ => ⟨fun _ => ⟨90, 40, 1200, 150000⟩, 100000⟩) (2 + 1)).devices 0))
      = ((max (varianceOf defaultConfig
        ((run defaultConfig (params Machine.v100_300w) (availableFreqs Machine.v100_300w) true
          (9 / 10) 1 (initState defaultConfig (params Machine.v100_300w) (fun _ => 0))
          (fun _ => ⟨fun _ => ⟨90, 40, 1200, 150000⟩, 100000⟩) (2 + 1)).devices 0)) 0 : ℚ) : ℝ) :=
  have h := C32_ring_deviation defaultConfig (params Machine.v100_300w)
    (availableFreqs Machine.v100_300w) true (9 / 10) 1 (fun _ => 0)
    (fun _ => ⟨fun _ => ⟨90, 40, 1200, 150000⟩, 100000⟩) 0 (by decide) (by decide) (2 + 1)
    (fun _ _ => by norm_num)
  ⟨⟨by decide, by decide⟩, h.2.2.2.1, h.2.2.2.2.2.1, h.2.2.2.2.2.2.1⟩

/-! ## The UtilizScale policy never calibrates -/

theorem utilizScaleRun_const (prm : Params) (F : Nat → Int) (gpu : Nat → Nat) (n : Nat) :
    utilizScaleRun prm F gpu n = prm.maxFreq := by
  induction n with
  | zero => rfl
  | succ n ih =>
    simp only [utilizScaleRun, utilizScaleDevice, cycleAt]
    rw [if_neg (by decide), if_neg (by decide)]
    exact ih

/-- The search on the `int` target is the search of the arbiter on the same
target. -/
theorem utilizSnapLoop_eq (F : Nat → Int) (n : Nat) (target : Int) (i : Nat) :
    utilizSnapLoop F n target i = snapLoop F n (target : ℚ) target i := by
  induction i with
  | zero => rfl
  | succ i ih =>
    simp only [utilizSnapLoop, snapLoop, Int.cast_lt]
    rw [ih]

/-- The target of line 551 on a shipped profile, for a utilisation of at most
100: an integer between `minSetFreq` and `maxFreq`. -/
theorem utilizTarget_range (m : Machine) (g : Nat) (hg : g ≤ 100) :
    (params m).minSetFreq
        ≤ truncInt (dmax ((params m).minSetFreq : ℚ) ((g : ℚ) / 100 * ((params m).maxFreq : ℚ)))
      ∧ truncInt (dmax ((params m).minSetFreq : ℚ) ((g : ℚ) / 100 * ((params m).maxFreq : ℚ)))
        ≤ (params m).maxFreq := by
  have hmin : (0 : ℚ) ≤ ((params m).minSetFreq : ℚ) := by cases m <;> norm_num [params]
  have hmm : ((params m).minSetFreq : ℚ) ≤ ((params m).maxFreq : ℚ) := by
    exact_mod_cast minSetFreq_le_maxFreq m
  have hmax : (0 : ℚ) ≤ ((params m).maxFreq : ℚ) := le_trans hmin hmm
  have hgq : (g : ℚ) / 100 ≤ 1 := by
    have : (g : ℚ) ≤ 100 := by exact_mod_cast hg
    rw [div_le_one (by norm_num)]
    exact this
  have hx1 : ((params m).minSetFreq : ℚ)
      ≤ dmax ((params m).minSetFreq : ℚ) ((g : ℚ) / 100 * ((params m).maxFreq : ℚ)) := by
    rw [dmax_eq]
    exact le_max_left _ _
  have hx2 : dmax ((params m).minSetFreq : ℚ) ((g : ℚ) / 100 * ((params m).maxFreq : ℚ))
      ≤ ((params m).maxFreq : ℚ) := by
    rw [dmax_eq]
    apply max_le hmm
    calc (g : ℚ) / 100 * ((params m).maxFreq : ℚ) ≤ 1 * ((params m).maxFreq : ℚ) :=
          mul_le_mul_of_nonneg_right hgq hmax
      _ = ((params m).maxFreq : ℚ) := one_mul _
  unfold truncInt
  rw [if_pos (le_trans hmin hx1)]
  refine ⟨Int.le_floor.mpr hx1, ?_⟩
  have h1 : ((Int.floor (dmax ((params m).minSetFreq : ℚ)
      ((g : ℚ) / 100 * ((params m).maxFreq : ℚ))) : Int) : ℚ) ≤ ((params m).maxFreq : ℚ) :=
    le_trans (Int.floor_le _) hx2
  exact_mod_cast h1

/-- C34 (the code as it is).  `cycle` is 0 in every tick, so under the
UtilizScale policy every tick of every run takes the last branch: the command
is `optimizedFreqs[i]`, which stays at its initial value `maxFreq`, and it is
never actuated.  The two calibration branches are what the claim describes
(`cycle = 1` commands `maxFreq` with actuation; `cycle = 2` commands, with
actuation, the least supported frequency that reaches the integer part of
`max(minSetFreq, util.gpu/100 * maxFreq)`), but no tick reaches them. -/
theorem C34_utilizScale_never_calibrates :
    (∀ (prm : Params) (F : Nat → Int) (gpu : Nat → Nat) (n : Nat),
        cycleAt n = 0
        ∧ (utilizScaleDevice prm F (cycleAt n) (gpu n) (utilizScaleRun prm F gpu n)).1
            = ⟨prm.maxFreq, false⟩
        ∧ utilizScaleRun prm F gpu (n + 1) = prm.maxFreq)
    ∧ (∀ (prm : Params) (F : Nat → Int) (g : Nat) (cur : Int),
        (utilizScaleDevice prm F 1 g cur).1 = ⟨prm.maxFreq, true⟩)
    ∧ (∀ (m : Machine) (g : Nat) (cur : Int), g ≤ 100 →
        ∃ k, 0 < k ∧ k < (params m).numAvailableFreqs
          ∧ (utilizScaleDevice (params m) (availableFreqs m) 2 g cur).1
              = ⟨availableFreqs m k, true⟩
          ∧ availableFreqs m (k - 1)
              < truncInt (dmax ((params m).minSetFreq : ℚ)
                  ((g : ℚ) / 100 * ((params m).maxFreq : ℚ)))
          ∧ truncInt (dmax ((params m).minSetFreq : ℚ) ((g : ℚ) / 100 * ((params m).maxFreq : ℚ)))
              ≤ availableFreqs m k) := by
  refine ⟨?_, ?_, ?_⟩
  · intro prm F gpu n
    refine ⟨rfl, ?_, utilizScaleRun_const prm F gpu (n + 1)⟩
    simp only [utilizScaleDevice, cycleAt]
    rw [if_neg (by decide), if_neg (by decide), utilizScaleRun_const]
  · intro prm F g cur
    simp [utilizScaleDevice]
  · intro m g cur hg
    obtain ⟨h1, h2⟩ := utilizTarget_range m g hg
    obtain ⟨k, hk0, hkn, e, lt, ge⟩ := snap_profile m
      ((truncInt (dmax ((params m).minSetFreq : ℚ) ((g : ℚ) / 100 * ((params m).maxFreq : ℚ)))
        : Int) : ℚ)
      (truncInt (dmax ((params m).minSetFreq : ℚ) ((g : ℚ) / 100 * ((params m).maxFreq : ℚ))))
      (by exact_mod_cast h1) (by exact_mod_cast h2)
    refine ⟨k, hk0, hkn, ?_, by exact_mod_cast lt, by exact_mod_cast ge⟩
    simp only [utilizScaleDevice, if_true]
    rw [utilizSnapLoop_eq, e, if_neg (by decide)]

/-! ## The burst gate -/

/-- The sum `sum_gutil` of lines 1129-1133 is the sum of the moving averages of
the devices `0 .. n-1`. -/
theorem sumGutil_eq_sum (devices : Nat → DeviceState) (n : Nat) :
    sumGutil devices n = ∑ i in Finset.range n, (devices i).gutil_moving_avg := by
  induction n with
  | zero => rfl
  | succ n ih =>
    rw [Finset.sum_range_succ, ← ih]
    rfl

/-- C7 (burst gate).  On a tick of a run in mode `mod` that starts with
`accumuTime ≥ probDelay * 10^6`: when the sum over the devices below
`device_count` of the moving averages (as the tick has just updated them:
`avg - gpuUtils[idx_oldest]/W + util.gpu/W`) is at least 1, `probPhase` is set
to `numProbRec`; otherwise it is set to `-2`; in both cases `accumuTime` is
reset to 0.  When every device's moving average is 0, `probPhase` becomes `-2`
(no burst), and the command of the following tick is the device's operating
frequency with `applyFreqSet = false`. -/
theorem C7_burst_gate (cfg : Config) (prm : Params) (F : Nat → Int) (perfThres : ℚ)
    (device_count : Nat) (s : State) (inp : TickInput)
    (hfire : (s.accumuTime : ℚ) ≥ cfg.probDelay * 1000000) :
    ((∑ i in Finset.range device_count,
          ((tick cfg prm F true perfThres device_count s inp).devices i).gutil_moving_avg) ≥ 1 →
        (tick cfg prm F true perfThres device_count s inp).probPhase = (numProbRec cfg prm : Int))
      ∧ (¬ (∑ i in Finset.range device_count,
          ((tick cfg prm F true perfThres device_count s inp).devices i).gutil_moving_avg) ≥ 1 →
        (tick cfg prm F true perfThres device_count s inp).probPhase = -2)
      ∧ (tick cfg prm F true perfThres device_count s inp).accumuTime = 0
      ∧ (∀ i, i < device_count →
          ((tick cfg prm F true perfThres device_count s inp).devices i).gutil_moving_avg
            = (s.devices i).gutil_moving_avg
                - (((s.devices i).gpuUtils s.idx_oldest : Int) : ℚ)
                    / (cfg.movingAvg_windowSize : ℚ)
                + ((inp.tel i).gpu : ℚ) / (cfg.movingAvg_windowSize : ℚ))
      ∧ ((∀ i, i < device_count →
            ((tick cfg prm F true perfThres device_count s inp).devices i).gutil_moving_avg = 0) →
          (tick cfg prm F true perfThres device_count s inp).probPhase = -2
            ∧ ∀ i, commands cfg prm (tick cfg prm F true perfThres device_count s inp) i
                = ⟨((tick cfg prm F true perfThres device_count s inp).devices i).optimizedFreq,
                    false⟩) := by
  have hfire2 : ((completeStage cfg prm F perfThres device_count
      (sampleAll cfg prm perfThres device_count s inp)).accumuTime : ℚ)
        ≥ cfg.probDelay * 1000000 := by
    rw [completeStage_accumuTime, sampleAll_accumuTime]
    exact hfire
  have hg := gateUpdate_fire cfg prm device_count (addTimeOf cfg inp.duration) _ hfire2
  have htick : tick cfg prm F true perfThres device_count s inp
      = gateUpdate cfg prm device_count (addTimeOf cfg inp.duration)
          (completeStage cfg prm F perfThres device_count
            (sampleAll cfg prm perfThres device_count s inp)) := rfl
  have hdev : (tick cfg prm F true perfThres device_count s inp).devices
      = (completeStage cfg prm F perfThres device_count
          (sampleAll cfg prm perfThres device_count s inp)).devices := by
    rw [htick, gateUpdate_devices]
  have hphase : (tick cfg prm F true perfThres device_count s inp).probPhase
      = (if (∑ i in Finset.range device_count,
            ((tick cfg prm F true perfThres device_count s inp).devices i).gutil_moving_avg) ≥ 1
          then (numProbRec cfg prm : Int) else -2) := by
    rw [← sumGutil_eq_sum, hdev, htick]
    exact hg.1
  have hidle : ¬ (∑ i in Finset.range device_count,
        ((tick cfg prm F true perfThres device_count s inp).devices i).gutil_moving_avg) ≥ 1 →
      (tick cfg prm F true perfThres device_count s inp).probPhase = -2 := by
    intro h
    rw [hphase, if_neg h]
  refine ⟨?_, hidle, ?_, ?_, ?_⟩
  · intro h
    rw [hphase, if_pos h]
  · rw [htick]
    exact hg.2
  · intro i hi
    exact (tick_ring cfg prm F true perfThres device_count s inp i hi).2.1
  · intro hz
    have hsum : (∑ i in Finset.range device_count,
        ((tick cfg prm F true perfThres device_count s inp).devices i).gutil_moving_avg) = 0 :=
      Finset.sum_eq_zero (fun i hi => hz i (Finset.mem_range.mp hi))
    have hp : (tick cfg prm F true perfThres device_count s inp).probPhase = -2 :=
      hidle (by rw [hsum]; norm_num)
    refine ⟨hp, ?_⟩
    intro i
    unfold commands command
    rw [hp]
    simp

/-- C7 at two concrete inputs: profile `v100-300w`, the source's constants, one
device, a state whose `accumuTime` has reached 15 s and whose window is empty.
A reading with utilisation 90 takes the moving average to `90/16 ≥ 1` and a
burst starts; a reading with utilisation 0 leaves it at 0 and no burst
starts. -/
theorem C7_burst_gate_witness :
    (((⟨fun _ => ⟨1530, fun _ => 0, fun _ => 0, fun _ => 0, fun _ => 0, 0, 0, 0⟩, -60, -59,
        15000000, 3, ⟨fun _ => 0, fun _ => 0, fun _ => 0, fun _ => 0⟩⟩ : State).accumuTime : ℚ)
        ≥ defaultConfig.probDelay * 1000000)
      ∧ (∑ i in Finset.range 1,
          ((tick defaultConfig (params Machine.v100_300w) (availableFreqs Machine.v100_300w) true
            (9 / 10) 1
            ⟨fun _ => ⟨1530, fun _ => 0, fun _ => 0, fun _ => 0, fun _ => 0, 0, 0, 0⟩, -60, -59,
              15000000, 3, ⟨fun _ => 0, fun _ => 0, fun _ => 0, fun _ => 0⟩⟩
            ⟨fun _ => ⟨90, 40, 1200, 150000⟩, 200000⟩).devices i).gutil_moving_avg) ≥ 1
      ∧ (tick defaultConfig (params Machine.v100_300w) (availableFreqs Machine.v100_300w) true
          (9 / 10) 1
          ⟨fun _ => ⟨1530, fun _ => 0, fun _ => 0, fun _ => 0, fun _ => 0, 0, 0, 0⟩, -60, -59,
            15000000, 3, ⟨fun _ => 0, fun _ => 0, fun _ => 0, fun _ => 0⟩⟩
          ⟨fun _ => ⟨90, 40, 1200, 150000⟩, 200000⟩).probPhase
        = (numProbRec defaultConfig (params Machine.v100_300w) : Int)
      ∧ (tick defaultConfig (params Machine.v100_300w) (availableFreqs Machine.v100_300w) true
          (9 / 10) 1
          ⟨fun _ => ⟨1530, fun _ => 0, fun _ => 0, fun _ => 0, fun _ => 0, 0, 0, 0⟩, -60, -59,
            15000000, 3, ⟨fun _ => 0, fun _ => 0, fun _ => 0, fun _ => 0⟩⟩
          ⟨fun _ => ⟨0, 0, 135, 40000⟩, 200000⟩).probPhase = -2 :=
  have hfire : (((⟨fun _ => ⟨1530, fun _ => 0, fun _ => 0, fun _ => 0, fun _ => 0, 0, 0, 0⟩,
      -60, -59, 15000000, 3, ⟨fun _ => 0, fun _ => 0, fun _ => 0, fun _ => 0⟩⟩ : State).accumuTime
      : ℚ) ≥ defaultConfig.probDelay * 1000000) := by norm_num [defaultConfig]
  have hbusy : (∑ i in Finset.range 1,
      ((tick defaultConfig (params Machine.v100_300w) (availableFreqs Machine.v100_300w) true
        (9 / 10) 1
        ⟨fun _ => ⟨1530, fun _ => 0, fun _ => 0, fun _ => 0, fun _ => 0, 0, 0, 0⟩, -60, -59,
          15000000, 3, ⟨fun _ => 0, fun _ => 0, fun _ => 0, fun _ => 0⟩⟩
        ⟨fun _ => ⟨90, 40, 1200, 150000⟩, 200000⟩).devices i).gutil_moving_avg) ≥ 1 := by
    rw [Finset.sum_range_one, (tick_ring defaultConfig (params Machine.v100_300w)
      (availableFreqs Machine.v100_300w) true (9 / 10) 1 _ _ 0 (by decide)).2.1]
    norm_num [defaultConfig]
  have hquiet : ∀ i, i < 1 →
      ((tick defaultConfig (params Machine.v100_300w) (availableFreqs Machine.v100_300w) true
        (9 / 10) 1
        ⟨fun _ => ⟨1530, fun _ => 0, fun _ => 0, fun _ => 0, fun _ => 0, 0, 0, 0⟩, -60, -59,
          15000000, 3, ⟨fun _ => 0, fun _ => 0, fun _ => 0, fun _ => 0⟩⟩
        ⟨fun _ => ⟨0, 0, 135, 40000⟩, 200000⟩).devices i).gutil_moving_avg = 0 := by
    intro i hi
    rw [(tick_ring defaultConfig (params Machine.v100_300w)
      (availableFreqs Machine.v100_300w) true (9 / 10) 1 _ _ i hi).2.1]
    norm_num [defaultConfig]
  ⟨hfire, hbusy,
    (C7_burst_gate defaultConfig (params Machine.v100_300w) (availableFreqs Machine.v100_300w)
      (9 / 10) 1
      ⟨fun _ => ⟨1530, fun _ => 0, fun _ => 0, fun _ => 0, fun _ => 0, 0, 0, 0⟩, -60, -59,
        15000000, 3, ⟨fun _ => 0, fun _ => 0, fun _ => 0, fun _ => 0⟩⟩
      ⟨fun _ => ⟨90, 40, 1200, 150000⟩, 200000⟩ hfire).1 hbusy,
    ((C7_burst_gate defaultConfig (params Machine.v100_300w) (availableFreqs Machine.v100_300w)
      (9 / 10) 1
      ⟨fun _ => ⟨1530, fun _ => 0, fun _ => 0, fun _ => 0, fun _ => 0, 0, 0, 0⟩, -60, -59,
        15000000, 3, ⟨fun _ => 0, fun _ => 0, fun _ => 0, fun _ => 0⟩⟩
      ⟨fun _ => ⟨0, 0, 135, 40000⟩, 200000⟩ hfire).2.2.2.2 hquiet).1⟩

/-! ## Model selection in binary64 -/

/-- The binary64 operations at two known values: `0.1 + 0.2` is
`0.30000000000000004` and `1 / 3` is `0x1.5555555555555p-2`. -/
theorem f64_known_values :
    f64Eq (f64Add ⟨3602879701896397, -55⟩ ⟨3602879701896397, -54⟩) ⟨1351079888211149, -52⟩ = true
      ∧ f64Eq (f64Div (f64OfInt 1) (f64OfInt 3)) ⟨6004799503160661, -54⟩ = true := by
  decide

set_option maxRecDepth 100000 in
/-- C11 counterexample (binary64).  Profile `v100-300w`, the source's
constants, `turn = 2`, and the readings 10, 10, 10, 0 at the probe frequencies
952, 1147, 1335, 1530 (each in both of its slots).  The samples lie on the
fold line `y = 10` below probe index 2 and `y = -(2/39) x + 1020/13` from it
on, the two lines meet at `probFreqs[2] = 1335` and `0 > -(2/39)`; in exact
arithmetic model selection ends with `regErrMin = 0`.  Evaluated in binary64
(no divisor of a regression is zero) the crossing quotient of the two segment
fits is above 1335, so the test of line 834 fails and the candidate of turn 2
is the constrained refit at 1147: model selection ends with `turn_Opt = 2` and
`regErrMin = 4520831588427339 * 2^-47`, which is above 32, not 0. -/
theorem C11_binary64_counterexample :
    (∀ j, j < numProbRec defaultConfig (params Machine.v100_300w) →
        f64ToRat (burstF (params Machine.v100_300w) (fun p => if p < 3 then 10 else 0) j)
          = if ifreqOf (params Machine.v100_300w).numProbFreq j < 2
            then 0 * xOf (params Machine.v100_300w) j + 10
            else -(2 / 39) * xOf (params Machine.v100_300w) j + 1020 / 13)
      ∧ (0 : ℚ) * ((params Machine.v100_300w).probFreqs 2 : ℚ) + 10
          = -(2 / 39) * ((params Machine.v100_300w).probFreqs 2 : ℚ) + 1020 / 13
      ∧ (0 : ℚ) > -(2 / 39)
      ∧ (modelSelect defaultConfig (params Machine.v100_300w)
          (fun j => f64ToRat
            (burstF (params Machine.v100_300w) (fun p => if p < 3 then 10 else 0) j))
          ⟨fun _ => 0, fun _ => 0, fun _ => 0, fun _ => 0⟩).2.regErrMin = 0
      ∧ (modelSelectF defaultConfig (params Machine.v100_300w)
          (burstF (params Machine.v100_300w) (fun p => if p < 3 then 10 else 0))).1.div.m ≠ 0
      ∧ (segFitsF defaultConfig (params Machine.v100_300w)
          (burstF (params Machine.v100_300w) (fun p => if p < 3 then 10 else 0)) 2).1.div.m ≠ 0
      ∧ (segFitsF defaultConfig (params Machine.v100_300w)
          (burstF (params Machine.v100_300w) (fun p => if p < 3 then 10 else 0)) 2).2.div.m ≠ 0
      ∧ f64Lt (f64OfInt 1335)
          (freqCrossF
            (segFitsF defaultConfig (params Machine.v100_300w)
              (burstF (params Machine.v100_300w) (fun p => if p < 3 then 10 else 0)) 2).1
            (segFitsF defaultConfig (params Machine.v100_300w)
              (burstF (params Machine.v100_300w) (fun p => if p < 3 then 10 else 0)) 2).2) = true
      ∧ crossingOkF (params Machine.v100_300w) 2
          (freqCrossF
            (segFitsF defaultConfig (params Machine.v100_300w)
              (burstF (params Machine.v100_300w) (fun p => if p < 3 then 10 else 0)) 2).1
            (segFitsF defaultConfig (params Machine.v100_300w)
              (burstF (params Machine.v100_300w) (fun p => if p < 3 then 10 else 0)) 2).2) = false
      ∧ (modelSelectF defaultConfig (params Machine.v100_300w)
          (burstF (params Machine.v100_300w) (fun p => if p < 3 then 10 else 0))).2.turn_Opt = 2
      ∧ (modelSelectF defaultConfig (params Machine.v100_300w)
          (burstF (params Machine.v100_300w)
            (fun p => if p < 3 then 10 else 0))).2.regErrMin.m = 4520831588427339
      ∧ (modelSelectF defaultConfig (params Machine.v100_300w)
          (burstF (params Machine.v100_300w) (fun p => if p < 3 then 10 else 0))).2.regErrMin.e = -47
      ∧ f64Lt (f64OfInt 32)
          (modelSelectF defaultConfig (params Machine.v100_300w)
            (burstF (params Machine.v100_300w)
              (fun p => if p < 3 then 10 else 0))).2.regErrMin = true := by
  have hy : ∀ j, j < numProbRec defaultConfig (params Machine.v100_300w) →
      f64ToRat (burstF (params Machine.v100_300w) (fun p => if p < 3 then 10 else 0) j)
        = if ifreqOf (params Machine.v100_300w).numProbFreq j < 2
          then 0 * xOf (params Machine.v100_300w) j + 10
          else -(2 / 39) * xOf (params Machine.v100_300w) j + 1020 / 13 := by
    intro j hj
    have hj8 : j < 8 := hj
    interval_cases j <;>
      norm_num [burstF, f64ToRat, f64OfInt, ifreqOf, xOf, params, Function.update]
  have hknee : (0 : ℚ) * ((params Machine.v100_300w).probFreqs 2 : ℚ) + 10
      = -(2 / 39) * ((params Machine.v100_300w).probFreqs 2 : ℚ) + 1020 / 13 := by
    norm_num [params]
  refine ⟨hy, hknee, by norm_num,
    (modelSelect_on_fold_err defaultConfig (params Machine.v100_300w) _ _ 2 0 10 (-(2 / 39))
      (1020 / 13) (by decide) (probFreqs_strictMono Machine.v100_300w) (le_refl 2) (by decide)
      hy hknee (by norm_num)).2, ?_, ?_, ?_, ?_, ?_, ?_, ?_, ?_, ?_⟩ <;> decide

set_option maxRecDepth 100000 in
/-- C37 counterexample (binary64).  Profile `v100-300w`, the source's
constants, and the readings 0, 0, 18, 9 at the probe frequencies 952, 1147,
1335, 1530 (each in both of its slots).  Evaluated in binary64 (no divisor of
a regression is zero) the crossing of the two segment fits of turn 2 fails the
test of line 834, so the candidate is the constrained refit at
`probFreqs[1] = 1147`; model selection returns it (`turn_Opt = 2`,
`slope1 > slope2`, `regErrMin` about 245.94, not above the threshold 800), and
the knee recomputed from the selected parameters, whose divisor is not zero, is
`5044559348236287 * 2^-42 = 1146.9999999999998`: below `probFreqs[1]`, so
neither equal to it nor in `[probFreqs[1], probFreqs[2]]`. -/
theorem C37_binary64_counterexample :
    (modelSelectF defaultConfig (params Machine.v100_300w)
        (burstF (params Machine.v100_300w) (fun p => if p < 2 then 0 else if p < 3 then 18 else 9))
      ).1.div.m ≠ 0
      ∧ (segFitsF defaultConfig (params Machine.v100_300w)
          (burstF (params Machine.v100_300w)
            (fun p => if p < 2 then 0 else if p < 3 then 18 else 9)) 2).1.div.m ≠ 0
      ∧ (segFitsF defaultConfig (params Machine.v100_300w)
          (burstF (params Machine.v100_300w)
            (fun p => if p < 2 then 0 else if p < 3 then 18 else 9)) 2).2.div.m ≠ 0
      ∧ crossingOkF (params Machine.v100_300w) 2
          (freqCrossF
            (segFitsF defaultConfig (params Machine.v100_300w)
              (burstF (params Machine.v100_300w)
                (fun p => if p < 2 then 0 else if p < 3 then 18 else 9)) 2).1
            (segFitsF defaultConfig (params Machine.v100_300w)
              (burstF (params Machine.v100_300w)
                (fun p => if p < 2 then 0 else if p < 3 then 18 else 9)) 2).2) = false
      ∧ (modelSelectF defaultConfig (params Machine.v100_300w)
          (burstF (params Machine.v100_300w)
            (fun p => if p < 2 then 0 else if p < 3 then 18 else 9))).2.turn_Opt = 2
      ∧ f64Lt
          (modelSelectF defaultConfig (params Machine.v100_300w)
            (burstF (params Machine.v100_300w)
              (fun p => if p < 2 then 0 else if p < 3 then 18 else 9))).2.slope2_Opt
          (modelSelectF defaultConfig (params Machine.v100_300w)
            (burstF (params Machine.v100_300w)
              (fun p => if p < 2 then 0 else if p < 3 then 18 else 9))).2.slope1_Opt = true
      ∧ f64Lt (f64OfInt 800)
          (modelSelectF defaultConfig (params Machine.v100_300w)
            (burstF (params Machine.v100_300w)
              (fun p => if p < 2 then 0 else if p < 3 then 18 else 9))).2.regErrMin = false
      ∧ (f64Sub
          (modelSelectF defaultConfig (params Machine.v100_300w)
            (burstF (params Machine.v100_300w)
              (fun p => if p < 2 then 0 else if p < 3 then 18 else 9))).2.slope2_Opt
          (modelSelectF defaultConfig (params Machine.v100_300w)
            (burstF (params Machine.v100_300w)
              (fun p => if p < 2 then 0 else if p < 3 then 18 else 9))).2.slope1_Opt).m ≠ 0
      ∧ (kneeF (modelSelectF defaultConfig (params Machine.v100_300w)
          (burstF (params Machine.v100_300w)
            (fun p => if p < 2 then 0 else if p < 3 then 18 else 9))).2).m = 5044559348236287
      ∧ (kneeF (modelSelectF defaultConfig (params Machine.v100_300w)
          (burstF (params Machine.v100_300w)
            (fun p => if p < 2 then 0 else if p < 3 then 18 else 9))).2).e = -42
      ∧ f64Lt
          (kneeF (modelSelectF defaultConfig (params Machine.v100_300w)
            (burstF (params Machine.v100_300w)
              (fun p => if p < 2 then 0 else if p < 3 then 18 else 9))).2)
          (f64OfInt ((params Machine.v100_300w).probFreqs 1)) = true := by
  refine ⟨?_, ?_, ?_, ?_, ?_, ?_, ?_, ?_, ?_, ?_, ?_⟩ <;> decide

end Geepafs
